import Mathlib

/-!
# Sun disklabel backend of fdisk (`fdisks/fdisksunlabel.c`)

A shallow embedding of the Sun label code: the byte-swap primitives, the
512-byte label, probe / write, the extent fetch and the overlap / gap
verification, followed by the properties proved about them.

Conventions.
* Machine integers are `Nat`; every C operation that can wrap carries its
  explicit `% 2^w`.
* The label is a record with one field per member of `struct sun_disk_label`;
  a field holds the value the host reads from memory (host byte order).
* Output written with `printf` is a list of `sun_message` values holding the
  arguments handed to `printf`.
-/

set_option maxRecDepth 100000

namespace SunLabel

/-! ## Byte swapping (lines 50-60) -/

/-- The function `__swap16` of line 50: the argument is converted to
`unsigned short`, the two bytes are exchanged, the result is returned as
`unsigned short`. -/
def __swap16 (x : Nat) : Nat :=
  ((((x % 65536) &&& 0xFF) <<< 8) ||| (((x % 65536) &&& 0xFF00) >>> 8)) % 65536

/-- The function `__swap32` of line 53 on `uint32_t`. -/
def __swap32 (x : Nat) : Nat :=
  ((((x % 4294967296) &&& 0xFF) <<< 24) ||| (((x % 4294967296) &&& 0xFF00) <<< 8)
    ||| (((x % 4294967296) &&& 0xFF0000) >>> 8)
    ||| (((x % 4294967296) &&& 0xFF000000) >>> 24)) % 4294967296

/-- The macro `SSWAP16` of line 57; `other_endian` is the static flag of line 28. -/
def SSWAP16 (other_endian : Bool) (x : Nat) : Nat :=
  if other_endian then __swap16 x else x % 65536

/-- The macro `SSWAP32` of line 59. -/
def SSWAP32 (other_endian : Bool) (x : Nat) : Nat :=
  if other_endian then __swap32 x else x % 4294967296

/-! ## Constants and layout of `fdisksunlabel.h` -/

/-- Modelled from the spec: `SUN_LABEL_MAGIC` of fdisksunlabel.h, which is not
among the sources; the 16-bit sentinel of the format. -/
def SUN_LABEL_MAGIC : Nat := 0xDABE

/-- Modelled from the spec: `SUN_LABEL_MAGIC_SWAPPED` of fdisksunlabel.h, the
sentinel with its two bytes exchanged. -/
def SUN_LABEL_MAGIC_SWAPPED : Nat := 0xBEDA

/-- Modelled from the spec: `SUN_LABEL_VERSION` of fdisksunlabel.h, the fixed
version constant. -/
def SUN_LABEL_VERSION : Nat := 0x00000001

/-- Modelled from the spec: `SUN_LABEL_SANE` of fdisksunlabel.h, the fixed
sanity constant. -/
def SUN_LABEL_SANE : Nat := 0x600ddeee

/-- Modelled from the spec: `SUN_NUM_PARTITIONS` of fdisksunlabel.h, the fixed
cardinality of the partition array (8 for the Sun variant). -/
def SUN_NUM_PARTITIONS : Nat := 8

/-- Modelled from the spec: `SUN_TAG_UNASSIGNED` of fdisksunlabel.h. -/
def SUN_TAG_UNASSIGNED : Nat := 0x00

/-- Modelled from the spec: `SUN_TAG_SWAP` of fdisksunlabel.h. -/
def SUN_TAG_SWAP : Nat := 0x03

/-- Modelled from the spec: `SUN_TAG_BACKUP` of fdisksunlabel.h, the
whole-disk tag (the messages of lines 500 and 645 print it as 5). -/
def SUN_TAG_BACKUP : Nat := 0x05

/-- Modelled from the spec: `SUN_TAG_LINUX_SWAP` of fdisksunlabel.h (the
message of line 657 prints it as 82, hexadecimal). -/
def SUN_TAG_LINUX_SWAP : Nat := 0x82

/-- Modelled from the spec: `SUN_TAG_LINUX_NATIVE` of fdisksunlabel.h. -/
def SUN_TAG_LINUX_NATIVE : Nat := 0x83

/-- Modelled from the spec: `SUN_FLAG_UNMNT` of fdisksunlabel.h. -/
def SUN_FLAG_UNMNT : Nat := 0x01

/-- Modelled from the spec: `SUN_FLAG_RONLY` of fdisksunlabel.h. -/
def SUN_FLAG_RONLY : Nat := 0x10

/-- Modelled from the spec: `struct sun_partition` of fdisksunlabel.h, two
`uint32_t` members. -/
structure sun_partition where
  start_cylinder : Nat
  num_sectors : Nat
  deriving DecidableEq, Repr, Inhabited

/-- Modelled from the spec: `struct sun_tag_flag` of fdisksunlabel.h, two
`uint16_t` members. -/
structure sun_tag_flag where
  tag : Nat
  flag : Nat
  deriving DecidableEq, Repr, Inhabited

/-- Modelled from the spec: `struct sun_disk_label` of fdisksunlabel.h, which
is not among the sources. One field per member, in memory order; `padding`
is the two alignment bytes between `part_tags` and `bootinfo`, kept as one
16-bit word. Character arrays hold bytes, `uint16_t` and `uint32_t` members
hold the value read in host order. The members add up to 512 bytes and
`cksum` is the last 16-bit word. -/
structure sun_disk_label where
  label_id : Fin 128 → Nat
  version : Nat
  volume_id : Fin 8 → Nat
  num_partitions : Nat
  part_tags : Fin 8 → sun_tag_flag
  padding : Nat
  bootinfo : Fin 3 → Nat
  sanity : Nat
  resv : Fin 10 → Nat
  part_timestamps : Fin 8 → Nat
  write_reinstruct : Nat
  read_reinstruct : Nat
  pad : Fin 148 → Nat
  rpm : Nat
  pcyl : Nat
  apc : Nat
  resv1 : Nat
  resv2 : Nat
  intrlv : Nat
  ncyl : Nat
  acyl : Nat
  nhead : Nat
  nsect : Nat
  resv3 : Nat
  resv4 : Nat
  partitions : Fin 8 → sun_partition
  magic : Nat
  cksum : Nat

/-- Modelled from the spec: `struct fdisk_geometry` of fdisk.h, which is not
among the sources. `heads` is an `unsigned int`, `sectors` and `cylinders` are
64-bit `sector_t` (line 518 prints them with `%u`, `%llu`, `%llu`). -/
structure fdisk_geometry where
  heads : Nat
  sectors : Nat
  cylinders : Nat
  deriving DecidableEq, Repr, Inhabited

/-- The state the Sun backend works on: the first sector seen through
`sunlabel`, `cxt->geom`, the static `other_endian` of line 28, and the slots
marked by `set_changed`.

Modelled from the spec: `set_changed` and `set_all_unchanged` are defined
outside the given sources; the marks are kept as the list of marked slot
indices. -/
structure fdisk_context where
  firstsector : sun_disk_label
  geom : fdisk_geometry
  other_endian : Bool
  changed : List Nat

/-- Modelled from the spec: `set_changed(i)` marks slot `i` as changed. -/
def set_changed (cxt : fdisk_context) (i : Nat) : fdisk_context :=
  { cxt with changed := i :: cxt.changed }

/-- The global `partitions`: `init()` (line 75) sets it to `SUN_NUM_PARTITIONS`
before any function of the Sun driver is reached, and nothing in this file
changes it afterwards. -/
def partitions : Nat := SUN_NUM_PARTITIONS

/-- Element `i` of a C array of `n` elements. -/
def at_index {α : Type} [Inhabited α] {n : Nat} (a : Fin n → α) (i : Nat) : α :=
  if h : i < n then a ⟨i, h⟩ else default

/-- Assignment `a[i] = v` to a C array of `n` elements. -/
def set_index {α : Type} {n : Nat} (a : Fin n → α) (i : Nat) (v : α) : Fin n → α :=
  fun k => if k.val = i then v else a k

/-! ## The sector as 16-bit words -/

/-- The 16-bit word the host reads from two consecutive bytes. -/
def word_of_bytes (little_endian_host : Bool) (b0 b1 : Nat) : Nat :=
  if little_endian_host then b0 % 256 + 256 * (b1 % 256) else 256 * (b0 % 256) + b1 % 256

/-- The 16-bit words of a character array of `2 * n` bytes. -/
def words_of_bytes (little_endian_host : Bool) {m : Nat} (a : Fin m → Nat) (n : Nat) : List Nat :=
  (List.range n).map (fun k => word_of_bytes little_endian_host (at_index a (2 * k)) (at_index a (2 * k + 1)))

/-- The 16-bit word of a `uint16_t` member. -/
def words_of_u16 (x : Nat) : List Nat := [x % 65536]

/-- The two 16-bit words of a `uint32_t` member, in memory order. -/
def words_of_u32 (little_endian_host : Bool) (x : Nat) : List Nat :=
  if little_endian_host then [x % 65536, x / 65536 % 65536] else [x / 65536 % 65536, x % 65536]

/-- The 16-bit words of an array of `n` `uint32_t` members. -/
def words_of_u32s (little_endian_host : Bool) {m : Nat} (a : Fin m → Nat) (n : Nat) : List Nat :=
  ((List.range n).map (fun k => words_of_u32 little_endian_host (at_index a k))).flatten

/-- The 16-bit words of the sector from offset 0 up to, not including,
`cksum`: what `*ush++` reads while `ush < &sunlabel->cksum`. -/
def words_before_cksum (little_endian_host : Bool) (l : sun_disk_label) : List Nat :=
  words_of_bytes little_endian_host l.label_id 64
  ++ words_of_u32 little_endian_host l.version
  ++ words_of_bytes little_endian_host l.volume_id 4
  ++ words_of_u16 l.num_partitions
  ++ ((List.range 8).map (fun k =>
        words_of_u16 (at_index l.part_tags k).tag ++ words_of_u16 (at_index l.part_tags k).flag)).flatten
  ++ words_of_u16 l.padding
  ++ words_of_u32s little_endian_host l.bootinfo 3
  ++ words_of_u32 little_endian_host l.sanity
  ++ words_of_u32s little_endian_host l.resv 10
  ++ words_of_u32s little_endian_host l.part_timestamps 8
  ++ words_of_u32 little_endian_host l.write_reinstruct
  ++ words_of_u32 little_endian_host l.read_reinstruct
  ++ words_of_bytes little_endian_host l.pad 74
  ++ words_of_u16 l.rpm ++ words_of_u16 l.pcyl ++ words_of_u16 l.apc
  ++ words_of_u16 l.resv1 ++ words_of_u16 l.resv2 ++ words_of_u16 l.intrlv
  ++ words_of_u16 l.ncyl ++ words_of_u16 l.acyl ++ words_of_u16 l.nhead
  ++ words_of_u16 l.nsect ++ words_of_u16 l.resv3 ++ words_of_u16 l.resv4
  ++ ((List.range 8).map (fun k =>
        words_of_u32 little_endian_host (at_index l.partitions k).start_cylinder
        ++ words_of_u32 little_endian_host (at_index l.partitions k).num_sectors)).flatten
  ++ words_of_u16 l.magic

/-- All 256 words of the sector, `cksum` last. -/
def sector_words (little_endian_host : Bool) (l : sun_disk_label) : List Nat :=
  words_before_cksum little_endian_host l ++ words_of_u16 l.cksum

/-- The XOR of a list of words. -/
def xor_words (ws : List Nat) : Nat := ws.foldl (fun c w => c ^^^ w) 0

/-- The loop of lines 611-612 (also 136-137 and 230-231): `csum ^= *ush++`
over the words before `cksum`, the running value kept in 16 bits. -/
def cksum_loop (ws : List Nat) : Nat := ws.foldl (fun c w => (c ^^^ w) % 65536) 0

/-- The loop of lines 95-97: `csum ^= *ush--` from the last word of the sector
down to the first, in an `int`. -/
def probe_csum (little_endian_host : Bool) (l : sun_disk_label) : Nat :=
  (sector_words little_endian_host l).reverse.foldl (fun c w => c ^^^ w) 0

/-! ## Probe and write -/

/-- The function `sun_probe_label` (lines 81-145): the return value and the
state afterwards. The warnings go to stderr and are not kept; `init()` sets
the globals `disklabel` and `partitions` (see `partitions`); `update_units`
only refreshes the display-unit globals, which are not part of this state.
The checksum of lines 134-138 is accumulated in the `int` of line 84 and
truncated when it is stored. -/
def sun_probe_label (little_endian_host : Bool) (cxt : fdisk_context) : Int × fdisk_context :=
  let l := cxt.firstsector
  if l.magic ≠ SUN_LABEL_MAGIC ∧ l.magic ≠ SUN_LABEL_MAGIC_SWAPPED then
    (0, { cxt with other_endian := false })
  else
    let oe : Bool := decide (l.magic = SUN_LABEL_MAGIC_SWAPPED)
    let cxt1 := { cxt with other_endian := oe }
    if probe_csum little_endian_host l ≠ 0 then
      (1, cxt1)
    else
      let cxt2 := { cxt1 with geom :=
        { heads := SSWAP16 oe l.nhead, cylinders := SSWAP16 oe l.ncyl, sectors := SSWAP16 oe l.nsect } }
      let need_fixing : Bool :=
        decide (l.version ≠ SSWAP32 oe SUN_LABEL_VERSION)
        || decide (l.sanity ≠ SSWAP32 oe SUN_LABEL_SANE)
        || decide (l.num_partitions ≠ SSWAP16 oe SUN_NUM_PARTITIONS)
      if need_fixing then
        let l1 := { l with version := SSWAP32 oe SUN_LABEL_VERSION,
                           sanity := SSWAP32 oe SUN_LABEL_SANE,
                           num_partitions := SSWAP16 oe SUN_NUM_PARTITIONS }
        let l2 := { l1 with cksum := xor_words (words_before_cksum little_endian_host l1) % 65536 }
        (1, set_changed { cxt2 with firstsector := l2 } 0)
      else
        (1, cxt2)

/-- The function `sun_write_disklabel` (lines 606-620): the return value, the
state afterwards and the sector handed to the device when both `lseek` and
`write` succeed. `lseek_errno` and `write_errno` give `errno` when the call
fails. -/
def sun_write_disklabel (little_endian_host : Bool) (cxt : fdisk_context)
    (lseek_errno write_errno : Option Nat) : Int × fdisk_context × Option sun_disk_label :=
  let l := { cxt.firstsector with
    cksum := cksum_loop (words_before_cksum little_endian_host cxt.firstsector) }
  let cxt1 := { cxt with firstsector := l }
  match lseek_errno with
  | some e => (-(e : Int), cxt1, none)
  | none =>
    match write_errno with
    | some e => (-(e : Int), cxt1, none)
    | none => (0, cxt1, some l)

/-! ## Extents: `fetch_sun` -/

/-- The value of `cxt->geom.cylinders * cxt->geom.heads * cxt->geom.sectors`
stored in a `uint32_t` (lines 256, 352, 447): 64-bit products, truncated. -/
def total_sectors (g : fdisk_geometry) : Nat :=
  ((g.cylinders * g.heads) % 2 ^ 64 * g.sectors) % 2 ^ 64 % 2 ^ 32

/-- The value of `cxt->geom.heads * cxt->geom.sectors`, a 64-bit product. -/
def cylinder_size (g : fdisk_geometry) : Nat :=
  (g.heads * g.sectors) % 2 ^ 64

/-- The condition of lines 262-264 on slot `i`: the slot has sectors and its
tag is neither unassigned nor whole disk. -/
def slot_is_counted (cxt : fdisk_context) (i : Nat) : Bool :=
  decide ((at_index cxt.firstsector.partitions i).num_sectors ≠ 0)
  && decide ((at_index cxt.firstsector.part_tags i).tag ≠ SSWAP16 cxt.other_endian SUN_TAG_UNASSIGNED)
  && decide ((at_index cxt.firstsector.part_tags i).tag ≠ SSWAP16 cxt.other_endian SUN_TAG_BACKUP)

/-- The variables `fetch_sun` writes through its pointer arguments, and its
local `continuous`. -/
structure fetch_state where
  starts : Nat → Nat
  lens : Nat → Nat
  start : Nat
  stop : Nat
  continuous : Bool

/-- The body of the loop of lines 258-282 for slot `i`. -/
def fetch_sun_slot (cxt : fdisk_context) (st : fetch_state) (i : Nat) : fetch_state :=
  if slot_is_counted cxt i then
    let s := ((SSWAP32 cxt.other_endian (at_index cxt.firstsector.partitions i).start_cylinder
                * cxt.geom.heads) % 2 ^ 32 * cxt.geom.sectors) % 2 ^ 64 % 2 ^ 32
    let n := SSWAP32 cxt.other_endian (at_index cxt.firstsector.partitions i).num_sectors
    let st1 := { st with starts := Function.update st.starts i s,
                         lens := Function.update st.lens i n }
    if st1.continuous then
      if s = st1.start then
        { st1 with start := (st1.start + n) % 2 ^ 32 }
      else if (s + n) % 2 ^ 32 ≥ st1.stop then
        { st1 with stop := s }
      else
        { st1 with continuous := false }
    else st1
  else
    { st with starts := Function.update st.starts i 0,
              lens := Function.update st.lens i 0 }

/-- The function `fetch_sun` (lines 250-283). The arrays start as the callers
leave them, uninitialised; every index below `partitions` is written. -/
def fetch_sun (cxt : fdisk_context) : fetch_state :=
  (List.range partitions).foldl (fetch_sun_slot cxt)
    { starts := fun _ => 0, lens := fun _ => 0, start := 0,
      stop := total_sectors cxt.geom, continuous := true }

/-! ## Verification: `sun_verify_disklabel` -/

/-- The lines `sun_verify_disklabel` prints, each with the arguments handed
to `printf`. -/
inductive sun_message where
  | not_on_cylinder_boundary (partition : Nat)
  | overlap (partition starto endo : Nat)
  | no_partitions_defined
  | unused_gap (first last : Nat)
  deriving DecidableEq, Repr

/-- The working arrays of `sun_verify_disklabel` and the output so far. -/
structure verify_state where
  starts : Nat → Nat
  lens : Nat → Nat
  out : List sun_message

/-- The body of the loop over `j` (lines 315-335) for the pair `(i, j)` on
pass `k`. -/
def verify_pair (k i : Nat) (st : verify_state) (j : Nat) : verify_state :=
  if st.lens j ≠ 0 then
    if st.starts j = (st.starts i + st.lens i) % 2 ^ 32 then
      { st with starts := Function.update st.starts j (st.starts i),
                lens := Function.update
                  (Function.update st.lens j ((st.lens j + st.lens i) % 2 ^ 32)) i 0 }
    else if st.starts i = (st.starts j + st.lens j) % 2 ^ 32 then
      { st with lens := Function.update
                  (Function.update st.lens j ((st.lens j + st.lens i) % 2 ^ 32)) i 0 }
    else if k = 0 then
      if st.starts i < (st.starts j + st.lens j) % 2 ^ 32
          ∧ st.starts j < (st.starts i + st.lens i) % 2 ^ 32 then
        let starto := if st.starts j > st.starts i then st.starts j else st.starts i
        let endo := (st.starts i + st.lens i) % 2 ^ 32
        let endo := if (st.starts j + st.lens j) % 2 ^ 32 < endo
                    then (st.starts j + st.lens j) % 2 ^ 32 else endo
        { st with out := st.out ++ [sun_message.overlap (i + 1) starto endo] }
      else st
    else st
  else st

/-- The body of the loop over `i` (lines 310-336) on pass `k`; `cs` is
`heads * sectors`, not zero. -/
def verify_slot (cs k : Nat) (st : verify_state) (i : Nat) : verify_state :=
  let st1 := if k ≠ 0 ∧ st.lens i % cs ≠ 0
    then { st with out := st.out ++ [sun_message.not_on_cylinder_boundary (i + 1)] } else st
  if st1.lens i ≠ 0 then (List.range i).foldl (verify_pair k i) st1 else st1

/-- One pass `k` of the loop of line 308 over the `SUN_NUM_PARTITIONS` slots. -/
def verify_pass (cs : Nat) (st : verify_state) (k : Nat) : verify_state :=
  (List.range SUN_NUM_PARTITIONS).foldl (verify_slot cs k) st

/-- The seven passes of lines 308-338 on the arrays `fetch_sun` filled. -/
def verify_merge (cxt : fdisk_context) : verify_state :=
  (List.range 7).foldl (verify_pass (cylinder_size cxt.geom))
    { starts := (fetch_sun cxt).starts, lens := (fetch_sun cxt).lens, out := [] }

/-- The comparison `verify_sun_cmp` (lines 287-296) on the values `*a`, `*b`;
`starts` is the array `verify_sun_starts` points to. -/
def verify_sun_cmp (starts : Nat → Nat) (a b : Int) : Int :=
  if a = -1 then 1
  else if b = -1 then -1
  else if starts a.toNat > starts b.toNat then 1
  else -1

/-- Modelled from the spec: `qsort` of the C library with the comparison
`verify_sun_cmp`: the slots are ordered by start address, ties by original
index (a stable insertion sort; `a` goes before `b` when the comparison is
negative). -/
def verify_qsort (starts : Nat → Nat) (array : List Int) : List Int :=
  array.insertionSort (fun a b => verify_sun_cmp starts a b < 0)

/-- The array of lines 339-344 before sorting. -/
def verify_array (lens : Nat → Nat) : List Int :=
  (List.range SUN_NUM_PARTITIONS).map (fun i => if lens i ≠ 0 then (i : Int) else -1)

/-- The loop of lines 355-359, `n` iterations at most, from index `i`: the
final `i` and the output. -/
def verify_gap_loop (starts lens : Nat → Nat) (array : List Int) :
    Nat → Nat → List sun_message → Nat × List sun_message
  | 0, i, out => (i, out)
  | n + 1, i, out =>
    if i < 7 ∧ array.getD (i + 1) 0 ≠ -1 then
      verify_gap_loop starts lens array n (i + 1)
        (out ++ [sun_message.unused_gap
          ((starts (array.getD i 0).toNat + lens (array.getD i 0).toNat) % 2 ^ 32)
          (starts (array.getD (i + 1) 0).toNat)])
    else (i, out)

/-- The lines 339-364 on the working arrays left by the merge passes. -/
def verify_gaps (cxt : fdisk_context) (st : verify_state) : List sun_message :=
  let array := verify_qsort st.starts (verify_array st.lens)
  if array.getD 0 0 = -1 then
    st.out ++ [sun_message.no_partitions_defined]
  else
    let stop := total_sectors cxt.geom
    let out1 := if st.starts (array.getD 0 0).toNat ≠ 0
      then st.out ++ [sun_message.unused_gap 0 (st.starts (array.getD 0 0).toNat)] else st.out
    let r := verify_gap_loop st.starts st.lens array 7 0 out1
    let start := (st.starts (array.getD r.1 0).toNat + st.lens (array.getD r.1 0).toNat) % 2 ^ 32
    if start < stop then r.2 ++ [sun_message.unused_gap start stop] else r.2

/-- The function `sun_verify_disklabel` (lines 298-365): the return value and
the lines printed. The modulus of line 310 is evaluated for slot 0 on pass
`k = 1` whatever the label holds, so the function divides by zero exactly when
`heads * sectors` is 0; that case is `none`. -/
def sun_verify_disklabel (cxt : fdisk_context) : Option (Int × List sun_message) :=
  if cylinder_size cxt.geom = 0 then none
  else some (0, verify_gaps cxt (verify_merge cxt))

/-! ## Concrete labels -/

/-- The sector after `fdisk_zeroize_firstsector`: every byte 0. -/
def zero_label : sun_disk_label :=
  { label_id := fun _ => 0, version := 0, volume_id := fun _ => 0, num_partitions := 0,
    part_tags := fun _ => ⟨0, 0⟩, padding := 0, bootinfo := fun _ => 0, sanity := 0,
    resv := fun _ => 0, part_timestamps := fun _ => 0, write_reinstruct := 0,
    read_reinstruct := 0, pad := fun _ => 0, rpm := 0, pcyl := 0, apc := 0, resv1 := 0,
    resv2 := 0, intrlv := 0, ncyl := 0, acyl := 0, nhead := 0, nsect := 0, resv3 := 0,
    resv4 := 0, partitions := fun _ => ⟨0, 0⟩, magic := 0, cksum := 0 }

/-- A zeroed sector that carries only the magic: the XOR of its 256 words is
the magic, so its checksum is wrong, and `version`, `sanity` and
`num_partitions` are 0. -/
def label_magic_only : sun_disk_label :=
  { zero_label with magic := SUN_LABEL_MAGIC }

/-- A zeroed sector with the magic and the matching checksum: the checksum is
valid while `version`, `sanity` and `num_partitions` are 0. -/
def label_stale_fields : sun_disk_label :=
  { zero_label with magic := SUN_LABEL_MAGIC, cksum := SUN_LABEL_MAGIC }

/-- A context around a label: geometry 0, host order, nothing marked. -/
def context_of (l : sun_disk_label) : fdisk_context :=
  { firstsector := l, geom := ⟨0, 0, 0⟩, other_endian := false, changed := [] }

/-- The start `fetch_sun` stores for a counted slot (lines 265-266). -/
def slot_start (cxt : fdisk_context) (i : Nat) : Nat :=
  ((SSWAP32 cxt.other_endian (at_index cxt.firstsector.partitions i).start_cylinder
      * cxt.geom.heads) % 2 ^ 32 * cxt.geom.sectors) % 2 ^ 64 % 2 ^ 32

/-- The length `fetch_sun` stores for a counted slot (line 267). -/
def slot_len (cxt : fdisk_context) (i : Nat) : Nat :=
  SSWAP32 cxt.other_endian (at_index cxt.firstsector.partitions i).num_sectors

/-- A label with one Linux native partition in slot 1, start cylinder 3 and
5000 sectors, and a whole-disk slot 2. -/
def label_one_slot : sun_disk_label :=
  { zero_label with
    part_tags := set_index (set_index zero_label.part_tags 1 ⟨SUN_TAG_LINUX_NATIVE, 0⟩)
      2 ⟨SUN_TAG_BACKUP, 0⟩,
    partitions := set_index (set_index zero_label.partitions 1 ⟨3, 5000⟩) 2 ⟨0, 20000⟩ }

/-- The context of `label_one_slot`: 4 heads, 32 sectors, 200 cylinders. -/
def context_one_slot : fdisk_context :=
  { firstsector := label_one_slot, geom := ⟨4, 32, 200⟩, other_endian := false, changed := [] }

/-- Whether a printed line is an overlap report (line 331). -/
def is_overlap : sun_message → Bool
  | sun_message.overlap _ _ _ => true
  | _ => false

/-- Whether a printed line is an unused-gap report (lines 354, 356, 362). -/
def is_gap : sun_message → Bool
  | sun_message.unused_gap _ _ => true
  | _ => false

/-- The state with further lines printed. -/
def add_out (st : verify_state) (ms : List sun_message) : verify_state :=
  { st with out := st.out ++ ms }

/-- The warning of line 311 for slot `p` of working length `len` on pass `k`,
if it is printed. -/
def boundary_warning (cs len p k : Nat) : List sun_message :=
  if k ≠ 0 ∧ len % cs ≠ 0 then [sun_message.not_on_cylinder_boundary (p + 1)] else []

/-- A label with one Linux native partition in slot 0, start cylinder 1 and
100 sectors: the extent [100, 200). -/
def label_gap_example : sun_disk_label :=
  { zero_label with
    part_tags := set_index zero_label.part_tags 0 ⟨SUN_TAG_LINUX_NATIVE, 0⟩,
    partitions := set_index zero_label.partitions 0 ⟨1, 100⟩ }

/-- The context of `label_gap_example`: 1 head, 100 sectors, 10 cylinders, a
disk of 1000 sectors. -/
def context_gap_example : fdisk_context :=
  { firstsector := label_gap_example, geom := ⟨1, 100, 10⟩, other_endian := false,
    changed := [] }

/-- The overlap line of lines 323-333 for the pair `(i, j)` on pass `k`, if
it is printed. -/
def overlap_report (starts lens : Nat → Nat) (i j k : Nat) : List sun_message :=
  if k = 0 ∧ (starts i < (starts j + lens j) % 2 ^ 32
      ∧ starts j < (starts i + lens i) % 2 ^ 32) then
    [sun_message.overlap (i + 1)
      (if starts j > starts i then starts j else starts i)
      (if (starts j + lens j) % 2 ^ 32 < (starts i + lens i) % 2 ^ 32
        then (starts j + lens j) % 2 ^ 32 else (starts i + lens i) % 2 ^ 32)]
  else []

/-- The lines pass `k` prints when slots `j < i` are the only occupied ones
and are not adjacent. -/
def two_slot_lines (cs : Nat) (starts lens : Nat → Nat) (i j k : Nat) : List sun_message :=
  boundary_warning cs (lens j) j k ++ (boundary_warning cs (lens i) i k ++ overlap_report starts lens i j k)

/-- A label with two Linux native partitions: slot 0 is [0, 100) and slot 1
is [50, 150) on cylinders of 50 sectors. -/
def label_overlap_example : sun_disk_label :=
  { zero_label with
    part_tags := set_index (set_index zero_label.part_tags 0 ⟨SUN_TAG_LINUX_NATIVE, 0⟩)
      1 ⟨SUN_TAG_LINUX_NATIVE, 0⟩,
    partitions := set_index (set_index zero_label.partitions 0 ⟨0, 100⟩) 1 ⟨1, 100⟩ }

/-- The context of `label_overlap_example`: 1 head, 50 sectors, 3 cylinders. -/
def context_overlap_example : fdisk_context :=
  { firstsector := label_overlap_example, geom := ⟨1, 50, 3⟩, other_endian := false,
    changed := [] }

/-- The working arrays after slot `i` has been merged into slot `j` (lines
316-321): slot `j` takes the union, slot `i` is emptied. -/
def merge_into (st : verify_state) (i j : Nat) : verify_state :=
  { st with
    starts := Function.update st.starts j (min (st.starts i) (st.starts j)),
    lens := Function.update (Function.update st.lens j (st.lens j + st.lens i)) i 0 }

/-- A label with two Linux native partitions: slot 0 is [0, 100) and slot 1
is [100, 200) on cylinders of 100 sectors. -/
def label_adjacent_example : sun_disk_label :=
  { zero_label with
    part_tags := set_index (set_index zero_label.part_tags 0 ⟨SUN_TAG_LINUX_NATIVE, 0⟩)
      1 ⟨SUN_TAG_LINUX_NATIVE, 0⟩,
    partitions := set_index (set_index zero_label.partitions 0 ⟨0, 100⟩) 1 ⟨1, 100⟩ }

/-- The context of `label_adjacent_example`: 1 head, 100 sectors, 2
cylinders, a disk of 200 sectors. -/
def context_adjacent_example : fdisk_context :=
  { firstsector := label_adjacent_example, geom := ⟨1, 100, 2⟩, other_endian := false,
    changed := [] }

/-- A label with three Linux native partitions on cylinders of 50 sectors:
slot 0 is [0, 100), slot 1 is [150, 250) and slot 3 is [100, 200), so that
slots 1 and 3 overlap in [150, 200) and slot 3 is adjacent to slot 0. -/
def label_three_slots : sun_disk_label :=
  { zero_label with
    part_tags := set_index (set_index (set_index zero_label.part_tags
      0 ⟨SUN_TAG_LINUX_NATIVE, 0⟩) 1 ⟨SUN_TAG_LINUX_NATIVE, 0⟩) 3 ⟨SUN_TAG_LINUX_NATIVE, 0⟩,
    partitions := set_index (set_index (set_index zero_label.partitions
      0 ⟨0, 100⟩) 1 ⟨3, 100⟩) 3 ⟨2, 100⟩ }

/-- The context of `label_three_slots`: 1 head, 50 sectors, 20 cylinders, a
disk of 1000 sectors. -/
def context_three_slots : fdisk_context :=
  { firstsector := label_three_slots, geom := ⟨1, 50, 20⟩, other_endian := false,
    changed := [] }

/-! ## Partition types, delete and set type -/

/-- Modelled from the spec: `struct fdisk_parttype` of fdisk.h, which is not
among the sources: the type code (`unsigned int type`) and the name, absent
for the terminating entry of a table. -/
structure fdisk_parttype where
  type : Nat
  name : Option String
  deriving DecidableEq, Repr

/-- The table `sun_parttypes` of lines 30-48, terminator included. -/
def sun_parttypes : List fdisk_parttype :=
  [ ⟨SUN_TAG_UNASSIGNED, some "Unassigned"⟩,
    ⟨0x01, some "Boot"⟩,
    ⟨0x02, some "SunOS root"⟩,
    ⟨SUN_TAG_SWAP, some "SunOS swap"⟩,
    ⟨0x04, some "SunOS usr"⟩,
    ⟨SUN_TAG_BACKUP, some "Whole disk"⟩,
    ⟨0x06, some "SunOS stand"⟩,
    ⟨0x07, some "SunOS var"⟩,
    ⟨0x08, some "SunOS home"⟩,
    ⟨0x09, some "SunOS alt sectors"⟩,
    ⟨0x0a, some "SunOS cachefs"⟩,
    ⟨0x0b, some "SunOS reserved"⟩,
    ⟨SUN_TAG_LINUX_SWAP, some "Linux swap"⟩,
    ⟨SUN_TAG_LINUX_NATIVE, some "Linux native"⟩,
    ⟨0x8e, some "Linux LVM"⟩,
    ⟨0xfd, some "Linux raid autodetect"⟩,
    ⟨0, none⟩ ]

/-- Modelled from the spec: `fdisk_get_parttype_from_code` of the fdisk
library, not among the sources: the first entry of the label's type table
with the given code, if any. -/
def fdisk_get_parttype_from_code (code : Nat) : Option fdisk_parttype :=
  sun_parttypes.find? (fun p => decide (p.type = code))

/-- Modelled from the spec: `fdisk_new_unknown_parttype` of the fdisk
library, not among the sources: a fresh type that keeps the code verbatim. -/
def fdisk_new_unknown_parttype (code : Nat) : fdisk_parttype :=
  ⟨code, some "unknown"⟩

/-- The function `sun_get_parttype` (lines 622-633); `none` is `NULL`. -/
def sun_get_parttype (cxt : fdisk_context) (n : Nat) : Option fdisk_parttype :=
  if n ≥ partitions then none
  else
    match fdisk_get_parttype_from_code
        (SSWAP16 cxt.other_endian (at_index cxt.firstsector.part_tags n).tag) with
    | some t => some t
    | none => some (fdisk_new_unknown_parttype
        (SSWAP16 cxt.other_endian (at_index cxt.firstsector.part_tags n).tag))

/-- The lines printed by `sun_delete_partition`, `sun_set_parttype` and
`sun_add_partition`, each with the arguments handed to `printf`. -/
inductive label_message where
  | keep_whole_disk (nsec : Nat)
  | consider_whole_disk
  | already_defined (partition : Nat)
  | whole_disk_covered
  | third_partition_advice
  | already_allocated (first : Nat)
  | entry_changed (last stop : Nat)
  | partition_size (partition start stop sysid : Nat)
  deriving DecidableEq, Repr

/-- The function `sun_delete_partition` (lines 489-508): the return value,
the state afterwards and the lines printed. The product of line 499 is a
64-bit one. -/
def sun_delete_partition (cxt : fdisk_context) (partnum : Nat) :
    Int × fdisk_context × List label_message :=
  let part := at_index cxt.firstsector.partitions partnum
  let tag := at_index cxt.firstsector.part_tags partnum
  let nsec := SSWAP32 cxt.other_endian part.num_sectors
  let out := if partnum = 2 ∧ tag.tag = SSWAP16 cxt.other_endian SUN_TAG_BACKUP
      ∧ part.start_cylinder = 0
      ∧ nsec = (cylinder_size cxt.geom * cxt.geom.cylinders) % 2 ^ 64
    then [label_message.keep_whole_disk nsec] else []
  (0,
   { cxt with firstsector := { cxt.firstsector with
      part_tags := set_index cxt.firstsector.part_tags partnum
        { tag with tag := SSWAP16 cxt.other_endian SUN_TAG_UNASSIGNED },
      partitions := set_index cxt.firstsector.partitions partnum
        { part with num_sectors := 0 } } },
   out)

/-- The value of `EINVAL` in the C library's errno.h. -/
def EINVAL : Int := 22

/-- What a call of `sun_set_parttype` leaves behind: the return value, the
state, the lines printed and whether `read_chars` asked for confirmation. -/
structure set_type_result where
  ret : Int
  cxt : fdisk_context
  out : List label_message
  asked : Bool

/-- The function `sun_set_parttype` (lines 635-676); `t = none` is a `NULL`
type and `line` is what `read_chars` leaves in `line_ptr` when it is called.
The complement of line 671 is taken in `int`, the result stored in 16 bits. -/
def sun_set_parttype (cxt : fdisk_context) (i : Nat) (t : Option fdisk_parttype)
    (line : String) : set_type_result :=
  match t with
  | none => ⟨-EINVAL, cxt, [], false⟩
  | some ty =>
    if i ≥ partitions ∨ ty.type > 65535 then ⟨-EINVAL, cxt, [], false⟩
    else
      let out := if i = 2 ∧ ty.type ≠ SUN_TAG_BACKUP
        then [label_message.consider_whole_disk] else []
      let part := at_index cxt.firstsector.partitions i
      let tag := at_index cxt.firstsector.part_tags i
      let asked : Bool := decide (ty.type = SUN_TAG_LINUX_SWAP ∧ part.start_cylinder = 0)
      if asked = true ∧ line ≠ "YES\n" then ⟨1, cxt, out, true⟩
      else
        let flag := if ty.type = SUN_TAG_SWAP ∨ ty.type = SUN_TAG_LINUX_SWAP
          then (tag.flag ||| SSWAP16 cxt.other_endian SUN_FLAG_UNMNT) % 65536
          else (tag.flag &&& (0xFFFFFFFF ^^^ SSWAP16 cxt.other_endian SUN_FLAG_UNMNT)) % 65536
        ⟨0,
         { cxt with firstsector := { cxt.firstsector with
            part_tags := set_index cxt.firstsector.part_tags i
              ⟨SSWAP16 cxt.other_endian ty.type, flag⟩ } },
         out, asked⟩

/-- The zeroed label in host order with the geometry 1 head, 1 sector, 100
cylinders and nothing marked. -/
def context_zero : fdisk_context :=
  { firstsector := zero_label, geom := ⟨1, 1, 100⟩, other_endian := false, changed := [] }

/-- A label whose slot 2 is the canonical whole-disk slot of a disk with 4
heads, 32 sectors and 200 cylinders (25600 sectors), and whose slot 0 is a
Linux native partition with the read-only flag over cylinders 0 to 9. -/
def label_whole_disk : sun_disk_label :=
  { zero_label with
    part_tags := set_index (set_index zero_label.part_tags 0
      ⟨SUN_TAG_LINUX_NATIVE, SUN_FLAG_RONLY⟩) 2 ⟨SUN_TAG_BACKUP, 0⟩,
    partitions := set_index (set_index zero_label.partitions 0 ⟨0, 1280⟩) 2 ⟨0, 25600⟩ }

/-- The context of `label_whole_disk`. -/
def context_whole_disk : fdisk_context :=
  { firstsector := label_whole_disk, geom := ⟨4, 32, 200⟩, other_endian := false,
    changed := [] }

/-! ## Adding a partition: `set_sun_partition` and `sun_add_partition` -/

/-- Modelled from the spec: the globals `display_in_cyl_units` and
`units_per_sector` of fdisk.c, which is not among the sources. `update_units`
keeps `units_per_sector` at 1 in sector units and at `heads * sectors` in
cylinder units; it is never 0. -/
structure display_units where
  display_in_cyl_units : Bool
  units_per_sector : Nat
  deriving DecidableEq, Repr

/-- Sector display units. -/
def sector_units : display_units := ⟨false, 1⟩

/-- Modelled from the spec: the macro `scround` of fdisk.h, which is not
among the sources: `(x + units_per_sector - 1) / units_per_sector` in
`unsigned int`. -/
def scround (u : display_units) (x : Nat) : Nat :=
  ((x + u.units_per_sector - 1) % 2 ^ 32) / u.units_per_sector

/-- Modelled from the spec: `read_int(cxt, low, dflt, high, base, mesg)` of
fdisk.c, which is not among the sources. The provider returns a value within
`[low, high]` and asks again on anything else; `answers` are the values
entered, in order, after the size shorthand has been resolved. The result is
the first acceptable value and the answers left, `none` when no acceptable
value ever comes. -/
def read_int (low dflt high base : Nat) : List Nat → Option (Nat × List Nat)
  | [] => none
  | a :: rest =>
    if low ≤ a ∧ a ≤ high then some (a, rest) else read_int low dflt high base rest

/-- The function `set_sun_partition` (lines 62-73): the state afterwards and
the line `print_partition_size` prints; `none` when line 68 divides by zero.
The arguments arrive as `uint32_t`, `uint32_t` and `uint16_t`. -/
def set_sun_partition (cxt : fdisk_context) (i start stop sysid : Nat) :
    Option (fdisk_context × label_message) :=
  if cylinder_size cxt.geom = 0 then none
  else
    some
      (set_changed
        { cxt with firstsector := { cxt.firstsector with
            part_tags := set_index cxt.firstsector.part_tags i
              ⟨SSWAP16 cxt.other_endian (sysid % 65536), SSWAP16 cxt.other_endian 0⟩,
            partitions := set_index cxt.firstsector.partitions i
              ⟨SSWAP32 cxt.other_endian ((start % 2 ^ 32) / cylinder_size cxt.geom),
               SSWAP32 cxt.other_endian ((stop % 2 ^ 32 + 2 ^ 32 - start % 2 ^ 32) % 2 ^ 32)⟩ } }
        i,
       label_message.partition_size (i + 1) (start % 2 ^ 32) (stop % 2 ^ 32) (sysid % 65536))

/-- The lines 404-413: the value read for `first`, turned into a sector
number. In sector units `int cs = heads * sectors` keeps the low 32 bits of
the product and the arithmetic wraps at 32 bits; `none` when `first % cs`
divides by zero. -/
def first_to_sectors (u : display_units) (g : fdisk_geometry) (f : Nat) : Option Nat :=
  if u.display_in_cyl_units then some ((f * u.units_per_sector) % 2 ^ 32)
  else if cylinder_size g % 2 ^ 32 = 0 then none
  else
    some (if f % (cylinder_size g % 2 ^ 32) ≠ 0
      then (f + (cylinder_size g % 2 ^ 32 - f % (cylinder_size g % 2 ^ 32))) % 2 ^ 32
      else f)

/-- The loop of lines 434-437 stops before `partitions`: some occupied extent
contains `first`. -/
def first_is_allocated (starts lens : Nat → Nat) (first : Nat) : Bool :=
  (List.range partitions).any (fun i =>
    decide (lens i ≠ 0) && decide (starts i ≤ first)
      && decide ((starts i + lens i) % 2 ^ 32 > first))

/-- The locals `first` and `whole_disk` when the loop of lines 398-446 is
left, the lines printed, the answers not yet used and the number of calls of
`read_int`. -/
structure first_result where
  first : Nat
  whole_disk : Bool
  out : List label_message
  rest : List Nat
  prompts : Nat

/-- The loop of lines 398-446, at most `fuel` rounds; every round uses at
least one answer, so `fuel` rounds are enough for `fuel` answers. `none` when
the provider never returns or line 409 divides by zero. -/
def add_first_loop (u : display_units) (g : fdisk_geometry) (n : Nat)
    (starts lens : Nat → Nat) (start stop : Nat) :
    Nat → Bool → List label_message → List Nat → Nat → Option first_result
  | 0, _, _, _, _ => none
  | fuel + 1, whole_disk, out, answers, prompts =>
    match (if whole_disk then read_int 0 0 0 0 answers
           else read_int (scround u start) ((scround u stop + 1) % 2 ^ 32) (scround u stop) 0
                  answers) with
    | none => none
    | some (f, rest) =>
      match first_to_sectors u g f with
      | none => none
      | some first =>
        if first_is_allocated starts lens first = true ∧ whole_disk = false then
          if n = 2 ∧ first = 0 then
            some ⟨first, true,
              (if n = 2 ∧ first ≠ 0 then out ++ [label_message.third_partition_advice] else out),
              rest, prompts + 1⟩
          else
            add_first_loop u g n starts lens start stop fuel whole_disk
              ((if n = 2 ∧ first ≠ 0
                  then out ++ [label_message.third_partition_advice] else out)
                ++ [label_message.already_allocated first])
              rest (prompts + 1)
        else
          some ⟨first, whole_disk,
            (if n = 2 ∧ first ≠ 0 then out ++ [label_message.third_partition_advice] else out),
            rest, prompts + 1⟩

/-- The loop of lines 449-452: the nearest start above `first`, or `total`. -/
def add_upper_bound (starts : Nat → Nat) (first total : Nat) : Nat :=
  (List.range partitions).foldl
    (fun stop i => if starts i > first ∧ starts i < stop then starts i else stop) total

/-- What a call of `sun_add_partition` leaves behind: the state, the lines
printed, the answers not used, the number of calls of `read_int`, whether
`set_sun_partition` was reached, and then the locals `whole_disk`, `first`,
`last` as converted at line 466, `last` and `sys` as handed over at line
486. -/
structure add_result where
  cxt : fdisk_context
  out : List label_message
  rest : List Nat
  prompts : Nat
  recorded : Bool
  whole_disk : Bool
  first : Nat
  last_chosen : Nat
  last : Nat
  sys : Nat

/-- The local `whole_disk` after lines 467-481. -/
def final_whole_disk (n first stop2 last_chosen : Nat) (whole_disk : Bool) : Bool :=
  if n = 2 ∧ first = 0 then (if last_chosen ≥ stop2 then true else whole_disk) else whole_disk

/-- The local `last` after lines 467-481. -/
def final_last (n first stop stop2 last_chosen : Nat) (whole_disk : Bool) : Nat :=
  if n = 2 ∧ first = 0 then
    if last_chosen ≥ stop2 then stop2
    else if last_chosen > stop then stop
    else last_chosen
  else if whole_disk = false ∧ last_chosen > stop then stop
  else last_chosen

/-- The lines 447-486, after the loop has delivered `first`. -/
def add_finish (u : display_units) (cxt : fdisk_context) (n sys0 : Nat)
    (starts : Nat → Nat) (lr : first_result) : Option add_result :=
  match (if lr.whole_disk then
           read_int (scround u (total_sectors cxt.geom)) (scround u (total_sectors cxt.geom))
             (scround u (total_sectors cxt.geom)) 0 lr.rest
         else if n = 2 ∧ lr.first = 0 then
           read_int (scround u lr.first) (scround u (total_sectors cxt.geom))
             (scround u (total_sectors cxt.geom)) (scround u lr.first) lr.rest
         else
           read_int (scround u lr.first)
             (scround u (add_upper_bound starts lr.first (total_sectors cxt.geom)))
             (scround u (add_upper_bound starts lr.first (total_sectors cxt.geom)))
             (scround u lr.first) lr.rest) with
  | none => none
  | some (l, rest) =>
    match set_sun_partition cxt n lr.first
      (final_last n lr.first (add_upper_bound starts lr.first (total_sectors cxt.geom))
        (total_sectors cxt.geom)
        (if u.display_in_cyl_units then (l * u.units_per_sector) % 2 ^ 32 else l)
        lr.whole_disk)
      (if final_whole_disk n lr.first (total_sectors cxt.geom)
            (if u.display_in_cyl_units then (l * u.units_per_sector) % 2 ^ 32 else l)
            lr.whole_disk
       then SUN_TAG_BACKUP else sys0) with
    | none => none
    | some (cxt1, line) =>
      some
        { cxt := cxt1,
          out := (if (n = 2 ∧ lr.first = 0)
                    ∧ ¬ (if u.display_in_cyl_units then (l * u.units_per_sector) % 2 ^ 32 else l)
                          ≥ total_sectors cxt.geom
                    ∧ (if u.display_in_cyl_units then (l * u.units_per_sector) % 2 ^ 32 else l)
                        > add_upper_bound starts lr.first (total_sectors cxt.geom)
                  then lr.out ++ [label_message.entry_changed
                    (scround u
                      (if u.display_in_cyl_units then (l * u.units_per_sector) % 2 ^ 32 else l))
                    (scround u (add_upper_bound starts lr.first (total_sectors cxt.geom)))]
                  else lr.out) ++ [line],
          rest := rest,
          prompts := lr.prompts + 1,
          recorded := true,
          whole_disk := final_whole_disk n lr.first (total_sectors cxt.geom)
            (if u.display_in_cyl_units then (l * u.units_per_sector) % 2 ^ 32 else l)
            lr.whole_disk,
          first := lr.first,
          last_chosen := if u.display_in_cyl_units then (l * u.units_per_sector) % 2 ^ 32 else l,
          last := final_last n lr.first
            (add_upper_bound starts lr.first (total_sectors cxt.geom))
            (total_sectors cxt.geom)
            (if u.display_in_cyl_units then (l * u.units_per_sector) % 2 ^ 32 else l)
            lr.whole_disk,
          sys := if final_whole_disk n lr.first (total_sectors cxt.geom)
                (if u.display_in_cyl_units then (l * u.units_per_sector) % 2 ^ 32 else l)
                lr.whole_disk
            then SUN_TAG_BACKUP else sys0 }

/-- The initial value of `sys` (line 374): the type asked for, Linux native
when none is given. -/
def requested_sys (t : Option fdisk_parttype) : Nat :=
  match t with
  | some ty => ty.type
  | none => SUN_TAG_LINUX_NATIVE

/-- The result of a call of `sun_add_partition` that returns before any
prompt, having printed `line`. -/
def add_refused (cxt : fdisk_context) (answers : List Nat) (line : label_message) :
    add_result :=
  { cxt := cxt, out := [line], rest := answers, prompts := 0, recorded := false,
    whole_disk := false, first := 0, last_chosen := 0, last := 0, sys := 0 }

/-- The function `sun_add_partition` (lines 367-487) in the display units
`u`, with the provider's `answers`; `t = none` is a `NULL` type. `none` when
the provider never returns an acceptable value or the call divides by zero
(lines 409, 68). -/
def sun_add_partition (u : display_units) (cxt : fdisk_context) (n : Nat)
    (t : Option fdisk_parttype) (answers : List Nat) : Option add_result :=
  if (at_index cxt.firstsector.partitions n).num_sectors ≠ 0
      ∧ (at_index cxt.firstsector.part_tags n).tag
          ≠ SSWAP16 cxt.other_endian SUN_TAG_UNASSIGNED then
    some (add_refused cxt answers (label_message.already_defined (n + 1)))
  else if (fetch_sun cxt).stop ≤ (fetch_sun cxt).start ∧ n ≠ 2 then
    some (add_refused cxt answers label_message.whole_disk_covered)
  else
    match add_first_loop u cxt.geom n (fetch_sun cxt).starts (fetch_sun cxt).lens
        (fetch_sun cxt).start (fetch_sun cxt).stop answers.length
        (decide ((fetch_sun cxt).stop ≤ (fetch_sun cxt).start)) [] answers 0 with
    | none => none
    | some lr =>
      add_finish u cxt n (requested_sys t) (fetch_sun cxt).starts lr

/-- An empty label on a disk of 2^33 - 1 sectors: 1 head, 7 sectors per track,
1227133513 cylinders; the `uint32_t` total of line 256 is 2^32 - 1. -/
def context_wrapped : fdisk_context :=
  { firstsector := zero_label, geom := ⟨1, 7, 1227133513⟩, other_endian := false,
    changed := [] }

/-! ## Creating a label: `sun_create_disklabel` -/

/-- Modelled from the spec: `struct hd_geometry` of linux/hdreg.h, which is
not among the sources: `unsigned char heads, sectors`, `unsigned short
cylinders`, `unsigned long start`. -/
structure hd_geometry where
  heads : Nat
  sectors : Nat
  cylinders : Nat
  start : Nat
  deriving DecidableEq, Repr

/-- Modelled from the spec: `set_all_unchanged()` clears every changed mark. -/
def set_all_unchanged (cxt : fdisk_context) : fdisk_context :=
  { cxt with changed := [] }

/-- The lines `sun_create_disklabel` prints: the banner of line 154, the
warning of lines 180-184 and the lines of `print_partition_size`. -/
inductive create_message where
  | building_new_disklabel
  | blkgetsize_failed (cylinders : Nat)
  | size (line : label_message)
  deriving DecidableEq, Repr

/-- The geometry of lines 168-192. `ioctl_geometry` is what `HDIO_GETGEO`
stored when the ioctl returned 0 (`none` when it failed), `llsectors` what
`blkdev_get_sectors` stored when it returned 0, `sector_size` is
`cxt->sector_size`; `sec_fac` is an `unsigned int`; the division of line 174
is a 64-bit one and is undefined for a zero divisor. The test of line 176
compares two `sector_t` values and never fires. -/
def create_geometry (ioctl_geometry : Option hd_geometry) (llsectors : Option Nat)
    (sector_size : Nat) (answers : List Nat) :
    Option (fdisk_geometry × List create_message × List Nat) :=
  match ioctl_geometry with
  | some geometry =>
    match llsectors with
    | some ll =>
      if (((geometry.heads % 256) * (geometry.sectors % 256)) % 2 ^ 64
            * ((sector_size / 512) % 2 ^ 32)) % 2 ^ 64 = 0 then none
      else some (⟨geometry.heads % 256, geometry.sectors % 256,
        (ll % 2 ^ 64) / ((((geometry.heads % 256) * (geometry.sectors % 256)) % 2 ^ 64
            * ((sector_size / 512) % 2 ^ 32)) % 2 ^ 64)⟩, [], answers)
    | none =>
      some (⟨geometry.heads % 256, geometry.sectors % 256, geometry.cylinders % 65536⟩,
        [create_message.blkgetsize_failed (geometry.cylinders % 65536)], answers)
  | none =>
    match read_int 1 1 1024 0 answers with
    | none => none
    | some (h, r1) =>
      match read_int 1 1 1024 0 r1 with
      | none => none
      | some (s, r2) =>
        match read_int 1 1 65535 0 r2 with
        | none => none
        | some (c, r3) => some (⟨h, s, c⟩, [], r3)

/-- What `%d` prints for a 32-bit argument. -/
def print_d (x : Nat) : String :=
  if x % 2 ^ 32 < 2 ^ 31 then Nat.repr (x % 2 ^ 32) else "-" ++ Nat.repr (2 ^ 32 - x % 2 ^ 32)

/-- The text of the `snprintf` of lines 205-207. -/
def label_id_text (g : fdisk_geometry) (acyl : Nat) : String :=
  "Linux cyl " ++ Nat.repr (g.cylinders % 2 ^ 64) ++ " alt " ++ print_d acyl
    ++ " hd " ++ print_d g.heads ++ " sec " ++ Nat.repr (g.sectors % 2 ^ 64)

/-- The bytes `snprintf` leaves in a zeroed buffer of `size` bytes: at most
`size - 1` characters, then zeros. -/
def snprintf_bytes (size : Nat) (s : String) : Fin size → Nat :=
  fun k => if k.val + 1 < size then (s.toList.map Char.toNat).getD k.val 0 else 0

/-- The sector after lines 161-207: zeroed, then the header fields, the
geometry fields (`ncyl` is assigned at line 197 and again at line 203; the
second value stays) and the label text. -/
def create_header (oe : Bool) (g : fdisk_geometry) : sun_disk_label :=
  { zero_label with
    magic := SSWAP16 oe SUN_LABEL_MAGIC,
    sanity := SSWAP32 oe SUN_LABEL_SANE,
    version := SSWAP32 oe SUN_LABEL_VERSION,
    num_partitions := SSWAP16 oe SUN_NUM_PARTITIONS,
    acyl := SSWAP16 oe 2,
    pcyl := SSWAP16 oe g.cylinders,
    rpm := SSWAP16 oe 5400,
    intrlv := SSWAP16 oe 1,
    apc := SSWAP16 oe 0,
    nhead := SSWAP16 oe g.heads,
    nsect := SSWAP16 oe g.sectors,
    ncyl := SSWAP16 oe g.cylinders,
    label_id := snprintf_bytes 128 (label_id_text g (SSWAP16 oe (SSWAP16 oe 2))) }

/-- The `unsigned int ndiv` of lines 209-213: 64-bit arithmetic, truncated to
32 bits; the division of line 210 is undefined for a zero divisor. -/
def create_ndiv (g : fdisk_geometry) : Option Nat :=
  if ((g.cylinders * g.heads) % 2 ^ 64 * g.sectors) % 2 ^ 64 ≥ 150 * 2048 then
    if cylinder_size g = 0 then none
    else some (((g.cylinders % 2 ^ 64 + 2 ^ 64 - 50 * 2048 / cylinder_size g) % 2 ^ 64) % 2 ^ 32)
  else some (((g.cylinders * 2) % 2 ^ 64 / 3) % 2 ^ 32)

/-- Lines 209-222: the three default slots. `ndiv * heads` is a product of
two `unsigned int`, the other products are 64-bit ones. -/
def create_partitions (c0 : fdisk_context) : Option (fdisk_context × List label_message) :=
  match create_ndiv c0.geom with
  | none => none
  | some ndiv =>
    match set_sun_partition c0 0 0
        (((ndiv * c0.geom.heads) % 2 ^ 32 * c0.geom.sectors) % 2 ^ 64) SUN_TAG_LINUX_NATIVE with
    | none => none
    | some (c1, m1) =>
      match set_sun_partition c1 1
          (((ndiv * c0.geom.heads) % 2 ^ 32 * c0.geom.sectors) % 2 ^ 64)
          (((c0.geom.cylinders * c0.geom.heads) % 2 ^ 64 * c0.geom.sectors) % 2 ^ 64)
          SUN_TAG_LINUX_SWAP with
      | none => none
      | some (c2, m2) =>
        match set_sun_partition
            { c2 with firstsector := { c2.firstsector with
                part_tags := set_index c2.firstsector.part_tags 1
                  ⟨(at_index c2.firstsector.part_tags 1).tag,
                   ((at_index c2.firstsector.part_tags 1).flag
                      ||| SSWAP16 c2.other_endian SUN_FLAG_UNMNT) % 65536⟩ } }
            2 0 (((c0.geom.cylinders * c0.geom.heads) % 2 ^ 64 * c0.geom.sectors) % 2 ^ 64)
            SUN_TAG_BACKUP with
        | none => none
        | some (c4, m3) => some (c4, [m1, m2, m3])

/-- The function `sun_create_disklabel` (lines 147-239) on a host whose byte
order is `little_endian_host`: the return value, the state afterwards, the
lines printed and the answers of the provider that are left. -/
def sun_create_disklabel (little_endian_host : Bool) (cxt : fdisk_context)
    (ioctl_geometry : Option hd_geometry) (llsectors : Option Nat) (sector_size : Nat)
    (answers : List Nat) : Option (Int × fdisk_context × List create_message × List Nat) :=
  match create_geometry ioctl_geometry llsectors sector_size answers with
  | none => none
  | some (g, warn, rest) =>
    match create_partitions { cxt with firstsector := create_header little_endian_host g,
                                       geom := g, other_endian := little_endian_host } with
    | none => none
    | some (c4, lines) =>
      some (0,
        set_changed (set_all_unchanged { c4 with firstsector := { c4.firstsector with
          cksum := cksum_loop (words_before_cksum little_endian_host c4.firstsector) } }) 0,
        [create_message.building_new_disklabel] ++ warn ++ lines.map create_message.size,
        rest)

/-! ## Flags, the slot invariant and the running state of `fetch_sun` -/

/-- The function `toggle_sunflags` (lines 241-248): the flag word is
exclusive-or-ed with the mask in the label's byte order and the slot is
marked changed. -/
def toggle_sunflags (cxt : fdisk_context) (i mask : Nat) : fdisk_context :=
  set_changed
    { cxt with firstsector := { cxt.firstsector with
        part_tags := set_index cxt.firstsector.part_tags i
          ⟨(at_index cxt.firstsector.part_tags i).tag,
           ((at_index cxt.firstsector.part_tags i).flag
              ^^^ SSWAP16 cxt.other_endian mask) % 65536⟩ } }
    i

/-- The invariant the specification states for empty slots: every slot whose
`num_sectors` is 0 carries the unassigned tag. -/
def empty_slots_unassigned (cxt : fdisk_context) : Prop :=
  ∀ i, i < 8 → (at_index cxt.firstsector.partitions i).num_sectors = 0 →
    (at_index cxt.firstsector.part_tags i).tag = SSWAP16 cxt.other_endian SUN_TAG_UNASSIGNED

/-- The variables of `fetch_sun` when the loop of line 258 reaches slot `i`:
the state after the slots below `i`. -/
def fetch_before (cxt : fdisk_context) (i : Nat) : fetch_state :=
  (List.range i).foldl (fetch_sun_slot cxt)
    { starts := fun _ => 0, lens := fun _ => 0, start := 0,
      stop := total_sectors cxt.geom, continuous := true }

/-- A label on a disk of 1000 sectors (1 head, 100 sectors, 10 cylinders) with
two Linux native partitions that both end at the end of the disk: slot 0 is
[500, 1000) and slot 1 is [600, 1000). -/
def label_two_tails : sun_disk_label :=
  { zero_label with
    part_tags := set_index (set_index zero_label.part_tags 0 ⟨SUN_TAG_LINUX_NATIVE, 0⟩)
      1 ⟨SUN_TAG_LINUX_NATIVE, 0⟩,
    partitions := set_index (set_index zero_label.partitions 0 ⟨5, 500⟩) 1 ⟨6, 400⟩ }

/-- The context of `label_two_tails`. -/
def context_two_tails : fdisk_context :=
  { firstsector := label_two_tails, geom := ⟨1, 100, 10⟩, other_endian := false,
    changed := [] }

/-- A label on a disk of 1000 sectors (1 head, 100 sectors, 10 cylinders) with
one Linux native partition in slot 0, start cylinder 1 and 150 sectors: the
extent [100, 250), which does not end on a cylinder boundary. -/
def label_misaligned : sun_disk_label :=
  { zero_label with
    part_tags := set_index zero_label.part_tags 0 ⟨SUN_TAG_LINUX_NATIVE, 0⟩,
    partitions := set_index zero_label.partitions 0 ⟨1, 150⟩ }

/-- The context of `label_misaligned`. -/
def context_misaligned : fdisk_context :=
  { firstsector := label_misaligned, geom := ⟨1, 100, 10⟩, other_endian := false,
    changed := [] }

/-- The checksum as the specification words it: `compute` is the XOR of all
16-bit words of the sector from offset 0 up to, not including, the checksum
field. -/
def checksum_compute (little_endian_host : Bool) (l : sun_disk_label) : Nat :=
  xor_words (words_before_cksum little_endian_host l)

/-- The validity test as the specification words it: `validate` compares the
stored checksum against `compute`. -/
def checksum_validate (little_endian_host : Bool) (l : sun_disk_label) : Bool :=
  decide (l.cksum = checksum_compute little_endian_host l)

/-! ## Measures on the working arrays of `sun_verify_disklabel` -/

/-- The working arrays hold `uint32_t` values. -/
def working_bounded (st : verify_state) : Prop :=
  ∀ i, st.starts i < 2 ^ 32 ∧ st.lens i < 2 ^ 32

/-- The number of working slots with a non-zero length. -/
def occupied_count (st : verify_state) : Nat :=
  ((Finset.range SUN_NUM_PARTITIONS).filter (fun i => st.lens i ≠ 0)).card

/-- The test of lines 316 and 319 on two non-empty working slots: one begins
at the sector where the other ends, in 32-bit arithmetic. -/
def touching (st : verify_state) (i j : Nat) : Prop :=
  st.lens i ≠ 0 ∧ st.lens j ≠ 0
  ∧ (st.starts j = (st.starts i + st.lens i) % 2 ^ 32
      ∨ st.starts i = (st.starts j + st.lens j) % 2 ^ 32)

/-- Sector `x` lies in the working extent of slot `i`. -/
def in_extent (st : verify_state) (i x : Nat) : Prop :=
  st.lens i ≠ 0 ∧ st.starts i ≤ x ∧ x < st.starts i + st.lens i

/-- The non-empty working extents of the slots below 8 end at or before
`total` and are pairwise non-overlapping. -/
def extents_apart (total : Nat) (st : verify_state) : Prop :=
  (∀ i, i < 8 → st.lens i ≠ 0 → st.starts i + st.lens i ≤ total)
  ∧ (∀ i j, i < 8 → j < 8 → i ≠ j → st.lens i ≠ 0 → st.lens j ≠ 0 →
      st.starts i + st.lens i ≤ st.starts j ∨ st.starts j + st.lens j ≤ st.starts i)

/-- Whether a printed line is an unused-gap report whose range contains
sector `x`. -/
def gap_contains (x : Nat) : sun_message → Bool
  | sun_message.unused_gap a b => decide (a ≤ x ∧ x < b)
  | _ => false

/-- The lines the loop of lines 355-359 prints for the sorted slots `idx`: one
gap between each slot and the next. -/
def gap_chain (starts lens : Nat → Nat) : List Nat → List sun_message
  | [] => []
  | [_] => []
  | a :: b :: rest =>
    sun_message.unused_gap ((starts a + lens a) % 2 ^ 32) (starts b)
      :: gap_chain starts lens (b :: rest)

/-- The gaps between `p` and `total` that the extents of the slots `idx`, in
ascending order, leave free. -/
def gaps_from (starts lens : Nat → Nat) (total : Nat) : Nat → List Nat → List sun_message
  | p, [] => if p < total then [sun_message.unused_gap p total] else []
  | p, a :: rest =>
    (if p < starts a then [sun_message.unused_gap p (starts a)] else [])
      ++ gaps_from starts lens total (starts a + lens a) rest

/-- The invariant of the merge passes on non-overlapping extents: the working
arrays are 32-bit, the extents stay apart and within `total`, they cover the
sectors `c0` describes, and no overlap or gap line has been printed. -/
def merge_inv (total : Nat) (c0 : Nat → Prop) (st : verify_state) : Prop :=
  working_bounded st ∧ extents_apart total st
  ∧ (∀ x, (∃ a, a < 8 ∧ in_extent st a x) ↔ c0 x)
  ∧ (∀ m ∈ st.out, is_overlap m = false ∧ is_gap m = false)

/-- The non-empty working slots in the order of the sorted array. -/
def sorted_slots (st : verify_state) : List Nat :=
  ((List.range 8).filter (fun i => decide (st.lens i ≠ 0))).insertionSort
    (fun x y => st.starts x ≤ st.starts y)

/-! ## The sector as bytes -/

/-- The two bytes of a `uint16_t` member in the memory of the host. -/
def bytes_of_u16 (little_endian_host : Bool) (x : Nat) : List Nat :=
  if little_endian_host then [x % 256, x / 256 % 256] else [x / 256 % 256, x % 256]

/-- The four bytes of a `uint32_t` member in the memory of the host. -/
def bytes_of_u32 (little_endian_host : Bool) (x : Nat) : List Nat :=
  if little_endian_host then [x % 256, x / 256 % 256, x / 65536 % 256, x / 16777216 % 256]
  else [x / 16777216 % 256, x / 65536 % 256, x / 256 % 256, x % 256]

/-- The bytes of a character array of `n` bytes. -/
def bytes_of_chars {m : Nat} (a : Fin m → Nat) (n : Nat) : List Nat :=
  (List.range n).map (fun k => at_index a k % 256)

/-- The bytes of an array of `n` `uint32_t` members. -/
def bytes_of_u32s (little_endian_host : Bool) {m : Nat} (a : Fin m → Nat) (n : Nat) :
    List Nat :=
  ((List.range n).map (fun k => bytes_of_u32 little_endian_host (at_index a k))).flatten

/-- Modelled from the spec: the members of `struct sun_disk_label` before
`cksum`, each as its bytes, in memory order (128 + 4 + 8 + 2 + 32 + 2 + 12 + 4
+ 40 + 32 + 4 + 4 + 148 + 24 + 64 + 2 = 510 bytes). -/
def label_members (little_endian_host : Bool) (l : sun_disk_label) : List (List Nat) :=
  [bytes_of_chars l.label_id 128,
   bytes_of_u32 little_endian_host l.version,
   bytes_of_chars l.volume_id 8,
   bytes_of_u16 little_endian_host l.num_partitions,
   ((List.range 8).map (fun k =>
      bytes_of_u16 little_endian_host (at_index l.part_tags k).tag
      ++ bytes_of_u16 little_endian_host (at_index l.part_tags k).flag)).flatten,
   bytes_of_u16 little_endian_host l.padding,
   bytes_of_u32s little_endian_host l.bootinfo 3,
   bytes_of_u32 little_endian_host l.sanity,
   bytes_of_u32s little_endian_host l.resv 10,
   bytes_of_u32s little_endian_host l.part_timestamps 8,
   bytes_of_u32 little_endian_host l.write_reinstruct,
   bytes_of_u32 little_endian_host l.read_reinstruct,
   bytes_of_chars l.pad 148,
   bytes_of_u16 little_endian_host l.rpm,
   bytes_of_u16 little_endian_host l.pcyl,
   bytes_of_u16 little_endian_host l.apc,
   bytes_of_u16 little_endian_host l.resv1,
   bytes_of_u16 little_endian_host l.resv2,
   bytes_of_u16 little_endian_host l.intrlv,
   bytes_of_u16 little_endian_host l.ncyl,
   bytes_of_u16 little_endian_host l.acyl,
   bytes_of_u16 little_endian_host l.nhead,
   bytes_of_u16 little_endian_host l.nsect,
   bytes_of_u16 little_endian_host l.resv3,
   bytes_of_u16 little_endian_host l.resv4,
   ((List.range 8).map (fun k =>
      bytes_of_u32 little_endian_host (at_index l.partitions k).start_cylinder
      ++ bytes_of_u32 little_endian_host (at_index l.partitions k).num_sectors)).flatten,
   bytes_of_u16 little_endian_host l.magic]

/-- Modelled from the spec: `serialize(label)`, the 512 bytes of the sector as
they lie in the memory of the host: the members before `cksum`, then the two
bytes of `cksum` at offsets 510 and 511. -/
def serialize (little_endian_host : Bool) (l : sun_disk_label) : List Nat :=
  (label_members little_endian_host l).flatten ++ bytes_of_u16 little_endian_host l.cksum

/-- The 16-bit words of a byte sequence, two bytes each from offset 0 on; the
bytes of a word are combined in the order `little_endian`. -/
def words_of_sector (little_endian : Bool) : List Nat → List Nat
  | b0 :: b1 :: rest => word_of_bytes little_endian b0 b1 :: words_of_sector little_endian rest
  | _ => []

/-- Modelled from the spec: `compute(sector)`, the XOR of all 16-bit words of
the sector from offset 0 up to, not including, the checksum field, which
begins at byte 510. -/
def compute (little_endian : Bool) (sector : List Nat) : Nat :=
  xor_words (words_of_sector little_endian (sector.take 510))

/-- The checksum field of a sector: the 16-bit word at byte offset 510. -/
def stored_checksum (little_endian : Bool) (sector : List Nat) : Nat :=
  word_of_bytes little_endian (sector.getD 510 0) (sector.getD 511 0)

/-! ## Labels beyond 32 bits -/

/-- A label with two Linux native partitions on cylinders of 1 sector: slot 0
is [0, 2^31) and slot 1 is [2^31, 2^32), so slot 0 ends at the sector where
slot 1 begins and slot 1 ends at sector 2^32. -/
def label_adjacent_wrap : sun_disk_label :=
  { zero_label with
    part_tags := set_index (set_index zero_label.part_tags 0 ⟨SUN_TAG_LINUX_NATIVE, 0⟩)
      1 ⟨SUN_TAG_LINUX_NATIVE, 0⟩,
    partitions := set_index (set_index zero_label.partitions 0 ⟨0, 2147483648⟩)
      1 ⟨2147483648, 2147483648⟩ }

/-- The context of `label_adjacent_wrap`: 1 head, 1 sector, 2^32 cylinders, a
disk of 2^32 sectors. -/
def context_adjacent_wrap : fdisk_context :=
  { firstsector := label_adjacent_wrap, geom := ⟨1, 1, 4294967296⟩, other_endian := false,
    changed := [] }

/-- A label on a disk of 255 heads, 63 sectors and 267350 cylinders
(4294977750 sectors, above 2^32) with one Linux native partition in slot 0:
start cylinder 0 and 1606500 sectors, the extent [0, 1606500). -/
def label_large_disk : sun_disk_label :=
  { zero_label with
    part_tags := set_index zero_label.part_tags 0 ⟨SUN_TAG_LINUX_NATIVE, 0⟩,
    partitions := set_index zero_label.partitions 0 ⟨0, 1606500⟩ }

/-- The context of `label_large_disk`. -/
def context_large_disk : fdisk_context :=
  { firstsector := label_large_disk, geom := ⟨255, 63, 267350⟩, other_endian := false,
    changed := [] }

/-! ## Lemmas on the swap primitives -/

theorem testBit_swap16 (x i : Nat) :
    (__swap16 x).testBit i =
      if i < 8 then x.testBit (i + 8) else if i < 16 then x.testBit (i - 8) else false := by
  unfold __swap16
  have e0 : (65536 : Nat) = 2 ^ 16 := by norm_num
  have e1 : (0xFF : Nat) = 2 ^ 8 - 1 := by norm_num
  have e2 : (0xFF00 : Nat) = (2 ^ 8 - 1) <<< 8 := by decide
  rw [e0, e1, e2]
  simp only [Nat.testBit_mod_two_pow, Nat.testBit_or, Nat.testBit_shiftRight, Nat.testBit_and,
    Nat.testBit_shiftLeft, Nat.testBit_two_pow_sub_one]
  by_cases h8 : i < 8
  · have a1 : i < 16 := by omega
    have a2 : ¬ 8 ≤ i := by omega
    have a3 : 8 + i < 16 := by omega
    have a4 : 8 + i = i + 8 := by omega
    have a5 : i + 8 < 16 := by omega
    simp [h8, a1, a2, a3, a4, a5]
  · by_cases h16 : i < 16
    · have a2 : 8 ≤ i := by omega
      have a3 : i - 8 < 16 := by omega
      have a4 : i - 8 < 8 := by omega
      simp [h8, h16, a2, a3, a4]
    · simp [h8, h16]

theorem testBit_swap32 (x i : Nat) :
    (__swap32 x).testBit i =
      if i < 8 then x.testBit (i + 24) else if i < 16 then x.testBit (i + 8)
      else if i < 24 then x.testBit (i - 8) else if i < 32 then x.testBit (i - 24) else false := by
  unfold __swap32
  have e0 : (4294967296 : Nat) = 2 ^ 32 := by norm_num
  have e1 : (0xFF : Nat) = 2 ^ 8 - 1 := by norm_num
  have e2 : (0xFF00 : Nat) = (2 ^ 8 - 1) <<< 8 := by decide
  have e3 : (0xFF0000 : Nat) = (2 ^ 8 - 1) <<< 16 := by decide
  have e4 : (0xFF000000 : Nat) = (2 ^ 8 - 1) <<< 24 := by decide
  rw [e0, e1, e2, e3, e4]
  simp only [Nat.testBit_mod_two_pow, Nat.testBit_or, Nat.testBit_shiftRight, Nat.testBit_and,
    Nat.testBit_shiftLeft, Nat.testBit_two_pow_sub_one]
  by_cases h8 : i < 8
  · have a1 : i < 32 := by omega
    have a2 : ¬ i ≥ 24 := by omega
    have a3 : ¬ i ≥ 8 := by omega
    have a4 : ¬ 8 + i ≥ 16 := by omega
    have a5 : 24 + i < 32 := by omega
    have a6 : 24 + i ≥ 24 := by omega
    have a7 : 24 + i - 24 < 8 := by omega
    have a8 : 24 + i = i + 24 := by omega
    have a9 : i + 24 < 32 := by omega
    have a10 : i + 24 ≥ 24 := by omega
    have a11 : i + 24 - 24 < 8 := by omega
    simp [h8, a1, a2, a3, a4, a5, a6, a7, a8, a9, a10, a11]
  by_cases h16 : i < 16
  · have a1 : i < 32 := by omega
    have a2 : ¬ i ≥ 24 := by omega
    have a3 : i ≥ 8 := by omega
    have a4 : ¬ i - 8 ≥ 8 := by omega
    have a5 : 8 + i < 32 := by omega
    have a6 : 8 + i ≥ 16 := by omega
    have a7 : 8 + i - 16 < 8 := by omega
    have a8 : ¬ 24 + i < 32 := by omega
    have a9 : 8 + i = i + 8 := by omega
    have a10 : i + 8 < 32 := by omega
    have a11 : i + 8 ≥ 16 := by omega
    have a12 : i + 8 - 16 < 8 := by omega
    have a13 : i - 8 < 8 := by omega
    simp [h8, h16, a1, a2, a3, a4, a5, a6, a7, a8, a9, a10, a11, a12, a13]
  by_cases h24 : i < 24
  · have a1 : i < 32 := by omega
    have a2 : ¬ i ≥ 24 := by omega
    have a3 : i ≥ 8 := by omega
    have a4 : i - 8 ≥ 8 := by omega
    have a5 : i - 8 - 8 < 8 := by omega
    have a6 : i - 8 < 32 := by omega
    have a7 : ¬ 8 + i - 16 < 8 := by omega
    have a8 : ¬ 24 + i < 32 := by omega
    simp [h8, h16, h24, a1, a2, a3, a4, a5, a6, a7, a8]
  by_cases h32 : i < 32
  · have a2 : i ≥ 24 := by omega
    have a3 : i - 24 < 32 := by omega
    have a4 : i - 24 < 8 := by omega
    have a5 : ¬ i - 8 - 8 < 8 := by omega
    have a6 : ¬ 8 + i < 32 := by omega
    have a8 : ¬ 24 + i < 32 := by omega
    simp [h8, h16, h24, h32, a2, a3, a4, a5, a6, a8]
  · simp [h8, h16, h24, h32]

theorem swap32_swap32 (x : Nat) : __swap32 (__swap32 x) = x % 4294967296 := by
  apply Nat.eq_of_testBit_eq
  intro i
  have e0 : (4294967296 : Nat) = 2 ^ 32 := by norm_num
  rw [e0, Nat.testBit_mod_two_pow]
  simp only [testBit_swap32]
  by_cases h8 : i < 8
  · have a1 : ¬ i + 24 < 8 := by omega
    have a2 : ¬ i + 24 < 16 := by omega
    have a3 : ¬ i + 24 < 24 := by omega
    have a4 : i + 24 < 32 := by omega
    have a5 : i < 32 := by omega
    simp [h8, a1, a2, a3, a4, a5]
  by_cases h16 : i < 16
  · have a1 : ¬ i + 8 < 8 := by omega
    have a2 : ¬ i + 8 < 16 := by omega
    have a3 : i + 8 < 24 := by omega
    have a5 : i < 32 := by omega
    simp [h8, h16, a1, a2, a3, a5]
  by_cases h24 : i < 24
  · have a1 : ¬ i - 8 < 8 := by omega
    have a2 : i - 8 < 16 := by omega
    have a3 : i - 8 + 8 = i := by omega
    have a5 : i < 32 := by omega
    simp [h8, h16, h24, a1, a2, a3, a5]
  by_cases h32 : i < 32
  · have a1 : i - 24 < 8 := by omega
    have a3 : i - 24 + 24 = i := by omega
    simp [h8, h16, h24, h32, a1, a3]
  · simp [h8, h16, h24, h32]

theorem swap16_xor (a b : Nat) : __swap16 (a ^^^ b) = __swap16 a ^^^ __swap16 b := by
  apply Nat.eq_of_testBit_eq
  intro i
  simp only [Nat.testBit_xor, testBit_swap16]
  by_cases h8 : i < 8
  · simp [h8]
  · by_cases h16 : i < 16 <;> simp [h8, h16]

theorem swap16_swap16 (x : Nat) : __swap16 (__swap16 x) = x % 65536 := by
  apply Nat.eq_of_testBit_eq
  intro i
  have e0 : (65536 : Nat) = 2 ^ 16 := by norm_num
  rw [e0, Nat.testBit_mod_two_pow]
  simp only [testBit_swap16]
  by_cases h8 : i < 8
  · have a1 : ¬ i + 8 < 8 := by omega
    have a2 : i + 8 < 16 := by omega
    have a3 : i < 16 := by omega
    simp [h8, a1, a2, a3]
  · by_cases h16 : i < 16
    · have a1 : i - 8 < 8 := by omega
      have a2 : i - 8 + 8 = i := by omega
      simp [h8, h16, a1, a2]
    · simp [h8, h16]

theorem swap16_zero : __swap16 0 = 0 := by decide

theorem swap16_lt (x : Nat) : __swap16 x < 65536 := by
  unfold __swap16
  exact Nat.mod_lt _ (by norm_num)

theorem swap32_lt (x : Nat) : __swap32 x < 4294967296 := by
  unfold __swap32
  exact Nat.mod_lt _ (by norm_num)

theorem SSWAP16_lt (oe : Bool) (x : Nat) : SSWAP16 oe x < 65536 := by
  unfold SSWAP16
  split
  · exact swap16_lt x
  · exact Nat.mod_lt _ (by norm_num)

theorem SSWAP32_lt (oe : Bool) (x : Nat) : SSWAP32 oe x < 4294967296 := by
  unfold SSWAP32
  split
  · exact swap32_lt x
  · exact Nat.mod_lt _ (by norm_num)

theorem SSWAP16_SSWAP16 (oe : Bool) (x : Nat) : SSWAP16 oe (SSWAP16 oe x) = x % 65536 := by
  unfold SSWAP16
  cases oe
  · simp
  · simp [swap16_swap16]

theorem SSWAP32_SSWAP32 (oe : Bool) (x : Nat) : SSWAP32 oe (SSWAP32 oe x) = x % 4294967296 := by
  unfold SSWAP32
  cases oe
  · simp
  · simp [swap32_swap32]

/-! ## C1 -/

/-- C1: the swap primitives are involutions. For every 16-bit value `x`,
`__swap16 (__swap16 x) = x`, for every 32-bit value `y`,
`__swap32 (__swap32 y) = y`, and the same holds of `SSWAP16` and `SSWAP32`
for either value of `other_endian`. -/
theorem swap_involution (x y : Nat) (other_endian : Bool)
    (hx : x < 65536) (hy : y < 4294967296) :
    __swap16 (__swap16 x) = x ∧ __swap32 (__swap32 y) = y
    ∧ SSWAP16 other_endian (SSWAP16 other_endian x) = x
    ∧ SSWAP32 other_endian (SSWAP32 other_endian y) = y := by
  refine ⟨?_, ?_, ?_, ?_⟩
  · rw [swap16_swap16, Nat.mod_eq_of_lt hx]
  · rw [swap32_swap32, Nat.mod_eq_of_lt hy]
  · rw [SSWAP16_SSWAP16, Nat.mod_eq_of_lt hx]
  · rw [SSWAP32_SSWAP32, Nat.mod_eq_of_lt hy]

/-- Witness of C1 at `x = 0x12AB`, `y = 0x12AB34CD`, swapping enabled. -/
theorem swap_involution_witness :
    (0x12AB < 65536 ∧ 0x12AB34CD < 4294967296)
    ∧ (__swap16 (__swap16 0x12AB) = 0x12AB ∧ __swap32 (__swap32 0x12AB34CD) = 0x12AB34CD
       ∧ SSWAP16 true (SSWAP16 true 0x12AB) = 0x12AB
       ∧ SSWAP32 true (SSWAP32 true 0x12AB34CD) = 0x12AB34CD) :=
  ⟨by decide, swap_involution 0x12AB 0x12AB34CD true (by decide) (by decide)⟩

/-! ## Lemmas on the checksum -/

theorem xor_lt_65536 {a b : Nat} (ha : a < 65536) (hb : b < 65536) : a ^^^ b < 65536 := by
  have h := @Nat.xor_lt_two_pow a b 16 (by norm_num; exact ha) (by norm_num; exact hb)
  norm_num at h
  exact h

theorem foldl_cksum_eq (ws : List Nat) (hws : ∀ w ∈ ws, w < 65536) :
    ∀ c : Nat, c < 65536 →
      ws.foldl (fun c w => (c ^^^ w) % 65536) c = ws.foldl (fun c w => c ^^^ w) c
      ∧ ws.foldl (fun c w => c ^^^ w) c < 65536 := by
  induction ws with
  | nil => intro c hc; exact ⟨rfl, hc⟩
  | cons w ws ih =>
    intro c hc
    have hw : w < 65536 := hws w (List.mem_cons_self _ _)
    have hx : c ^^^ w < 65536 := xor_lt_65536 hc hw
    simp only [List.foldl_cons]
    rw [Nat.mod_eq_of_lt hx]
    exact ih (fun v hv => hws v (List.mem_cons_of_mem _ hv)) (c ^^^ w) hx

theorem cksum_loop_eq (ws : List Nat) (hws : ∀ w ∈ ws, w < 65536) :
    cksum_loop ws = xor_words ws ∧ xor_words ws < 65536 :=
  foldl_cksum_eq ws hws 0 (by norm_num)

theorem foldl_xor_map_swap16 (ws : List Nat) :
    ∀ c : Nat, (ws.map __swap16).foldl (fun c w => c ^^^ w) (__swap16 c)
      = __swap16 (ws.foldl (fun c w => c ^^^ w) c) := by
  induction ws with
  | nil => intro c; rfl
  | cons w ws ih =>
    intro c
    simp only [List.map_cons, List.foldl_cons]
    rw [← swap16_xor]
    exact ih (c ^^^ w)

theorem xor_words_map_swap16 (ws : List Nat) :
    xor_words (ws.map __swap16) = __swap16 (xor_words ws) := by
  have h := foldl_xor_map_swap16 ws 0
  rw [swap16_zero] at h
  exact h

theorem word_of_bytes_lt (le : Bool) (b0 b1 : Nat) : word_of_bytes le b0 b1 < 65536 := by
  unfold word_of_bytes
  split <;> omega

theorem words_of_bytes_lt (le : Bool) {m : Nat} (a : Fin m → Nat) (n : Nat) :
    ∀ w ∈ words_of_bytes le a n, w < 65536 := by
  intro w hw
  simp only [words_of_bytes, List.mem_map] at hw
  obtain ⟨k, _, rfl⟩ := hw
  exact word_of_bytes_lt _ _ _

theorem words_of_u16_lt (x : Nat) : ∀ w ∈ words_of_u16 x, w < 65536 := by
  intro w hw
  simp only [words_of_u16, List.mem_singleton] at hw
  omega

theorem words_of_u32_lt (le : Bool) (x : Nat) : ∀ w ∈ words_of_u32 le x, w < 65536 := by
  intro w hw
  unfold words_of_u32 at hw
  split at hw <;> simp only [List.mem_cons, List.mem_singleton, List.not_mem_nil, or_false] at hw
    <;> omega

theorem words_of_u32s_lt (le : Bool) {m : Nat} (a : Fin m → Nat) (n : Nat) :
    ∀ w ∈ words_of_u32s le a n, w < 65536 := by
  intro w hw
  simp only [words_of_u32s, List.mem_flatten, List.mem_map] at hw
  obtain ⟨l, ⟨k, _, rfl⟩, hw⟩ := hw
  exact words_of_u32_lt _ _ w hw

theorem words_before_cksum_lt (le : Bool) (l : sun_disk_label) :
    ∀ w ∈ words_before_cksum le l, w < 65536 := by
  have htags : ∀ w ∈ ((List.range 8).map (fun k =>
      words_of_u16 (at_index l.part_tags k).tag
        ++ words_of_u16 (at_index l.part_tags k).flag)).flatten, w < 65536 := by
    intro w hw
    simp only [List.mem_flatten, List.mem_map] at hw
    obtain ⟨_, ⟨k, _, rfl⟩, hw⟩ := hw
    rcases List.mem_append.mp hw with h | h
    · exact words_of_u16_lt _ w h
    · exact words_of_u16_lt _ w h
  have hparts : ∀ w ∈ ((List.range 8).map (fun k =>
      words_of_u32 le (at_index l.partitions k).start_cylinder
        ++ words_of_u32 le (at_index l.partitions k).num_sectors)).flatten, w < 65536 := by
    intro w hw
    simp only [List.mem_flatten, List.mem_map] at hw
    obtain ⟨_, ⟨k, _, rfl⟩, hw⟩ := hw
    rcases List.mem_append.mp hw with h | h
    · exact words_of_u32_lt _ _ w h
    · exact words_of_u32_lt _ _ w h
  unfold words_before_cksum
  simp only [List.forall_mem_append]
  and_intros
  all_goals first
    | exact words_of_u16_lt _
    | exact words_of_u32_lt _ _
    | exact words_of_bytes_lt _ _ _
    | exact words_of_u32s_lt _ _ _
    | exact htags
    | exact hparts

theorem words_before_cksum_set_cksum (le : Bool) (l : sun_disk_label) (c : Nat) :
    words_before_cksum le { l with cksum := c } = words_before_cksum le l := rfl

theorem write_firstsector (le : Bool) (cxt : fdisk_context) (e1 e2 : Option Nat) :
    (sun_write_disklabel le cxt e1 e2).2.1.firstsector
      = { cxt.firstsector with cksum := cksum_loop (words_before_cksum le cxt.firstsector) } := by
  unfold sun_write_disklabel
  cases e1 <;> cases e2 <;> rfl

theorem write_other_endian (le : Bool) (cxt : fdisk_context) (e1 e2 : Option Nat) :
    (sun_write_disklabel le cxt e1 e2).2.1.other_endian = cxt.other_endian := by
  unfold sun_write_disklabel
  cases e1 <;> cases e2 <;> rfl

theorem map_SSWAP16_false (ws : List Nat) (h : ∀ w ∈ ws, w < 65536) :
    ws.map (SSWAP16 false) = ws := by
  conv_rhs => rw [← List.map_id ws]
  apply List.map_congr_left
  intro w hw
  simp [SSWAP16, Nat.mod_eq_of_lt (h w hw)]

theorem map_SSWAP16_true (ws : List Nat) : ws.map (SSWAP16 true) = ws.map __swap16 := by
  apply List.map_congr_left
  intro w _
  simp [SSWAP16]

theorem cksum_after_set (le : Bool) (l : sun_disk_label) (oe : Bool) :
    ∀ l1 : sun_disk_label, l1 = { l with cksum := cksum_loop (words_before_cksum le l) } →
    l1.cksum = xor_words (words_before_cksum le l1)
    ∧ __swap16 l1.cksum = xor_words ((words_before_cksum le l1).map __swap16)
    ∧ SSWAP16 oe l1.cksum = xor_words ((words_before_cksum le l1).map (SSWAP16 oe)) := by
  intro l1 h1
  have hc := cksum_loop_eq (words_before_cksum le l) (words_before_cksum_lt le l)
  have hw : words_before_cksum le l1 = words_before_cksum le l := by
    subst h1; exact words_before_cksum_set_cksum le l _
  have hck0 : l1.cksum = cksum_loop (words_before_cksum le l) := by
    rw [h1]
  have hck : l1.cksum = xor_words (words_before_cksum le l) := hck0.trans hc.1
  have hswap : __swap16 l1.cksum = xor_words ((words_before_cksum le l1).map __swap16) := by
    rw [xor_words_map_swap16, hw, hck]
  refine ⟨by rw [hw]; exact hck, hswap, ?_⟩
  cases oe
  · rw [map_SSWAP16_false _ (words_before_cksum_lt le l1), hw, hck]
    simp only [SSWAP16, Bool.false_eq_true, if_false]
    exact Nat.mod_eq_of_lt hc.2
  · rw [map_SSWAP16_true, ← hswap]
    simp [SSWAP16]

/-! ## Lemmas on the sector as bytes -/

theorem words_of_sector_append (le : Bool) (b : List Nat) :
    ∀ (n : Nat) (a : List Nat), a.length = 2 * n →
      words_of_sector le (a ++ b) = words_of_sector le a ++ words_of_sector le b := by
  intro n
  induction n with
  | zero =>
    intro a ha
    have : a = [] := List.length_eq_zero.mp (by omega)
    subst this
    rfl
  | succ n ih =>
    intro a ha
    match a, ha with
    | x :: y :: a2, ha =>
      have h2 : a2.length = 2 * n := by
        simp only [List.length_cons] at ha
        omega
      show word_of_bytes le x y :: words_of_sector le (a2 ++ b)
        = word_of_bytes le x y :: words_of_sector le a2 ++ words_of_sector le b
      rw [ih a2 h2]
      rfl
    | [_], ha => simp at ha; omega
    | [], ha => simp at ha

theorem words_of_sector_flatten (le : Bool) :
    ∀ (L : List (List Nat)), (∀ s ∈ L, ∃ n, s.length = 2 * n) →
      words_of_sector le L.flatten = (L.map (words_of_sector le)).flatten := by
  intro L
  induction L with
  | nil => intro _; rfl
  | cons s L ih =>
    intro h
    obtain ⟨n, hn⟩ := h s (List.mem_cons_self _ _)
    rw [List.flatten_cons, words_of_sector_append le _ n s hn,
      ih (fun t ht => h t (List.mem_cons_of_mem _ ht))]
    rfl

theorem words_bytes_of_u16 (le : Bool) (x : Nat) :
    words_of_sector le (bytes_of_u16 le x) = words_of_u16 x := by
  cases le
  · show [256 * (x / 256 % 256 % 256) + x % 256 % 256] = [x % 65536]
    congr 1
    omega
  · show [x % 256 % 256 + 256 * (x / 256 % 256 % 256)] = [x % 65536]
    congr 1
    omega

theorem words_bytes_of_u32 (le : Bool) (x : Nat) :
    words_of_sector le (bytes_of_u32 le x) = words_of_u32 le x := by
  cases le
  · show [256 * (x / 16777216 % 256 % 256) + x / 65536 % 256 % 256,
        256 * (x / 256 % 256 % 256) + x % 256 % 256] = [x / 65536 % 65536, x % 65536]
    congr 1
    · omega
    · congr 1
      omega
  · show [x % 256 % 256 + 256 * (x / 256 % 256 % 256),
        x / 65536 % 256 % 256 + 256 * (x / 16777216 % 256 % 256)]
      = [x % 65536, x / 65536 % 65536]
    congr 1
    · omega
    · congr 1
      omega

theorem word_of_bytes_mod (le : Bool) (x y : Nat) :
    word_of_bytes le (x % 256) (y % 256) = word_of_bytes le x y := by
  unfold word_of_bytes
  simp only [Nat.mod_mod]

theorem words_bytes_of_chars (le : Bool) {m : Nat} (a : Fin m → Nat) :
    ∀ n, words_of_sector le (bytes_of_chars a (2 * n)) = words_of_bytes le a n := by
  intro n
  induction n with
  | zero => rfl
  | succ n ih =>
    have e : 2 * (n + 1) = 2 * n + 1 + 1 := by omega
    unfold bytes_of_chars words_of_bytes at *
    rw [e, List.range_succ, List.range_succ, List.map_append, List.map_append,
      List.append_assoc,
      words_of_sector_append le _ n _ (by rw [List.length_map, List.length_range]),
      ih, List.range_succ, List.map_append]
    congr 1
    show [word_of_bytes le (at_index a (2 * n) % 256) (at_index a (2 * n + 1) % 256)] = _
    rw [word_of_bytes_mod]
    rfl

theorem swap16_of_bytes (a b : Nat) (ha : a < 256) (hb : b < 256) :
    __swap16 (a + 256 * b) = b + 256 * a := by
  have e1 : a + 256 * b = 2 ^ 8 * b + a := by omega
  have e2 : b + 256 * a = 2 ^ 8 * a + b := by omega
  have ha8 : a < 2 ^ 8 := by omega
  have hb8 : b < 2 ^ 8 := by omega
  apply Nat.eq_of_testBit_eq
  intro i
  rw [testBit_swap16, e1, e2, Nat.testBit_mul_pow_two_add _ ha8,
    Nat.testBit_mul_pow_two_add _ ha8, Nat.testBit_mul_pow_two_add _ hb8]
  by_cases h8 : i < 8
  · simp [h8]
  · by_cases h16 : i < 16
    · have h2 : i - 8 < 8 := by omega
      simp [h8, h16, h2]
    · have hlt : a < 2 ^ (i - 8) := by
        have : (2 : Nat) ^ 8 ≤ 2 ^ (i - 8) := Nat.pow_le_pow_right (by norm_num) (by omega)
        omega
      simp [h8, h16, Nat.testBit_lt_two_pow hlt]

theorem word_of_bytes_other (le : Bool) (b0 b1 : Nat) :
    word_of_bytes (!le) b0 b1 = __swap16 (word_of_bytes le b0 b1) := by
  have h0 : b0 % 256 < 256 := Nat.mod_lt _ (by norm_num)
  have h1 : b1 % 256 < 256 := Nat.mod_lt _ (by norm_num)
  cases le
  · show b0 % 256 + 256 * (b1 % 256) = __swap16 (256 * (b0 % 256) + b1 % 256)
    rw [Nat.add_comm (256 * (b0 % 256)), swap16_of_bytes _ _ h1 h0]
  · show 256 * (b0 % 256) + b1 % 256 = __swap16 (b0 % 256 + 256 * (b1 % 256))
    rw [swap16_of_bytes _ _ h0 h1, Nat.add_comm]

theorem words_of_sector_other (le : Bool) :
    ∀ (n : Nat) (bs : List Nat), bs.length ≤ n →
      words_of_sector (!le) bs = (words_of_sector le bs).map __swap16 := by
  intro n
  induction n using Nat.strong_induction_on with
  | _ n ih =>
    intro bs hn
    match bs, hn with
    | [], _ => rfl
    | [_], _ => rfl
    | x :: y :: rest, hn =>
      show word_of_bytes (!le) x y :: words_of_sector (!le) rest
        = __swap16 (word_of_bytes le x y) :: (words_of_sector le rest).map __swap16
      simp only [List.length_cons] at hn
      rw [word_of_bytes_other, ih rest.length (by omega) rest (Nat.le_refl _)]

theorem words_of_sector_lt (le : Bool) :
    ∀ (n : Nat) (bs : List Nat), bs.length ≤ n → ∀ w ∈ words_of_sector le bs, w < 65536 := by
  intro n
  induction n using Nat.strong_induction_on with
  | _ n ih =>
    intro bs hn w hw
    match bs, hn, hw with
    | [], _, hw => exact absurd hw (List.not_mem_nil w)
    | [_], _, hw => exact absurd hw (List.not_mem_nil w)
    | x :: y :: rest, hn, hw =>
      simp only [List.length_cons] at hn
      have hw2 : w ∈ word_of_bytes le x y :: words_of_sector le rest := hw
      rcases List.mem_cons.mp hw2 with h | h
      · rw [h]
        exact word_of_bytes_lt le x y
      · exact ih rest.length (by omega) rest (Nat.le_refl _) w h

theorem flatten_length_const {α : Type} (f : Nat → List α) (c : Nat)
    (h : ∀ k, (f k).length = c) :
    ∀ n, ((List.range n).map f).flatten.length = n * c := by
  intro n
  induction n with
  | zero => simp
  | succ n ih =>
    rw [List.range_succ, List.map_append, List.flatten_append, List.length_append, ih]
    simp only [List.map_cons, List.map_nil, List.flatten_cons, List.flatten_nil,
      List.append_nil, h]
    rw [Nat.succ_mul]

theorem bytes_of_u16_length (le : Bool) (x : Nat) : (bytes_of_u16 le x).length = 2 := by
  cases le <;> rfl

theorem bytes_of_u32_length (le : Bool) (x : Nat) : (bytes_of_u32 le x).length = 4 := by
  cases le <;> rfl

theorem bytes_of_chars_length {m : Nat} (a : Fin m → Nat) (n : Nat) :
    (bytes_of_chars a n).length = n := by
  unfold bytes_of_chars
  rw [List.length_map, List.length_range]

theorem bytes_of_u32s_length (le : Bool) {m : Nat} (a : Fin m → Nat) (n : Nat) :
    (bytes_of_u32s le a n).length = n * 4 :=
  flatten_length_const _ 4 (fun _ => bytes_of_u32_length le _) n

theorem words_bytes_of_u32s (le : Bool) {m : Nat} (a : Fin m → Nat) (n : Nat) :
    words_of_sector le (bytes_of_u32s le a n) = words_of_u32s le a n := by
  unfold bytes_of_u32s words_of_u32s
  rw [words_of_sector_flatten, List.map_map]
  · congr 1
    apply List.map_congr_left
    intro k _
    exact words_bytes_of_u32 le _
  · intro s hs
    obtain ⟨k, _, rfl⟩ := List.mem_map.mp hs
    exact ⟨2, bytes_of_u32_length le _⟩

theorem words_bytes_of_tags (le : Bool) (tags : Fin 8 → sun_tag_flag) :
    words_of_sector le ((List.range 8).map (fun k =>
        bytes_of_u16 le (at_index tags k).tag ++ bytes_of_u16 le (at_index tags k).flag)).flatten
      = ((List.range 8).map (fun k =>
        words_of_u16 (at_index tags k).tag ++ words_of_u16 (at_index tags k).flag)).flatten := by
  rw [words_of_sector_flatten, List.map_map]
  · congr 1
    apply List.map_congr_left
    intro k _
    show words_of_sector le (bytes_of_u16 le _ ++ bytes_of_u16 le _) = _
    rw [words_of_sector_append le _ 1 _ (bytes_of_u16_length le _), words_bytes_of_u16,
      words_bytes_of_u16]
  · intro s hs
    obtain ⟨k, _, rfl⟩ := List.mem_map.mp hs
    exact ⟨2, by rw [List.length_append, bytes_of_u16_length, bytes_of_u16_length]⟩

theorem words_bytes_of_partitions (le : Bool) (parts : Fin 8 → sun_partition) :
    words_of_sector le ((List.range 8).map (fun k =>
        bytes_of_u32 le (at_index parts k).start_cylinder
        ++ bytes_of_u32 le (at_index parts k).num_sectors)).flatten
      = ((List.range 8).map (fun k =>
        words_of_u32 le (at_index parts k).start_cylinder
        ++ words_of_u32 le (at_index parts k).num_sectors)).flatten := by
  rw [words_of_sector_flatten, List.map_map]
  · congr 1
    apply List.map_congr_left
    intro k _
    show words_of_sector le (bytes_of_u32 le _ ++ bytes_of_u32 le _) = _
    rw [words_of_sector_append le _ 2 _ (bytes_of_u32_length le _), words_bytes_of_u32,
      words_bytes_of_u32]
  · intro s hs
    obtain ⟨k, _, rfl⟩ := List.mem_map.mp hs
    exact ⟨4, by rw [List.length_append, bytes_of_u32_length, bytes_of_u32_length]⟩

theorem tags_bytes_length (le : Bool) (tags : Fin 8 → sun_tag_flag) :
    ((List.range 8).map (fun k =>
        bytes_of_u16 le (at_index tags k).tag
        ++ bytes_of_u16 le (at_index tags k).flag)).flatten.length = 32 :=
  flatten_length_const _ 4
    (fun _ => by rw [List.length_append, bytes_of_u16_length, bytes_of_u16_length]) 8

theorem partitions_bytes_length (le : Bool) (parts : Fin 8 → sun_partition) :
    ((List.range 8).map (fun k =>
        bytes_of_u32 le (at_index parts k).start_cylinder
        ++ bytes_of_u32 le (at_index parts k).num_sectors)).flatten.length = 64 :=
  flatten_length_const _ 8
    (fun _ => by rw [List.length_append, bytes_of_u32_length, bytes_of_u32_length]) 8

theorem label_members_length (le : Bool) (l : sun_disk_label) :
    (label_members le l).flatten.length = 510 := by
  simp only [label_members, List.flatten_cons, List.flatten_nil, List.length_append,
    List.length_nil, bytes_of_u16_length, bytes_of_u32_length, bytes_of_chars_length,
    bytes_of_u32s_length, tags_bytes_length, partitions_bytes_length]

theorem label_members_even (le : Bool) (l : sun_disk_label) :
    ∀ s ∈ label_members le l, ∃ n, s.length = 2 * n := by
  have key : ∀ s ∈ label_members le l, s.length % 2 = 0 := by
    simp only [label_members, List.forall_mem_cons, bytes_of_u16_length, bytes_of_u32_length,
      bytes_of_chars_length, bytes_of_u32s_length, tags_bytes_length, partitions_bytes_length]
    simp
  intro s hs
  exact ⟨s.length / 2, by have := key s hs; omega⟩

theorem label_members_words (le : Bool) (l : sun_disk_label) :
    words_of_sector le (label_members le l).flatten = words_before_cksum le l := by
  rw [words_of_sector_flatten le _ (label_members_even le l)]
  have c1 : words_of_sector le (bytes_of_chars l.label_id 128) = words_of_bytes le l.label_id 64 :=
    words_bytes_of_chars le _ 64
  have c2 : words_of_sector le (bytes_of_chars l.volume_id 8) = words_of_bytes le l.volume_id 4 :=
    words_bytes_of_chars le _ 4
  have c3 : words_of_sector le (bytes_of_chars l.pad 148) = words_of_bytes le l.pad 74 :=
    words_bytes_of_chars le _ 74
  simp only [label_members, List.map_cons, List.map_nil, List.flatten_cons, List.flatten_nil,
    List.append_nil, c1, c2, c3, words_bytes_of_u16, words_bytes_of_u32, words_bytes_of_u32s,
    words_bytes_of_tags, words_bytes_of_partitions]
  unfold words_before_cksum
  simp only [List.append_assoc]

theorem serialize_length (le : Bool) (l : sun_disk_label) : (serialize le l).length = 512 := by
  unfold serialize
  rw [List.length_append, label_members_length, bytes_of_u16_length]

theorem serialize_take (le : Bool) (l : sun_disk_label) :
    (serialize le l).take 510 = (label_members le l).flatten := by
  unfold serialize
  exact List.take_left' (label_members_length le l)

theorem serialize_stored (le : Bool) (l : sun_disk_label) :
    stored_checksum le (serialize le l) = l.cksum % 65536 := by
  have h := words_bytes_of_u16 le l.cksum
  unfold stored_checksum serialize
  rw [List.getD_append_right _ _ _ _ (by rw [label_members_length]),
    List.getD_append_right _ _ _ _ (by rw [label_members_length]; omega),
    label_members_length]
  cases le
  · have e : word_of_bytes false (l.cksum / 256 % 256) (l.cksum % 256) = l.cksum % 65536 := by
      injection h
    exact e
  · have e : word_of_bytes true (l.cksum % 256) (l.cksum / 256 % 256) = l.cksum % 65536 := by
      injection h
    exact e

theorem serialize_stored_other (le : Bool) (bs : List Nat) :
    stored_checksum (!le) bs = __swap16 (stored_checksum le bs) :=
  word_of_bytes_other le _ _

theorem serialize_compute (le : Bool) (l : sun_disk_label) :
    compute le (serialize le l) = xor_words (words_before_cksum le l) := by
  unfold compute
  rw [serialize_take, label_members_words]

theorem compute_other (le : Bool) (bs : List Nat) :
    compute (!le) bs = __swap16 (compute le bs) := by
  unfold compute
  rw [words_of_sector_other le _ _ (Nat.le_refl _), xor_words_map_swap16]

/-! ## C2 -/

/-- C2: after `sun_write_disklabel`, whatever the label, `other_endian`, the
host byte order and the outcome of `lseek` and `write`, the 512 bytes of the
sector satisfy: the checksum field (the word at byte offset 510) equals the
XOR of all 16-bit words from offset 0 up to, not including, that field, both
when the words and the checksum are read in host order and when all of them
are read byte-swapped (`order` is either order); the field read in host order
is the member `cksum`, which is the XOR of the 255 words `words_before_cksum`
lists, also under `__swap16` and under `SSWAP16` for the flag of the state,
which the call leaves as it was; on success the sector handed to the device
is that label. -/
theorem write_checksum_fresh (little_endian_host : Bool) (cxt : fdisk_context)
    (lseek_errno write_errno : Option Nat) :
    (serialize little_endian_host
        (sun_write_disklabel little_endian_host
          cxt lseek_errno write_errno).2.1.firstsector).length = 512
    ∧ (∀ order : Bool,
        stored_checksum order (serialize little_endian_host
          (sun_write_disklabel little_endian_host cxt lseek_errno write_errno).2.1.firstsector)
        = compute order (serialize little_endian_host
          (sun_write_disklabel little_endian_host
            cxt lseek_errno write_errno).2.1.firstsector))
    ∧ stored_checksum little_endian_host (serialize little_endian_host
          (sun_write_disklabel little_endian_host cxt lseek_errno write_errno).2.1.firstsector)
      = (sun_write_disklabel little_endian_host
          cxt lseek_errno write_errno).2.1.firstsector.cksum
    ∧ (sun_write_disklabel little_endian_host cxt lseek_errno write_errno).2.1.firstsector.cksum
      = xor_words (words_before_cksum little_endian_host
          (sun_write_disklabel little_endian_host cxt lseek_errno write_errno).2.1.firstsector)
    ∧ __swap16
        (sun_write_disklabel little_endian_host cxt lseek_errno write_errno).2.1.firstsector.cksum
      = xor_words ((words_before_cksum little_endian_host
          (sun_write_disklabel little_endian_host
            cxt lseek_errno write_errno).2.1.firstsector).map __swap16)
    ∧ SSWAP16 cxt.other_endian
        (sun_write_disklabel little_endian_host cxt lseek_errno write_errno).2.1.firstsector.cksum
      = xor_words ((words_before_cksum little_endian_host
          (sun_write_disklabel little_endian_host
            cxt lseek_errno write_errno).2.1.firstsector).map (SSWAP16 cxt.other_endian))
    ∧ (sun_write_disklabel little_endian_host cxt lseek_errno write_errno).2.1.other_endian
      = cxt.other_endian
    ∧ (sun_write_disklabel little_endian_host cxt none none).2.2
      = some (sun_write_disklabel little_endian_host
          cxt lseek_errno write_errno).2.1.firstsector := by
  have h := cksum_after_set little_endian_host cxt.firstsector cxt.other_endian _
    (write_firstsector little_endian_host cxt lseek_errno write_errno)
  have hdev : (sun_write_disklabel little_endian_host cxt none none).2.2
      = some (sun_write_disklabel little_endian_host
          cxt lseek_errno write_errno).2.1.firstsector := by
    rw [write_firstsector]
    rfl
  generalize (sun_write_disklabel little_endian_host
    cxt lseek_errno write_errno).2.1.firstsector = l1 at h hdev ⊢
  have hlt : l1.cksum < 65536 := by
    rw [h.1]
    exact (cksum_loop_eq _ (words_before_cksum_lt little_endian_host l1)).2
  have hst : stored_checksum little_endian_host (serialize little_endian_host l1)
      = l1.cksum := by
    rw [serialize_stored, Nat.mod_eq_of_lt hlt]
  have hhost : stored_checksum little_endian_host (serialize little_endian_host l1)
      = compute little_endian_host (serialize little_endian_host l1) := by
    rw [hst, serialize_compute]
    exact h.1
  refine ⟨serialize_length _ _, ?_, hst, h.1, h.2.1, h.2.2, ?_, ?_⟩
  · intro order
    by_cases ho : order = little_endian_host
    · rw [ho]
      exact hhost
    · have ho2 : order = !little_endian_host := by
        cases order <;> cases little_endian_host <;> simp at ho ⊢
      rw [ho2, serialize_stored_other, compute_other, hhost]
  · exact write_other_endian _ _ _ _
  · exact hdev

/-! ## Lemmas on probe -/

theorem probe_unrecognized (le : Bool) (cxt : fdisk_context)
    (h : cxt.firstsector.magic ≠ SUN_LABEL_MAGIC ∧ cxt.firstsector.magic ≠ SUN_LABEL_MAGIC_SWAPPED) :
    sun_probe_label le cxt = (0, { cxt with other_endian := false }) := by
  unfold sun_probe_label
  simp only [if_pos h]

theorem probe_recognized (le : Bool) (cxt : fdisk_context)
    (h : cxt.firstsector.magic = SUN_LABEL_MAGIC ∨ cxt.firstsector.magic = SUN_LABEL_MAGIC_SWAPPED) :
    (sun_probe_label le cxt).1 = 1
    ∧ (sun_probe_label le cxt).2.other_endian
        = decide (cxt.firstsector.magic = SUN_LABEL_MAGIC_SWAPPED) := by
  have hn : ¬ (cxt.firstsector.magic ≠ SUN_LABEL_MAGIC
      ∧ cxt.firstsector.magic ≠ SUN_LABEL_MAGIC_SWAPPED) := by
    intro hc
    rcases h with h | h
    · exact hc.1 h
    · exact hc.2 h
  unfold sun_probe_label
  simp only [if_neg hn]
  split
  · exact ⟨rfl, rfl⟩
  · split
    · exact ⟨rfl, rfl⟩
    · exact ⟨rfl, rfl⟩

/-! ## C3 -/

/-- C3: `sun_probe_label` returns 1 exactly when the magic, read in host
order, is `SUN_LABEL_MAGIC` or `SUN_LABEL_MAGIC_SWAPPED`, and 0 otherwise,
whatever the checksum field holds; when it returns 1, `other_endian` is true
exactly when the magic is the swapped sentinel; when it returns 0,
`other_endian` is false and the label is unchanged. -/
theorem probe_iff_magic (little_endian_host : Bool) (cxt : fdisk_context) :
    ((sun_probe_label little_endian_host cxt).1 = 1 ↔
      (cxt.firstsector.magic = SUN_LABEL_MAGIC
        ∨ cxt.firstsector.magic = SUN_LABEL_MAGIC_SWAPPED))
    ∧ ((sun_probe_label little_endian_host cxt).1 = 0
        ∨ (sun_probe_label little_endian_host cxt).1 = 1)
    ∧ (∀ c : Nat,
        (sun_probe_label little_endian_host
          { cxt with firstsector := { cxt.firstsector with cksum := c } }).1
        = (sun_probe_label little_endian_host cxt).1)
    ∧ ((sun_probe_label little_endian_host cxt).1 = 1 →
        ((sun_probe_label little_endian_host cxt).2.other_endian = true
          ↔ cxt.firstsector.magic = SUN_LABEL_MAGIC_SWAPPED))
    ∧ ((sun_probe_label little_endian_host cxt).1 = 0 →
        (sun_probe_label little_endian_host cxt).2.other_endian = false
        ∧ (sun_probe_label little_endian_host cxt).2.firstsector = cxt.firstsector) := by
  by_cases h : cxt.firstsector.magic = SUN_LABEL_MAGIC
      ∨ cxt.firstsector.magic = SUN_LABEL_MAGIC_SWAPPED
  · have hr := probe_recognized little_endian_host cxt h
    refine ⟨⟨fun _ => h, fun _ => hr.1⟩, Or.inr hr.1, ?_, ?_, ?_⟩
    · intro c
      rw [hr.1]
      exact (probe_recognized little_endian_host
        { cxt with firstsector := { cxt.firstsector with cksum := c } } h).1
    · intro _
      rw [hr.2]
      simp
    · intro h0
      rw [hr.1] at h0
      exact absurd h0 (by decide)
  · have hn : cxt.firstsector.magic ≠ SUN_LABEL_MAGIC
        ∧ cxt.firstsector.magic ≠ SUN_LABEL_MAGIC_SWAPPED :=
      ⟨fun e => h (Or.inl e), fun e => h (Or.inr e)⟩
    have hr := probe_unrecognized little_endian_host cxt hn
    have hr1 : (sun_probe_label little_endian_host cxt).1 = 0 := by rw [hr]
    refine ⟨⟨?_, fun e => absurd e h⟩, Or.inl hr1, ?_, ?_, ?_⟩
    · intro h1
      rw [hr1] at h1
      exact absurd h1 (by decide)
    · intro c
      rw [hr, probe_unrecognized little_endian_host
        { cxt with firstsector := { cxt.firstsector with cksum := c } } hn]
    · intro h1
      rw [hr1] at h1
      exact absurd h1 (by decide)
    · intro _
      rw [hr]
      exact ⟨rfl, rfl⟩

theorem probe_fixup (le : Bool) (cxt : fdisk_context)
    (hmagic : cxt.firstsector.magic = SUN_LABEL_MAGIC
      ∨ cxt.firstsector.magic = SUN_LABEL_MAGIC_SWAPPED)
    (hsum : probe_csum le cxt.firstsector = 0)
    (hbad : cxt.firstsector.version
          ≠ SSWAP32 (decide (cxt.firstsector.magic = SUN_LABEL_MAGIC_SWAPPED)) SUN_LABEL_VERSION
      ∨ cxt.firstsector.sanity
          ≠ SSWAP32 (decide (cxt.firstsector.magic = SUN_LABEL_MAGIC_SWAPPED)) SUN_LABEL_SANE
      ∨ cxt.firstsector.num_partitions
          ≠ SSWAP16 (decide (cxt.firstsector.magic = SUN_LABEL_MAGIC_SWAPPED)) SUN_NUM_PARTITIONS) :
    (sun_probe_label le cxt).2.firstsector.version
      = SSWAP32 (decide (cxt.firstsector.magic = SUN_LABEL_MAGIC_SWAPPED)) SUN_LABEL_VERSION
    ∧ (sun_probe_label le cxt).2.firstsector.sanity
      = SSWAP32 (decide (cxt.firstsector.magic = SUN_LABEL_MAGIC_SWAPPED)) SUN_LABEL_SANE
    ∧ (sun_probe_label le cxt).2.firstsector.num_partitions
      = SSWAP16 (decide (cxt.firstsector.magic = SUN_LABEL_MAGIC_SWAPPED)) SUN_NUM_PARTITIONS
    ∧ 0 ∈ (sun_probe_label le cxt).2.changed := by
  have hn : ¬ (cxt.firstsector.magic ≠ SUN_LABEL_MAGIC
      ∧ cxt.firstsector.magic ≠ SUN_LABEL_MAGIC_SWAPPED) := by
    intro hc
    rcases hmagic with h | h
    · exact hc.1 h
    · exact hc.2 h
  have hfix : (decide (cxt.firstsector.version
          ≠ SSWAP32 (decide (cxt.firstsector.magic = SUN_LABEL_MAGIC_SWAPPED)) SUN_LABEL_VERSION)
      || decide (cxt.firstsector.sanity
          ≠ SSWAP32 (decide (cxt.firstsector.magic = SUN_LABEL_MAGIC_SWAPPED)) SUN_LABEL_SANE)
      || decide (cxt.firstsector.num_partitions
          ≠ SSWAP16 (decide (cxt.firstsector.magic = SUN_LABEL_MAGIC_SWAPPED)) SUN_NUM_PARTITIONS))
      = true := by
    simp only [Bool.or_eq_true, decide_eq_true_eq]
    rcases hbad with h | h | h
    · exact Or.inl (Or.inl h)
    · exact Or.inl (Or.inr h)
    · exact Or.inr h
  unfold sun_probe_label
  simp only [if_neg hn, hsum, ne_eq, not_true_eq_false, if_false, hfix, if_true, set_changed]
  exact ⟨trivial, trivial, trivial, List.mem_cons_self _ _⟩

theorem probe_bad_cksum (le : Bool) (cxt : fdisk_context)
    (hmagic : cxt.firstsector.magic = SUN_LABEL_MAGIC
      ∨ cxt.firstsector.magic = SUN_LABEL_MAGIC_SWAPPED)
    (hsum : probe_csum le cxt.firstsector ≠ 0) :
    sun_probe_label le cxt
      = (1, { cxt with
          other_endian := decide (cxt.firstsector.magic = SUN_LABEL_MAGIC_SWAPPED) }) := by
  have hn : ¬ (cxt.firstsector.magic ≠ SUN_LABEL_MAGIC
      ∧ cxt.firstsector.magic ≠ SUN_LABEL_MAGIC_SWAPPED) := by
    intro hc
    rcases hmagic with h | h
    · exact hc.1 h
    · exact hc.2 h
  unfold sun_probe_label
  simp only [if_neg hn, if_pos hsum]

theorem probe_csum_magic_only : probe_csum true label_magic_only = 0xDABE := by rfl

theorem probe_csum_stale_fields : probe_csum true label_stale_fields = 0 := by rfl

/-! ## C4 -/

/-- C4, the claim as stated fails: the label `label_magic_only` has a
recognized magic and a wrong `version`, yet after `sun_probe_label` the
`version` is still 0, not the expected constant, and nothing is marked
changed, because its checksum is wrong. -/
theorem probe_fixup_needs_valid_cksum :
    (context_of label_magic_only).firstsector.magic = SUN_LABEL_MAGIC
    ∧ (context_of label_magic_only).firstsector.version ≠ SSWAP32 false SUN_LABEL_VERSION
    ∧ (sun_probe_label true (context_of label_magic_only)).2.other_endian = false
    ∧ (sun_probe_label true (context_of label_magic_only)).2.firstsector.version = 0
    ∧ SSWAP32 false SUN_LABEL_VERSION = 1
    ∧ (sun_probe_label true (context_of label_magic_only)).2.changed = [] := by
  have h := probe_bad_cksum true (context_of label_magic_only) (Or.inl rfl)
    (by rw [show (context_of label_magic_only).firstsector = label_magic_only from rfl,
          probe_csum_magic_only]; decide)
  rw [h]
  exact ⟨rfl, by decide, by decide, rfl, by decide, rfl⟩

/-- C4 as amended: for every label with a recognized magic whose checksum is
valid (the XOR of all 256 words is 0) and in which `version`, `sanity` or
`num_partitions` differs from its expected constant encoded in the label's
byte order, after `sun_probe_label` all three fields hold the expected
constants in that byte order and slot 0 is marked changed; with a wrong
checksum the label and the marks are left as they were. -/
theorem probe_fixes_fields (little_endian_host : Bool) (cxt : fdisk_context)
    (hmagic : cxt.firstsector.magic = SUN_LABEL_MAGIC
      ∨ cxt.firstsector.magic = SUN_LABEL_MAGIC_SWAPPED) :
    (sun_probe_label little_endian_host cxt).2.other_endian
      = decide (cxt.firstsector.magic = SUN_LABEL_MAGIC_SWAPPED)
    ∧ (probe_csum little_endian_host cxt.firstsector = 0 →
        (cxt.firstsector.version
            ≠ SSWAP32 (sun_probe_label little_endian_host cxt).2.other_endian SUN_LABEL_VERSION
          ∨ cxt.firstsector.sanity
            ≠ SSWAP32 (sun_probe_label little_endian_host cxt).2.other_endian SUN_LABEL_SANE
          ∨ cxt.firstsector.num_partitions
            ≠ SSWAP16 (sun_probe_label little_endian_host cxt).2.other_endian SUN_NUM_PARTITIONS) →
        (sun_probe_label little_endian_host cxt).2.firstsector.version
          = SSWAP32 (sun_probe_label little_endian_host cxt).2.other_endian SUN_LABEL_VERSION
        ∧ (sun_probe_label little_endian_host cxt).2.firstsector.sanity
          = SSWAP32 (sun_probe_label little_endian_host cxt).2.other_endian SUN_LABEL_SANE
        ∧ (sun_probe_label little_endian_host cxt).2.firstsector.num_partitions
          = SSWAP16 (sun_probe_label little_endian_host cxt).2.other_endian SUN_NUM_PARTITIONS
        ∧ 0 ∈ (sun_probe_label little_endian_host cxt).2.changed)
    ∧ (probe_csum little_endian_host cxt.firstsector ≠ 0 →
        (sun_probe_label little_endian_host cxt).2.firstsector = cxt.firstsector
        ∧ (sun_probe_label little_endian_host cxt).2.changed = cxt.changed) := by
  have hoe := (probe_recognized little_endian_host cxt hmagic).2
  refine ⟨hoe, ?_, ?_⟩
  · intro hsum hbad
    rw [hoe] at hbad ⊢
    exact probe_fixup little_endian_host cxt hmagic hsum hbad
  · intro hsum
    rw [probe_bad_cksum little_endian_host cxt hmagic hsum]
    exact ⟨rfl, rfl⟩

/-- Witness of C4 as amended: `label_stale_fields` has the magic, a valid
checksum and a wrong `version`; probe repairs the three fields and marks
slot 0. -/
theorem probe_fixes_fields_witness :
    ((context_of label_stale_fields).firstsector.magic = SUN_LABEL_MAGIC
      ∨ (context_of label_stale_fields).firstsector.magic = SUN_LABEL_MAGIC_SWAPPED)
    ∧ probe_csum true (context_of label_stale_fields).firstsector = 0
    ∧ (sun_probe_label true (context_of label_stale_fields)).2.firstsector.version
        = SSWAP32 (sun_probe_label true (context_of label_stale_fields)).2.other_endian
            SUN_LABEL_VERSION
    ∧ 0 ∈ (sun_probe_label true (context_of label_stale_fields)).2.changed :=
  have h := probe_fixes_fields true (context_of label_stale_fields) (Or.inl rfl)
  have hs : probe_csum true (context_of label_stale_fields).firstsector = 0 :=
    probe_csum_stale_fields
  have hv : (context_of label_stale_fields).firstsector.version
      ≠ SSWAP32 (sun_probe_label true (context_of label_stale_fields)).2.other_endian
          SUN_LABEL_VERSION := by
    rw [h.1]; decide
  ⟨Or.inl rfl, hs, (h.2.1 hs (Or.inl hv)).1, (h.2.1 hs (Or.inl hv)).2.2.2⟩

/-! ## C5 -/

/-- C5, the claim as stated fails: `label_magic_only` is recognized by
`sun_probe_label`, which leaves its fields alone because the checksum is
wrong; writing it then persists a sector whose `sanity`, `version` and
`num_partitions` are still 0, none of them the expected constant. -/
theorem write_keeps_wrong_fields :
    ∃ s : sun_disk_label,
      (sun_write_disklabel true (sun_probe_label true (context_of label_magic_only)).2
        none none).2.2 = some s
      ∧ (sun_probe_label true (context_of label_magic_only)).1 = 1
      ∧ (sun_probe_label true (context_of label_magic_only)).2.other_endian = false
      ∧ s.sanity = 0 ∧ s.version = 0 ∧ s.num_partitions = 0
      ∧ SSWAP32 false SUN_LABEL_SANE ≠ 0
      ∧ SSWAP32 false SUN_LABEL_VERSION ≠ 0
      ∧ SSWAP16 false SUN_NUM_PARTITIONS ≠ 0 :=
  ⟨_, rfl, rfl, rfl, rfl, rfl, rfl, by decide, by decide, by decide⟩

/-- C5 as amended: when `lseek` and `write` succeed, `sun_write_disklabel`
returns 0 and the sector it persists carries `sanity`, `version` and
`num_partitions` exactly as the in-memory label holds them at the call (only
the checksum is rewritten); so the persisted fields are the expected
constants whenever the in-memory fields are. -/
theorem write_persists_fields (little_endian_host : Bool) (cxt : fdisk_context) :
    (sun_write_disklabel little_endian_host cxt none none).1 = 0
    ∧ ∃ s : sun_disk_label,
      (sun_write_disklabel little_endian_host cxt none none).2.2 = some s
      ∧ s.sanity = cxt.firstsector.sanity
      ∧ s.version = cxt.firstsector.version
      ∧ s.num_partitions = cxt.firstsector.num_partitions
      ∧ s = { cxt.firstsector with
              cksum := cksum_loop (words_before_cksum little_endian_host cxt.firstsector) } :=
  ⟨rfl, _, rfl, rfl, rfl, rfl, rfl⟩

/-! ## Lemmas on `fetch_sun` -/

theorem fetch_sun_slot_starts (cxt : fdisk_context) (st : fetch_state) (a i : Nat) :
    (fetch_sun_slot cxt st a).starts i
      = if i = a then (if slot_is_counted cxt a then slot_start cxt a else 0) else st.starts i := by
  unfold fetch_sun_slot
  by_cases hc : slot_is_counted cxt a = true
  · simp only [hc, if_true]
    have hs : ∀ st1 : fetch_state,
        st1.starts = Function.update st.starts a (slot_start cxt a) →
        st1.starts i = if i = a then slot_start cxt a else st.starts i := by
      intro st1 h1
      rw [h1]
      by_cases hia : i = a
      · subst hia; simp
      · simp [hia]
    split
    · split
      · exact hs _ rfl
      · split
        · exact hs _ rfl
        · exact hs _ rfl
    · exact hs _ rfl
  · simp only [hc, Bool.false_eq_true, if_false]
    by_cases hia : i = a
    · subst hia; simp
    · simp [hia]

theorem fetch_sun_slot_lens (cxt : fdisk_context) (st : fetch_state) (a i : Nat) :
    (fetch_sun_slot cxt st a).lens i
      = if i = a then (if slot_is_counted cxt a then slot_len cxt a else 0) else st.lens i := by
  unfold fetch_sun_slot
  by_cases hc : slot_is_counted cxt a = true
  · simp only [hc, if_true]
    have hs : ∀ st1 : fetch_state,
        st1.lens = Function.update st.lens a (slot_len cxt a) →
        st1.lens i = if i = a then slot_len cxt a else st.lens i := by
      intro st1 h1
      rw [h1]
      by_cases hia : i = a
      · subst hia; simp
      · simp [hia]
    split
    · split
      · exact hs _ rfl
      · split
        · exact hs _ rfl
        · exact hs _ rfl
    · exact hs _ rfl
  · simp only [hc, Bool.false_eq_true, if_false]
    by_cases hia : i = a
    · subst hia; simp
    · simp [hia]

theorem fetch_fold_arrays (cxt : fdisk_context) (i : Nat) :
    ∀ (L : List Nat) (st : fetch_state),
      ((L.foldl (fetch_sun_slot cxt) st).starts i
        = if i ∈ L then (if slot_is_counted cxt i then slot_start cxt i else 0) else st.starts i)
      ∧ ((L.foldl (fetch_sun_slot cxt) st).lens i
        = if i ∈ L then (if slot_is_counted cxt i then slot_len cxt i else 0) else st.lens i) := by
  intro L
  induction L with
  | nil => intro st; simp
  | cons a L ih =>
    intro st
    simp only [List.foldl_cons, List.mem_cons]
    have h := ih (fetch_sun_slot cxt st a)
    rw [h.1, h.2, fetch_sun_slot_starts, fetch_sun_slot_lens]
    by_cases hL : i ∈ L
    · simp [hL]
    · by_cases hia : i = a
      · subst hia; simp [hL]
      · simp [hL, hia]

theorem fetch_sun_arrays (cxt : fdisk_context) (i : Nat) (hi : i < 8) :
    (fetch_sun cxt).starts i = (if slot_is_counted cxt i then slot_start cxt i else 0)
    ∧ (fetch_sun cxt).lens i = (if slot_is_counted cxt i then slot_len cxt i else 0) := by
  have h := fetch_fold_arrays cxt i (List.range partitions)
    { starts := fun _ => 0, lens := fun _ => 0, start := 0,
      stop := total_sectors cxt.geom, continuous := true }
  have hm : i ∈ List.range partitions := by
    simp only [partitions, SUN_NUM_PARTITIONS, List.mem_range]
    exact hi
  simp only [hm, if_true] at h
  exact h

theorem fetch_sun_arrays_out (cxt : fdisk_context) (i : Nat) (hi : 8 ≤ i) :
    (fetch_sun cxt).starts i = 0 ∧ (fetch_sun cxt).lens i = 0 := by
  have h := fetch_fold_arrays cxt i (List.range partitions)
    { starts := fun _ => 0, lens := fun _ => 0, start := 0,
      stop := total_sectors cxt.geom, continuous := true }
  have hm : ¬ i ∈ List.range partitions := by
    simp only [partitions, SUN_NUM_PARTITIONS, List.mem_range]
    omega
  simp only [hm, if_false] at h
  exact h

theorem slot_start_eq (cxt : fdisk_context) (i : Nat) :
    slot_start cxt i
      = (SSWAP32 cxt.other_endian (at_index cxt.firstsector.partitions i).start_cylinder
          * cxt.geom.heads * cxt.geom.sectors) % 2 ^ 32 := by
  unfold slot_start
  generalize SSWAP32 cxt.other_endian (at_index cxt.firstsector.partitions i).start_cylinder = c
  have h1 : (c * cxt.geom.heads % 2 ^ 32 * cxt.geom.sectors) % 2 ^ 64 % 2 ^ 32
      = (c * cxt.geom.heads % 2 ^ 32 * cxt.geom.sectors) % 2 ^ 32 :=
    Nat.mod_mod_of_dvd _ (by norm_num)
  rw [h1, Nat.mul_mod, Nat.mod_mod, ← Nat.mul_mod]

theorem SSWAP16_eq_iff (oe : Bool) (t c : Nat) (ht : t < 65536) (hc : c < 65536) :
    SSWAP16 oe t = c ↔ t = SSWAP16 oe c := by
  constructor
  · intro h
    rw [← h, SSWAP16_SSWAP16, Nat.mod_eq_of_lt ht]
  · intro h
    rw [h, SSWAP16_SSWAP16, Nat.mod_eq_of_lt hc]

theorem SSWAP32_eq_zero_iff (oe : Bool) (x : Nat) (hx : x < 4294967296) :
    SSWAP32 oe x = 0 ↔ x = 0 := by
  have h0 : SSWAP32 oe 0 = 0 := by cases oe <;> decide
  constructor
  · intro h
    have := SSWAP32_SSWAP32 oe x
    rw [h, h0, Nat.mod_eq_of_lt hx] at this
    exact this.symm
  · intro h
    rw [h, h0]

/-! ## C6 -/

/-- C6: for every label, geometry and slot `i < 8` (the slot's tag and
`num_sectors` within their C types), `fetch_sun` yields `starts[i] = 0` and
`lens[i] = 0` when the slot's `num_sectors` is 0 or its tag, decoded in the
label's byte order, is unassigned or whole disk, at whatever index that tag
occurs; otherwise it yields `starts[i] = start_cylinder * heads * sectors mod
2^32` and `lens[i] = num_sectors`, both decoded in the label's byte order.
Index 2 is treated like every other index: it is left out only when its tag
is whole disk (or it is empty or unassigned). -/
theorem fetch_sun_slot_extent (cxt : fdisk_context) (i : Nat) (hi : i < 8)
    (htag : (at_index cxt.firstsector.part_tags i).tag < 65536)
    (hnum : (at_index cxt.firstsector.partitions i).num_sectors < 4294967296) :
    ((SSWAP32 cxt.other_endian (at_index cxt.firstsector.partitions i).num_sectors = 0
        ∨ SSWAP16 cxt.other_endian (at_index cxt.firstsector.part_tags i).tag = SUN_TAG_UNASSIGNED
        ∨ SSWAP16 cxt.other_endian (at_index cxt.firstsector.part_tags i).tag = SUN_TAG_BACKUP) →
      (fetch_sun cxt).starts i = 0 ∧ (fetch_sun cxt).lens i = 0)
    ∧ (¬ (SSWAP32 cxt.other_endian (at_index cxt.firstsector.partitions i).num_sectors = 0
        ∨ SSWAP16 cxt.other_endian (at_index cxt.firstsector.part_tags i).tag = SUN_TAG_UNASSIGNED
        ∨ SSWAP16 cxt.other_endian (at_index cxt.firstsector.part_tags i).tag = SUN_TAG_BACKUP) →
      (fetch_sun cxt).starts i
        = (SSWAP32 cxt.other_endian (at_index cxt.firstsector.partitions i).start_cylinder
            * cxt.geom.heads * cxt.geom.sectors) % 2 ^ 32
      ∧ (fetch_sun cxt).lens i
        = SSWAP32 cxt.other_endian (at_index cxt.firstsector.partitions i).num_sectors) := by
  have hf := fetch_sun_arrays cxt i hi
  have hcount : slot_is_counted cxt i = true ↔
      ¬ (SSWAP32 cxt.other_endian (at_index cxt.firstsector.partitions i).num_sectors = 0
        ∨ SSWAP16 cxt.other_endian (at_index cxt.firstsector.part_tags i).tag = SUN_TAG_UNASSIGNED
        ∨ SSWAP16 cxt.other_endian (at_index cxt.firstsector.part_tags i).tag = SUN_TAG_BACKUP) := by
    unfold slot_is_counted
    rw [SSWAP32_eq_zero_iff _ _ hnum,
      SSWAP16_eq_iff _ _ SUN_TAG_UNASSIGNED htag (by decide),
      SSWAP16_eq_iff _ _ SUN_TAG_BACKUP htag (by decide)]
    simp only [Bool.and_eq_true, decide_eq_true_eq, ne_eq]
    tauto
  constructor
  · intro h
    have hc : ¬ slot_is_counted cxt i = true := fun hc => (hcount.mp hc) h
    rw [hf.1, hf.2]
    simp [hc]
  · intro h
    have hc : slot_is_counted cxt i = true := hcount.mpr h
    rw [hf.1, hf.2]
    simp only [hc, if_true]
    exact ⟨slot_start_eq cxt i, rfl⟩

/-- Witness of C6 on `context_one_slot`: slot 1 (Linux native, start cylinder
3, 5000 sectors, 4 heads, 32 sectors) is fetched as start 384, length 5000. -/
theorem fetch_sun_slot_extent_witness :
    (1 < 8
      ∧ (at_index context_one_slot.firstsector.part_tags 1).tag < 65536
      ∧ (at_index context_one_slot.firstsector.partitions 1).num_sectors < 4294967296)
    ∧ (fetch_sun context_one_slot).starts 1 = 384
    ∧ (fetch_sun context_one_slot).lens 1 = 5000 :=
  have h := (fetch_sun_slot_extent context_one_slot 1 (by decide) (by decide) (by decide)).2
    (by decide)
  ⟨⟨by decide, by decide, by decide⟩, h.1.trans (by decide), h.2.trans (by decide)⟩

/-! ## Lemmas on folds over index ranges -/

theorem foldl_fixed {S : Type} (f : S → Nat → S) (st : S) :
    ∀ L : List Nat, (∀ m ∈ L, f st m = st) → L.foldl f st = st := by
  intro L
  induction L with
  | nil => intro _; rfl
  | cons a L ih =>
    intro h
    simp only [List.foldl_cons]
    rw [h a (List.mem_cons_self _ _)]
    exact ih (fun m hm => h m (List.mem_cons_of_mem _ hm))

theorem foldl_range_one {S : Type} (f : S → Nat → S) (st : S) (a : Nat) :
    ∀ n, (∀ m, m < n → m ≠ a → f st m = st) →
      (∀ m, m < n → m ≠ a → f (f st a) m = f st a) →
      (List.range n).foldl f st = if a < n then f st a else st := by
  intro n
  induction n with
  | zero => intro _ _; simp
  | succ n ih =>
    intro h0 h1
    rw [List.range_succ, List.foldl_append,
      ih (fun m hm => h0 m (by omega)) (fun m hm => h1 m (by omega))]
    simp only [List.foldl_cons, List.foldl_nil]
    by_cases han : a < n
    · have h3 : a < n + 1 := by omega
      simp only [han, h3, if_true]
      exact h1 n (by omega) (by omega)
    · by_cases hen : a = n
      · subst hen
        simp
      · have h3 : ¬ a < n + 1 := by omega
        simp only [han, h3, if_false]
        exact h0 n (by omega) (fun e => hen e.symm)

theorem foldl_range_two {S : Type} (f : S → Nat → S) (st : S) (j i : Nat) (hji : j < i) :
    ∀ n, (∀ m, m < n → m ≠ j → m ≠ i → f st m = st) →
      (∀ m, m < n → m ≠ j → m ≠ i → f (f st j) m = f st j) →
      (∀ m, m < n → m ≠ j → m ≠ i → f (f (f st j) i) m = f (f st j) i) →
      (List.range n).foldl f st
        = if i < n then f (f st j) i else if j < n then f st j else st := by
  intro n
  induction n with
  | zero => intro _ _ _; simp
  | succ n ih =>
    intro h0 h1 h2
    rw [List.range_succ, List.foldl_append,
      ih (fun m hm => h0 m (by omega)) (fun m hm => h1 m (by omega))
        (fun m hm => h2 m (by omega))]
    simp only [List.foldl_cons, List.foldl_nil]
    by_cases hin : i < n
    · have h3 : i < n + 1 := by omega
      simp only [hin, h3, if_true]
      exact h2 n (by omega) (by omega) (by omega)
    · by_cases hen : i = n
      · subst hen
        simp [hji]
      · have h3 : ¬ i < n + 1 := by omega
        simp only [hin, h3, if_false]
        by_cases hjn : j < n
        · have h4 : j < n + 1 := by omega
          simp only [hjn, h4, if_true]
          exact h1 n (by omega) (by omega) (fun e => hen e.symm)
        · by_cases hjen : j = n
          · subst hjen
            simp
          · have h4 : ¬ j < n + 1 := by omega
            simp only [hjn, h4, if_false]
            exact h0 n (by omega) (fun e => hjen e.symm) (fun e => hen e.symm)

/-! ## Lemmas on the merge passes -/

theorem add_out_nil (st : verify_state) : add_out st [] = st := by
  simp [add_out]

theorem add_out_add_out (st : verify_state) (a b : List sun_message) :
    add_out (add_out st a) b = add_out st (a ++ b) := by
  simp [add_out]

theorem verify_pair_skip (k i j : Nat) (st : verify_state) (h : st.lens j = 0) :
    verify_pair k i st j = st := by
  simp [verify_pair, h]

theorem verify_inner_alone (k p : Nat) (st : verify_state)
    (h : ∀ m, m < p → st.lens m = 0) :
    (if st.lens p ≠ 0 then (List.range p).foldl (verify_pair k p) st else st) = st := by
  split
  · apply foldl_fixed
    intro m hm
    exact verify_pair_skip _ _ _ _ (h m (List.mem_range.mp hm))
  · rfl

theorem verify_slot_alone (cs k p : Nat) (st : verify_state)
    (h : ∀ m, m < p → st.lens m = 0) :
    verify_slot cs k st p = add_out st (boundary_warning cs (st.lens p) p k) := by
  unfold verify_slot boundary_warning
  by_cases hw : k ≠ 0 ∧ st.lens p % cs ≠ 0
  · simp only [if_pos hw]
    exact verify_inner_alone k p (add_out st _) h
  · simp only [if_neg hw]
    rw [add_out_nil]
    exact verify_inner_alone k p st h

theorem verify_slot_empty (cs k i : Nat) (st : verify_state) (h : st.lens i = 0) :
    verify_slot cs k st i = st := by
  simp [verify_slot, h]

theorem verify_pass_single (cs k p : Nat) (st : verify_state)
    (h : ∀ m, m ≠ p → st.lens m = 0) :
    verify_pass cs st k = add_out st (if p < 8 then boundary_warning cs (st.lens p) p k else []) := by
  unfold verify_pass SUN_NUM_PARTITIONS
  have hp : verify_slot cs k st p = add_out st (boundary_warning cs (st.lens p) p k) :=
    verify_slot_alone cs k p st (fun m hm => h m (by omega))
  rw [foldl_range_one (verify_slot cs k) st p 8
    (fun m _ hm => verify_slot_empty cs k m st (h m hm))
    (fun m _ hm => by rw [hp]; exact verify_slot_empty cs k m _ (h m hm)), hp]
  by_cases hp8 : p < 8
  · simp [hp8]
  · simp [hp8, add_out_nil]

theorem verify_passes_single (cs p : Nat) (hp : p < 8) :
    ∀ (ks : List Nat) (st : verify_state), (∀ m, m ≠ p → st.lens m = 0) →
      ks.foldl (verify_pass cs) st
        = add_out st (ks.flatMap (boundary_warning cs (st.lens p) p)) := by
  intro ks
  induction ks with
  | nil => intro st _; simp [add_out_nil]
  | cons k ks ih =>
    intro st h
    simp only [List.foldl_cons, List.flatMap_cons]
    rw [verify_pass_single cs k p st h]
    simp only [hp, if_true]
    rw [ih (add_out st (boundary_warning cs (st.lens p) p k)) h, add_out_add_out]
    rfl

/-! ## Lemmas on the gap report -/

theorem verify_array_single (lens : Nat → Nat) (p : Nat) (hp : p < 8)
    (hl : lens p ≠ 0) (h : ∀ m, m ≠ p → lens m = 0) :
    verify_array lens
      = (List.range 8).map (fun i => if i = p then (p : Int) else -1) := by
  unfold verify_array SUN_NUM_PARTITIONS
  apply List.map_congr_left
  intro m _
  by_cases hm : m = p
  · subst hm; simp [hl]
  · simp [hm, h m hm]

theorem verify_qsort_single (starts lens : Nat → Nat) (p : Nat) (hp : p < 8)
    (hl : lens p ≠ 0) (h : ∀ m, m ≠ p → lens m = 0) :
    verify_qsort starts (verify_array lens) = (p : Int) :: List.replicate 7 (-1) := by
  rw [verify_array_single lens p hp hl h]
  unfold verify_qsort
  interval_cases p <;>
    simp [List.range_succ, List.insertionSort, List.orderedInsert, verify_sun_cmp,
      List.replicate]

theorem verify_gaps_single (cxt : fdisk_context) (st : verify_state) (p : Nat) (hp : p < 8)
    (hl : st.lens p ≠ 0) (h : ∀ m, m ≠ p → st.lens m = 0) :
    verify_gaps cxt st
      = st.out
        ++ (if st.starts p ≠ 0 then [sun_message.unused_gap 0 (st.starts p)] else [])
        ++ (if (st.starts p + st.lens p) % 2 ^ 32 < total_sectors cxt.geom
            then [sun_message.unused_gap ((st.starts p + st.lens p) % 2 ^ 32)
                    (total_sectors cxt.geom)]
            else []) := by
  unfold verify_gaps
  rw [verify_qsort_single st.starts st.lens p hp hl h]
  have hne : ¬ ((p : Int) = -1) := by omega
  simp only [List.getD_cons_zero, hne, if_false, Int.toNat_ofNat, verify_gap_loop,
    List.replicate, List.getD_cons_succ]
  simp only [show ((-1 : Int) ≠ -1) = False from by simp, and_false, if_false,
    List.getD_cons_zero, Int.toNat_ofNat]
  by_cases h1 : st.starts p ≠ 0
  · by_cases h2 : (st.starts p + st.lens p) % 2 ^ 32 < total_sectors cxt.geom
    · simp only [if_pos h1, if_pos h2, List.append_assoc]
    · simp only [if_pos h1, if_neg h2, List.append_nil]
  · by_cases h2 : (st.starts p + st.lens p) % 2 ^ 32 < total_sectors cxt.geom
    · simp only [if_neg h1, if_pos h2, List.append_nil]
    · simp only [if_neg h1, if_neg h2, List.append_nil]

theorem boundary_warnings_no_gap (cs : Nat) (lens : Nat → Nat) (p : Nat) :
    ∀ ks : List Nat, (ks.flatMap (boundary_warning cs (lens p) p)).filter is_gap = []
      ∧ (ks.flatMap (boundary_warning cs (lens p) p)).filter is_overlap = [] := by
  intro ks
  induction ks with
  | nil => simp
  | cons k ks ih =>
    simp only [List.flatMap_cons, List.filter_append, ih.1, ih.2, List.append_nil]
    unfold boundary_warning
    split <;> simp [is_gap, is_overlap]

theorem boundary_warnings_aligned (cs : Nat) (lens : Nat → Nat) (p : Nat)
    (h : lens p % cs = 0) :
    ∀ ks : List Nat, ks.flatMap (boundary_warning cs (lens p) p) = [] := by
  intro ks
  induction ks with
  | nil => simp
  | cons k ks ih =>
    simp only [List.flatMap_cons, ih, List.append_nil]
    simp [boundary_warning, h]

theorem cylinder_size_ne_zero (g : fdisk_geometry) (h : total_sectors g ≠ 0) :
    cylinder_size g ≠ 0 := by
  unfold cylinder_size
  unfold total_sectors at h
  intro hz
  apply h
  have h1 : (g.cylinders * g.heads % 2 ^ 64 * g.sectors) % 2 ^ 64
      = (g.cylinders * (g.heads * g.sectors % 2 ^ 64)) % 2 ^ 64 := by
    rw [Nat.mul_mod, Nat.mod_mod, ← Nat.mul_mod, Nat.mul_assoc]
    conv_rhs => rw [Nat.mul_mod, Nat.mod_mod, ← Nat.mul_mod]
  rw [h1, hz]
  simp

theorem fetch_lens_outside (cxt : fdisk_context) (P : Nat → Prop)
    (hocc : ∀ m, m < 8 → ((fetch_sun cxt).lens m ≠ 0 ↔ P m)) :
    ∀ m, ¬ P m → (fetch_sun cxt).lens m = 0 := by
  intro m hm
  by_cases h8 : m < 8
  · by_contra hne
    exact hm ((hocc m h8).mp hne)
  · exact (fetch_sun_arrays_out cxt m (by omega)).2

/-! ## Lemmas on a single occupied slot -/

theorem total_sectors_eq (g : fdisk_geometry)
    (hp : g.cylinders * g.heads * g.sectors < 2 ^ 32) :
    total_sectors g = g.cylinders * g.heads * g.sectors := by
  unfold total_sectors
  by_cases hs : g.sectors = 0
  · rw [hs]
    simp
  · have h1 : g.cylinders * g.heads ≤ g.cylinders * g.heads * g.sectors :=
      Nat.le_mul_of_pos_right _ (by omega)
    rw [Nat.mod_eq_of_lt (show g.cylinders * g.heads < 2 ^ 64 by omega),
      Nat.mod_eq_of_lt (show g.cylinders * g.heads * g.sectors < 2 ^ 64 by omega),
      Nat.mod_eq_of_lt hp]

theorem verify_single_slot_lines (cxt : fdisk_context) (p : Nat) (hp : p < 8)
    (hocc : ∀ m, m < 8 → ((fetch_sun cxt).lens m ≠ 0 ↔ m = p))
    (hend : (fetch_sun cxt).starts p + (fetch_sun cxt).lens p ≤ total_sectors cxt.geom) :
    ∃ out : List sun_message,
      sun_verify_disklabel cxt = some (0, out)
      ∧ out = (List.range 7).flatMap
                (boundary_warning (cylinder_size cxt.geom) ((fetch_sun cxt).lens p) p)
              ++ (if 0 < (fetch_sun cxt).starts p
                  then [sun_message.unused_gap 0 ((fetch_sun cxt).starts p)] else [])
              ++ (if (fetch_sun cxt).starts p + (fetch_sun cxt).lens p < total_sectors cxt.geom
                  then [sun_message.unused_gap
                          ((fetch_sun cxt).starts p + (fetch_sun cxt).lens p)
                          (total_sectors cxt.geom)]
                  else [])
      ∧ out.filter is_gap
          = (if 0 < (fetch_sun cxt).starts p
              then [sun_message.unused_gap 0 ((fetch_sun cxt).starts p)] else [])
            ++ (if (fetch_sun cxt).starts p + (fetch_sun cxt).lens p < total_sectors cxt.geom
                then [sun_message.unused_gap
                        ((fetch_sun cxt).starts p + (fetch_sun cxt).lens p)
                        (total_sectors cxt.geom)]
                else [])
      ∧ out.filter is_overlap = []
      ∧ ((fetch_sun cxt).lens p % cylinder_size cxt.geom = 0 →
          out.filter is_gap = out) := by
  have hall : ∀ m, m ≠ p → (fetch_sun cxt).lens m = 0 := fetch_lens_outside cxt _ hocc
  have hlp : (fetch_sun cxt).lens p ≠ 0 := (hocc p hp).mpr rfl
  have htot : total_sectors cxt.geom < 2 ^ 32 := by
    unfold total_sectors
    exact Nat.mod_lt _ (by norm_num)
  have hcs : cylinder_size cxt.geom ≠ 0 := by
    apply cylinder_size_ne_zero
    omega
  have hmod : ((fetch_sun cxt).starts p + (fetch_sun cxt).lens p) % 2 ^ 32
      = (fetch_sun cxt).starts p + (fetch_sun cxt).lens p := Nat.mod_eq_of_lt (by omega)
  have hmerge : verify_merge cxt
      = add_out { starts := (fetch_sun cxt).starts, lens := (fetch_sun cxt).lens, out := [] }
          ((List.range 7).flatMap
            (boundary_warning (cylinder_size cxt.geom) ((fetch_sun cxt).lens p) p)) :=
    verify_passes_single (cylinder_size cxt.geom) p hp (List.range 7) _ hall
  have hgaps := verify_gaps_single cxt (verify_merge cxt) p hp
    (by rw [hmerge]; exact hlp) (by rw [hmerge]; exact hall)
  have hs : (verify_merge cxt).starts = (fetch_sun cxt).starts := by rw [hmerge]; rfl
  have hl : (verify_merge cxt).lens = (fetch_sun cxt).lens := by rw [hmerge]; rfl
  have ho : (verify_merge cxt).out = (List.range 7).flatMap
      (boundary_warning (cylinder_size cxt.geom) ((fetch_sun cxt).lens p) p) := by
    rw [hmerge]; simp [add_out]
  rw [hs, hl, ho, hmod] at hgaps
  have hpos : ((fetch_sun cxt).starts p ≠ 0) = (0 < (fetch_sun cxt).starts p) := by
    apply propext; omega
  have hout : verify_gaps cxt (verify_merge cxt)
      = (List.range 7).flatMap
                (boundary_warning (cylinder_size cxt.geom) ((fetch_sun cxt).lens p) p)
              ++ (if 0 < (fetch_sun cxt).starts p
                  then [sun_message.unused_gap 0 ((fetch_sun cxt).starts p)] else [])
              ++ (if (fetch_sun cxt).starts p + (fetch_sun cxt).lens p < total_sectors cxt.geom
                  then [sun_message.unused_gap
                          ((fetch_sun cxt).starts p + (fetch_sun cxt).lens p)
                          (total_sectors cxt.geom)]
                  else []) := by
    rw [hgaps]
    simp only [hpos]
  have hw := boundary_warnings_no_gap (cylinder_size cxt.geom) (fetch_sun cxt).lens p
    (List.range 7)
  have hfg : (verify_gaps cxt (verify_merge cxt)).filter is_gap
      = (if 0 < (fetch_sun cxt).starts p
              then [sun_message.unused_gap 0 ((fetch_sun cxt).starts p)] else [])
            ++ (if (fetch_sun cxt).starts p + (fetch_sun cxt).lens p < total_sectors cxt.geom
                then [sun_message.unused_gap
                        ((fetch_sun cxt).starts p + (fetch_sun cxt).lens p)
                        (total_sectors cxt.geom)]
                else []) := by
    rw [hout]
    simp only [List.filter_append, hw.1, List.nil_append]
    split <;> split <;> simp [is_gap]
  refine ⟨verify_gaps cxt (verify_merge cxt), ?_, hout, hfg, ?_, ?_⟩
  · unfold sun_verify_disklabel
    rw [if_neg hcs]
  · rw [hout]
    simp only [List.filter_append, hw.2, List.nil_append]
    split <;> split <;> simp [is_overlap]
  · intro hal
    rw [hfg, hout, boundary_warnings_aligned _ _ _ hal]
    simp

theorem gap_example_lens :
    ∀ m, m < 8 → ((fetch_sun context_gap_example).lens m ≠ 0 ↔ m = 0) := by
  decide

/-! ## C10 -/

/-- Counterexample to C10 as stated: `context_large_disk` has
`cylinders * heads * sectors = 4294977750` and its only occupied slot is
[0, 1606500), which ends before that total; the `uint32_t` total of line 352
is 10454, below the end of the slot, so no trailing gap is printed: the
function prints nothing at all. -/
theorem verify_large_disk_no_trailing_gap :
    context_large_disk.geom.cylinders * context_large_disk.geom.heads
        * context_large_disk.geom.sectors = 4294977750
    ∧ (∀ m, m < 8 → ((fetch_sun context_large_disk).lens m ≠ 0 ↔ m = 0))
    ∧ (fetch_sun context_large_disk).starts 0 = 0
    ∧ (fetch_sun context_large_disk).lens 0 = 1606500
    ∧ (fetch_sun context_large_disk).starts 0 + (fetch_sun context_large_disk).lens 0
        < context_large_disk.geom.cylinders * context_large_disk.geom.heads
            * context_large_disk.geom.sectors
    ∧ total_sectors context_large_disk.geom = 10454
    ∧ sun_verify_disklabel context_large_disk = some (0, []) := by
  decide
/-- C10 (amended): for every geometry with
`total = cylinders * heads * sectors < 2^32` and every label whose only
occupied non-backup slot `p` is the extent `[a, b)` with `a < b ≤ total`,
`sun_verify_disklabel` returns 0 and prints: the cylinder-boundary warnings of
passes 1 to 6 for that slot (none when its length is a multiple of
`heads * sectors`), then the leading gap `0-a` exactly when `a > 0`, then the
trailing gap `b-total` exactly when `b < total`; no other gap and no overlap. -/
theorem verify_single_slot_gaps (cxt : fdisk_context) (p : Nat) (hp : p < 8)
    (htot : cxt.geom.cylinders * cxt.geom.heads * cxt.geom.sectors < 2 ^ 32)
    (hocc : ∀ m, m < 8 → ((fetch_sun cxt).lens m ≠ 0 ↔ m = p))
    (hend : (fetch_sun cxt).starts p + (fetch_sun cxt).lens p
      ≤ cxt.geom.cylinders * cxt.geom.heads * cxt.geom.sectors) :
    ∃ out : List sun_message,
      sun_verify_disklabel cxt = some (0, out)
      ∧ out = (List.range 7).flatMap
                (boundary_warning (cylinder_size cxt.geom) ((fetch_sun cxt).lens p) p)
              ++ (if 0 < (fetch_sun cxt).starts p
                  then [sun_message.unused_gap 0 ((fetch_sun cxt).starts p)] else [])
              ++ (if (fetch_sun cxt).starts p + (fetch_sun cxt).lens p
                      < cxt.geom.cylinders * cxt.geom.heads * cxt.geom.sectors
                  then [sun_message.unused_gap
                          ((fetch_sun cxt).starts p + (fetch_sun cxt).lens p)
                          (cxt.geom.cylinders * cxt.geom.heads * cxt.geom.sectors)]
                  else [])
      ∧ out.filter is_gap
          = (if 0 < (fetch_sun cxt).starts p
              then [sun_message.unused_gap 0 ((fetch_sun cxt).starts p)] else [])
            ++ (if (fetch_sun cxt).starts p + (fetch_sun cxt).lens p
                    < cxt.geom.cylinders * cxt.geom.heads * cxt.geom.sectors
                then [sun_message.unused_gap
                        ((fetch_sun cxt).starts p + (fetch_sun cxt).lens p)
                        (cxt.geom.cylinders * cxt.geom.heads * cxt.geom.sectors)]
                else [])
      ∧ out.filter is_overlap = []
      ∧ ((fetch_sun cxt).lens p % cylinder_size cxt.geom = 0 →
          out.filter is_gap = out) := by
  have e := total_sectors_eq cxt.geom htot
  have h := verify_single_slot_lines cxt p hp hocc (by rw [e]; exact hend)
  rw [e] at h
  exact h

/-- Witness of C10 (amended): on a disk of 1000 sectors whose only occupied
slot is [100, 200), exactly the gaps 0-100 and 200-1000 are printed. -/
theorem verify_single_slot_gaps_witness :
    (0 < 8
      ∧ context_gap_example.geom.cylinders * context_gap_example.geom.heads
          * context_gap_example.geom.sectors = 1000
      ∧ (∀ m, m < 8 → ((fetch_sun context_gap_example).lens m ≠ 0 ↔ m = 0))
      ∧ (fetch_sun context_gap_example).starts 0 + (fetch_sun context_gap_example).lens 0
          ≤ 1000)
    ∧ (fetch_sun context_gap_example).starts 0 = 100
    ∧ (fetch_sun context_gap_example).lens 0 = 100
    ∧ sun_verify_disklabel context_gap_example
        = some (0, [sun_message.unused_gap 0 100, sun_message.unused_gap 200 1000]) :=
  ⟨⟨by decide, by decide, gap_example_lens, by decide⟩, by decide, by decide,
    match verify_single_slot_gaps context_gap_example 0 (by decide) (by decide)
      gap_example_lens (by decide) with
    | ⟨_, h1, h2, _⟩ => h1.trans (by rw [h2]; rfl)⟩

/-! ## Lemmas on two occupied slots that are not adjacent -/

theorem verify_pair_apart (k i j : Nat) (st : verify_state) (hlj : st.lens j ≠ 0)
    (hn1 : st.starts j ≠ (st.starts i + st.lens i) % 2 ^ 32)
    (hn2 : st.starts i ≠ (st.starts j + st.lens j) % 2 ^ 32) :
    verify_pair k i st j = add_out st (overlap_report st.starts st.lens i j k) := by
  unfold verify_pair overlap_report
  simp only [if_pos hlj, if_neg hn1, if_neg hn2]
  by_cases hk : k = 0
  · simp only [if_pos hk, hk, true_and]
    by_cases hc : st.starts i < (st.starts j + st.lens j) % 2 ^ 32
        ∧ st.starts j < (st.starts i + st.lens i) % 2 ^ 32
    · simp only [if_pos hc]
      rfl
    · simp only [if_neg hc]
      exact (add_out_nil st).symm
  · simp only [if_neg hk, hk, false_and, if_false]
    exact (add_out_nil st).symm

theorem verify_slot_second (cs k i j : Nat) (st : verify_state) (hji : j < i)
    (h : ∀ m, m ≠ i → m ≠ j → st.lens m = 0)
    (hli : st.lens i ≠ 0) (hlj : st.lens j ≠ 0)
    (hn1 : st.starts j ≠ (st.starts i + st.lens i) % 2 ^ 32)
    (hn2 : st.starts i ≠ (st.starts j + st.lens j) % 2 ^ 32) :
    verify_slot cs k st i
      = add_out st (boundary_warning cs (st.lens i) i k ++ overlap_report st.starts st.lens i j k) := by
  have key : ∀ st1 : verify_state, st1.starts = st.starts → st1.lens = st.lens →
      (if st1.lens i ≠ 0 then (List.range i).foldl (verify_pair k i) st1 else st1)
        = add_out st1 (overlap_report st.starts st.lens i j k) := by
    intro st1 hs hl
    have hp : verify_pair k i st1 j = add_out st1 (overlap_report st.starts st.lens i j k) := by
      rw [← hs, ← hl]
      exact verify_pair_apart k i j st1 (by rw [hl]; exact hlj) (by rw [hs, hl]; exact hn1)
        (by rw [hs, hl]; exact hn2)
    rw [if_pos (by rw [hl]; exact hli),
      foldl_range_one (verify_pair k i) st1 j i
        (fun m hm hmj => verify_pair_skip k i m st1
          (by rw [hl]; exact h m (by omega) hmj))
        (fun m hm hmj => by
          rw [hp]
          exact verify_pair_skip k i m _ (by
            show st1.lens m = 0
            rw [hl]; exact h m (by omega) hmj)),
      if_pos hji, hp]
  unfold verify_slot boundary_warning
  by_cases hw : k ≠ 0 ∧ st.lens i % cs ≠ 0
  · simp only [if_pos hw]
    rw [← add_out_add_out]
    exact key (add_out st _) rfl rfl
  · simp only [if_neg hw, List.nil_append]
    exact key st rfl rfl

theorem verify_pass_apart (cs k i j : Nat) (st : verify_state) (hji : j < i) (hi : i < 8)
    (h : ∀ m, m ≠ i → m ≠ j → st.lens m = 0)
    (hli : st.lens i ≠ 0) (hlj : st.lens j ≠ 0)
    (hn1 : st.starts j ≠ (st.starts i + st.lens i) % 2 ^ 32)
    (hn2 : st.starts i ≠ (st.starts j + st.lens j) % 2 ^ 32) :
    verify_pass cs st k = add_out st (two_slot_lines cs st.starts st.lens i j k) := by
  unfold verify_pass SUN_NUM_PARTITIONS two_slot_lines
  have hj : verify_slot cs k st j = add_out st (boundary_warning cs (st.lens j) j k) :=
    verify_slot_alone cs k j st (fun m hm => h m (by omega) (by omega))
  have hi2 : verify_slot cs k (add_out st (boundary_warning cs (st.lens j) j k)) i
      = add_out st (boundary_warning cs (st.lens j) j k
          ++ (boundary_warning cs (st.lens i) i k ++ overlap_report st.starts st.lens i j k)) := by
    rw [← add_out_add_out]
    exact verify_slot_second cs k i j (add_out st _) hji h hli hlj hn1 hn2
  rw [foldl_range_two (verify_slot cs k) st j i hji 8
    (fun m _ hmj hmi => verify_slot_empty cs k m st (h m hmi hmj))
    (fun m _ hmj hmi => by
      rw [hj]; exact verify_slot_empty cs k m _ (h m hmi hmj))
    (fun m _ hmj hmi => by
      rw [hj, hi2]; exact verify_slot_empty cs k m _ (h m hmi hmj)),
    if_pos hi, hj, hi2]

theorem verify_passes_apart (cs i j : Nat) (hji : j < i) (hi : i < 8) :
    ∀ (ks : List Nat) (st : verify_state),
      (∀ m, m ≠ i → m ≠ j → st.lens m = 0) → st.lens i ≠ 0 → st.lens j ≠ 0 →
      st.starts j ≠ (st.starts i + st.lens i) % 2 ^ 32 →
      st.starts i ≠ (st.starts j + st.lens j) % 2 ^ 32 →
      ks.foldl (verify_pass cs) st
        = add_out st (ks.flatMap (two_slot_lines cs st.starts st.lens i j)) := by
  intro ks
  induction ks with
  | nil => intro st _ _ _ _ _; simp [add_out_nil]
  | cons k ks ih =>
    intro st h hli hlj hn1 hn2
    simp only [List.foldl_cons, List.flatMap_cons]
    rw [verify_pass_apart cs k i j st hji hi h hli hlj hn1 hn2,
      ih (add_out st (two_slot_lines cs st.starts st.lens i j k)) h hli hlj hn1 hn2,
      add_out_add_out]
    rfl

theorem boundary_warning_no_overlap (cs : Nat) (lens : Nat → Nat) (p k : Nat) :
    (boundary_warning cs (lens p) p k).filter is_overlap = [] := by
  unfold boundary_warning
  split <;> simp [is_overlap]

theorem overlap_report_filter (starts lens : Nat → Nat) (i j k : Nat) :
    (overlap_report starts lens i j k).filter is_overlap = overlap_report starts lens i j k := by
  unfold overlap_report
  split <;> simp [is_overlap]

theorem two_slot_lines_overlaps (cs : Nat) (starts lens : Nat → Nat) (i j : Nat) :
    ∀ ks : List Nat, (ks.flatMap (two_slot_lines cs starts lens i j)).filter is_overlap
      = ks.flatMap (overlap_report starts lens i j) := by
  intro ks
  induction ks with
  | nil => simp
  | cons k ks ih =>
    simp only [List.flatMap_cons, List.filter_append, ih]
    unfold two_slot_lines
    simp only [List.filter_append, boundary_warning_no_overlap, overlap_report_filter,
      List.nil_append]

theorem verify_gap_loop_overlaps (starts lens : Nat → Nat) (array : List Int) :
    ∀ (n i : Nat) (out : List sun_message),
      (verify_gap_loop starts lens array n i out).2.filter is_overlap
        = out.filter is_overlap := by
  intro n
  induction n with
  | zero => intro i out; rfl
  | succ n ih =>
    intro i out
    unfold verify_gap_loop
    split
    · rw [ih]
      simp [List.filter_append, is_overlap]
    · rfl

theorem filter_overlap_if_gap (c : Prop) [Decidable c] (a : List sun_message) (x y : Nat) :
    (if c then a ++ [sun_message.unused_gap x y] else a).filter is_overlap
      = a.filter is_overlap := by
  split <;> simp [List.filter_append, is_overlap]

theorem verify_gaps_overlaps (cxt : fdisk_context) (st : verify_state) :
    (verify_gaps cxt st).filter is_overlap = st.out.filter is_overlap := by
  unfold verify_gaps
  simp only []
  split
  · simp [List.filter_append, is_overlap]
  · rw [filter_overlap_if_gap, verify_gap_loop_overlaps, filter_overlap_if_gap]

theorem overlap_report_passes (starts lens : Nat → Nat) (i j : Nat) :
    (List.range 7).flatMap (overlap_report starts lens i j) = overlap_report starts lens i j 0 := by
  have h : ∀ k, k ≠ 0 → overlap_report starts lens i j k = [] := by
    intro k hk
    simp [overlap_report, hk]
  have hr : List.range 7 = [0, 1, 2, 3, 4, 5, 6] := by decide
  rw [hr]
  simp only [List.flatMap_cons, List.flatMap_nil, h 1 (by decide), h 2 (by decide),
    h 3 (by decide), h 4 (by decide), h 5 (by decide), h 6 (by decide), List.append_nil]

/-! ## C7 -/

/-- C7: for every label whose only two occupied non-backup slots `j < i`
(the slots to which `fetch_sun` gives a non-zero length) have properly
intersecting sector ranges, with no 32-bit overflow, on a geometry with
`heads * sectors` not 0, `sun_verify_disklabel` returns 0 and reports exactly
one overlap, for partition `i + 1`, whose range is
`max(start_i, start_j) - min(end_i, end_j)`. -/
theorem verify_reports_overlap (cxt : fdisk_context) (i j : Nat) (hji : j < i) (hi : i < 8)
    (hcs : cylinder_size cxt.geom ≠ 0)
    (hocc : ∀ m, m < 8 → ((fetch_sun cxt).lens m ≠ 0 ↔ (m = i ∨ m = j)))
    (hei : (fetch_sun cxt).starts i + (fetch_sun cxt).lens i < 2 ^ 32)
    (hej : (fetch_sun cxt).starts j + (fetch_sun cxt).lens j < 2 ^ 32)
    (h1 : (fetch_sun cxt).starts i < (fetch_sun cxt).starts j + (fetch_sun cxt).lens j)
    (h2 : (fetch_sun cxt).starts j < (fetch_sun cxt).starts i + (fetch_sun cxt).lens i) :
    ∃ out : List sun_message,
      sun_verify_disklabel cxt = some (0, out)
      ∧ out.filter is_overlap
          = [sun_message.overlap (i + 1)
              (max ((fetch_sun cxt).starts i) ((fetch_sun cxt).starts j))
              (min ((fetch_sun cxt).starts i + (fetch_sun cxt).lens i)
                ((fetch_sun cxt).starts j + (fetch_sun cxt).lens j))] := by
  have hall : ∀ m, m ≠ i → m ≠ j → (fetch_sun cxt).lens m = 0 := by
    intro m hmi hmj
    exact fetch_lens_outside cxt _ hocc m (by
      intro h; rcases h with h | h
      · exact hmi h
      · exact hmj h)
  have hli : (fetch_sun cxt).lens i ≠ 0 := (hocc i hi).mpr (Or.inl rfl)
  have hlj : (fetch_sun cxt).lens j ≠ 0 := (hocc j (by omega)).mpr (Or.inr rfl)
  have hmi : ((fetch_sun cxt).starts i + (fetch_sun cxt).lens i) % 2 ^ 32
      = (fetch_sun cxt).starts i + (fetch_sun cxt).lens i := Nat.mod_eq_of_lt hei
  have hmj : ((fetch_sun cxt).starts j + (fetch_sun cxt).lens j) % 2 ^ 32
      = (fetch_sun cxt).starts j + (fetch_sun cxt).lens j := Nat.mod_eq_of_lt hej
  have hmerge : verify_merge cxt
      = add_out { starts := (fetch_sun cxt).starts, lens := (fetch_sun cxt).lens, out := [] }
          ((List.range 7).flatMap (two_slot_lines (cylinder_size cxt.geom)
            (fetch_sun cxt).starts (fetch_sun cxt).lens i j)) :=
    verify_passes_apart (cylinder_size cxt.geom) i j hji hi (List.range 7) _ hall hli hlj
      (by show (fetch_sun cxt).starts j
            ≠ ((fetch_sun cxt).starts i + (fetch_sun cxt).lens i) % 2 ^ 32
          rw [hmi]; omega)
      (by show (fetch_sun cxt).starts i
            ≠ ((fetch_sun cxt).starts j + (fetch_sun cxt).lens j) % 2 ^ 32
          rw [hmj]; omega)
  refine ⟨verify_gaps cxt (verify_merge cxt), ?_, ?_⟩
  · unfold sun_verify_disklabel
    rw [if_neg hcs]
  · rw [verify_gaps_overlaps, hmerge]
    have ho : (add_out
        { starts := (fetch_sun cxt).starts, lens := (fetch_sun cxt).lens, out := [] }
        ((List.range 7).flatMap (two_slot_lines (cylinder_size cxt.geom)
            (fetch_sun cxt).starts (fetch_sun cxt).lens i j))).out
        = (List.range 7).flatMap (two_slot_lines (cylinder_size cxt.geom)
            (fetch_sun cxt).starts (fetch_sun cxt).lens i j) := by
      simp [add_out]
    rw [ho, two_slot_lines_overlaps, overlap_report_passes]
    unfold overlap_report
    rw [hmi, hmj, if_pos ⟨rfl, h1, h2⟩]
    have hso : ∀ a b : Nat, (if b > a then b else a) = max a b := by
      intro a b
      rw [Nat.max_def]
      split <;> split <;> omega
    have heo : ∀ a b : Nat, (if b < a then b else a) = min a b := by
      intro a b
      rw [Nat.min_def]
      split <;> split <;> omega
    rw [hso, heo]

theorem overlap_example_lens :
    ∀ m, m < 8 → ((fetch_sun context_overlap_example).lens m ≠ 0 ↔ (m = 1 ∨ m = 0)) := by
  decide

/-- Witness of C7: with A = [0, 100) in slot 0 and B = [50, 150) in slot 1,
the one overlap reported is 50-100, for partition 2. -/
theorem verify_reports_overlap_witness :
    (0 < 1 ∧ 1 < 8 ∧ cylinder_size context_overlap_example.geom ≠ 0
      ∧ (∀ m, m < 8 → ((fetch_sun context_overlap_example).lens m ≠ 0 ↔ (m = 1 ∨ m = 0)))
      ∧ (fetch_sun context_overlap_example).starts 0 = 0
      ∧ (fetch_sun context_overlap_example).lens 0 = 100
      ∧ (fetch_sun context_overlap_example).starts 1 = 50
      ∧ (fetch_sun context_overlap_example).lens 1 = 100)
    ∧ ∃ out : List sun_message,
        sun_verify_disklabel context_overlap_example = some (0, out)
        ∧ out.filter is_overlap = [sun_message.overlap 2 50 100] :=
  ⟨⟨by decide, by decide, by decide, overlap_example_lens, by decide, by decide, by decide,
      by decide⟩,
    match verify_reports_overlap context_overlap_example 1 0 (by decide) (by decide) (by decide)
      overlap_example_lens (by decide) (by decide) (by decide) (by decide) with
    | ⟨out, ho, hf⟩ => ⟨out, ho, hf.trans (by decide)⟩⟩

/-! ## Lemmas on two occupied slots that are adjacent -/

theorem merge_into_lens_other (st : verify_state) (i j m : Nat)
    (h : ∀ m, m ≠ i → m ≠ j → st.lens m = 0) (hm : m ≠ j) :
    (merge_into st i j).lens m = 0 := by
  unfold merge_into
  by_cases hmi : m = i
  · subst hmi; simp
  · simp [hmi, hm, h m hmi hm]

theorem verify_pair_adjacent (k i j : Nat) (st : verify_state) (hlj : st.lens j ≠ 0)
    (hei : st.starts i + st.lens i < 2 ^ 32) (hej : st.starts j + st.lens j < 2 ^ 32)
    (hadj : st.starts j = st.starts i + st.lens i ∨ st.starts i = st.starts j + st.lens j) :
    verify_pair k i st j = merge_into st i j := by
  unfold verify_pair merge_into
  rw [if_pos hlj, Nat.mod_eq_of_lt hei, Nat.mod_eq_of_lt hej]
  rcases hadj with h | h
  · have hmin : min (st.starts i) (st.starts j) = st.starts i := by
      rw [Nat.min_def]; split <;> omega
    have hsum : (st.lens j + st.lens i) % 2 ^ 32 = st.lens j + st.lens i :=
      Nat.mod_eq_of_lt (by omega)
    rw [if_pos h, hmin, hsum]
  · have hn : ¬ st.starts j = st.starts i + st.lens i := by omega
    have hmin : min (st.starts i) (st.starts j) = st.starts j := by
      rw [Nat.min_def]; split <;> omega
    have hsum : (st.lens j + st.lens i) % 2 ^ 32 = st.lens j + st.lens i :=
      Nat.mod_eq_of_lt (by omega)
    rw [if_neg hn, if_pos h, hmin, hsum, Function.update_eq_self]

theorem verify_pass_adjacent (cs i j : Nat) (st : verify_state) (hji : j < i) (hi : i < 8)
    (h : ∀ m, m ≠ i → m ≠ j → st.lens m = 0)
    (hli : st.lens i ≠ 0) (hlj : st.lens j ≠ 0)
    (hei : st.starts i + st.lens i < 2 ^ 32) (hej : st.starts j + st.lens j < 2 ^ 32)
    (hadj : st.starts j = st.starts i + st.lens i ∨ st.starts i = st.starts j + st.lens j) :
    verify_pass cs st 0 = merge_into st i j := by
  have hj : verify_slot cs 0 st j = st := by
    rw [verify_slot_alone cs 0 j st (fun m hm => h m (by omega) (by omega))]
    simp [boundary_warning, add_out_nil]
  have hp : verify_pair 0 i st j = merge_into st i j :=
    verify_pair_adjacent 0 i j st hlj hei hej hadj
  have hi2 : verify_slot cs 0 st i = merge_into st i j := by
    unfold verify_slot
    simp only [ne_eq, not_true_eq_false, false_and, if_false]
    rw [if_pos hli,
      foldl_range_one (verify_pair 0 i) st j i
        (fun m hm hmj => verify_pair_skip 0 i m st (h m (by omega) hmj))
        (fun m _ hmj => by
          rw [hp]
          exact verify_pair_skip 0 i m _ (merge_into_lens_other st i j m h hmj)),
      if_pos hji, hp]
  unfold verify_pass SUN_NUM_PARTITIONS
  rw [foldl_range_two (verify_slot cs 0) st j i hji 8
    (fun m _ hmj hmi => verify_slot_empty cs 0 m st (h m hmi hmj))
    (fun m _ hmj hmi => by
      rw [hj]; exact verify_slot_empty cs 0 m _ (h m hmi hmj))
    (fun m _ hmj _ => by
      rw [hj, hi2]
      exact verify_slot_empty cs 0 m _ (merge_into_lens_other st i j m h hmj)),
    if_pos hi, hj, hi2]

theorem boundary_warnings_from_one (cs len p : Nat) :
    [1, 2, 3, 4, 5, 6].flatMap (boundary_warning cs len p)
      = [0, 1, 2, 3, 4, 5, 6].flatMap (boundary_warning cs len p) := by
  have h0 : boundary_warning cs len p 0 = [] := by simp [boundary_warning]
  conv_rhs => rw [List.flatMap_cons, h0, List.nil_append]

theorem verify_merge_adjacent (cxt : fdisk_context) (i j : Nat) (hji : j < i) (hi : i < 8)
    (h : ∀ m, m ≠ i → m ≠ j → (fetch_sun cxt).lens m = 0)
    (hli : (fetch_sun cxt).lens i ≠ 0) (hlj : (fetch_sun cxt).lens j ≠ 0)
    (hei : (fetch_sun cxt).starts i + (fetch_sun cxt).lens i < 2 ^ 32)
    (hej : (fetch_sun cxt).starts j + (fetch_sun cxt).lens j < 2 ^ 32)
    (hadj : (fetch_sun cxt).starts j = (fetch_sun cxt).starts i + (fetch_sun cxt).lens i
      ∨ (fetch_sun cxt).starts i = (fetch_sun cxt).starts j + (fetch_sun cxt).lens j) :
    verify_merge cxt
      = add_out
          (merge_into
            { starts := (fetch_sun cxt).starts, lens := (fetch_sun cxt).lens, out := [] } i j)
          ((List.range 7).flatMap (boundary_warning (cylinder_size cxt.geom)
            ((fetch_sun cxt).lens j + (fetch_sun cxt).lens i) j)) := by
  unfold verify_merge
  have hr : List.range 7 = [0, 1, 2, 3, 4, 5, 6] := by decide
  rw [hr, List.foldl_cons,
    verify_pass_adjacent (cylinder_size cxt.geom) i j _ hji hi h hli hlj hei hej hadj,
    verify_passes_single (cylinder_size cxt.geom) j (by omega) [1, 2, 3, 4, 5, 6] _
      (fun m hm => merge_into_lens_other _ i j m h hm)]
  have hl : (merge_into
      { starts := (fetch_sun cxt).starts, lens := (fetch_sun cxt).lens, out := [] } i j).lens j
      = (fetch_sun cxt).lens j + (fetch_sun cxt).lens i := by
    unfold merge_into
    have : j ≠ i := by omega
    simp [this]
  rw [hl, boundary_warnings_from_one]

/-! ## C9 -/

/-- Counterexample to C9 as stated: in `context_adjacent_wrap` the only
occupied slots are 0 = [0, 2^31) and 1 = [2^31, 2^32), and slot 0 ends at the
sector where slot 1 begins. The end of slot 1 wraps to 0 in the `uint32_t`
sum of line 316, so the first test fires: slot 0 takes the start 2^31 and the
length 2^31 + 2^31 = 0, slot 1 is emptied, and `sun_verify_disklabel` prints
"No partitions defined"; slot 0 does not become the union [0, 2^32). -/
theorem verify_merge_wraps :
    (∀ m, m < 8 → ((fetch_sun context_adjacent_wrap).lens m ≠ 0 ↔ (m = 1 ∨ m = 0)))
    ∧ (fetch_sun context_adjacent_wrap).starts 0 = 0
    ∧ (fetch_sun context_adjacent_wrap).lens 0 = 2147483648
    ∧ (fetch_sun context_adjacent_wrap).starts 1
        = (fetch_sun context_adjacent_wrap).starts 0 + (fetch_sun context_adjacent_wrap).lens 0
    ∧ (fetch_sun context_adjacent_wrap).lens 1 = 2147483648
    ∧ cylinder_size context_adjacent_wrap.geom ≠ 0
    ∧ (verify_merge context_adjacent_wrap).starts 0 = 2147483648
    ∧ (verify_merge context_adjacent_wrap).lens 0 = 0
    ∧ (verify_merge context_adjacent_wrap).lens 1 = 0
    ∧ sun_verify_disklabel context_adjacent_wrap
        = some (0, [sun_message.no_partitions_defined]) := by
  decide

/-- C9 (amended): for every label whose only two occupied non-backup slots
`j < i` (the slots to which `fetch_sun` gives a non-zero length) are exactly
adjacent and end below sector 2^32 (no 32-bit overflow), on a geometry with
`heads * sectors` not 0, the merge passes leave slot `j` with the union
`[min(start_i, start_j), max(end_i, end_j))` and slot `i` with length 0, and
`sun_verify_disklabel` returns 0 having printed: the cylinder-boundary
warnings of passes 1 to 6 for the merged slot (none when its length is a
multiple of `heads * sectors`), the leading gap before the union if the union
does not start at 0, the trailing gap after it if it ends before the total;
no overlap and no gap between the two slots. -/
theorem verify_merges_adjacent (cxt : fdisk_context) (i j : Nat) (hji : j < i) (hi : i < 8)
    (hcs : cylinder_size cxt.geom ≠ 0)
    (hocc : ∀ m, m < 8 → ((fetch_sun cxt).lens m ≠ 0 ↔ (m = i ∨ m = j)))
    (hei : (fetch_sun cxt).starts i + (fetch_sun cxt).lens i < 2 ^ 32)
    (hej : (fetch_sun cxt).starts j + (fetch_sun cxt).lens j < 2 ^ 32)
    (hadj : (fetch_sun cxt).starts j = (fetch_sun cxt).starts i + (fetch_sun cxt).lens i
      ∨ (fetch_sun cxt).starts i = (fetch_sun cxt).starts j + (fetch_sun cxt).lens j) :
    (verify_merge cxt).starts j = min ((fetch_sun cxt).starts i) ((fetch_sun cxt).starts j)
    ∧ (verify_merge cxt).starts j + (verify_merge cxt).lens j
        = max ((fetch_sun cxt).starts i + (fetch_sun cxt).lens i)
            ((fetch_sun cxt).starts j + (fetch_sun cxt).lens j)
    ∧ (verify_merge cxt).lens j = (fetch_sun cxt).lens j + (fetch_sun cxt).lens i
    ∧ (verify_merge cxt).lens i = 0
    ∧ ∃ out : List sun_message,
        sun_verify_disklabel cxt = some (0, out)
        ∧ out = (List.range 7).flatMap (boundary_warning (cylinder_size cxt.geom)
                  ((fetch_sun cxt).lens j + (fetch_sun cxt).lens i) j)
                ++ (if 0 < (verify_merge cxt).starts j
                    then [sun_message.unused_gap 0 ((verify_merge cxt).starts j)] else [])
                ++ (if (verify_merge cxt).starts j + (verify_merge cxt).lens j
                        < total_sectors cxt.geom
                    then [sun_message.unused_gap
                            ((verify_merge cxt).starts j + (verify_merge cxt).lens j)
                            (total_sectors cxt.geom)]
                    else [])
        ∧ out.filter is_overlap = []
        ∧ out.filter is_gap
            = (if 0 < (verify_merge cxt).starts j
                then [sun_message.unused_gap 0 ((verify_merge cxt).starts j)] else [])
              ++ (if (verify_merge cxt).starts j + (verify_merge cxt).lens j
                      < total_sectors cxt.geom
                  then [sun_message.unused_gap
                          ((verify_merge cxt).starts j + (verify_merge cxt).lens j)
                          (total_sectors cxt.geom)]
                  else [])
        ∧ (((fetch_sun cxt).lens j + (fetch_sun cxt).lens i) % cylinder_size cxt.geom = 0 →
            out.filter is_gap = out) := by
  have hall : ∀ m, m ≠ i → m ≠ j → (fetch_sun cxt).lens m = 0 := by
    intro m hmi hmj
    exact fetch_lens_outside cxt _ hocc m (by
      intro h; rcases h with h | h
      · exact hmi h
      · exact hmj h)
  have hli : (fetch_sun cxt).lens i ≠ 0 := (hocc i hi).mpr (Or.inl rfl)
  have hlj : (fetch_sun cxt).lens j ≠ 0 := (hocc j (by omega)).mpr (Or.inr rfl)
  have hne : j ≠ i := by omega
  have hmerge := verify_merge_adjacent cxt i j hji hi hall hli hlj hei hej hadj
  have hs : (verify_merge cxt).starts j
      = min ((fetch_sun cxt).starts i) ((fetch_sun cxt).starts j) := by
    rw [hmerge]; simp [add_out, merge_into]
  have hl : (verify_merge cxt).lens j = (fetch_sun cxt).lens j + (fetch_sun cxt).lens i := by
    rw [hmerge]; simp [add_out, merge_into, hne]
  have hl0 : (verify_merge cxt).lens i = 0 := by
    rw [hmerge]; simp [add_out, merge_into]
  have hlo : ∀ m, m ≠ j → (verify_merge cxt).lens m = 0 := by
    intro m hm
    rw [hmerge]
    exact merge_into_lens_other _ i j m hall hm
  have ho : (verify_merge cxt).out = (List.range 7).flatMap
      (boundary_warning (cylinder_size cxt.geom)
        ((fetch_sun cxt).lens j + (fetch_sun cxt).lens i) j) := by
    rw [hmerge]; simp [add_out, merge_into]
  have hend : (verify_merge cxt).starts j + (verify_merge cxt).lens j
      = max ((fetch_sun cxt).starts i + (fetch_sun cxt).lens i)
          ((fetch_sun cxt).starts j + (fetch_sun cxt).lens j) := by
    rw [hs, hl, Nat.min_def, Nat.max_def]
    rcases hadj with h | h <;> split <;> split <;> omega
  have hlt : (verify_merge cxt).starts j + (verify_merge cxt).lens j < 2 ^ 32 := by
    rw [hend, Nat.max_def]; split <;> omega
  have hgaps := verify_gaps_single cxt (verify_merge cxt) j (by omega)
    (by rw [hl]; omega) hlo
  rw [ho, Nat.mod_eq_of_lt hlt] at hgaps
  have hpos : ((verify_merge cxt).starts j ≠ 0) = (0 < (verify_merge cxt).starts j) := by
    apply propext; omega
  simp only [hpos] at hgaps
  have hw := boundary_warnings_no_gap (cylinder_size cxt.geom)
    (fun _ => (fetch_sun cxt).lens j + (fetch_sun cxt).lens i) j (List.range 7)
  simp only [] at hw
  have hfg : (verify_gaps cxt (verify_merge cxt)).filter is_gap
      = (if 0 < (verify_merge cxt).starts j
                then [sun_message.unused_gap 0 ((verify_merge cxt).starts j)] else [])
              ++ (if (verify_merge cxt).starts j + (verify_merge cxt).lens j
                      < total_sectors cxt.geom
                  then [sun_message.unused_gap
                          ((verify_merge cxt).starts j + (verify_merge cxt).lens j)
                          (total_sectors cxt.geom)]
                  else []) := by
    rw [hgaps]
    simp only [List.filter_append, hw.1, List.nil_append]
    split <;> split <;> simp [is_gap]
  refine ⟨hs, hend, hl, hl0, verify_gaps cxt (verify_merge cxt), ?_, hgaps, ?_, hfg, ?_⟩
  · unfold sun_verify_disklabel
    rw [if_neg hcs]
  · rw [hgaps]
    simp only [List.filter_append, hw.2, List.nil_append]
    split <;> split <;> simp [is_overlap]
  · intro hal
    have hz := boundary_warnings_aligned (cylinder_size cxt.geom)
      (fun _ => (fetch_sun cxt).lens j + (fetch_sun cxt).lens i) j hal (List.range 7)
    simp only [] at hz
    rw [hfg, hgaps, hz]
    simp

theorem adjacent_example_lens :
    ∀ m, m < 8 → ((fetch_sun context_adjacent_example).lens m ≠ 0 ↔ (m = 1 ∨ m = 0)) := by
  decide

/-- Witness of C9: with A = [0, 100) in slot 0 and B = [100, 200) in slot 1
on a disk of 200 sectors, slot 0 becomes [0, 200), slot 1 is emptied and
nothing at all is printed. -/
theorem verify_merges_adjacent_witness :
    (0 < 1 ∧ 1 < 8 ∧ cylinder_size context_adjacent_example.geom ≠ 0
      ∧ (∀ m, m < 8 → ((fetch_sun context_adjacent_example).lens m ≠ 0 ↔ (m = 1 ∨ m = 0)))
      ∧ (fetch_sun context_adjacent_example).starts 0 = 0
      ∧ (fetch_sun context_adjacent_example).lens 0 = 100
      ∧ (fetch_sun context_adjacent_example).starts 1 = 100
      ∧ (fetch_sun context_adjacent_example).lens 1 = 100
      ∧ total_sectors context_adjacent_example.geom = 200)
    ∧ (verify_merge context_adjacent_example).starts 0 = 0
    ∧ (verify_merge context_adjacent_example).lens 0 = 200
    ∧ (verify_merge context_adjacent_example).lens 1 = 0
    ∧ sun_verify_disklabel context_adjacent_example = some (0, []) :=
  have h := verify_merges_adjacent context_adjacent_example 1 0 (by decide) (by decide)
    (by decide) adjacent_example_lens (by decide) (by decide) (by decide)
  ⟨⟨by decide, by decide, by decide, adjacent_example_lens, by decide, by decide, by decide,
      by decide, by decide⟩,
    h.1.trans (by decide), h.2.2.1.trans (by decide), h.2.2.2.1,
    match h.2.2.2.2 with
    | ⟨_, h1, h2, _⟩ => h1.trans (by rw [h2]; rfl)⟩

/-! ## C8 -/

/-- C8, the code at a failing input: on `context_three_slots` the extents
fetched are slot 0 = [0, 100), slot 1 = [150, 250) and slot 3 = [100, 200).
After the merge passes the working slots 0 = [0, 200) and 1 = [150, 250) both
have a non-zero length and properly intersect, yet `sun_verify_disklabel`
prints no overlap line at all: its whole output is the two gap lines 200-150
and 250-1000. -/
theorem verify_misses_overlap :
    ((fetch_sun context_three_slots).starts 0 = 0
      ∧ (fetch_sun context_three_slots).lens 0 = 100
      ∧ (fetch_sun context_three_slots).starts 1 = 150
      ∧ (fetch_sun context_three_slots).lens 1 = 100
      ∧ (fetch_sun context_three_slots).starts 3 = 100
      ∧ (fetch_sun context_three_slots).lens 3 = 100)
    ∧ ((verify_merge context_three_slots).starts 0 = 0
      ∧ (verify_merge context_three_slots).lens 0 = 200
      ∧ (verify_merge context_three_slots).starts 1 = 150
      ∧ (verify_merge context_three_slots).lens 1 = 100)
    ∧ ((verify_merge context_three_slots).starts 1
        < (verify_merge context_three_slots).starts 0 + (verify_merge context_three_slots).lens 0
      ∧ (verify_merge context_three_slots).starts 0
        < (verify_merge context_three_slots).starts 1 + (verify_merge context_three_slots).lens 1)
    ∧ sun_verify_disklabel context_three_slots
        = some (0, [sun_message.unused_gap 200 150, sun_message.unused_gap 250 1000]) := by
  decide

/-! ## Lemmas on array slots -/

theorem at_index_set_index_same {α : Type} [Inhabited α] {n : Nat} (a : Fin n → α)
    (i : Nat) (v : α) (hi : i < n) : at_index (set_index a i v) i = v := by
  simp [at_index, set_index, hi]

theorem at_index_set_index_other {α : Type} [Inhabited α] {n : Nat} (a : Fin n → α)
    (i m : Nat) (v : α) (hm : m ≠ i) : at_index (set_index a i v) m = at_index a m := by
  unfold at_index set_index
  by_cases h : m < n
  · simp [h, hm]
  · simp [h]

theorem set_index_self {α : Type} [Inhabited α] {n : Nat} (a : Fin n → α) (i : Nat) :
    set_index a i (at_index a i) = a := by
  funext k
  unfold set_index at_index
  by_cases h : k.val = i
  · subst h
    simp
  · simp [h]

theorem set_index_twice {α : Type} {n : Nat} (a : Fin n → α) (i : Nat) (v w : α) :
    set_index (set_index a i v) i w = set_index a i w := by
  funext k
  unfold set_index
  by_cases h : k.val = i <;> simp [h]

/-! ## C16 -/

/-- C16: for every label and slot index `n < 8`, `sun_delete_partition`
returns 0 and leaves slot `n` with `num_sectors = 0` and the tag unassigned
(in the label's byte order), whatever the slot held, the canonical whole-disk
slot included; `start_cylinder` and the flags of slot `n`, every other slot,
every other field of the label, the geometry, `other_endian` and the changed
marks are as before; deleting twice gives the same state as deleting once,
and deleting an empty unassigned slot leaves the state unchanged. -/
theorem delete_partition_effect (cxt : fdisk_context) (n : Nat) (hn : n < 8) :
    (sun_delete_partition cxt n).1 = 0
    ∧ (at_index (sun_delete_partition cxt n).2.1.firstsector.partitions n).num_sectors = 0
    ∧ (at_index (sun_delete_partition cxt n).2.1.firstsector.part_tags n).tag
        = SSWAP16 cxt.other_endian SUN_TAG_UNASSIGNED
    ∧ (at_index (sun_delete_partition cxt n).2.1.firstsector.partitions n).start_cylinder
        = (at_index cxt.firstsector.partitions n).start_cylinder
    ∧ (at_index (sun_delete_partition cxt n).2.1.firstsector.part_tags n).flag
        = (at_index cxt.firstsector.part_tags n).flag
    ∧ (∀ m, m ≠ n →
        at_index (sun_delete_partition cxt n).2.1.firstsector.partitions m
          = at_index cxt.firstsector.partitions m
        ∧ at_index (sun_delete_partition cxt n).2.1.firstsector.part_tags m
          = at_index cxt.firstsector.part_tags m)
    ∧ (sun_delete_partition cxt n).2.1
        = { cxt with firstsector := { cxt.firstsector with
              part_tags := (sun_delete_partition cxt n).2.1.firstsector.part_tags,
              partitions := (sun_delete_partition cxt n).2.1.firstsector.partitions } }
    ∧ (sun_delete_partition (sun_delete_partition cxt n).2.1 n).2.1
        = (sun_delete_partition cxt n).2.1
    ∧ ((at_index cxt.firstsector.partitions n).num_sectors = 0
        ∧ (at_index cxt.firstsector.part_tags n).tag
            = SSWAP16 cxt.other_endian SUN_TAG_UNASSIGNED →
        (sun_delete_partition cxt n).2.1 = cxt) := by
  refine ⟨rfl, ?_, ?_, ?_, ?_, ?_, rfl, ?_, ?_⟩
  · simp only [sun_delete_partition]
    rw [at_index_set_index_same _ _ _ hn]
  · simp only [sun_delete_partition]
    rw [at_index_set_index_same _ _ _ hn]
  · simp only [sun_delete_partition]
    rw [at_index_set_index_same _ _ _ hn]
  · simp only [sun_delete_partition]
    rw [at_index_set_index_same _ _ _ hn]
  · intro m hm
    simp only [sun_delete_partition]
    rw [at_index_set_index_other _ _ _ _ hm, at_index_set_index_other _ _ _ _ hm]
    exact ⟨rfl, rfl⟩
  · simp only [sun_delete_partition]
    rw [at_index_set_index_same _ _ _ hn, at_index_set_index_same _ _ _ hn,
      set_index_twice, set_index_twice]
  · intro h
    have hp : ({ at_index cxt.firstsector.partitions n with num_sectors := 0 } : sun_partition)
        = at_index cxt.firstsector.partitions n := by
      cases hq : at_index cxt.firstsector.partitions n with
      | mk sc ns =>
        rw [hq] at h
        simp only at h
        simp [h.1]
    have ht : ({ at_index cxt.firstsector.part_tags n with
          tag := SSWAP16 cxt.other_endian SUN_TAG_UNASSIGNED } : sun_tag_flag)
        = at_index cxt.firstsector.part_tags n := by
      cases hq : at_index cxt.firstsector.part_tags n with
      | mk tg fl =>
        rw [hq] at h
        simp only at h
        simp [h.2]
    simp only [sun_delete_partition]
    rw [hp, ht, set_index_self, set_index_self]

/-- Witness of C16: deleting the canonical whole-disk slot 2 of
`context_whole_disk` prints the advice, returns 0 and empties the slot. -/
theorem delete_partition_effect_witness :
    2 < 8
    ∧ (sun_delete_partition context_whole_disk 2).2.2
        = [label_message.keep_whole_disk 25600]
    ∧ (sun_delete_partition context_whole_disk 2).1 = 0
    ∧ (at_index (sun_delete_partition context_whole_disk 2).2.1.firstsector.partitions 2).num_sectors
        = 0
    ∧ (at_index (sun_delete_partition context_whole_disk 2).2.1.firstsector.part_tags 2).tag
        = SSWAP16 context_whole_disk.other_endian SUN_TAG_UNASSIGNED :=
  have h := delete_partition_effect context_whole_disk 2 (by decide)
  ⟨by decide, by decide, h.1, h.2.1, h.2.2.1⟩

/-! ## C17 -/

/-- C17: `sun_set_parttype` returns `-EINVAL`, asks nothing, prints nothing
and leaves the state unchanged whenever the slot index is out of range
(`i >= 8`), the type is absent, or the type code exceeds 65535. -/
theorem set_parttype_rejects (cxt : fdisk_context) (i : Nat) (t : Option fdisk_parttype)
    (line : String)
    (h : i ≥ 8 ∨ t = none ∨ ∃ ty, t = some ty ∧ ty.type > 65535) :
    (sun_set_parttype cxt i t line).ret = -EINVAL
    ∧ (sun_set_parttype cxt i t line).cxt = cxt
    ∧ (sun_set_parttype cxt i t line).asked = false
    ∧ (sun_set_parttype cxt i t line).out = [] := by
  cases t with
  | none => exact ⟨rfl, rfl, rfl, rfl⟩
  | some ty =>
    have hc : i ≥ partitions ∨ ty.type > 65535 := by
      rcases h with h | h | ⟨ty2, h1, h2⟩
      · exact Or.inl h
      · exact absurd h (by simp)
      · have : ty = ty2 := by injection h1
        subst this
        exact Or.inr h2
    simp only [sun_set_parttype, if_pos hc]
    exact ⟨trivial, trivial, trivial, trivial⟩

/-- Witness of C17: slot 8 does not exist, so setting its type is refused
with -22. -/
theorem set_parttype_rejects_witness :
    (8 ≥ 8 ∨ (some (⟨SUN_TAG_LINUX_NATIVE, none⟩ : fdisk_parttype)) = none
      ∨ ∃ ty, some (⟨SUN_TAG_LINUX_NATIVE, none⟩ : fdisk_parttype) = some ty ∧ ty.type > 65535)
    ∧ (sun_set_parttype context_whole_disk 8 (some ⟨SUN_TAG_LINUX_NATIVE, none⟩) "").ret = -22
    ∧ (sun_set_parttype context_whole_disk 8 (some ⟨SUN_TAG_LINUX_NATIVE, none⟩) "").cxt
        = context_whole_disk :=
  have h := set_parttype_rejects context_whole_disk 8 (some ⟨SUN_TAG_LINUX_NATIVE, none⟩) ""
    (Or.inl (by decide))
  ⟨Or.inl (by decide), h.1, h.2.1⟩

/-! ## C18 -/

/-- C18, the claim as stated fails: slot 0 of `context_whole_disk` has
`start_cylinder = 0`; setting it to SunOS swap (`SUN_TAG_SWAP`) asks for no
confirmation and, although the line available is not "YES", returns 0 with the
tag changed from Linux native to SunOS swap. -/
theorem set_sunos_swap_unconfirmed :
    (at_index context_whole_disk.firstsector.partitions 0).start_cylinder = 0
    ∧ (at_index context_whole_disk.firstsector.part_tags 0).tag = SUN_TAG_LINUX_NATIVE
    ∧ (sun_set_parttype context_whole_disk 0 (some ⟨SUN_TAG_SWAP, some "SunOS swap"⟩)
        "no\n").asked = false
    ∧ (sun_set_parttype context_whole_disk 0 (some ⟨SUN_TAG_SWAP, some "SunOS swap"⟩)
        "no\n").ret = 0
    ∧ (at_index (sun_set_parttype context_whole_disk 0
        (some ⟨SUN_TAG_SWAP, some "SunOS swap"⟩) "no\n").cxt.firstsector.part_tags 0).tag
        = SUN_TAG_SWAP := by
  decide

/-- C18 as amended: `sun_set_parttype` asks for confirmation exactly when
the call passes the argument checks of line 641, the new type is Linux swap
(`SUN_TAG_LINUX_SWAP`) and the slot's `start_cylinder` is 0; when it has asked
and the answer is anything other than the literal "YES\n" it returns 1 and
leaves the state, the slot's tag and flags included, unchanged; when it has
not asked, the result does not depend on the line available; a change to
SunOS swap (`SUN_TAG_SWAP`) on a slot `i < 8` is applied without asking,
whatever its start cylinder: the call returns 0 and stores the tag. -/
theorem set_linux_swap_needs_yes (cxt : fdisk_context) (i : Nat)
    (t : Option fdisk_parttype) (line : String) :
    ((sun_set_parttype cxt i t line).asked = true
        ↔ ∃ ty, t = some ty ∧ i < 8 ∧ ty.type = SUN_TAG_LINUX_SWAP
            ∧ (at_index cxt.firstsector.partitions i).start_cylinder = 0)
    ∧ ((sun_set_parttype cxt i t line).asked = true → line ≠ "YES\n" →
        (sun_set_parttype cxt i t line).ret = 1
        ∧ (sun_set_parttype cxt i t line).cxt = cxt)
    ∧ ((sun_set_parttype cxt i t line).asked = false →
        ∀ line2, sun_set_parttype cxt i t line2 = sun_set_parttype cxt i t line)
    ∧ (∀ name, i < 8 →
        (sun_set_parttype cxt i (some ⟨SUN_TAG_SWAP, name⟩) line).asked = false
        ∧ (sun_set_parttype cxt i (some ⟨SUN_TAG_SWAP, name⟩) line).ret = 0
        ∧ (at_index (sun_set_parttype cxt i (some ⟨SUN_TAG_SWAP, name⟩)
            line).cxt.firstsector.part_tags i).tag
            = SSWAP16 cxt.other_endian SUN_TAG_SWAP) := by
  refine ⟨?_, ?_, ?_, ?_⟩
  · cases t with
    | none =>
      simp [sun_set_parttype]
    | some ty =>
      by_cases hr : i ≥ partitions ∨ ty.type > 65535
      · have hn : ¬ (i < 8 ∧ ty.type = SUN_TAG_LINUX_SWAP
            ∧ (at_index cxt.firstsector.partitions i).start_cylinder = 0) := by
          rintro ⟨h1, h2, _⟩
          rcases hr with h | h
          · simp only [partitions, SUN_NUM_PARTITIONS] at h
            omega
          · rw [h2] at h
            exact absurd h (by decide)
        simp only [sun_set_parttype, if_pos hr]
        constructor
        · intro h
          exact absurd h (by simp)
        · rintro ⟨ty2, h1, h2⟩
          injection h1 with h1
          subst h1
          exact absurd h2 hn
      · have hi : i < 8 := by
          simp only [partitions, SUN_NUM_PARTITIONS] at hr
          omega
        simp only [sun_set_parttype, if_neg hr]
        by_cases ha : ty.type = SUN_TAG_LINUX_SWAP
            ∧ (at_index cxt.firstsector.partitions i).start_cylinder = 0
        · by_cases hl : line = "YES\n"
          · simp [ha, hl, hi]
          · simp [ha, hl, hi]
        · have hd : decide (ty.type = SUN_TAG_LINUX_SWAP
              ∧ (at_index cxt.firstsector.partitions i).start_cylinder = 0) = false :=
            decide_eq_false ha
          rw [hd]
          simp only [Bool.false_eq_true, false_and, if_false, false_iff]
          rintro ⟨ty2, h1, _, h3, h4⟩
          injection h1 with h1
          subst h1
          exact ha ⟨h3, h4⟩
  · intro ha hl
    cases t with
    | none => simp [sun_set_parttype] at ha
    | some ty =>
      by_cases hr : i ≥ partitions ∨ ty.type > 65535
      · simp [sun_set_parttype, if_pos hr] at ha
      · simp only [sun_set_parttype, if_neg hr] at ha ⊢
        by_cases hd : decide (ty.type = SUN_TAG_LINUX_SWAP
              ∧ (at_index cxt.firstsector.partitions i).start_cylinder = 0) = true
        · rw [hd]
          simp [hl]
        · have hd2 : decide (ty.type = SUN_TAG_LINUX_SWAP
              ∧ (at_index cxt.firstsector.partitions i).start_cylinder = 0) = false := by
            simpa using hd
          rw [hd2] at ha
          simp at ha
  · intro ha line2
    cases t with
    | none => rfl
    | some ty =>
      by_cases hr : i ≥ partitions ∨ ty.type > 65535
      · simp only [sun_set_parttype, if_pos hr]
      · simp only [sun_set_parttype, if_neg hr] at ha ⊢
        by_cases hd : decide (ty.type = SUN_TAG_LINUX_SWAP
              ∧ (at_index cxt.firstsector.partitions i).start_cylinder = 0) = true
        · rw [hd] at ha
          by_cases hl : line = "YES\n" <;> simp [hl] at ha
        · have hd2 : decide (ty.type = SUN_TAG_LINUX_SWAP
              ∧ (at_index cxt.firstsector.partitions i).start_cylinder = 0) = false := by
            simpa using hd
          rw [hd2]
          simp
  · intro name hi
    have hr2 : ¬ (i ≥ partitions ∨ SUN_TAG_SWAP > 65535) := by
      simp only [partitions, SUN_NUM_PARTITIONS, SUN_TAG_SWAP]
      omega
    have hne : ¬ (SUN_TAG_SWAP = SUN_TAG_LINUX_SWAP) := by decide
    refine ⟨?_, ?_, ?_⟩
    · simp only [sun_set_parttype, if_neg hr2]
      simp [hne]
    · simp only [sun_set_parttype, if_neg hr2]
      simp [hne]
    · simp only [sun_set_parttype, if_neg hr2]
      simp [hne]
      rw [at_index_set_index_same _ _ _ hi]

/-- Witness of C18 as amended: Linux swap on slot 0 of `context_whole_disk`,
which starts at cylinder 0, asks; answered with "no" it is refused with 1 and
changes nothing. -/
theorem set_linux_swap_needs_yes_witness :
    (0 < 8 ∧ (at_index context_whole_disk.firstsector.partitions 0).start_cylinder = 0
      ∧ "no\n" ≠ "YES\n")
    ∧ (sun_set_parttype context_whole_disk 0 (some ⟨SUN_TAG_LINUX_SWAP, none⟩) "no\n").asked
        = true
    ∧ (sun_set_parttype context_whole_disk 0 (some ⟨SUN_TAG_LINUX_SWAP, none⟩) "no\n").ret = 1
    ∧ (sun_set_parttype context_whole_disk 0 (some ⟨SUN_TAG_LINUX_SWAP, none⟩) "no\n").cxt
        = context_whole_disk :=
  have h := set_linux_swap_needs_yes context_whole_disk 0 (some ⟨SUN_TAG_LINUX_SWAP, none⟩)
    "no\n"
  have ha := h.1.mpr ⟨_, rfl, by decide, rfl, by decide⟩
  ⟨⟨by decide, by decide, by decide⟩, ha, (h.2.1 ha (by decide)).1, (h.2.1 ha (by decide)).2⟩

/-! ## Lemmas on the flag bits -/

theorem mod_and_low (y r : Nat) (hr : r < 65536) : (y % 65536) &&& r = y &&& r := by
  apply Nat.eq_of_testBit_eq
  intro i
  have e0 : (65536 : Nat) = 2 ^ 16 := by norm_num
  rw [e0]
  simp only [Nat.testBit_and, Nat.testBit_mod_two_pow]
  by_cases hi : i < 16
  · simp [hi]
  · have hlt : r < 2 ^ i := by
      have h16 : (2 : Nat) ^ 16 ≤ 2 ^ i := Nat.pow_le_pow_right (by norm_num) (by omega)
      omega
    simp [hi, Nat.testBit_lt_two_pow hlt]

theorem or_and_self (f x : Nat) : (f ||| x) &&& x = x := by
  apply Nat.eq_of_testBit_eq
  intro i
  simp only [Nat.testBit_and, Nat.testBit_or]
  cases f.testBit i <;> cases x.testBit i <;> rfl

theorem or_and_disjoint (f x r : Nat) (h : x &&& r = 0) : (f ||| x) &&& r = f &&& r := by
  apply Nat.eq_of_testBit_eq
  intro i
  have hi : (x &&& r).testBit i = false := by rw [h]; simp
  simp only [Nat.testBit_and, Nat.testBit_or] at hi ⊢
  cases hf : f.testBit i <;> cases hx : x.testBit i <;> cases hr : r.testBit i <;>
    simp_all

theorem flag_after_set (oe : Bool) (f : Nat) :
    ((f ||| SSWAP16 oe SUN_FLAG_UNMNT) % 65536) &&& SSWAP16 oe SUN_FLAG_UNMNT ≠ 0
    ∧ ((f ||| SSWAP16 oe SUN_FLAG_UNMNT) % 65536) &&& SSWAP16 oe SUN_FLAG_RONLY
        = f &&& SSWAP16 oe SUN_FLAG_RONLY := by
  rw [mod_and_low _ _ (SSWAP16_lt _ _), mod_and_low _ _ (SSWAP16_lt _ _), or_and_self]
  constructor
  · cases oe <;> decide
  · apply or_and_disjoint
    cases oe <;> decide

theorem flag_after_clear (oe : Bool) (f : Nat) :
    ((f &&& (0xFFFFFFFF ^^^ SSWAP16 oe SUN_FLAG_UNMNT)) % 65536) &&& SSWAP16 oe SUN_FLAG_UNMNT = 0
    ∧ ((f &&& (0xFFFFFFFF ^^^ SSWAP16 oe SUN_FLAG_UNMNT)) % 65536) &&& SSWAP16 oe SUN_FLAG_RONLY
        = f &&& SSWAP16 oe SUN_FLAG_RONLY := by
  rw [mod_and_low _ _ (SSWAP16_lt _ _), mod_and_low _ _ (SSWAP16_lt _ _), Nat.and_assoc,
    Nat.and_assoc]
  have h1 : (0xFFFFFFFF ^^^ SSWAP16 oe SUN_FLAG_UNMNT) &&& SSWAP16 oe SUN_FLAG_UNMNT = 0 := by
    cases oe <;> decide
  have h2 : (0xFFFFFFFF ^^^ SSWAP16 oe SUN_FLAG_UNMNT) &&& SSWAP16 oe SUN_FLAG_RONLY
      = SSWAP16 oe SUN_FLAG_RONLY := by
    cases oe <;> decide
  rw [h1, h2]
  simp

theorem get_parttype_code (cxt : fdisk_context) (n : Nat) (hn : n < 8) :
    ∃ p, sun_get_parttype cxt n = some p
      ∧ p.type = SSWAP16 cxt.other_endian (at_index cxt.firstsector.part_tags n).tag := by
  unfold sun_get_parttype
  have h : ¬ n ≥ partitions := by
    simp only [partitions, SUN_NUM_PARTITIONS]
    omega
  rw [if_neg h]
  cases hf : fdisk_get_parttype_from_code
      (SSWAP16 cxt.other_endian (at_index cxt.firstsector.part_tags n).tag) with
  | none => exact ⟨_, rfl, rfl⟩
  | some t =>
    refine ⟨t, rfl, ?_⟩
    unfold fdisk_get_parttype_from_code at hf
    have := List.find?_some hf
    simpa using this

theorem set_parttype_ok (cxt : fdisk_context) (i : Nat) (ty : fdisk_parttype) (line : String)
    (hret : (sun_set_parttype cxt i (some ty) line).ret = 0) :
    i < 8 ∧ ty.type ≤ 65535
    ∧ (sun_set_parttype cxt i (some ty) line).cxt
        = { cxt with firstsector := { cxt.firstsector with
              part_tags := set_index cxt.firstsector.part_tags i
                ⟨SSWAP16 cxt.other_endian ty.type,
                 if ty.type = SUN_TAG_SWAP ∨ ty.type = SUN_TAG_LINUX_SWAP
                 then ((at_index cxt.firstsector.part_tags i).flag
                        ||| SSWAP16 cxt.other_endian SUN_FLAG_UNMNT) % 65536
                 else ((at_index cxt.firstsector.part_tags i).flag
                        &&& (0xFFFFFFFF ^^^ SSWAP16 cxt.other_endian SUN_FLAG_UNMNT))
                      % 65536⟩ } } := by
  by_cases hc : i ≥ partitions ∨ ty.type > 65535
  · simp only [sun_set_parttype, if_pos hc] at hret
    exact absurd hret (by decide)
  · simp only [sun_set_parttype, if_neg hc] at hret ⊢
    have h8 : i < 8 ∧ ty.type ≤ 65535 := by
      simp only [partitions, SUN_NUM_PARTITIONS] at hc
      omega
    refine ⟨h8.1, h8.2, ?_⟩
    split at hret
    · have h1 : (1 : Int) = 0 := hret
      exact absurd h1 (by decide)
    · rename_i hno
      rw [if_neg hno]

/-! ## C19 -/

/-- C19: after a successful `sun_set_parttype(i, t)` (return value 0), for
either value of `other_endian`, the slot's tag decodes to `t.type`, so
`sun_get_parttype(i)` returns a type with code `t.type`, in the table or not;
the unmountable flag (tested as line 553 does) is set exactly when `t.type`
is SunOS swap or Linux swap, whatever it was before; the read-only flag,
`start_cylinder` and `num_sectors` of the slot, and every other slot, are as
before. -/
theorem set_parttype_effect (cxt : fdisk_context) (i : Nat) (ty : fdisk_parttype)
    (line : String)
    (hret : (sun_set_parttype cxt i (some ty) line).ret = 0) :
    SSWAP16 cxt.other_endian
        (at_index (sun_set_parttype cxt i (some ty) line).cxt.firstsector.part_tags i).tag
      = ty.type
    ∧ (∃ p, sun_get_parttype (sun_set_parttype cxt i (some ty) line).cxt i = some p
        ∧ p.type = ty.type)
    ∧ ((at_index (sun_set_parttype cxt i (some ty) line).cxt.firstsector.part_tags i).flag
          &&& SSWAP16 cxt.other_endian SUN_FLAG_UNMNT ≠ 0
        ↔ (ty.type = SUN_TAG_SWAP ∨ ty.type = SUN_TAG_LINUX_SWAP))
    ∧ (at_index (sun_set_parttype cxt i (some ty) line).cxt.firstsector.part_tags i).flag
          &&& SSWAP16 cxt.other_endian SUN_FLAG_RONLY
        = (at_index cxt.firstsector.part_tags i).flag
          &&& SSWAP16 cxt.other_endian SUN_FLAG_RONLY
    ∧ (sun_set_parttype cxt i (some ty) line).cxt.firstsector.partitions
        = cxt.firstsector.partitions
    ∧ (∀ m, m ≠ i →
        at_index (sun_set_parttype cxt i (some ty) line).cxt.firstsector.part_tags m
          = at_index cxt.firstsector.part_tags m)
    ∧ (sun_set_parttype cxt i (some ty) line).cxt.other_endian = cxt.other_endian := by
  obtain ⟨hi, hty, hc⟩ := set_parttype_ok cxt i ty line hret
  have htag : (at_index (sun_set_parttype cxt i (some ty) line).cxt.firstsector.part_tags i)
      = ⟨SSWAP16 cxt.other_endian ty.type,
         if ty.type = SUN_TAG_SWAP ∨ ty.type = SUN_TAG_LINUX_SWAP
         then ((at_index cxt.firstsector.part_tags i).flag
                ||| SSWAP16 cxt.other_endian SUN_FLAG_UNMNT) % 65536
         else ((at_index cxt.firstsector.part_tags i).flag
                &&& (0xFFFFFFFF ^^^ SSWAP16 cxt.other_endian SUN_FLAG_UNMNT)) % 65536⟩ := by
    rw [hc]
    exact at_index_set_index_same _ _ _ hi
  have hdec : SSWAP16 cxt.other_endian
      (at_index (sun_set_parttype cxt i (some ty) line).cxt.firstsector.part_tags i).tag
      = ty.type := by
    rw [htag]
    show SSWAP16 cxt.other_endian (SSWAP16 cxt.other_endian ty.type) = ty.type
    rw [SSWAP16_SSWAP16, Nat.mod_eq_of_lt (by omega)]
  have hoe : (sun_set_parttype cxt i (some ty) line).cxt.other_endian = cxt.other_endian := by
    rw [hc]
  refine ⟨hdec, ?_, ?_, ?_, by rw [hc], ?_, hoe⟩
  · obtain ⟨p, hp1, hp2⟩ := get_parttype_code (sun_set_parttype cxt i (some ty) line).cxt i hi
    refine ⟨p, hp1, ?_⟩
    rw [hp2, hoe, hdec]
  · rw [htag]
    by_cases hs : ty.type = SUN_TAG_SWAP ∨ ty.type = SUN_TAG_LINUX_SWAP
    · simp only [if_pos hs]
      exact ⟨fun _ => hs, fun _ => (flag_after_set _ _).1⟩
    · simp only [if_neg hs]
      constructor
      · intro h
        exact absurd (flag_after_clear _ _).1 h
      · intro h
        exact absurd h hs
  · rw [htag]
    by_cases hs : ty.type = SUN_TAG_SWAP ∨ ty.type = SUN_TAG_LINUX_SWAP
    · simp only [if_pos hs]
      exact (flag_after_set _ _).2
    · simp only [if_neg hs]
      exact (flag_after_clear _ _).2
  · intro m hm
    rw [hc]
    exact at_index_set_index_other _ _ _ _ hm

/-- Witness of C19: slot 0 of `context_whole_disk` (Linux native, read-only)
given the code 0x42, which is not in the table: the call returns 0, the code
reads back as 0x42 and the read-only flag is kept. -/
theorem set_parttype_effect_witness :
    (sun_set_parttype context_whole_disk 0 (some ⟨0x42, none⟩) "").ret = 0
    ∧ sun_get_parttype (sun_set_parttype context_whole_disk 0 (some ⟨0x42, none⟩) "").cxt 0
        = some ⟨0x42, some "unknown"⟩
    ∧ SSWAP16 context_whole_disk.other_endian
        (at_index (sun_set_parttype context_whole_disk 0
          (some ⟨0x42, none⟩) "").cxt.firstsector.part_tags 0).tag = 0x42
    ∧ (at_index (sun_set_parttype context_whole_disk 0
          (some ⟨0x42, none⟩) "").cxt.firstsector.part_tags 0).flag
          &&& SSWAP16 context_whole_disk.other_endian SUN_FLAG_RONLY
        = (at_index context_whole_disk.firstsector.part_tags 0).flag
          &&& SSWAP16 context_whole_disk.other_endian SUN_FLAG_RONLY :=
  have h := set_parttype_effect context_whole_disk 0 ⟨0x42, none⟩ "" (by decide)
  ⟨by decide, by decide, h.1, h.2.2.2.1⟩

/-! ## Lemmas on `sun_add_partition` -/

theorem read_int_some (low dflt high base : Nat) :
    ∀ (answers : List Nat) (a : Nat) (rest : List Nat),
      read_int low dflt high base answers = some (a, rest) →
      a ∈ answers ∧ low ≤ a ∧ a ≤ high ∧ rest.length < answers.length
      ∧ (∀ x, x ∈ rest → x ∈ answers) := by
  intro answers
  induction answers with
  | nil => intro a rest h; simp [read_int] at h
  | cons b bs ih =>
    intro a rest h
    unfold read_int at h
    by_cases hb : low ≤ b ∧ b ≤ high
    · rw [if_pos hb] at h
      injection h with h
      injection h with h1 h2
      subst h1; subst h2
      exact ⟨List.mem_cons_self _ _, hb.1, hb.2, by simp, fun x hx => List.mem_cons_of_mem _ hx⟩
    · rw [if_neg hb] at h
      obtain ⟨h1, h2, h3, h4, h5⟩ := ih a rest h
      exact ⟨List.mem_cons_of_mem _ h1, h2, h3, by simp only [List.length_cons]; omega,
        fun x hx => List.mem_cons_of_mem _ (h5 x hx)⟩

theorem scround_lt (u : display_units) (x : Nat) : scround u x < 2 ^ 32 := by
  unfold scround
  have h : (x + u.units_per_sector - 1) % 2 ^ 32 < 2 ^ 32 := Nat.mod_lt _ (by norm_num)
  exact Nat.lt_of_le_of_lt (Nat.div_le_self _ _) h

theorem scround_sector (x : Nat) (hx : x < 2 ^ 32) : scround sector_units x = x := by
  unfold scround sector_units
  simp only [Nat.add_sub_cancel, Nat.div_one]
  exact Nat.mod_eq_of_lt hx

theorem first_to_sectors_lt (u : display_units) (g : fdisk_geometry) (f m : Nat)
    (hf : f < 2 ^ 32) (h : first_to_sectors u g f = some m) : m < 2 ^ 32 := by
  unfold first_to_sectors at h
  split at h
  · injection h with h
    rw [← h]
    exact Nat.mod_lt _ (by norm_num)
  · split at h
    · exact absurd h (by simp)
    · injection h with h
      rw [← h]
      split
      · exact Nat.mod_lt _ (by norm_num)
      · exact hf

theorem first_to_sectors_zero (u : display_units) (g : fdisk_geometry) (m : Nat)
    (h : first_to_sectors u g 0 = some m) : m = 0 := by
  unfold first_to_sectors at h
  split at h
  · injection h with h
    rw [← h]
    simp
  · split at h
    · exact absurd h (by simp)
    · injection h with h
      rw [← h]
      simp

theorem add_first_loop_spec (u : display_units) (g : fdisk_geometry) (n : Nat)
    (starts lens : Nat → Nat) (start stop : Nat) :
    ∀ (fuel : Nat) (wd : Bool) (out : List label_message) (answers : List Nat)
      (prompts : Nat) (lr : first_result),
      add_first_loop u g n starts lens start stop fuel wd out answers prompts = some lr →
      (∃ f, f ∈ answers ∧ first_to_sectors u g f = some lr.first
          ∧ (wd = true → f = 0)
          ∧ (wd = false → scround u start ≤ f ∧ f ≤ scround u stop))
      ∧ (lr.whole_disk = false → first_is_allocated starts lens lr.first = false)
      ∧ (lr.whole_disk = true → wd = true ∨ (n = 2 ∧ lr.first = 0))
      ∧ (wd = true → lr.whole_disk = true)
      ∧ lr.first < 2 ^ 32
      ∧ prompts < lr.prompts
      ∧ (∀ x, x ∈ lr.rest → x ∈ answers) := by
  intro fuel
  induction fuel with
  | zero =>
    intro wd out answers prompts lr h
    simp [add_first_loop] at h
  | succ fuel ih =>
    intro wd out answers prompts lr h
    unfold add_first_loop at h
    cases hri : (if wd = true then read_int 0 0 0 0 answers
           else read_int (scround u start) ((scround u stop + 1) % 2 ^ 32) (scround u stop) 0
                  answers) with
    | none => rw [hri] at h; exact absurd h (by simp)
    | some p =>
      obtain ⟨f, rest⟩ := p
      rw [hri] at h
      simp only [] at h
      have hf : f ∈ answers ∧ (wd = true → f = 0)
          ∧ (wd = false → scround u start ≤ f ∧ f ≤ scround u stop)
          ∧ (∀ x, x ∈ rest → x ∈ answers) ∧ f < 2 ^ 32 := by
        cases wd with
        | true =>
          simp only [if_true] at hri
          obtain ⟨h1, _, h3, _, h5⟩ := read_int_some _ _ _ _ _ _ _ hri
          have h0 : f = 0 := by omega
          exact ⟨h1, fun _ => h0, fun hc => absurd hc (by simp), h5, by omega⟩
        | false =>
          simp only [Bool.false_eq_true, if_false] at hri
          obtain ⟨h1, h2, h3, _, h5⟩ := read_int_some _ _ _ _ _ _ _ hri
          have := scround_lt u stop
          exact ⟨h1, fun hc => absurd hc (by simp), fun _ => ⟨h2, h3⟩, h5, by omega⟩
      cases hfs : first_to_sectors u g f with
      | none => rw [hfs] at h; exact absurd h (by simp)
      | some first =>
        rw [hfs] at h
        simp only [] at h
        have hlt : first < 2 ^ 32 := first_to_sectors_lt u g f first hf.2.2.2.2 hfs
        by_cases hal : first_is_allocated starts lens first = true ∧ wd = false
        · rw [if_pos hal] at h
          by_cases hz : n = 2 ∧ first = 0
          · rw [if_pos hz] at h
            injection h with h
            subst h
            exact ⟨⟨f, hf.1, hfs, hf.2.1, hf.2.2.1⟩, fun hc => absurd hc (by simp),
              fun _ => Or.inr hz, fun _ => rfl, hlt, by simp, hf.2.2.2.1⟩
          · rw [if_neg hz] at h
            obtain ⟨⟨f2, h1, h2, h3, h4⟩, h5, h6, h7, h8, h9, h10⟩ := ih _ _ _ _ _ h
            exact ⟨⟨f2, hf.2.2.2.1 f2 h1, h2, h3, h4⟩, h5, h6, h7, h8, by omega,
              fun x hx => hf.2.2.2.1 x (h10 x hx)⟩
        · rw [if_neg hal] at h
          injection h with h
          subst h
          refine ⟨⟨f, hf.1, hfs, hf.2.1, hf.2.2.1⟩, ?_, fun hc => Or.inl hc, fun hc => hc, hlt,
            by simp, hf.2.2.2.1⟩
          intro hwd
          simp only [] at hwd
          cases hfa : first_is_allocated starts lens first with
          | false => rfl
          | true => exact absurd ⟨hfa, hwd⟩ hal

theorem set_sun_partition_some (cxt : fdisk_context) (i start stop sysid : Nat)
    (c1 : fdisk_context) (line : label_message)
    (h : set_sun_partition cxt i start stop sysid = some (c1, line)) :
    cylinder_size cxt.geom ≠ 0
    ∧ c1 = set_changed
        { cxt with firstsector := { cxt.firstsector with
            part_tags := set_index cxt.firstsector.part_tags i
              ⟨SSWAP16 cxt.other_endian (sysid % 65536), SSWAP16 cxt.other_endian 0⟩,
            partitions := set_index cxt.firstsector.partitions i
              ⟨SSWAP32 cxt.other_endian ((start % 2 ^ 32) / cylinder_size cxt.geom),
               SSWAP32 cxt.other_endian ((stop % 2 ^ 32 + 2 ^ 32 - start % 2 ^ 32) % 2 ^ 32)⟩ } }
        i := by
  unfold set_sun_partition at h
  by_cases hz : cylinder_size cxt.geom = 0
  · rw [if_pos hz] at h
    exact absurd h (by simp)
  · rw [if_neg hz] at h
    injection h with h
    injection h with h1 h2
    exact ⟨hz, h1.symm⟩

theorem add_finish_spec (u : display_units) (cxt : fdisk_context) (n sys0 : Nat)
    (starts : Nat → Nat) (lr : first_result) (r : add_result)
    (h : add_finish u cxt n sys0 starts lr = some r) :
    r.first = lr.first ∧ r.recorded = true
    ∧ r.whole_disk
        = final_whole_disk n r.first (total_sectors cxt.geom) r.last_chosen lr.whole_disk
    ∧ r.last = final_last n r.first
        (add_upper_bound starts r.first (total_sectors cxt.geom))
        (total_sectors cxt.geom) r.last_chosen lr.whole_disk
    ∧ r.sys = (if r.whole_disk then SUN_TAG_BACKUP else sys0)
    ∧ (∃ line, set_sun_partition cxt n r.first r.last r.sys = some (r.cxt, line))
    ∧ (∃ l, r.last_chosen
          = (if u.display_in_cyl_units then (l * u.units_per_sector) % 2 ^ 32 else l)
        ∧ l < 2 ^ 32
        ∧ (lr.whole_disk = false → ¬ (n = 2 ∧ r.first = 0) →
            scround u r.first ≤ l
            ∧ l ≤ scround u (add_upper_bound starts r.first (total_sectors cxt.geom))))
    ∧ r.prompts = lr.prompts + 1 := by
  unfold add_finish at h
  cases hri : (if lr.whole_disk = true then
           read_int (scround u (total_sectors cxt.geom)) (scround u (total_sectors cxt.geom))
             (scround u (total_sectors cxt.geom)) 0 lr.rest
         else if n = 2 ∧ lr.first = 0 then
           read_int (scround u lr.first) (scround u (total_sectors cxt.geom))
             (scround u (total_sectors cxt.geom)) (scround u lr.first) lr.rest
         else
           read_int (scround u lr.first)
             (scround u (add_upper_bound starts lr.first (total_sectors cxt.geom)))
             (scround u (add_upper_bound starts lr.first (total_sectors cxt.geom)))
             (scround u lr.first) lr.rest) with
  | none => rw [hri] at h; exact absurd h (by simp)
  | some p =>
    obtain ⟨l, rest⟩ := p
    rw [hri] at h
    simp only [] at h
    have hl : l < 2 ^ 32
        ∧ (lr.whole_disk = false → ¬ (n = 2 ∧ lr.first = 0) →
            scround u lr.first ≤ l
            ∧ l ≤ scround u (add_upper_bound starts lr.first (total_sectors cxt.geom))) := by
      by_cases hwd : lr.whole_disk = true
      · rw [if_pos hwd] at hri
        obtain ⟨_, _, h3, _, _⟩ := read_int_some _ _ _ _ _ _ _ hri
        have := scround_lt u (total_sectors cxt.geom)
        exact ⟨by omega, fun hc => absurd hwd (by rw [hc]; simp)⟩
      · rw [if_neg hwd] at hri
        by_cases hz : n = 2 ∧ lr.first = 0
        · rw [if_pos hz] at hri
          obtain ⟨_, _, h3, _, _⟩ := read_int_some _ _ _ _ _ _ _ hri
          have := scround_lt u (total_sectors cxt.geom)
          exact ⟨by omega, fun _ hc => absurd hz hc⟩
        · rw [if_neg hz] at hri
          obtain ⟨_, h2, h3, _, _⟩ := read_int_some _ _ _ _ _ _ _ hri
          have := scround_lt u (add_upper_bound starts lr.first (total_sectors cxt.geom))
          exact ⟨by omega, fun _ _ => ⟨h2, h3⟩⟩
    cases hset : set_sun_partition cxt n lr.first
      (final_last n lr.first (add_upper_bound starts lr.first (total_sectors cxt.geom))
        (total_sectors cxt.geom)
        (if u.display_in_cyl_units then (l * u.units_per_sector) % 2 ^ 32 else l)
        lr.whole_disk)
      (if final_whole_disk n lr.first (total_sectors cxt.geom)
            (if u.display_in_cyl_units then (l * u.units_per_sector) % 2 ^ 32 else l)
            lr.whole_disk
       then SUN_TAG_BACKUP else sys0) with
    | none => rw [hset] at h; exact absurd h (by simp)
    | some q =>
      obtain ⟨c1, line⟩ := q
      rw [hset] at h
      simp only [] at h
      injection h with h
      subst h
      exact ⟨rfl, rfl, rfl, rfl, rfl, ⟨line, hset⟩, ⟨l, rfl, hl.1, hl.2⟩, rfl⟩

theorem add_recorded_spec (u : display_units) (cxt : fdisk_context) (n : Nat)
    (t : Option fdisk_parttype) (answers : List Nat) (r : add_result)
    (h : sun_add_partition u cxt n t answers = some r) (hrec : r.recorded = true) :
    ∃ lr, add_first_loop u cxt.geom n (fetch_sun cxt).starts (fetch_sun cxt).lens
        (fetch_sun cxt).start (fetch_sun cxt).stop answers.length
        (decide ((fetch_sun cxt).stop ≤ (fetch_sun cxt).start)) [] answers 0 = some lr
      ∧ add_finish u cxt n (requested_sys t) (fetch_sun cxt).starts lr = some r
      ∧ ¬ ((fetch_sun cxt).stop ≤ (fetch_sun cxt).start ∧ n ≠ 2) := by
  unfold sun_add_partition at h
  by_cases hocc : (at_index cxt.firstsector.partitions n).num_sectors ≠ 0
      ∧ (at_index cxt.firstsector.part_tags n).tag
          ≠ SSWAP16 cxt.other_endian SUN_TAG_UNASSIGNED
  · rw [if_pos hocc] at h
    injection h with h
    rw [← h] at hrec
    exact absurd hrec (by simp [add_refused])
  · rw [if_neg hocc] at h
    by_cases hno : (fetch_sun cxt).stop ≤ (fetch_sun cxt).start ∧ n ≠ 2
    · rw [if_pos hno] at h
      injection h with h
      rw [← h] at hrec
      exact absurd hrec (by simp [add_refused])
    · rw [if_neg hno] at h
      cases hl : add_first_loop u cxt.geom n (fetch_sun cxt).starts (fetch_sun cxt).lens
          (fetch_sun cxt).start (fetch_sun cxt).stop answers.length
          (decide ((fetch_sun cxt).stop ≤ (fetch_sun cxt).start)) [] answers 0 with
      | none => rw [hl] at h; exact absurd h (by simp)
      | some lr =>
        rw [hl] at h
        exact ⟨lr, rfl, h, hno⟩

/-! ## C11 -/

/-- C11: when the target slot `n` is already occupied (`num_sectors` not 0
and tag not unassigned), or when the free region computed by `fetch_sun` is
empty or inverted (`stop <= start`) and `n` is not slot 2,
`sun_add_partition` returns having printed one line, without any call of
`read_int` (no answer is used) and with the state (label, geometry, changed
marks) exactly as before. -/
theorem add_partition_refused (u : display_units) (cxt : fdisk_context) (n : Nat)
    (t : Option fdisk_parttype) (answers : List Nat)
    (h : ((at_index cxt.firstsector.partitions n).num_sectors ≠ 0
          ∧ (at_index cxt.firstsector.part_tags n).tag
              ≠ SSWAP16 cxt.other_endian SUN_TAG_UNASSIGNED)
        ∨ ((fetch_sun cxt).stop ≤ (fetch_sun cxt).start ∧ n ≠ 2)) :
    ∃ r, sun_add_partition u cxt n t answers = some r
      ∧ r.cxt = cxt ∧ r.rest = answers ∧ r.prompts = 0 ∧ r.recorded = false
      ∧ (r.out = [label_message.already_defined (n + 1)]
          ∨ r.out = [label_message.whole_disk_covered]) := by
  unfold sun_add_partition
  by_cases hocc : (at_index cxt.firstsector.partitions n).num_sectors ≠ 0
      ∧ (at_index cxt.firstsector.part_tags n).tag
          ≠ SSWAP16 cxt.other_endian SUN_TAG_UNASSIGNED
  · rw [if_pos hocc]
    exact ⟨_, rfl, rfl, rfl, rfl, rfl, Or.inl rfl⟩
  · rw [if_neg hocc]
    have hno : (fetch_sun cxt).stop ≤ (fetch_sun cxt).start ∧ n ≠ 2 := by
      rcases h with h | h
      · exact absurd h hocc
      · exact h
    rw [if_pos hno]
    exact ⟨_, rfl, rfl, rfl, rfl, rfl, Or.inr rfl⟩

/-- Witness of C11: slot 1 of `context_one_slot` is occupied, so adding to it
is refused and the two answers offered stay unused. -/
theorem add_partition_refused_witness :
    ((at_index context_one_slot.firstsector.partitions 1).num_sectors ≠ 0
      ∧ (at_index context_one_slot.firstsector.part_tags 1).tag
          ≠ SSWAP16 context_one_slot.other_endian SUN_TAG_UNASSIGNED)
    ∧ ∃ r, sun_add_partition sector_units context_one_slot 1 none [130, 384] = some r
      ∧ r.cxt = context_one_slot ∧ r.rest = [130, 384] ∧ r.prompts = 0 :=
  ⟨by decide,
    match add_partition_refused sector_units context_one_slot 1 none [130, 384]
      (Or.inl (by decide)) with
    | ⟨r, h1, h2, h3, h4, _⟩ => ⟨r, h1, h2, h3, h4⟩⟩

/-! ## Lemmas on the whole-disk slot -/

theorem whole_disk_run :
    ∃ r, sun_add_partition sector_units context_zero 2 (some ⟨SUN_TAG_LINUX_NATIVE, none⟩)
          [0, 100] = some r ∧ r.first = 0 ∧ r.last_chosen = 100 := by
  have h : (sun_add_partition sector_units context_zero 2
      (some ⟨SUN_TAG_LINUX_NATIVE, none⟩) [0, 100]).map (fun r => (r.first, r.last_chosen))
      = some (0, 100) := by decide
  obtain ⟨r, h1, h2⟩ := Option.map_eq_some'.mp h
  injection h2 with h3 h4
  exact ⟨r, h1, h3, h4⟩

theorem first_is_allocated_false (starts lens : Nat → Nat) (first : Nat)
    (h : first_is_allocated starts lens first = false) :
    ∀ i, i < 8 → lens i ≠ 0 →
      ¬ (starts i ≤ first ∧ first < (starts i + lens i) % 2 ^ 32) := by
  intro i hi hl hc
  unfold first_is_allocated at h
  rw [List.any_eq_false] at h
  have hm : i ∈ List.range partitions := by
    simp only [partitions, SUN_NUM_PARTITIONS, List.mem_range]
    exact hi
  have := h i hm
  simp only [Bool.and_eq_true, decide_eq_true_eq, not_and] at this
  exact this ⟨hl, hc.1⟩ hc.2

theorem upper_bound_fold (starts : Nat → Nat) (first : Nat) :
    ∀ (L : List Nat) (total : Nat),
      L.foldl (fun stop i => if starts i > first ∧ starts i < stop then starts i else stop)
          total ≤ total
      ∧ ∀ i, i ∈ L → starts i > first →
          L.foldl (fun stop i => if starts i > first ∧ starts i < stop then starts i else stop)
            total ≤ starts i := by
  intro L
  induction L with
  | nil => intro total; simp
  | cons a L ih =>
    intro total
    simp only [List.foldl_cons, List.mem_cons]
    by_cases ha : starts a > first ∧ starts a < total
    · rw [if_pos ha]
      refine ⟨Nat.le_trans (ih (starts a)).1 (by omega), ?_⟩
      intro i hi hs
      rcases hi with hi | hi
      · subst hi
        exact (ih (starts i)).1
      · exact (ih (starts a)).2 i hi hs
    · rw [if_neg ha]
      refine ⟨(ih total).1, ?_⟩
      intro i hi hs
      rcases hi with hi | hi
      · subst hi
        have := (ih total).1
        omega
      · exact (ih total).2 i hi hs

theorem add_upper_bound_le (starts : Nat → Nat) (first total : Nat) :
    add_upper_bound starts first total ≤ total
    ∧ ∀ i, i < 8 → starts i > first → add_upper_bound starts first total ≤ starts i := by
  unfold add_upper_bound
  refine ⟨(upper_bound_fold starts first _ total).1, ?_⟩
  intro i hi hs
  apply (upper_bound_fold starts first _ total).2 i _ hs
  simp only [partitions, SUN_NUM_PARTITIONS, List.mem_range]
  exact hi

theorem aligned_run :
    ∃ r, sun_add_partition sector_units context_one_slot 0 none [130, 384] = some r
      ∧ r.recorded = true ∧ r.whole_disk = false ∧ r.first = 256 ∧ r.last = 384 := by
  have h : (sun_add_partition sector_units context_one_slot 0 none [130, 384]).map
      (fun r => (r.recorded, r.whole_disk, r.first, r.last))
      = some (true, false, 256, 384) := by decide
  obtain ⟨r, h1, h2⟩ := Option.map_eq_some'.mp h
  injection h2 with h3 h4
  injection h4 with h4 h5
  injection h5 with h5 h6
  exact ⟨r, h1, h3, h4, h5, h6⟩

/-! ## C14 -/

/-- C14: whenever `sun_add_partition` records a partition without entering
whole-disk mode, and no occupied extent reported by `fetch_sun` before the
call overflows 32 bits, the recorded range `[first, last)` meets none of
those extents: `first` lies inside no occupied extent, `last` is at most
every start greater than `first` (so at most the smallest one) and at most
the total; in sector units the provider's end is at least the start, so
`first <= last`. -/
theorem add_avoids_extents (u : display_units) (cxt : fdisk_context) (n : Nat)
    (t : Option fdisk_parttype) (answers : List Nat) (r : add_result)
    (hr : sun_add_partition u cxt n t answers = some r)
    (hrec : r.recorded = true) (hwd : r.whole_disk = false)
    (hno : ∀ i, i < 8 → (fetch_sun cxt).starts i + (fetch_sun cxt).lens i < 2 ^ 32) :
    (∀ i, i < 8 → (fetch_sun cxt).lens i ≠ 0 →
        ¬ ((fetch_sun cxt).starts i ≤ r.first
            ∧ r.first < (fetch_sun cxt).starts i + (fetch_sun cxt).lens i))
    ∧ (∀ i, i < 8 → r.first < (fetch_sun cxt).starts i → r.last ≤ (fetch_sun cxt).starts i)
    ∧ r.last ≤ total_sectors cxt.geom
    ∧ (∀ i, i < 8 → (fetch_sun cxt).lens i ≠ 0 → r.first ≤ r.last →
        r.last ≤ (fetch_sun cxt).starts i
        ∨ (fetch_sun cxt).starts i + (fetch_sun cxt).lens i ≤ r.first)
    ∧ (u = sector_units → r.first ≤ r.last) := by
  obtain ⟨lr, hloop, hfin, _⟩ := add_recorded_spec u cxt n t answers r hr hrec
  obtain ⟨_, hal, _, _, hflt, _, _⟩ := add_first_loop_spec _ _ _ _ _ _ _ _ _ _ _ _ _ hloop
  obtain ⟨hf, _, hfw, hl, _, _, ⟨l, hlc, hl32, hlb⟩, _⟩ := add_finish_spec _ _ _ _ _ _ _ hfin
  have hub := add_upper_bound_le (fetch_sun cxt).starts r.first (total_sectors cxt.geom)
  have hlwd : lr.whole_disk = false := by
    unfold final_whole_disk at hfw
    rw [hwd] at hfw
    by_cases hz : n = 2 ∧ r.first = 0
    · rw [if_pos hz] at hfw
      by_cases hge : r.last_chosen ≥ total_sectors cxt.geom
      · rw [if_pos hge] at hfw
        exact absurd hfw (by simp)
      · rw [if_neg hge] at hfw
        exact hfw.symm
    · rw [if_neg hz] at hfw
      exact hfw.symm
  have hlast : r.last ≤ add_upper_bound (fetch_sun cxt).starts r.first (total_sectors cxt.geom) := by
    rw [hl]
    unfold final_last
    by_cases hz : n = 2 ∧ r.first = 0
    · rw [if_pos hz]
      by_cases hge : r.last_chosen ≥ total_sectors cxt.geom
      · exfalso
        unfold final_whole_disk at hfw
        rw [if_pos hz, if_pos hge, hwd] at hfw
        exact absurd hfw (by simp)
      · rw [if_neg hge]
        split <;> omega
    · rw [if_neg hz]
      split
      · exact Nat.le_refl _
      · rename_i hc
        have : ¬ r.last_chosen
            > add_upper_bound (fetch_sun cxt).starts r.first (total_sectors cxt.geom) :=
          fun h2 => hc ⟨hlwd, h2⟩
        omega
  have hinside : ∀ i, i < 8 → (fetch_sun cxt).lens i ≠ 0 →
        ¬ ((fetch_sun cxt).starts i ≤ r.first
            ∧ r.first < (fetch_sun cxt).starts i + (fetch_sun cxt).lens i) := by
    intro i hi hli hc
    have h1 := first_is_allocated_false _ _ _ (hal hlwd) i hi hli
    rw [Nat.mod_eq_of_lt (hno i hi), ← hf] at h1
    exact h1 hc
  refine ⟨hinside, ?_, Nat.le_trans hlast hub.1, ?_, ?_⟩
  · intro i hi hs
    exact Nat.le_trans hlast (hub.2 i hi hs)
  · intro i hi hli _
    by_cases hs : r.first < (fetch_sun cxt).starts i
    · exact Or.inl (Nat.le_trans hlast (hub.2 i hi hs))
    · have := hinside i hi hli
      right
      by_contra hc
      exact this ⟨by omega, by omega⟩
  · intro hu
    subst hu
    rw [hl]
    unfold final_last
    by_cases hz : n = 2 ∧ r.first = 0
    · rw [hz.2]
      exact Nat.zero_le _
    · rw [if_neg hz]
      have hb := hlb hlwd hz
      have hfl : r.first < 2 ^ 32 := by rw [hf]; exact hflt
      have hul : add_upper_bound (fetch_sun cxt).starts r.first (total_sectors cxt.geom)
          < 2 ^ 32 := by
        have : total_sectors cxt.geom < 2 ^ 32 := by
          unfold total_sectors
          exact Nat.mod_lt _ (by norm_num)
        omega
      rw [scround_sector _ hfl, scround_sector _ hul] at hb
      have hlc2 : r.last_chosen = l := by
        rw [hlc]
        simp [sector_units]
      split <;> omega

/-- Witness of C14: on `context_one_slot` (slot 1 occupies `[384, 5384)`) slot
0 asked for with start 130 and end 384 is recorded as `[256, 384)`, which
ends where slot 1 starts. -/
theorem add_avoids_extents_witness :
    ∃ r, sun_add_partition sector_units context_one_slot 0 none [130, 384] = some r
      ∧ r.first = 256 ∧ r.last = 384
      ∧ (fetch_sun context_one_slot).starts 1 = 384
      ∧ r.last ≤ (fetch_sun context_one_slot).starts 1
      ∧ r.first ≤ r.last :=
  match aligned_run with
  | ⟨r, hq, hrec, hwd, hf, hl⟩ =>
    have h := add_avoids_extents sector_units context_one_slot 0 none [130, 384] r hq hrec hwd
      (by decide)
    ⟨r, hq, hf, hl, by decide, h.2.1 1 (by decide) (by rw [hf]; decide), h.2.2.2.2 rfl⟩

/-! ## Lemmas on the recorded slot -/

theorem final_whole_disk_false (n first stop2 last_chosen : Nat) (wd : Bool)
    (h : final_whole_disk n first stop2 last_chosen wd = false) : wd = false := by
  unfold final_whole_disk at h
  by_cases hz : n = 2 ∧ first = 0
  · rw [if_pos hz] at h
    by_cases hge : last_chosen ≥ stop2
    · rw [if_pos hge] at h
      exact absurd h (by simp)
    · rw [if_neg hge] at h
      exact h
  · rw [if_neg hz] at h
    exact h

theorem add_recorded_fields (u : display_units) (cxt : fdisk_context) (n : Nat)
    (t : Option fdisk_parttype) (answers : List Nat) (r : add_result)
    (hr : sun_add_partition u cxt n t answers = some r) (hrec : r.recorded = true) :
    cylinder_size cxt.geom ≠ 0 ∧ r.first < 2 ^ 32 ∧ r.last < 2 ^ 32
    ∧ r.sys = (if r.whole_disk then SUN_TAG_BACKUP else requested_sys t)
    ∧ r.cxt = set_changed
        { cxt with firstsector := { cxt.firstsector with
            part_tags := set_index cxt.firstsector.part_tags n
              ⟨SSWAP16 cxt.other_endian (r.sys % 65536), SSWAP16 cxt.other_endian 0⟩,
            partitions := set_index cxt.firstsector.partitions n
              ⟨SSWAP32 cxt.other_endian (r.first / cylinder_size cxt.geom),
               SSWAP32 cxt.other_endian ((r.last + 2 ^ 32 - r.first) % 2 ^ 32)⟩ } }
        n := by
  obtain ⟨lr, hloop, hfin, _⟩ := add_recorded_spec u cxt n t answers r hr hrec
  obtain ⟨_, _, _, _, hflt, _, _⟩ := add_first_loop_spec _ _ _ _ _ _ _ _ _ _ _ _ _ hloop
  obtain ⟨hf, _, _, hl, hsys, ⟨line, hset⟩, ⟨l, hlc, hl32, _⟩, _⟩ :=
    add_finish_spec _ _ _ _ _ _ _ hfin
  obtain ⟨hcz, hc⟩ := set_sun_partition_some _ _ _ _ _ _ _ hset
  have hf32 : r.first < 2 ^ 32 := by rw [hf]; exact hflt
  have htot : total_sectors cxt.geom < 2 ^ 32 := by
    unfold total_sectors
    exact Nat.mod_lt _ (by norm_num)
  have hub := (add_upper_bound_le (fetch_sun cxt).starts r.first (total_sectors cxt.geom)).1
  have hlc32 : r.last_chosen < 2 ^ 32 := by
    rw [hlc]
    split
    · exact Nat.mod_lt _ (by norm_num)
    · exact hl32
  have hl32 : r.last < 2 ^ 32 := by
    rw [hl]
    unfold final_last
    split
    · split
      · exact htot
      · split <;> omega
    · split <;> omega
  rw [Nat.mod_eq_of_lt hf32, Nat.mod_eq_of_lt hl32] at hc
  exact ⟨hcz, hf32, hl32, hsys, hc⟩

theorem first_to_sectors_aligned (g : fdisk_geometry) (f m : Nat)
    (hcs : 0 < g.heads * g.sectors) (hfit : f + g.heads * g.sectors ≤ 2 ^ 32)
    (h : first_to_sectors sector_units g f = some m) :
    g.heads * g.sectors ∣ m ∧ f ≤ m ∧ m < f + g.heads * g.sectors := by
  have hcsz : cylinder_size g = g.heads * g.sectors := by
    unfold cylinder_size
    exact Nat.mod_eq_of_lt (by omega)
  unfold first_to_sectors at h
  rw [show sector_units.display_in_cyl_units = false from rfl, hcsz] at h
  simp only [Bool.false_eq_true, if_false] at h
  generalize g.heads * g.sectors = cs at *
  by_cases h32 : cs % 2 ^ 32 = 0
  · rw [if_pos h32] at h
    exact absurd h (by simp)
  · have hlt : cs < 2 ^ 32 := by
      rcases Nat.lt_or_ge cs (2 ^ 32) with h1 | h1
      · exact h1
      · exfalso
        apply h32
        have : cs = 2 ^ 32 := by omega
        rw [this]
        exact Nat.mod_self _
    rw [if_neg h32, Nat.mod_eq_of_lt hlt] at h
    injection h with h
    have hm := Nat.mod_lt f hcs
    have hd := Nat.div_add_mod f cs
    by_cases hx : f % cs ≠ 0
    · rw [if_pos hx, Nat.mod_eq_of_lt (by omega)] at h
      subst h
      refine ⟨⟨f / cs + 1, ?_⟩, by omega, by omega⟩
      rw [Nat.mul_add, Nat.mul_one]
      omega
    · rw [if_neg hx] at h
      subst h
      exact ⟨Nat.dvd_of_mod_eq_zero (by omega), Nat.le_refl _, by omega⟩

theorem least_multiple (cs f x m : Nat) (hx : cs ∣ x) (hlt : x < f + cs) (hm : cs ∣ m)
    (hfm : f ≤ m) : x ≤ m := by
  obtain ⟨a, ha⟩ := hx
  obtain ⟨b, hb⟩ := hm
  by_contra hc
  have hba : b < a := by
    by_contra hba
    have : cs * a ≤ cs * b := Nat.mul_le_mul_left _ (by omega)
    omega
  have : cs * (b + 1) ≤ cs * a := Nat.mul_le_mul_left _ (by omega)
  rw [Nat.mul_add, Nat.mul_one] at this
  omega

/-! ## C13 -/

/-- C13, the code at a failing input: `context_wrapped` is an empty label on
a disk of 2^33 - 1 sectors with 1 head and 7 sectors per track. In sector
units the provider is asked for the first sector of slot 0 within
[0, 4294967295] and returns 4294967295; the 32-bit addition of line 412 wraps
and `first` becomes 3, which is below the request and is not a multiple of
`heads * sectors = 7`, although the comment of line 407 asks for a properly
aligned start; the call records slot 0 at cylinder 0. The least multiple of 7
at or above the request is 4294967299. -/
theorem add_start_wraps :
    (sun_add_partition sector_units context_wrapped 0 none [4294967295, 10]).map
        (fun r => (r.recorded, r.first,
          (at_index r.cxt.firstsector.partitions 0).start_cylinder))
      = some (true, 3, 0)
    ∧ context_wrapped.geom.heads * context_wrapped.geom.sectors = 7
    ∧ read_int (scround sector_units (fetch_sun context_wrapped).start)
        ((scround sector_units (fetch_sun context_wrapped).stop + 1) % 2 ^ 32)
        (scround sector_units (fetch_sun context_wrapped).stop) 0 [4294967295, 10]
        = some (4294967295, [10])
    ∧ first_to_sectors sector_units context_wrapped.geom 4294967295 = some 3
    ∧ 3 % (context_wrapped.geom.heads * context_wrapped.geom.sectors) ≠ 0
    ∧ ¬ (4294967295 ≤ 3) := by
  decide

/-! ## Lemmas on the alignment of the start without overflow -/

theorem add_aligns_start (cxt : fdisk_context) (n : Nat) (t : Option fdisk_parttype)
    (answers : List Nat) (r : add_result) (hn : n < 8)
    (hr : sun_add_partition sector_units cxt n t answers = some r)
    (hrec : r.recorded = true)
    (hcs : 0 < cxt.geom.heads * cxt.geom.sectors)
    (hfit : ∀ a, a ∈ answers → a + cxt.geom.heads * cxt.geom.sectors ≤ 2 ^ 32) :
    ∃ f, f ∈ answers
      ∧ first_to_sectors sector_units cxt.geom f = some r.first
      ∧ cxt.geom.heads * cxt.geom.sectors ∣ r.first ∧ f ≤ r.first
      ∧ (∀ m, cxt.geom.heads * cxt.geom.sectors ∣ m → f ≤ m → r.first ≤ m)
      ∧ (f = 0 → r.first = 0)
      ∧ (r.whole_disk = false →
          first_is_allocated (fetch_sun cxt).starts (fetch_sun cxt).lens r.first = false)
      ∧ (at_index r.cxt.firstsector.partitions n).start_cylinder
          = SSWAP32 cxt.other_endian (r.first / (cxt.geom.heads * cxt.geom.sectors)) := by
  obtain ⟨lr, hloop, hfin, _⟩ := add_recorded_spec _ cxt n t answers r hr hrec
  obtain ⟨⟨f, hfm, hfs, _, _⟩, hal, _, _, _, _, _⟩ :=
    add_first_loop_spec _ _ _ _ _ _ _ _ _ _ _ _ _ hloop
  obtain ⟨hf, _, hfw, _⟩ := add_finish_spec _ _ _ _ _ _ _ hfin
  obtain ⟨_, _, _, _, hc⟩ := add_recorded_fields _ cxt n t answers r hr hrec
  rw [← hf] at hfs hal
  have ha := first_to_sectors_aligned _ f r.first hcs (hfit f hfm) hfs
  have hcsz : cylinder_size cxt.geom = cxt.geom.heads * cxt.geom.sectors := by
    unfold cylinder_size
    have := hfit f hfm
    exact Nat.mod_eq_of_lt (by omega)
  refine ⟨f, hfm, hfs, ha.1, ha.2.1, ?_, ?_, ?_, ?_⟩
  · intro m hm hfm2
    exact least_multiple _ f _ m ha.1 ha.2.2 hm hfm2
  · intro h0
    exact first_to_sectors_zero _ _ _ (by rw [h0] at hfs; exact hfs)
  · intro hwd
    rw [hfw] at hwd
    exact hal (final_whole_disk_false _ _ _ _ _ hwd)
  · rw [hc]
    simp only [set_changed]
    rw [at_index_set_index_same _ _ _ hn, hcsz]

theorem add_aligns_start_witness :
    ∃ r, sun_add_partition sector_units context_one_slot 0 none [130, 384] = some r
      ∧ first_to_sectors sector_units context_one_slot.geom 130 = some 256
      ∧ r.first = 256
      ∧ (at_index r.cxt.firstsector.partitions 0).start_cylinder = 2 :=
  match aligned_run with
  | ⟨r, hq, hrec, _, hf, _⟩ =>
    have h := add_aligns_start context_one_slot 0 none [130, 384] r (by decide) hq hrec
      (by decide) (by decide)
    match h with
    | ⟨_, _, _, _, _, _, _, _, hs⟩ =>
      ⟨r, hq, by decide, hf, hs.trans (by rw [hf]; decide)⟩

/-! ## Lemmas on reading a recorded slot back -/

theorem SSWAP16_inj (oe : Bool) (a b : Nat) (ha : a < 65536) (hb : b < 65536)
    (h : SSWAP16 oe a = SSWAP16 oe b) : a = b := by
  have h1 := congrArg (SSWAP16 oe) h
  rw [SSWAP16_SSWAP16, SSWAP16_SSWAP16, Nat.mod_eq_of_lt ha, Nat.mod_eq_of_lt hb] at h1
  exact h1

theorem aligned_roundtrip (g : fdisk_geometry) (first : Nat) (hf : first < 2 ^ 32)
    (hd : g.heads * g.sectors ∣ first) :
    ((first / cylinder_size g) % 4294967296 * g.heads * g.sectors) % 2 ^ 32 = first := by
  by_cases h0 : first = 0
  · subst h0
    simp
  · have hle : g.heads * g.sectors ≤ first := Nat.le_of_dvd (by omega) hd
    have hcsz : cylinder_size g = g.heads * g.sectors := by
      unfold cylinder_size
      exact Nat.mod_eq_of_lt (by omega)
    have hdiv : first / (g.heads * g.sectors) ≤ first := Nat.div_le_self _ _
    have hlt : first / (g.heads * g.sectors) < 4294967296 := by omega
    rw [hcsz, Nat.mod_eq_of_lt hlt, Nat.mul_assoc, Nat.div_mul_cancel hd,
      Nat.mod_eq_of_lt hf]

theorem unassigned_run :
    (sun_add_partition sector_units context_one_slot 0
        (some ⟨SUN_TAG_UNASSIGNED, some "Unassigned"⟩) [130, 384]).map
      (fun r => (r.recorded, r.first, r.last, r.sys, (fetch_sun r.cxt).starts 0,
        (fetch_sun r.cxt).lens 0))
      = some (true, 256, 384, 0, 0, 0) := by
  decide

theorem native_run :
    ∃ r, sun_add_partition sector_units context_one_slot 0 none [130, 384] = some r
      ∧ r.recorded = true ∧ r.first = 256 ∧ r.last = 384 ∧ r.sys = 131 := by
  have h : (sun_add_partition sector_units context_one_slot 0 none [130, 384]).map
      (fun r => (r.recorded, r.first, r.last, r.sys))
      = some (true, 256, 384, 131) := by decide
  obtain ⟨r, h1, h2⟩ := Option.map_eq_some'.mp h
  injection h2 with h3 h4
  injection h4 with h4 h5
  injection h5 with h5 h6
  exact ⟨r, h1, h3, h4, h5, h6⟩

/-! ## C15 -/

/-- Counterexample to C15 as stated: on `context_one_slot`, adding slot 0 with
the requested type Unassigned (a non-backup type), start 130 and end 384 is
recorded with first = 256 < last = 384 and sys = 0, yet the following
`fetch_sun` reads the slot back as start 0 and length 0, not 256 and 128:
line 263 skips a slot whose tag is unassigned. -/
theorem add_unassigned_reads_empty :
    (sun_add_partition sector_units context_one_slot 0
        (some ⟨SUN_TAG_UNASSIGNED, some "Unassigned"⟩) [130, 384]).map
      (fun r => (r.recorded, r.first, r.last, r.sys, (fetch_sun r.cxt).starts 0,
        (fetch_sun r.cxt).lens 0))
      = some (true, 256, 384, 0, 0, 0)
    ∧ SUN_TAG_UNASSIGNED ≠ SUN_TAG_BACKUP ∧ (256 : Nat) < 384 :=
  ⟨unassigned_run, by decide, by decide⟩

/-- C15, amended: when `sun_add_partition` records slot `n < 8` with final
start `first`, final end `last` and final type `sys` (backup in whole-disk
mode, the requested type otherwise), slot `n` holds, in the label's byte
order, `start_cylinder = first / (heads * sectors)` (the 64-bit product),
`num_sectors = last - first` modulo 2^32 (`last - first` when
`first <= last`), `tag = sys` as a 16-bit value and `flag = 0`; every other
slot, the geometry and the byte order are unchanged; and when `sys` is
neither the backup nor the unassigned tag, `first < last` and `first` is a
multiple of `heads * sectors`, a following `fetch_sun` reads the slot back as
start = `first` and length = `last - first`. -/
theorem add_records_slot (u : display_units) (cxt : fdisk_context) (n : Nat)
    (t : Option fdisk_parttype) (answers : List Nat) (r : add_result) (hn : n < 8)
    (hr : sun_add_partition u cxt n t answers = some r) (hrec : r.recorded = true) :
    r.sys = (if r.whole_disk then SUN_TAG_BACKUP else requested_sys t)
    ∧ (at_index r.cxt.firstsector.partitions n).start_cylinder
        = SSWAP32 cxt.other_endian (r.first / cylinder_size cxt.geom)
    ∧ (at_index r.cxt.firstsector.partitions n).num_sectors
        = SSWAP32 cxt.other_endian ((r.last + 2 ^ 32 - r.first) % 2 ^ 32)
    ∧ (r.first ≤ r.last → (at_index r.cxt.firstsector.partitions n).num_sectors
        = SSWAP32 cxt.other_endian (r.last - r.first))
    ∧ (at_index r.cxt.firstsector.part_tags n).tag = SSWAP16 cxt.other_endian (r.sys % 65536)
    ∧ (r.sys < 65536 →
        (at_index r.cxt.firstsector.part_tags n).tag = SSWAP16 cxt.other_endian r.sys)
    ∧ (at_index r.cxt.firstsector.part_tags n).flag = 0
    ∧ (∀ m, m ≠ n →
        at_index r.cxt.firstsector.partitions m = at_index cxt.firstsector.partitions m
        ∧ at_index r.cxt.firstsector.part_tags m = at_index cxt.firstsector.part_tags m)
    ∧ r.cxt.geom = cxt.geom ∧ r.cxt.other_endian = cxt.other_endian
    ∧ (r.sys % 65536 ≠ SUN_TAG_BACKUP → r.sys % 65536 ≠ SUN_TAG_UNASSIGNED →
        r.first < r.last → cxt.geom.heads * cxt.geom.sectors ∣ r.first →
        (fetch_sun r.cxt).starts n = r.first
        ∧ (fetch_sun r.cxt).lens n = r.last - r.first) := by
  obtain ⟨hcz, hf32, hl32, hsys, hc⟩ := add_recorded_fields u cxt n t answers r hr hrec
  have hsc : (at_index r.cxt.firstsector.partitions n).start_cylinder
      = SSWAP32 cxt.other_endian (r.first / cylinder_size cxt.geom) := by
    rw [hc]
    simp only [set_changed]
    rw [at_index_set_index_same _ _ _ hn]
  have hns : (at_index r.cxt.firstsector.partitions n).num_sectors
      = SSWAP32 cxt.other_endian ((r.last + 2 ^ 32 - r.first) % 2 ^ 32) := by
    rw [hc]
    simp only [set_changed]
    rw [at_index_set_index_same _ _ _ hn]
  have htag : (at_index r.cxt.firstsector.part_tags n).tag
      = SSWAP16 cxt.other_endian (r.sys % 65536) := by
    rw [hc]
    simp only [set_changed]
    rw [at_index_set_index_same _ _ _ hn]
  have hflag : (at_index r.cxt.firstsector.part_tags n).flag = 0 := by
    rw [hc]
    simp only [set_changed]
    rw [at_index_set_index_same _ _ _ hn]
    show SSWAP16 cxt.other_endian 0 = 0
    cases cxt.other_endian <;> decide
  have hgeom : r.cxt.geom = cxt.geom := by rw [hc]; rfl
  have hoe : r.cxt.other_endian = cxt.other_endian := by rw [hc]; rfl
  refine ⟨hsys, hsc, hns, ?_, htag, ?_, hflag, ?_, hgeom, hoe, ?_⟩
  · intro hle
    rw [hns]
    have : (r.last + 2 ^ 32 - r.first) % 2 ^ 32 = r.last - r.first := by omega
    rw [this]
  · intro hs
    rw [htag, Nat.mod_eq_of_lt hs]
  · intro m hm
    rw [hc]
    simp only [set_changed]
    exact ⟨at_index_set_index_other _ _ _ _ hm, at_index_set_index_other _ _ _ _ hm⟩
  · intro hnb hnu hlt hdvd
    have hcount : slot_is_counted r.cxt n = true := by
      unfold slot_is_counted
      rw [hns, htag, hoe]
      simp only [Bool.and_eq_true, decide_eq_true_eq]
      refine ⟨⟨?_, ?_⟩, ?_⟩
      · intro h0
        rw [SSWAP32_eq_zero_iff _ _ (by omega)] at h0
        omega
      · intro h
        exact hnu (SSWAP16_inj _ _ _ (by omega) (by decide) h)
      · intro h
        exact hnb (SSWAP16_inj _ _ _ (by omega) (by decide) h)
    have hsa := fetch_sun_arrays r.cxt n hn
    rw [hcount] at hsa
    simp only [if_true] at hsa
    rw [hsa.1, hsa.2]
    constructor
    · rw [slot_start_eq, hsc, hoe, hgeom, SSWAP32_SSWAP32]
      exact aligned_roundtrip _ _ hf32 hdvd
    · unfold slot_len
      rw [hns, hoe, SSWAP32_SSWAP32]
      omega

/-- Witness of C15: on `context_one_slot` slot 0 added as Linux native with
start 130 and end 384 holds `start_cylinder = 2`, `num_sectors = 128`, tag
0x83, and `fetch_sun` reads it back as start 256 and length 128. -/
theorem add_records_slot_witness :
    ∃ r, sun_add_partition sector_units context_one_slot 0 none [130, 384] = some r
      ∧ (at_index r.cxt.firstsector.partitions 0).start_cylinder = 2
      ∧ (at_index r.cxt.firstsector.partitions 0).num_sectors = 128
      ∧ (at_index r.cxt.firstsector.part_tags 0).tag = SUN_TAG_LINUX_NATIVE
      ∧ (fetch_sun r.cxt).starts 0 = 256 ∧ (fetch_sun r.cxt).lens 0 = 128 :=
  match native_run with
  | ⟨r, hq, hrec, hf, hl, hs⟩ =>
    have h := add_records_slot sector_units context_one_slot 0 none [130, 384] r
      (by decide) hq hrec
    match h with
    | ⟨_, hsc, _, hns, _, htag, _, _, _, _, hback⟩ =>
      have hb := hback (by rw [hs]; decide) (by rw [hs]; decide) (by rw [hf, hl]; decide)
        (by rw [hf]; decide)
      ⟨r, hq, hsc.trans (by rw [hf]; decide),
        (hns (by rw [hf, hl]; decide)).trans (by rw [hf, hl]; decide),
        (htag (by rw [hs]; decide)).trans (by rw [hs]; decide),
        hb.1.trans hf, hb.2.trans (by rw [hf, hl])⟩

/-! ## Lemmas on `sun_create_disklabel` -/

theorem set_sun_partition_fields (cxt : fdisk_context) (i start stop sysid : Nat)
    (h : cylinder_size cxt.geom ≠ 0) :
    ∃ c1 line, set_sun_partition cxt i start stop sysid = some (c1, line)
      ∧ c1.geom = cxt.geom ∧ c1.other_endian = cxt.other_endian
      ∧ c1.firstsector.part_tags = set_index cxt.firstsector.part_tags i
          ⟨SSWAP16 cxt.other_endian (sysid % 65536), SSWAP16 cxt.other_endian 0⟩
      ∧ c1.firstsector.partitions = set_index cxt.firstsector.partitions i
          ⟨SSWAP32 cxt.other_endian ((start % 2 ^ 32) / cylinder_size cxt.geom),
           SSWAP32 cxt.other_endian ((stop % 2 ^ 32 + 2 ^ 32 - start % 2 ^ 32) % 2 ^ 32)⟩ := by
  unfold set_sun_partition
  rw [if_neg h]
  exact ⟨_, _, rfl, rfl, rfl, rfl, rfl⟩

theorem create_geometry_bounds (ioctl_geometry : Option hd_geometry) (llsectors : Option Nat)
    (sector_size : Nat) (answers : List Nat) (g : fdisk_geometry)
    (warn : List create_message) (rest : List Nat)
    (hg : create_geometry ioctl_geometry llsectors sector_size answers = some (g, warn, rest)) :
    g.heads ≤ 1024 ∧ g.sectors ≤ 1024 := by
  unfold create_geometry at hg
  cases ioctl_geometry with
  | some geometry =>
    cases llsectors with
    | some ll =>
      simp only at hg
      split at hg
      · exact absurd hg (by simp)
      · injection hg with hg
        injection hg with hg _
        rw [← hg]
        have h1 := Nat.mod_lt geometry.heads (show 0 < 256 by decide)
        have h2 := Nat.mod_lt geometry.sectors (show 0 < 256 by decide)
        exact ⟨by show geometry.heads % 256 ≤ 1024; omega,
          by show geometry.sectors % 256 ≤ 1024; omega⟩
    | none =>
      simp only at hg
      injection hg with hg
      injection hg with hg _
      rw [← hg]
      have h1 := Nat.mod_lt geometry.heads (show 0 < 256 by decide)
      have h2 := Nat.mod_lt geometry.sectors (show 0 < 256 by decide)
      exact ⟨by show geometry.heads % 256 ≤ 1024; omega,
        by show geometry.sectors % 256 ≤ 1024; omega⟩
  | none =>
    simp only at hg
    cases h1 : read_int 1 1 1024 0 answers with
    | none => rw [h1] at hg; exact absurd hg (by simp)
    | some p1 =>
      obtain ⟨h, r1⟩ := p1
      rw [h1] at hg
      simp only at hg
      cases h2 : read_int 1 1 1024 0 r1 with
      | none => rw [h2] at hg; exact absurd hg (by simp)
      | some p2 =>
        obtain ⟨s, r2⟩ := p2
        rw [h2] at hg
        simp only at hg
        cases h3 : read_int 1 1 65535 0 r2 with
        | none => rw [h3] at hg; exact absurd hg (by simp)
        | some p3 =>
          obtain ⟨c, r3⟩ := p3
          rw [h3] at hg
          simp only at hg
          injection hg with hg
          injection hg with hg _
          rw [← hg]
          exact ⟨(read_int_some _ _ _ _ _ _ _ h1).2.2.1, (read_int_some _ _ _ _ _ _ _ h2).2.2.1⟩

theorem create_ndiv_value (g : fdisk_geometry) (hh : g.heads ≤ 1024) (hs : g.sectors ≤ 1024)
    (hcs : 0 < g.heads * g.sectors) (htot : g.cylinders * g.heads * g.sectors < 2 ^ 32) :
    ∃ ndiv, create_ndiv g = some ndiv
      ∧ ndiv = (if g.cylinders * g.heads * g.sectors ≥ 307200
          then g.cylinders - 102400 / (g.heads * g.sectors) else 2 * g.cylinders / 3)
      ∧ (g.cylinders * g.heads * g.sectors ≥ 307200 →
          102400 / (g.heads * g.sectors) ≤ g.cylinders)
      ∧ ndiv ≤ g.cylinders
      ∧ cylinder_size g = g.heads * g.sectors
      ∧ ((g.cylinders * g.heads) % 2 ^ 64 * g.sectors) % 2 ^ 64
          = g.cylinders * g.heads * g.sectors
      ∧ ((ndiv * g.heads) % 2 ^ 32 * g.sectors) % 2 ^ 64 = ndiv * g.heads * g.sectors
      ∧ ndiv * g.heads * g.sectors ≤ g.cylinders * g.heads * g.sectors := by
  have hh0 : 0 < g.heads := by
    rcases Nat.eq_zero_or_pos g.heads with h0 | h0
    · rw [h0] at hcs
      simp at hcs
    · exact h0
  have hs0 : 0 < g.sectors := by
    rcases Nat.eq_zero_or_pos g.sectors with h0 | h0
    · rw [h0] at hcs
      simp at hcs
    · exact h0
  have h1 : g.cylinders * g.heads ≤ g.cylinders * g.heads * g.sectors :=
    Nat.le_mul_of_pos_right _ hs0
  have h2 : g.cylinders ≤ g.cylinders * g.heads := Nat.le_mul_of_pos_right _ hh0
  have hc32 : g.cylinders < 2 ^ 32 := by omega
  have hcsz : cylinder_size g = g.heads * g.sectors := by
    unfold cylinder_size
    have : g.heads * g.sectors ≤ 1024 * 1024 := Nat.mul_le_mul hh hs
    exact Nat.mod_eq_of_lt (by omega)
  have htot64 : ((g.cylinders * g.heads) % 2 ^ 64 * g.sectors) % 2 ^ 64
      = g.cylinders * g.heads * g.sectors := by
    rw [Nat.mod_eq_of_lt (show g.cylinders * g.heads < 2 ^ 64 by omega)]
    exact Nat.mod_eq_of_lt (by omega)
  have hsub : g.cylinders * g.heads * g.sectors ≥ 307200 →
      102400 / (g.heads * g.sectors) ≤ g.cylinders := by
    intro hge
    have h3 : 102400 ≤ g.cylinders * (g.heads * g.sectors) := by
      rw [← Nat.mul_assoc]
      omega
    have h4 := Nat.div_le_div_right (c := g.heads * g.sectors) h3
    rw [Nat.mul_div_cancel _ hcs] at h4
    exact h4
  have key : ∀ ndiv, ndiv ≤ g.cylinders →
      ((ndiv * g.heads) % 2 ^ 32 * g.sectors) % 2 ^ 64 = ndiv * g.heads * g.sectors
      ∧ ndiv * g.heads * g.sectors ≤ g.cylinders * g.heads * g.sectors := by
    intro ndiv hle
    have h5 : ndiv * g.heads * g.sectors ≤ g.cylinders * g.heads * g.sectors :=
      Nat.mul_le_mul_right _ (Nat.mul_le_mul_right _ hle)
    have h6 : ndiv * g.heads ≤ ndiv * g.heads * g.sectors := Nat.le_mul_of_pos_right _ hs0
    rw [Nat.mod_eq_of_lt (show ndiv * g.heads < 2 ^ 32 by omega)]
    exact ⟨Nat.mod_eq_of_lt (by omega), h5⟩
  unfold create_ndiv
  rw [htot64, hcsz]
  by_cases hge : g.cylinders * g.heads * g.sectors ≥ 307200
  · have hx := hsub hge
    have hge2 : g.cylinders * g.heads * g.sectors ≥ 150 * 2048 := hge
    rw [if_pos hge2, if_neg (by omega), if_pos hge]
    have hv : ((g.cylinders % 2 ^ 64 + 2 ^ 64 - 50 * 2048 / (g.heads * g.sectors)) % 2 ^ 64)
        % 2 ^ 32 = g.cylinders - 102400 / (g.heads * g.sectors) := by
      have h50 : 50 * 2048 / (g.heads * g.sectors) = 102400 / (g.heads * g.sectors) := rfl
      rw [h50, Nat.mod_eq_of_lt (show g.cylinders < 2 ^ 64 by omega)]
      have e1 : g.cylinders + 2 ^ 64 - 102400 / (g.heads * g.sectors)
          = (g.cylinders - 102400 / (g.heads * g.sectors)) + 2 ^ 64 := by omega
      have e2 : g.cylinders - 102400 / (g.heads * g.sectors) ≤ g.cylinders := Nat.sub_le _ _
      rw [e1, Nat.add_mod_right, Nat.mod_eq_of_lt (by omega), Nat.mod_eq_of_lt (by omega)]
    rw [hv]
    have hle : g.cylinders - 102400 / (g.heads * g.sectors) ≤ g.cylinders := Nat.sub_le _ _
    exact ⟨_, rfl, rfl, hsub, hle, rfl, rfl, (key _ hle).1, (key _ hle).2⟩
  · have hge2 : ¬ g.cylinders * g.heads * g.sectors ≥ 150 * 2048 := hge
    rw [if_neg hge2, if_neg hge]
    have hv : ((g.cylinders * 2) % 2 ^ 64 / 3) % 2 ^ 32 = 2 * g.cylinders / 3 := by
      have e3 : g.cylinders * 2 / 3 ≤ g.cylinders := by omega
      rw [Nat.mod_eq_of_lt (show g.cylinders * 2 < 2 ^ 64 by omega),
        Nat.mod_eq_of_lt (by omega), Nat.mul_comm]
    rw [hv]
    have hle : 2 * g.cylinders / 3 ≤ g.cylinders := by omega
    exact ⟨_, rfl, rfl, hsub, hle, rfl, rfl, (key _ hle).1, (key _ hle).2⟩

theorem create_partitions_spec (c0 : fdisk_context) (ndiv : Nat)
    (hcz : cylinder_size c0.geom ≠ 0) (hnd : create_ndiv c0.geom = some ndiv) :
    ∃ c4 lines, create_partitions c0 = some (c4, lines)
      ∧ c4.geom = c0.geom ∧ c4.other_endian = c0.other_endian
      ∧ c4.firstsector.part_tags
          = set_index (set_index (set_index (set_index c0.firstsector.part_tags 0
              ⟨SSWAP16 c0.other_endian (SUN_TAG_LINUX_NATIVE % 65536),
               SSWAP16 c0.other_endian 0⟩) 1
              ⟨SSWAP16 c0.other_endian (SUN_TAG_LINUX_SWAP % 65536),
               SSWAP16 c0.other_endian 0⟩) 1
              ⟨SSWAP16 c0.other_endian (SUN_TAG_LINUX_SWAP % 65536),
               (SSWAP16 c0.other_endian 0 ||| SSWAP16 c0.other_endian SUN_FLAG_UNMNT)
                 % 65536⟩) 2
              ⟨SSWAP16 c0.other_endian (SUN_TAG_BACKUP % 65536), SSWAP16 c0.other_endian 0⟩
      ∧ c4.firstsector.partitions
          = set_index (set_index (set_index c0.firstsector.partitions 0
              ⟨SSWAP32 c0.other_endian ((0 % 2 ^ 32) / cylinder_size c0.geom),
               SSWAP32 c0.other_endian
                 (((((ndiv * c0.geom.heads) % 2 ^ 32 * c0.geom.sectors) % 2 ^ 64) % 2 ^ 32
                    + 2 ^ 32 - 0 % 2 ^ 32) % 2 ^ 32)⟩) 1
              ⟨SSWAP32 c0.other_endian
                 (((((ndiv * c0.geom.heads) % 2 ^ 32 * c0.geom.sectors) % 2 ^ 64) % 2 ^ 32)
                    / cylinder_size c0.geom),
               SSWAP32 c0.other_endian
                 (((((c0.geom.cylinders * c0.geom.heads) % 2 ^ 64 * c0.geom.sectors) % 2 ^ 64)
                      % 2 ^ 32 + 2 ^ 32
                    - (((ndiv * c0.geom.heads) % 2 ^ 32 * c0.geom.sectors) % 2 ^ 64) % 2 ^ 32)
                   % 2 ^ 32)⟩) 2
              ⟨SSWAP32 c0.other_endian ((0 % 2 ^ 32) / cylinder_size c0.geom),
               SSWAP32 c0.other_endian
                 (((((c0.geom.cylinders * c0.geom.heads) % 2 ^ 64 * c0.geom.sectors) % 2 ^ 64)
                      % 2 ^ 32 + 2 ^ 32 - 0 % 2 ^ 32) % 2 ^ 32)⟩ := by
  unfold create_partitions
  rw [hnd]
  simp only
  obtain ⟨c1, m1, h1, hg1, ho1, ht1, hp1⟩ := set_sun_partition_fields c0 0 0
    (((ndiv * c0.geom.heads) % 2 ^ 32 * c0.geom.sectors) % 2 ^ 64) SUN_TAG_LINUX_NATIVE hcz
  rw [h1]
  simp only
  obtain ⟨c2, m2, h2, hg2, ho2, ht2, hp2⟩ := set_sun_partition_fields c1 1
    (((ndiv * c0.geom.heads) % 2 ^ 32 * c0.geom.sectors) % 2 ^ 64)
    (((c0.geom.cylinders * c0.geom.heads) % 2 ^ 64 * c0.geom.sectors) % 2 ^ 64)
    SUN_TAG_LINUX_SWAP (by rw [hg1]; exact hcz)
  rw [h2]
  simp only
  obtain ⟨c4, m3, h4, hg4, ho4, ht4, hp4⟩ := set_sun_partition_fields
    { c2 with firstsector := { c2.firstsector with
        part_tags := set_index c2.firstsector.part_tags 1
          ⟨(at_index c2.firstsector.part_tags 1).tag,
           ((at_index c2.firstsector.part_tags 1).flag
              ||| SSWAP16 c2.other_endian SUN_FLAG_UNMNT) % 65536⟩ } }
    2 0 (((c0.geom.cylinders * c0.geom.heads) % 2 ^ 64 * c0.geom.sectors) % 2 ^ 64)
    SUN_TAG_BACKUP (by show cylinder_size c2.geom ≠ 0; rw [hg2, hg1]; exact hcz)
  rw [h4]
  refine ⟨c4, _, rfl, ?_, ?_, ?_, ?_⟩
  · rw [hg4]
    show c2.geom = c0.geom
    rw [hg2, hg1]
  · rw [ho4]
    show c2.other_endian = c0.other_endian
    rw [ho2, ho1]
  · rw [ht4]
    show set_index (set_index c2.firstsector.part_tags 1 _) 2 _ = _
    have ho : c2.other_endian = c0.other_endian := by rw [ho2, ho1]
    have hg : c2.geom = c0.geom := by rw [hg2, hg1]
    rw [ht2, at_index_set_index_same _ _ _ (by decide), ht1, ho, ho1]
  · rw [hp4]
    show set_index c2.firstsector.partitions 2 _ = _
    have ho : c2.other_endian = c0.other_endian := by rw [ho2, ho1]
    have hg : c2.geom = c0.geom := by rw [hg2, hg1]
    rw [hp2, hp1, ho, hg, ho1, hg1]

theorem SSWAP16_zero (oe : Bool) : SSWAP16 oe 0 = 0 := by
  cases oe <;> decide

theorem SSWAP32_zero (oe : Bool) : SSWAP32 oe 0 = 0 := by
  cases oe <;> decide

theorem unmnt_flag (oe : Bool) :
    (SSWAP16 oe 0 ||| SSWAP16 oe SUN_FLAG_UNMNT) % 65536 = SSWAP16 oe SUN_FLAG_UNMNT := by
  cases oe <;> decide

theorem zero_rest_slots (oe : Bool) (g : fdisk_geometry) (i : Nat) :
    at_index (create_header oe g).part_tags i = ⟨SUN_TAG_UNASSIGNED, 0⟩
    ∧ at_index (create_header oe g).partitions i = ⟨0, 0⟩ := by
  constructor
  · show at_index (fun _ => (⟨0, 0⟩ : sun_tag_flag)) i = _
    unfold at_index
    split <;> rfl
  · show at_index (fun _ => (⟨0, 0⟩ : sun_partition)) i = _
    unfold at_index
    split <;> rfl

/-! ## C20 -/

/-- Counterexample to C20 as stated: when the ioctl fails and the provider
answers 1024 heads, 1024 sectors and 65535 cylinders (all within the ranges of
lines 188-190), `total = 65535 * 1024 * 1024 = 68718428160` does not fit the
`uint32_t` parameters of `set_sun_partition`: the whole-disk slot is recorded
with length 4293918720, not `total`, and slot 1 starts at cylinder 4095, not
at `ndiv = 65535`. -/
theorem create_truncates_total :
    (sun_create_disklabel false context_zero none none 512 [1024, 1024, 65535]).map
        (fun x => (x.1, x.2.1.geom, at_index x.2.1.firstsector.partitions 0,
          at_index x.2.1.firstsector.partitions 1, at_index x.2.1.firstsector.partitions 2))
      = some (0, ⟨1024, 1024, 65535⟩, ⟨0, 4293918720⟩, ⟨4095, 0⟩, ⟨0, 4293918720⟩)
    ∧ 65535 * (1024 * 1024) = 68718428160
    ∧ 65535 - 102400 / (1024 * 1024) = 65535 := by
  decide

/-- C20, amended: when the geometry step of `sun_create_disklabel` yields
`(heads, sectors, cylinders)` with `cs = heads * sectors > 0` and
`total = cylinders * cs < 2^32`, the function returns 0 and, in the byte
order of the host-dependent `other_endian`, slot 0 is Linux native with start
cylinder 0 and length `ndiv * cs`, slot 1 is Linux swap with the unmountable
flag, start cylinder `ndiv` and length `total - ndiv * cs`, slot 2 is the
whole-disk slot (backup tag, start 0, length `total`) and slots 3 to 7 are
empty and unassigned, where `ndiv = cylinders - 102400 / cs` when
`total >= 307200` and `ndiv = 2 * cylinders / 3` otherwise; the subtraction
does not underflow, `ndiv <= cylinders`, and the two lengths add up to
`total`. -/
theorem create_default_slots (little_endian_host : Bool) (cxt : fdisk_context)
    (ioctl_geometry : Option hd_geometry) (llsectors : Option Nat) (sector_size : Nat)
    (answers : List Nat) (g : fdisk_geometry) (warn : List create_message) (rest : List Nat)
    (hg : create_geometry ioctl_geometry llsectors sector_size answers = some (g, warn, rest))
    (hcs : 0 < g.heads * g.sectors)
    (htot : g.cylinders * g.heads * g.sectors < 2 ^ 32) :
    ∃ c out ndiv,
      sun_create_disklabel little_endian_host cxt ioctl_geometry llsectors sector_size answers
        = some (0, c, out, rest)
      ∧ create_ndiv g = some ndiv
      ∧ ndiv = (if g.cylinders * g.heads * g.sectors ≥ 307200
          then g.cylinders - 102400 / (g.heads * g.sectors) else 2 * g.cylinders / 3)
      ∧ (g.cylinders * g.heads * g.sectors ≥ 307200 →
          102400 / (g.heads * g.sectors) ≤ g.cylinders)
      ∧ ndiv ≤ g.cylinders
      ∧ c.geom = g ∧ c.other_endian = little_endian_host
      ∧ at_index c.firstsector.part_tags 0
          = ⟨SSWAP16 little_endian_host SUN_TAG_LINUX_NATIVE, 0⟩
      ∧ at_index c.firstsector.partitions 0
          = ⟨0, SSWAP32 little_endian_host (ndiv * g.heads * g.sectors)⟩
      ∧ at_index c.firstsector.part_tags 1
          = ⟨SSWAP16 little_endian_host SUN_TAG_LINUX_SWAP,
             SSWAP16 little_endian_host SUN_FLAG_UNMNT⟩
      ∧ at_index c.firstsector.partitions 1
          = ⟨SSWAP32 little_endian_host ndiv,
             SSWAP32 little_endian_host
               (g.cylinders * g.heads * g.sectors - ndiv * g.heads * g.sectors)⟩
      ∧ at_index c.firstsector.part_tags 2 = ⟨SSWAP16 little_endian_host SUN_TAG_BACKUP, 0⟩
      ∧ at_index c.firstsector.partitions 2
          = ⟨0, SSWAP32 little_endian_host (g.cylinders * g.heads * g.sectors)⟩
      ∧ (∀ i, 3 ≤ i → i < 8 →
          at_index c.firstsector.part_tags i = ⟨SUN_TAG_UNASSIGNED, 0⟩
          ∧ at_index c.firstsector.partitions i = ⟨0, 0⟩)
      ∧ ndiv * g.heads * g.sectors
          + (g.cylinders * g.heads * g.sectors - ndiv * g.heads * g.sectors)
          = g.cylinders * g.heads * g.sectors := by
  obtain ⟨hh, hs⟩ := create_geometry_bounds _ _ _ _ _ _ _ hg
  obtain ⟨ndiv, hnd, hval, hsub, hle, hcsz, htot64, hmid, hmidle⟩ :=
    create_ndiv_value g hh hs hcs htot
  have hcz : cylinder_size g ≠ 0 := by rw [hcsz]; omega
  obtain ⟨c4, lines, hcp, hgeo, hoe, htags, hparts⟩ := create_partitions_spec
    { cxt with firstsector := create_header little_endian_host g, geom := g,
               other_endian := little_endian_host } ndiv hcz hnd
  dsimp only at hgeo hoe htags hparts
  have en : SUN_TAG_LINUX_NATIVE % 65536 = SUN_TAG_LINUX_NATIVE := by decide
  have es : SUN_TAG_LINUX_SWAP % 65536 = SUN_TAG_LINUX_SWAP := by decide
  have eb : SUN_TAG_BACKUP % 65536 = SUN_TAG_BACKUP := by decide
  rw [unmnt_flag, SSWAP16_zero, en, es, eb] at htags
  have hm32 : ndiv * g.heads * g.sectors < 2 ^ 32 := by omega
  have e1 : (ndiv * g.heads * g.sectors + 2 ^ 32 - 0) % 2 ^ 32
      = ndiv * g.heads * g.sectors := by omega
  have e2 : (g.cylinders * g.heads * g.sectors + 2 ^ 32 - ndiv * g.heads * g.sectors)
      % 2 ^ 32 = g.cylinders * g.heads * g.sectors - ndiv * g.heads * g.sectors := by
    omega
  have e3 : (g.cylinders * g.heads * g.sectors + 2 ^ 32 - 0) % 2 ^ 32
      = g.cylinders * g.heads * g.sectors := by omega
  have e4 : ndiv * g.heads * g.sectors / (g.heads * g.sectors) = ndiv := by
    rw [Nat.mul_assoc]
    exact Nat.mul_div_cancel _ hcs
  rw [hmid, htot64, hcsz, Nat.zero_mod, Nat.zero_div, SSWAP32_zero,
    Nat.mod_eq_of_lt hm32, Nat.mod_eq_of_lt htot, e1, e2, e3, e4] at hparts
  refine ⟨set_changed (set_all_unchanged { c4 with firstsector := { c4.firstsector with
      cksum := cksum_loop (words_before_cksum little_endian_host c4.firstsector) } }) 0,
    [create_message.building_new_disklabel] ++ warn ++ lines.map create_message.size,
    ndiv, ?_, hnd, hval, hsub, hle, ?_, ?_, ?_, ?_, ?_, ?_, ?_, ?_, ?_, by omega⟩
  · unfold sun_create_disklabel
    rw [hg]
    simp only
    rw [hcp]
  · simp only [set_changed, set_all_unchanged]
    exact hgeo
  · simp only [set_changed, set_all_unchanged]
    exact hoe
  · simp only [set_changed, set_all_unchanged]
    rw [htags, at_index_set_index_other _ _ _ _ (by decide),
      at_index_set_index_other _ _ _ _ (by decide),
      at_index_set_index_other _ _ _ _ (by decide),
      at_index_set_index_same _ _ _ (by decide)]
  · simp only [set_changed, set_all_unchanged]
    rw [hparts, at_index_set_index_other _ _ _ _ (by decide),
      at_index_set_index_other _ _ _ _ (by decide),
      at_index_set_index_same _ _ _ (by decide)]
  · simp only [set_changed, set_all_unchanged]
    rw [htags, at_index_set_index_other _ _ _ _ (by decide),
      at_index_set_index_same _ _ _ (by decide)]
  · simp only [set_changed, set_all_unchanged]
    rw [hparts, at_index_set_index_other _ _ _ _ (by decide),
      at_index_set_index_same _ _ _ (by decide)]
  · simp only [set_changed, set_all_unchanged]
    rw [htags, at_index_set_index_same _ _ _ (by decide)]
  · simp only [set_changed, set_all_unchanged]
    rw [hparts, at_index_set_index_same _ _ _ (by decide)]
  · intro i h3 _
    simp only [set_changed, set_all_unchanged]
    constructor
    · rw [htags, at_index_set_index_other _ _ _ _ (by omega),
        at_index_set_index_other _ _ _ _ (by omega),
        at_index_set_index_other _ _ _ _ (by omega),
        at_index_set_index_other _ _ _ _ (by omega)]
      exact (zero_rest_slots _ _ i).1
    · rw [hparts, at_index_set_index_other _ _ _ _ (by omega),
        at_index_set_index_other _ _ _ _ (by omega),
        at_index_set_index_other _ _ _ _ (by omega)]
      exact (zero_rest_slots _ _ i).2

/-- Witness of C20: with 4 heads, 32 sectors and 200 cylinders answered at the
prompts (25600 sectors, below 307200), `ndiv = 133`: slot 0 covers
`[0, 17024)`, slot 1 starts at cylinder 133 with 8576 sectors and slot 2 covers
the 25600 sectors. -/
theorem create_default_slots_witness :
    ∃ c out ndiv,
      sun_create_disklabel false context_zero none none 512 [4, 32, 200]
        = some (0, c, out, [])
      ∧ ndiv = 133
      ∧ at_index c.firstsector.partitions 0 = ⟨0, 17024⟩
      ∧ at_index c.firstsector.partitions 1 = ⟨133, 8576⟩
      ∧ at_index c.firstsector.partitions 2 = ⟨0, 25600⟩ :=
  match create_default_slots false context_zero none none 512 [4, 32, 200]
      ⟨4, 32, 200⟩ [] [] (by decide) (by decide) (by decide) with
  | ⟨c, out, ndiv, hrun, _, hval, _, _, _, _, _, hp0, _, hp1, _, hp2, _, _⟩ =>
    have hn : ndiv = 133 := hval.trans (by decide)
    ⟨c, out, ndiv, hrun, hn, hp0.trans (by rw [hn]; decide),
      hp1.trans (by rw [hn]; decide), hp2.trans (by decide)⟩

/-! ## Lemmas on the label `sun_create_disklabel` leaves -/

theorem create_partitions_keeps (c0 c4 : fdisk_context) (lines : List label_message)
    (h : create_partitions c0 = some (c4, lines)) :
    cylinder_size c0.geom ≠ 0 ∧ (∃ ndiv, create_ndiv c0.geom = some ndiv)
    ∧ c4.geom = c0.geom ∧ c4.other_endian = c0.other_endian
    ∧ c4.firstsector = { c0.firstsector with
        part_tags := c4.firstsector.part_tags, partitions := c4.firstsector.partitions } := by
  unfold create_partitions at h
  cases hnd : create_ndiv c0.geom with
  | none => rw [hnd] at h; exact absurd h (by simp)
  | some ndiv =>
    rw [hnd] at h
    simp only at h
    cases h1 : set_sun_partition c0 0 0
        (((ndiv * c0.geom.heads) % 2 ^ 32 * c0.geom.sectors) % 2 ^ 64) SUN_TAG_LINUX_NATIVE with
    | none => rw [h1] at h; exact absurd h (by simp)
    | some p1 =>
      obtain ⟨c1, m1⟩ := p1
      rw [h1] at h
      simp only at h
      obtain ⟨hcz, e1⟩ := set_sun_partition_some _ _ _ _ _ _ _ h1
      cases h2 : set_sun_partition c1 1
          (((ndiv * c0.geom.heads) % 2 ^ 32 * c0.geom.sectors) % 2 ^ 64)
          (((c0.geom.cylinders * c0.geom.heads) % 2 ^ 64 * c0.geom.sectors) % 2 ^ 64)
          SUN_TAG_LINUX_SWAP with
      | none => rw [h2] at h; exact absurd h (by simp)
      | some p2 =>
        obtain ⟨c2, m2⟩ := p2
        rw [h2] at h
        simp only at h
        obtain ⟨_, e2⟩ := set_sun_partition_some _ _ _ _ _ _ _ h2
        cases h3 : set_sun_partition
            { c2 with firstsector := { c2.firstsector with
                part_tags := set_index c2.firstsector.part_tags 1
                  ⟨(at_index c2.firstsector.part_tags 1).tag,
                   ((at_index c2.firstsector.part_tags 1).flag
                      ||| SSWAP16 c2.other_endian SUN_FLAG_UNMNT) % 65536⟩ } }
            2 0 (((c0.geom.cylinders * c0.geom.heads) % 2 ^ 64 * c0.geom.sectors) % 2 ^ 64)
            SUN_TAG_BACKUP with
        | none => rw [h3] at h; exact absurd h (by simp)
        | some p3 =>
          obtain ⟨c3, m3⟩ := p3
          rw [h3] at h
          simp only at h
          obtain ⟨_, e3⟩ := set_sun_partition_some _ _ _ _ _ _ _ h3
          injection h with h
          injection h with h _
          subst h
          refine ⟨hcz, ⟨ndiv, rfl⟩, ?_, ?_, ?_⟩
          · rw [e3, e2, e1]
            rfl
          · rw [e3, e2, e1]
            rfl
          · rw [e3, e2, e1]
            rfl

theorem create_some (le : Bool) (cxt : fdisk_context) (ioctl_geometry : Option hd_geometry)
    (llsectors : Option Nat) (sector_size : Nat) (answers : List Nat)
    (r : Int × fdisk_context × List create_message × List Nat)
    (h : sun_create_disklabel le cxt ioctl_geometry llsectors sector_size answers = some r) :
    ∃ g warn rest c4 lines,
      create_geometry ioctl_geometry llsectors sector_size answers = some (g, warn, rest)
      ∧ create_partitions { cxt with firstsector := create_header le g, geom := g,
                                     other_endian := le } = some (c4, lines)
      ∧ r.1 = 0
      ∧ r.2.1 = set_changed (set_all_unchanged { c4 with firstsector := { c4.firstsector with
          cksum := cksum_loop (words_before_cksum le c4.firstsector) } }) 0
      ∧ r.2.2.2 = rest := by
  unfold sun_create_disklabel at h
  cases hg : create_geometry ioctl_geometry llsectors sector_size answers with
  | none => rw [hg] at h; exact absurd h (by simp)
  | some p =>
    obtain ⟨g, warn, rest⟩ := p
    rw [hg] at h
    simp only at h
    cases hp : create_partitions { cxt with firstsector := create_header le g, geom := g,
                                            other_endian := le } with
    | none => rw [hp] at h; exact absurd h (by simp)
    | some q =>
      obtain ⟨c4, lines⟩ := q
      rw [hp] at h
      simp only at h
      injection h with h
      subst h
      exact ⟨g, warn, rest, c4, lines, rfl, hp, rfl, rfl, rfl⟩

theorem created_header (le : Bool) (cxt : fdisk_context) (ioctl_geometry : Option hd_geometry)
    (llsectors : Option Nat) (sector_size : Nat) (answers : List Nat)
    (r : Int × fdisk_context × List create_message × List Nat)
    (h : sun_create_disklabel le cxt ioctl_geometry llsectors sector_size answers = some r) :
    r.2.1.other_endian = le
    ∧ r.2.1.firstsector.magic = SSWAP16 le SUN_LABEL_MAGIC
    ∧ r.2.1.firstsector.sanity = SSWAP32 le SUN_LABEL_SANE
    ∧ r.2.1.firstsector.version = SSWAP32 le SUN_LABEL_VERSION
    ∧ r.2.1.firstsector.num_partitions = SSWAP16 le SUN_NUM_PARTITIONS
    ∧ r.2.1.firstsector.nhead = SSWAP16 le r.2.1.geom.heads
    ∧ r.2.1.firstsector.nsect = SSWAP16 le r.2.1.geom.sectors
    ∧ r.2.1.firstsector.ncyl = SSWAP16 le r.2.1.geom.cylinders
    ∧ r.2.1.firstsector.pcyl = SSWAP16 le r.2.1.geom.cylinders
    ∧ r.2.1.firstsector.acyl = SSWAP16 le 2
    ∧ r.2.1.firstsector.rpm = SSWAP16 le 5400
    ∧ r.2.1.firstsector.intrlv = SSWAP16 le 1 := by
  obtain ⟨g, warn, rest, c4, lines, _, hp, _, hc, _⟩ := create_some _ _ _ _ _ _ _ h
  obtain ⟨_, _, hgeo, hoe, hl⟩ := create_partitions_keeps _ _ _ hp
  dsimp only at hgeo hoe hl
  have e1 : r.2.1.other_endian = c4.other_endian := by
    rw [hc]
    simp only [set_changed, set_all_unchanged]
  have e2 : r.2.1.geom = c4.geom := by
    rw [hc]
    simp only [set_changed, set_all_unchanged]
  have m1 : r.2.1.firstsector.magic = c4.firstsector.magic := by
    rw [hc]
    simp only [set_changed, set_all_unchanged]
  have m2 : r.2.1.firstsector.sanity = c4.firstsector.sanity := by
    rw [hc]
    simp only [set_changed, set_all_unchanged]
  have m3 : r.2.1.firstsector.version = c4.firstsector.version := by
    rw [hc]
    simp only [set_changed, set_all_unchanged]
  have m4 : r.2.1.firstsector.num_partitions = c4.firstsector.num_partitions := by
    rw [hc]
    simp only [set_changed, set_all_unchanged]
  have m5 : r.2.1.firstsector.nhead = c4.firstsector.nhead := by
    rw [hc]
    simp only [set_changed, set_all_unchanged]
  have m6 : r.2.1.firstsector.nsect = c4.firstsector.nsect := by
    rw [hc]
    simp only [set_changed, set_all_unchanged]
  have m7 : r.2.1.firstsector.ncyl = c4.firstsector.ncyl := by
    rw [hc]
    simp only [set_changed, set_all_unchanged]
  have m8 : r.2.1.firstsector.pcyl = c4.firstsector.pcyl := by
    rw [hc]
    simp only [set_changed, set_all_unchanged]
  have m9 : r.2.1.firstsector.acyl = c4.firstsector.acyl := by
    rw [hc]
    simp only [set_changed, set_all_unchanged]
  have m10 : r.2.1.firstsector.rpm = c4.firstsector.rpm := by
    rw [hc]
    simp only [set_changed, set_all_unchanged]
  have m11 : r.2.1.firstsector.intrlv = c4.firstsector.intrlv := by
    rw [hc]
    simp only [set_changed, set_all_unchanged]
  rw [e1, e2, m1, m2, m3, m4, m5, m6, m7, m8, m9, m10, m11, hoe, hgeo, hl]
  exact ⟨rfl, rfl, rfl, rfl, rfl, rfl, rfl, rfl, rfl, rfl, rfl, rfl⟩

/-! ## C21 -/

/-- Counterexample to C21 as stated: on a little-endian host the label
created for 4 heads, 32 sectors and 200 cylinders has `other_endian` true, and
its magic and `nsect`, read in host order, are the byte-swapped values 0xBEDA
and 0x2000, not 0xDABE and 32. -/
theorem create_swaps_on_little_endian :
    (sun_create_disklabel true context_zero none none 512 [4, 32, 200]).map
        (fun x => (x.2.1.other_endian, x.2.1.firstsector.magic, x.2.1.firstsector.nsect))
      = some (true, 0xBEDA, 0x2000)
    ∧ 0xBEDA ≠ SUN_LABEL_MAGIC ∧ (0x2000 : Nat) ≠ 32 := by
  decide

/-- C21, amended: after `sun_create_disklabel`, `other_endian` is the host's
little-endianness (lines 156-160), so it is false exactly on a big-endian
host; every header and geometry field the function writes holds its value
under `SSWAP16`/`SSWAP32` for that flag, which is host order on a big-endian
host and the byte-swapped order on a little-endian one; on both hosts the two
bytes of the magic in the sector are 0xDA, 0xBE. -/
theorem create_byte_order (little_endian_host : Bool) (cxt : fdisk_context)
    (ioctl_geometry : Option hd_geometry) (llsectors : Option Nat) (sector_size : Nat)
    (answers : List Nat) (r : Int × fdisk_context × List create_message × List Nat)
    (h : sun_create_disklabel little_endian_host cxt ioctl_geometry llsectors sector_size
          answers = some r) :
    r.2.1.other_endian = little_endian_host
    ∧ (r.2.1.other_endian = false ↔ little_endian_host = false)
    ∧ r.2.1.firstsector.magic = SSWAP16 little_endian_host SUN_LABEL_MAGIC
    ∧ r.2.1.firstsector.sanity = SSWAP32 little_endian_host SUN_LABEL_SANE
    ∧ r.2.1.firstsector.version = SSWAP32 little_endian_host SUN_LABEL_VERSION
    ∧ r.2.1.firstsector.num_partitions = SSWAP16 little_endian_host SUN_NUM_PARTITIONS
    ∧ r.2.1.firstsector.nhead = SSWAP16 little_endian_host r.2.1.geom.heads
    ∧ r.2.1.firstsector.nsect = SSWAP16 little_endian_host r.2.1.geom.sectors
    ∧ r.2.1.firstsector.ncyl = SSWAP16 little_endian_host r.2.1.geom.cylinders
    ∧ (little_endian_host = false →
        r.2.1.firstsector.magic = SUN_LABEL_MAGIC
        ∧ r.2.1.firstsector.sanity = SUN_LABEL_SANE
        ∧ r.2.1.firstsector.version = SUN_LABEL_VERSION
        ∧ r.2.1.firstsector.num_partitions = SUN_NUM_PARTITIONS
        ∧ r.2.1.firstsector.nhead = r.2.1.geom.heads % 65536
        ∧ r.2.1.firstsector.nsect = r.2.1.geom.sectors % 65536
        ∧ r.2.1.firstsector.ncyl = r.2.1.geom.cylinders % 65536)
    ∧ (little_endian_host = true →
        r.2.1.firstsector.magic = SUN_LABEL_MAGIC_SWAPPED
        ∧ r.2.1.firstsector.nhead = __swap16 r.2.1.geom.heads)
    ∧ r.2.1.firstsector.magic = word_of_bytes little_endian_host 0xDA 0xBE := by
  obtain ⟨h1, h2, h3, h4, h5, h6, h7, h8, _, _, _, _⟩ := created_header _ _ _ _ _ _ _ h
  refine ⟨h1, by rw [h1], h2, h3, h4, h5, h6, h7, h8, ?_, ?_, ?_⟩
  · intro hle
    rw [h2, h3, h4, h5, h6, h7, h8, hle]
    exact ⟨rfl, rfl, rfl, rfl, rfl, rfl, rfl⟩
  · intro hle
    rw [h2, h6, hle]
    exact ⟨by decide, rfl⟩
  · rw [h2]
    cases little_endian_host <;> decide

theorem little_endian_run :
    ∃ r, sun_create_disklabel true context_zero none none 512 [4, 32, 200] = some r :=
  Option.isSome_iff_exists.mp (by decide)

/-- Witness of C21: the label created on a little-endian host for 4 heads, 32
sectors and 200 cylinders has `other_endian` true and the swapped magic. -/
theorem create_byte_order_witness :
    ∃ r, sun_create_disklabel true context_zero none none 512 [4, 32, 200] = some r
      ∧ r.2.1.other_endian = true
      ∧ r.2.1.firstsector.magic = SUN_LABEL_MAGIC_SWAPPED :=
  match little_endian_run with
  | ⟨r, hr⟩ =>
    have h := create_byte_order true context_zero none none 512 [4, 32, 200] r hr
    ⟨r, hr, h.1, (h.2.2.2.2.2.2.2.2.2.2.1 rfl).1⟩

/-! ## Lemmas on the slot invariant -/

theorem invariant_update (cxt c1 : fdisk_context) (n : Nat) (h : empty_slots_unassigned cxt)
    (hoe : c1.other_endian = cxt.other_endian)
    (hother : ∀ m, m ≠ n →
      at_index c1.firstsector.partitions m = at_index cxt.firstsector.partitions m
      ∧ at_index c1.firstsector.part_tags m = at_index cxt.firstsector.part_tags m)
    (hn : n < 8 → (at_index c1.firstsector.partitions n).num_sectors = 0 →
      (at_index c1.firstsector.part_tags n).tag = SSWAP16 cxt.other_endian SUN_TAG_UNASSIGNED) :
    empty_slots_unassigned c1 := by
  intro i hi h0
  rw [hoe]
  by_cases hin : i = n
  · subst hin
    exact hn hi h0
  · rw [(hother i hin).2]
    rw [(hother i hin).1] at h0
    exact h i hi h0

theorem set_parttype_fail (cxt : fdisk_context) (i : Nat) (t : Option fdisk_parttype)
    (line : String) (h : (sun_set_parttype cxt i t line).ret ≠ 0) :
    (sun_set_parttype cxt i t line).cxt = cxt := by
  cases t with
  | none => rfl
  | some ty =>
    by_cases hc : i ≥ partitions ∨ ty.type > 65535
    · simp only [sun_set_parttype, if_pos hc]
    · simp only [sun_set_parttype, if_neg hc] at h ⊢
      split
      · rfl
      · rename_i hno
        rw [if_neg hno] at h
        exact absurd rfl h

theorem add_unrecorded_cxt (u : display_units) (cxt : fdisk_context) (n : Nat)
    (t : Option fdisk_parttype) (answers : List Nat) (r : add_result)
    (h : sun_add_partition u cxt n t answers = some r) (hrec : r.recorded = false) :
    r.cxt = cxt := by
  unfold sun_add_partition at h
  by_cases hocc : (at_index cxt.firstsector.partitions n).num_sectors ≠ 0
      ∧ (at_index cxt.firstsector.part_tags n).tag
          ≠ SSWAP16 cxt.other_endian SUN_TAG_UNASSIGNED
  · rw [if_pos hocc] at h
    injection h with h
    rw [← h]
    rfl
  · rw [if_neg hocc] at h
    by_cases hno : (fetch_sun cxt).stop ≤ (fetch_sun cxt).start ∧ n ≠ 2
    · rw [if_pos hno] at h
      injection h with h
      rw [← h]
      rfl
    · rw [if_neg hno] at h
      cases hl : add_first_loop u cxt.geom n (fetch_sun cxt).starts (fetch_sun cxt).lens
          (fetch_sun cxt).start (fetch_sun cxt).stop answers.length
          (decide ((fetch_sun cxt).stop ≤ (fetch_sun cxt).start)) [] answers 0 with
      | none => rw [hl] at h; exact absurd h (by simp)
      | some lr =>
        rw [hl] at h
        have := (add_finish_spec _ _ _ _ _ _ _ h).2.1
        rw [hrec] at this
        exact absurd this (by decide)

theorem zero_invariant : empty_slots_unassigned context_zero := by
  intro i _ _
  show (at_index (fun _ => (⟨0, 0⟩ : sun_tag_flag)) i).tag = 0
  unfold at_index
  split <;> rfl

/-! ## C22 -/

/-- Counterexample to C22 as stated: the empty label of `context_zero`
satisfies the invariant; `sun_set_parttype` on its empty slot 0 with the type
Linux native returns 0 and leaves the slot with `num_sectors = 0` and tag
0x83; `sun_add_partition` on slot 0 with the answers start 5, end 5 (the end
is within the promised range `[5, 100]`) records `num_sectors = 0` with tag
0x83. Neither result satisfies the invariant. -/
theorem mutations_break_invariant :
    empty_slots_unassigned context_zero
    ∧ (sun_set_parttype context_zero 0 (some ⟨SUN_TAG_LINUX_NATIVE, some "Linux native"⟩) "").ret
        = 0
    ∧ ¬ empty_slots_unassigned
        (sun_set_parttype context_zero 0 (some ⟨SUN_TAG_LINUX_NATIVE, some "Linux native"⟩) "").cxt
    ∧ (sun_add_partition sector_units context_zero 0 none [5, 5]).map
        (fun r => (r.recorded, r.first, r.last,
          (at_index r.cxt.firstsector.partitions 0).num_sectors,
          (at_index r.cxt.firstsector.part_tags 0).tag,
          SSWAP16 r.cxt.other_endian SUN_TAG_UNASSIGNED))
      = some (true, 5, 5, 0, 0x83, 0) := by
  refine ⟨zero_invariant, by decide, ?_, by decide⟩
  intro h
  exact absurd (h 0 (by decide) (by decide)) (by decide)

/-- C22, amended: if every slot with `num_sectors = 0` has the unassigned tag
before the call, it does so after `sun_delete_partition` and after
`toggle_sunflags` with any arguments, after `sun_set_parttype` whenever the
slot it addresses is not empty or the new type is unassigned (or the call
returns non-zero), and after `sun_add_partition` whenever the recorded end
differs from the recorded start or the recorded type is unassigned (a refused
call changes nothing). -/
theorem mutations_keep_invariant (cxt : fdisk_context) (h : empty_slots_unassigned cxt) :
    (∀ n, empty_slots_unassigned (sun_delete_partition cxt n).2.1)
    ∧ (∀ i mask, empty_slots_unassigned (toggle_sunflags cxt i mask))
    ∧ (∀ i t line,
        ((at_index cxt.firstsector.partitions i).num_sectors ≠ 0
          ∨ (∀ ty, t = some ty → ty.type = SUN_TAG_UNASSIGNED)
          ∨ (sun_set_parttype cxt i t line).ret ≠ 0) →
        empty_slots_unassigned (sun_set_parttype cxt i t line).cxt)
    ∧ (∀ u n t answers r, sun_add_partition u cxt n t answers = some r →
        (r.recorded = true → r.last ≠ r.first ∨ r.sys % 65536 = SUN_TAG_UNASSIGNED) →
        empty_slots_unassigned r.cxt) := by
  refine ⟨?_, ?_, ?_, ?_⟩
  · intro n
    refine invariant_update cxt _ n h ?_ ?_ ?_
    · rfl
    · intro m hm
      simp only [sun_delete_partition]
      exact ⟨at_index_set_index_other _ _ _ _ hm, at_index_set_index_other _ _ _ _ hm⟩
    · intro hn _
      simp only [sun_delete_partition]
      rw [at_index_set_index_same _ _ _ hn]
  · intro i mask
    refine invariant_update cxt _ i h ?_ ?_ ?_
    · rfl
    · intro m hm
      simp only [toggle_sunflags, set_changed, true_and]
      exact at_index_set_index_other _ _ _ _ hm
    · intro hn h0
      simp only [toggle_sunflags, set_changed] at h0 ⊢
      rw [at_index_set_index_same _ _ _ hn]
      exact h i hn h0
  · intro i t line hcond
    by_cases hret : (sun_set_parttype cxt i t line).ret = 0
    · cases t with
      | none =>
        have h1 : (-EINVAL : Int) = 0 := hret
        exact absurd h1 (by decide)
      | some ty =>
        obtain ⟨hi, _, hc⟩ := set_parttype_ok cxt i ty line hret
        rw [hc]
        refine invariant_update cxt _ i h ?_ ?_ ?_
        · rfl
        · intro m hm
          exact ⟨rfl, at_index_set_index_other _ _ _ _ hm⟩
        · intro _ h0
          dsimp only at h0 ⊢
          rw [at_index_set_index_same _ _ _ hi]
          rcases hcond with h1 | h1 | h1
          · exact absurd h0 h1
          · show SSWAP16 cxt.other_endian ty.type = _
            rw [h1 ty rfl]
          · exact absurd hret h1
    · rw [set_parttype_fail cxt i t line hret]
      exact h
  · intro u n t answers r hr hcond
    by_cases hrec : r.recorded = true
    · obtain ⟨_, hf32, hl32, _, hc⟩ := add_recorded_fields u cxt n t answers r hr hrec
      rw [hc]
      refine invariant_update cxt _ n h ?_ ?_ ?_
      · rfl
      · intro m hm
        simp only [set_changed]
        exact ⟨at_index_set_index_other _ _ _ _ hm, at_index_set_index_other _ _ _ _ hm⟩
      · intro hn h0
        simp only [set_changed] at h0 ⊢
        rw [at_index_set_index_same _ _ _ hn] at h0 ⊢
        rcases hcond hrec with h1 | h1
        · exfalso
          have h2 : SSWAP32 cxt.other_endian ((r.last + 2 ^ 32 - r.first) % 2 ^ 32) = 0 := h0
          rw [SSWAP32_eq_zero_iff _ _ (by omega)] at h2
          omega
        · show SSWAP16 cxt.other_endian (r.sys % 65536) = _
          rw [h1]
    · have hrec2 : r.recorded = false := by
        cases hb : r.recorded
        · rfl
        · exact absurd hb hrec
      rw [add_unrecorded_cxt u cxt n t answers r hr hrec2]
      exact h

theorem one_slot_invariant : empty_slots_unassigned context_one_slot := by
  unfold empty_slots_unassigned
  decide

/-- Witness of C22: `context_one_slot` satisfies the invariant and still does
after its occupied slot 1 is deleted. -/
theorem mutations_keep_invariant_witness :
    empty_slots_unassigned context_one_slot
    ∧ empty_slots_unassigned (sun_delete_partition context_one_slot 1).2.1 :=
  ⟨one_slot_invariant, (mutations_keep_invariant context_one_slot one_slot_invariant).1 1⟩

/-! ## Lemmas on the checksum test of probe -/

theorem xor_foldl_init (ws : List Nat) :
    ∀ a : Nat, ws.foldl (fun c w => c ^^^ w) a = a ^^^ xor_words ws := by
  induction ws with
  | nil => intro a; simp [xor_words]
  | cons w ws ih =>
    intro a
    unfold xor_words
    simp only [List.foldl_cons]
    rw [ih (a ^^^ w), ih (0 ^^^ w), Nat.zero_xor, Nat.xor_assoc]

theorem xor_words_cons (w : Nat) (ws : List Nat) :
    xor_words (w :: ws) = w ^^^ xor_words ws := by
  unfold xor_words
  simp only [List.foldl_cons]
  rw [xor_foldl_init ws (0 ^^^ w), Nat.zero_xor]
  rfl

theorem xor_words_append_one (ws : List Nat) (w : Nat) :
    xor_words (ws ++ [w]) = xor_words ws ^^^ w := by
  unfold xor_words
  simp only [List.foldl_append, List.foldl_cons, List.foldl_nil]

theorem xor_words_reverse (ws : List Nat) : xor_words ws.reverse = xor_words ws := by
  induction ws with
  | nil => rfl
  | cons w ws ih =>
    rw [List.reverse_cons, xor_words_append_one, ih, xor_words_cons, Nat.xor_comm]

theorem probe_csum_eq (le : Bool) (l : sun_disk_label) :
    probe_csum le l = (l.cksum % 65536) ^^^ xor_words (words_before_cksum le l) := by
  have h : probe_csum le l = xor_words (sector_words le l).reverse := rfl
  rw [h, xor_words_reverse]
  unfold sector_words words_of_u16
  rw [xor_words_append_one, Nat.xor_comm]

theorem probe_csum_zero_iff (le : Bool) (l : sun_disk_label) :
    probe_csum le l = 0 ↔ l.cksum % 65536 = xor_words (words_before_cksum le l) := by
  rw [probe_csum_eq]
  exact Nat.xor_eq_zero

theorem fresh_cksum_passes (le : Bool) (l l1 : sun_disk_label)
    (h1 : l1 = { l with cksum := cksum_loop (words_before_cksum le l) }) :
    probe_csum le l1 = 0 := by
  have hc := (cksum_after_set le l false l1 h1).1
  have hlt := (cksum_loop_eq (words_before_cksum le l1) (words_before_cksum_lt le l1)).2
  rw [probe_csum_zero_iff, Nat.mod_eq_of_lt (by rw [hc]; exact hlt)]
  exact hc

/-! ## C23 -/

/-- C23: for every label, the checksum word is the last 16-bit word of the
sector, and the test of `sun_probe_label` (the XOR of all words of the sector,
checksum included, is zero) holds if and only if the stored checksum equals
`compute`, the XOR of the words that precede the checksum field, that is, if
and only if `validate` holds; the label `sun_write_disklabel` leaves, and the
sector it hands to the device, pass the test of probe. -/
theorem probe_test_iff_validate (little_endian_host : Bool) (l : sun_disk_label) :
    sector_words little_endian_host l
      = words_before_cksum little_endian_host l ++ [l.cksum % 65536]
    ∧ (probe_csum little_endian_host l = 0
        ↔ l.cksum % 65536 = checksum_compute little_endian_host l)
    ∧ (l.cksum < 65536 →
        (probe_csum little_endian_host l = 0
          ↔ checksum_validate little_endian_host l = true))
    ∧ (∀ (cxt : fdisk_context) (e1 e2 : Option Nat),
        probe_csum little_endian_host
          (sun_write_disklabel little_endian_host cxt e1 e2).2.1.firstsector = 0)
    ∧ (∀ (cxt : fdisk_context) (s : sun_disk_label),
        (sun_write_disklabel little_endian_host cxt none none).2.2 = some s →
        probe_csum little_endian_host s = 0) := by
  refine ⟨rfl, probe_csum_zero_iff _ _, ?_, ?_, ?_⟩
  · intro hlt
    rw [probe_csum_zero_iff, Nat.mod_eq_of_lt hlt]
    unfold checksum_validate checksum_compute
    simp only [decide_eq_true_eq]
  · intro cxt e1 e2
    exact fresh_cksum_passes _ cxt.firstsector _ (write_firstsector _ cxt e1 e2)
  · intro cxt s hs
    have h1 : s = { cxt.firstsector with
        cksum := cksum_loop (words_before_cksum little_endian_host cxt.firstsector) } := by
      have h2 : (sun_write_disklabel little_endian_host cxt none none).2.2
          = some { cxt.firstsector with
              cksum := cksum_loop (words_before_cksum little_endian_host cxt.firstsector) } :=
        rfl
      rw [h2] at hs
      injection hs with hs
      exact hs.symm
    exact fresh_cksum_passes _ cxt.firstsector _ h1

/-- Witness of C23: the zeroed sector with the magic and the checksum 0xDABE
passes the test of probe and `validate` holds of it. -/
theorem probe_test_iff_validate_witness :
    label_stale_fields.cksum < 65536
    ∧ (probe_csum true label_stale_fields = 0
        ↔ checksum_validate true label_stale_fields = true)
    ∧ probe_csum true label_stale_fields = 0 :=
  ⟨by decide, (probe_test_iff_validate true label_stale_fields).2.2.1 (by decide),
    probe_csum_stale_fields⟩

/-! ## Lemmas on probing a created label -/

theorem probe_accepts (le : Bool) (c : fdisk_context) (oe : Bool) (g : fdisk_geometry)
    (hmagic : c.firstsector.magic = SSWAP16 oe SUN_LABEL_MAGIC)
    (hsum : probe_csum le c.firstsector = 0)
    (hv : c.firstsector.version = SSWAP32 oe SUN_LABEL_VERSION)
    (hs : c.firstsector.sanity = SSWAP32 oe SUN_LABEL_SANE)
    (hn : c.firstsector.num_partitions = SSWAP16 oe SUN_NUM_PARTITIONS)
    (hh : SSWAP16 oe c.firstsector.nhead = g.heads)
    (hc : SSWAP16 oe c.firstsector.ncyl = g.cylinders)
    (hse : SSWAP16 oe c.firstsector.nsect = g.sectors) :
    sun_probe_label le c = (1, { c with other_endian := oe, geom := g }) := by
  have hoe : decide (c.firstsector.magic = SUN_LABEL_MAGIC_SWAPPED) = oe := by
    rw [hmagic]
    cases oe <;> decide
  have hrec : ¬ (c.firstsector.magic ≠ SUN_LABEL_MAGIC
      ∧ c.firstsector.magic ≠ SUN_LABEL_MAGIC_SWAPPED) := by
    rw [hmagic]
    cases oe <;> decide
  have hfix : (decide (c.firstsector.version ≠ SSWAP32 oe SUN_LABEL_VERSION)
      || decide (c.firstsector.sanity ≠ SSWAP32 oe SUN_LABEL_SANE)
      || decide (c.firstsector.num_partitions ≠ SSWAP16 oe SUN_NUM_PARTITIONS)) = false := by
    simp [hv, hs, hn]
  unfold sun_probe_label
  simp only [if_neg hrec, hoe, hsum, ne_eq, not_true_eq_false, if_false, hfix,
    Bool.false_eq_true, hh, hc, hse]

theorem create_ndiv_some (g : fdisk_geometry) (hcz : cylinder_size g ≠ 0) :
    ∃ ndiv, create_ndiv g = some ndiv := by
  unfold create_ndiv
  by_cases h : ((g.cylinders * g.heads) % 2 ^ 64 * g.sectors) % 2 ^ 64 ≥ 150 * 2048
  · rw [if_pos h, if_neg hcz]
    exact ⟨_, rfl⟩
  · rw [if_neg h]
    exact ⟨_, rfl⟩

theorem create_returns (le : Bool) (cxt : fdisk_context) (ioctl_geometry : Option hd_geometry)
    (llsectors : Option Nat) (sector_size : Nat) (answers : List Nat) (g : fdisk_geometry)
    (warn : List create_message) (rest : List Nat)
    (hg : create_geometry ioctl_geometry llsectors sector_size answers = some (g, warn, rest))
    (hcz : cylinder_size g ≠ 0) :
    ∃ c out, sun_create_disklabel le cxt ioctl_geometry llsectors sector_size answers
      = some (0, c, out, rest) := by
  obtain ⟨ndiv, hnd⟩ := create_ndiv_some g hcz
  obtain ⟨c4, lines, hcp, _⟩ := create_partitions_spec
    { cxt with firstsector := create_header le g, geom := g, other_endian := le } ndiv hcz hnd
  refine ⟨set_changed (set_all_unchanged { c4 with firstsector := { c4.firstsector with
      cksum := cksum_loop (words_before_cksum le c4.firstsector) } }) 0,
    [create_message.building_new_disklabel] ++ warn ++ lines.map create_message.size, ?_⟩
  unfold sun_create_disklabel
  rw [hg]
  simp only
  rw [hcp]

theorem context_eta (c : fdisk_context) (oe : Bool) (g : fdisk_geometry)
    (h1 : c.other_endian = oe) (h2 : c.geom = g) :
    ({ c with other_endian := oe, geom := g } : fdisk_context) = c := by
  subst h1
  subst h2
  rfl

/-! ## C27 -/

/-- C27: for every geometry with heads, sectors and cylinders each in
[1, 65535], `sun_create_disklabel` returns 0 and the label it leaves is
accepted unchanged by `sun_probe_label`: probe returns 1, the checksum test
passes, `version`, `sanity` and `num_partitions` hold their constants, so
nothing is fixed up; probing the created state gives that state back, and
probing any state holding the created sector sets `other_endian` to the flag
create used and the geometry to the heads, sectors and cylinders create was
given, leaving the sector and the changed marks as they are. -/
theorem probe_accepts_created (little_endian_host : Bool) (cxt : fdisk_context)
    (ioctl_geometry : Option hd_geometry) (llsectors : Option Nat) (sector_size : Nat)
    (answers : List Nat) (g : fdisk_geometry) (warn : List create_message) (rest : List Nat)
    (hg : create_geometry ioctl_geometry llsectors sector_size answers = some (g, warn, rest))
    (hh : 1 ≤ g.heads ∧ g.heads ≤ 65535) (hs : 1 ≤ g.sectors ∧ g.sectors ≤ 65535)
    (hc : 1 ≤ g.cylinders ∧ g.cylinders ≤ 65535) :
    ∃ c out,
      sun_create_disklabel little_endian_host cxt ioctl_geometry llsectors sector_size answers
        = some (0, c, out, rest)
      ∧ c.geom = g ∧ c.other_endian = little_endian_host
      ∧ probe_csum little_endian_host c.firstsector = 0
      ∧ c.firstsector.version = SSWAP32 little_endian_host SUN_LABEL_VERSION
      ∧ c.firstsector.sanity = SSWAP32 little_endian_host SUN_LABEL_SANE
      ∧ c.firstsector.num_partitions = SSWAP16 little_endian_host SUN_NUM_PARTITIONS
      ∧ sun_probe_label little_endian_host c = (1, c)
      ∧ (∀ c1 : fdisk_context, c1.firstsector = c.firstsector →
          sun_probe_label little_endian_host c1
            = (1, { c1 with other_endian := little_endian_host, geom := g })) := by
  have hcz : cylinder_size g ≠ 0 := by
    unfold cylinder_size
    have h1 : 0 < g.heads * g.sectors := Nat.mul_pos hh.1 hs.1
    have h2 : g.heads * g.sectors ≤ 65535 * 65535 := Nat.mul_le_mul hh.2 hs.2
    rw [Nat.mod_eq_of_lt (by omega)]
    omega
  obtain ⟨c, out, hr⟩ := create_returns little_endian_host cxt _ _ _ _ g warn rest hg hcz
  obtain ⟨h1, h2, h3, h4, h5, h6, h7, h8, _⟩ := created_header _ _ _ _ _ _ _ hr
  obtain ⟨g1, warn1, rest1, c4, lines, hg1, hp, _, hcc, _⟩ := create_some _ _ _ _ _ _ _ hr
  dsimp only at h1 h2 h3 h4 h5 h6 h7 h8 hcc
  have hgg : g1 = g := by
    rw [hg] at hg1
    injection hg1 with hg1
    injection hg1 with hg1 _
    exact hg1.symm
  subst hgg
  obtain ⟨_, _, hgeo, _, _⟩ := create_partitions_keeps _ _ _ hp
  dsimp only at hgeo
  have hcg : c.geom = g1 := by
    rw [hcc]
    simp only [set_changed, set_all_unchanged]
    exact hgeo
  have hfs : c.firstsector = { c4.firstsector with
      cksum := cksum_loop (words_before_cksum little_endian_host c4.firstsector) } := by
    rw [hcc]
    simp only [set_changed, set_all_unchanged]
  have hsum := fresh_cksum_passes little_endian_host c4.firstsector c.firstsector hfs
  have hgen : ∀ c1 : fdisk_context, c1.firstsector = c.firstsector →
      sun_probe_label little_endian_host c1
        = (1, { c1 with other_endian := little_endian_host, geom := g1 }) := by
    intro c1 hc1
    apply probe_accepts
    · rw [hc1]; exact h2
    · rw [hc1]; exact hsum
    · rw [hc1]; exact h4
    · rw [hc1]; exact h3
    · rw [hc1]; exact h5
    · rw [hc1, h6, hcg, SSWAP16_SSWAP16]
      exact Nat.mod_eq_of_lt (by omega)
    · rw [hc1, h8, hcg, SSWAP16_SSWAP16]
      exact Nat.mod_eq_of_lt (by omega)
    · rw [hc1, h7, hcg, SSWAP16_SSWAP16]
      exact Nat.mod_eq_of_lt (by omega)
  refine ⟨c, out, hr, hcg, h1, hsum, h4, h3, h5, ?_, hgen⟩
  rw [hgen c rfl, context_eta c _ _ h1 hcg]

/-- Witness of C27: the label created on a little-endian host for 4 heads, 32
sectors and 200 cylinders is given back unchanged by probe, which returns 1. -/
theorem probe_accepts_created_witness :
    ∃ c out,
      sun_create_disklabel true context_zero none none 512 [4, 32, 200] = some (0, c, out, [])
      ∧ c.geom = ⟨4, 32, 200⟩ ∧ c.other_endian = true
      ∧ sun_probe_label true c = (1, c) :=
  match probe_accepts_created true context_zero none none 512 [4, 32, 200]
      ⟨4, 32, 200⟩ [] [] (by decide) (by decide) (by decide) (by decide) with
  | ⟨c, out, hr, hg, ho, _, _, _, _, hp, _⟩ => ⟨c, out, hr, hg, ho, hp⟩

/-! ## Lemmas on the free region of `fetch_sun` -/

theorem fetch_sun_slot_region (cxt : fdisk_context) (st : fetch_state) (i : Nat) :
    (slot_is_counted cxt i = false →
      (fetch_sun_slot cxt st i).start = st.start ∧ (fetch_sun_slot cxt st i).stop = st.stop
      ∧ (fetch_sun_slot cxt st i).continuous = st.continuous)
    ∧ (st.continuous = false →
      (fetch_sun_slot cxt st i).start = st.start ∧ (fetch_sun_slot cxt st i).stop = st.stop
      ∧ (fetch_sun_slot cxt st i).continuous = false)
    ∧ (slot_is_counted cxt i = true → st.continuous = true → slot_start cxt i = st.start →
      (fetch_sun_slot cxt st i).start = (st.start + slot_len cxt i) % 2 ^ 32
      ∧ (fetch_sun_slot cxt st i).stop = st.stop
      ∧ (fetch_sun_slot cxt st i).continuous = true)
    ∧ (slot_is_counted cxt i = true → st.continuous = true → slot_start cxt i ≠ st.start →
      (slot_start cxt i + slot_len cxt i) % 2 ^ 32 ≥ st.stop →
      (fetch_sun_slot cxt st i).start = st.start
      ∧ (fetch_sun_slot cxt st i).stop = slot_start cxt i
      ∧ (fetch_sun_slot cxt st i).continuous = true)
    ∧ (slot_is_counted cxt i = true → st.continuous = true → slot_start cxt i ≠ st.start →
      ¬ (slot_start cxt i + slot_len cxt i) % 2 ^ 32 ≥ st.stop →
      (fetch_sun_slot cxt st i).start = st.start
      ∧ (fetch_sun_slot cxt st i).stop = st.stop
      ∧ (fetch_sun_slot cxt st i).continuous = false) := by
  refine ⟨?_, ?_, ?_, ?_, ?_⟩
  · intro hc
    simp only [fetch_sun_slot, hc, Bool.false_eq_true, if_false, and_self]
  · intro hc
    cases hcount : slot_is_counted cxt i
    · simp only [fetch_sun_slot, hcount, Bool.false_eq_true, if_false, hc, and_self]
    · simp only [fetch_sun_slot, hcount, if_true, hc, Bool.false_eq_true, if_false, and_self]
  · intro hcount hc hs
    unfold slot_start at hs
    unfold slot_len
    simp only [fetch_sun_slot, hcount, if_true, hc, if_pos hs, and_self]
  · intro hcount hc hs hge
    unfold slot_start at hs hge ⊢
    unfold slot_len at hge
    simp only [fetch_sun_slot, hcount, if_true, hc, if_neg hs, if_pos hge, and_self]
  · intro hcount hc hs hge
    unfold slot_start at hs hge
    unfold slot_len at hge
    simp only [fetch_sun_slot, hcount, if_true, hc, if_neg hs, if_neg hge, and_self]

theorem fetch_frozen (cxt : fdisk_context) (L : List Nat) :
    ∀ st : fetch_state, st.continuous = false →
      (L.foldl (fetch_sun_slot cxt) st).start = st.start
      ∧ (L.foldl (fetch_sun_slot cxt) st).stop = st.stop
      ∧ (L.foldl (fetch_sun_slot cxt) st).continuous = false := by
  induction L with
  | nil => intro st h; exact ⟨rfl, rfl, h⟩
  | cons a L ih =>
    intro st h
    simp only [List.foldl_cons]
    obtain ⟨h1, h2, h3⟩ := (fetch_sun_slot_region cxt st a).2.1 h
    obtain ⟨h4, h5, h6⟩ := ih _ h3
    exact ⟨h4.trans h1, h5.trans h2, h6⟩

theorem fetch_before_succ (cxt : fdisk_context) (n : Nat) :
    fetch_before cxt (n + 1) = fetch_sun_slot cxt (fetch_before cxt n) n := by
  unfold fetch_before
  rw [List.range_succ, List.foldl_append]
  rfl

/-! ## C24 -/

/-- Counterexample to C24 as stated: in `context_two_tails`, when the loop of
`fetch_sun` reaches slot 1 the region is contiguous with start 0 and stop 500;
slot 1 is the extent [600, 1000), which neither begins at 0 nor ends exactly
at 500, yet line 273 sets stop to 600 and the region stays contiguous. -/
theorem fetch_pulls_stop_past_end :
    slot_is_counted context_two_tails 1 = true
    ∧ (fetch_before context_two_tails 1).continuous = true
    ∧ (fetch_before context_two_tails 1).start = 0
    ∧ (fetch_before context_two_tails 1).stop = 500
    ∧ slot_start context_two_tails 1 = 600
    ∧ slot_start context_two_tails 1 + slot_len context_two_tails 1 = 1000
    ∧ (fetch_sun_slot context_two_tails (fetch_before context_two_tails 1) 1).stop = 600
    ∧ (fetch_sun_slot context_two_tails (fetch_before context_two_tails 1) 1).continuous
        = true := by
  decide

/-- C24, amended: in `fetch_sun`, while the region is contiguous, an occupied
extent that does not begin at the current start sets stop to its own start
when its end (in 32-bit arithmetic) is at or after the current stop, leaving
start and the contiguity as they are; an occupied extent that neither begins
at the current start nor ends at or after the current stop leaves start and
stop unchanged and marks the region non-contiguous, after which no later
slot changes start or stop. -/
theorem fetch_stop_rule (cxt : fdisk_context) (st : fetch_state) (i : Nat)
    (hcount : slot_is_counted cxt i = true) (hcont : st.continuous = true)
    (hns : slot_start cxt i ≠ st.start) :
    ((slot_start cxt i + slot_len cxt i) % 2 ^ 32 ≥ st.stop →
        (fetch_sun_slot cxt st i).stop = slot_start cxt i
        ∧ (fetch_sun_slot cxt st i).start = st.start
        ∧ (fetch_sun_slot cxt st i).continuous = true)
    ∧ (¬ (slot_start cxt i + slot_len cxt i) % 2 ^ 32 ≥ st.stop →
        (fetch_sun_slot cxt st i).start = st.start
        ∧ (fetch_sun_slot cxt st i).stop = st.stop
        ∧ (fetch_sun_slot cxt st i).continuous = false
        ∧ ∀ L : List Nat,
            (L.foldl (fetch_sun_slot cxt) (fetch_sun_slot cxt st i)).start = st.start
            ∧ (L.foldl (fetch_sun_slot cxt) (fetch_sun_slot cxt st i)).stop = st.stop
            ∧ (L.foldl (fetch_sun_slot cxt) (fetch_sun_slot cxt st i)).continuous = false) := by
  constructor
  · intro hge
    obtain ⟨h1, h2, h3⟩ := (fetch_sun_slot_region cxt st i).2.2.2.1 hcount hcont hns hge
    exact ⟨h2, h1, h3⟩
  · intro hlt
    obtain ⟨h1, h2, h3⟩ := (fetch_sun_slot_region cxt st i).2.2.2.2 hcount hcont hns hlt
    refine ⟨h1, h2, h3, ?_⟩
    intro L
    obtain ⟨h4, h5, h6⟩ := fetch_frozen cxt L _ h3
    exact ⟨h4.trans h1, h5.trans h2, h6⟩

/-- Witness of C24: in `context_one_slot` slot 1 is the extent [384, 5384) on
a disk of 25600 sectors; it neither begins at 0 nor reaches the stop, so the
region is marked non-contiguous with start 0 and stop 25600 unchanged. -/
theorem fetch_stop_rule_witness :
    slot_is_counted context_one_slot 1 = true
    ∧ (fetch_before context_one_slot 1).start = 0
    ∧ (fetch_before context_one_slot 1).stop = 25600
    ∧ (fetch_sun_slot context_one_slot (fetch_before context_one_slot 1) 1).start = 0
    ∧ (fetch_sun_slot context_one_slot (fetch_before context_one_slot 1) 1).stop = 25600
    ∧ (fetch_sun_slot context_one_slot (fetch_before context_one_slot 1) 1).continuous
        = false :=
  have h := (fetch_stop_rule context_one_slot (fetch_before context_one_slot 1) 1
    (by decide) (by decide) (by decide)).2 (by decide)
  ⟨by decide, by decide, by decide, h.1.trans (by decide), h.2.1.trans (by decide), h.2.2.1⟩

/-! ## C25 -/

/-- C25, the code at the failing input: on `context_misaligned` (one occupied
slot, 150 sectors on cylinders of 100 sectors) the first merge pass prints
nothing and each of the passes 1 to 6 prints the boundary warning for
partition 1, so `sun_verify_disklabel` prints the warning six times before
the two gaps. -/
theorem verify_warns_six_times :
    (verify_pass (cylinder_size context_misaligned.geom)
        { starts := (fetch_sun context_misaligned).starts,
          lens := (fetch_sun context_misaligned).lens, out := [] } 0).out = []
    ∧ sun_verify_disklabel context_misaligned
      = some (0, [sun_message.not_on_cylinder_boundary 1,
          sun_message.not_on_cylinder_boundary 1, sun_message.not_on_cylinder_boundary 1,
          sun_message.not_on_cylinder_boundary 1, sun_message.not_on_cylinder_boundary 1,
          sun_message.not_on_cylinder_boundary 1,
          sun_message.unused_gap 0 100, sun_message.unused_gap 250 1000]) := by
  decide

/-! ## C28 -/

theorem fetch_region_invariant (cxt : fdisk_context)
    (hrun : ∀ i, i < 8 → slot_is_counted cxt i = true →
      slot_start cxt i = (fetch_before cxt i).start
      ∨ ((fetch_before cxt i).stop ≤ slot_start cxt i + slot_len cxt i
          ∧ slot_start cxt i ≤ (fetch_before cxt i).stop))
    (hno : ∀ i, i < 8 → slot_is_counted cxt i = true →
      slot_start cxt i + slot_len cxt i < 2 ^ 32) :
    ∀ n, n ≤ 8 →
      (fetch_before cxt n).continuous = true
      ∧ ∀ p, p < n → slot_is_counted cxt p = true →
          slot_start cxt p + slot_len cxt p ≤ (fetch_before cxt n).start
          ∨ (fetch_before cxt n).stop ≤ slot_start cxt p := by
  intro n
  induction n with
  | zero =>
    intro _
    exact ⟨rfl, fun p hp => absurd hp (Nat.not_lt_zero p)⟩
  | succ n ih =>
    intro hn
    obtain ⟨hcont, hinv⟩ := ih (by omega)
    rw [fetch_before_succ]
    have hreg := fetch_sun_slot_region cxt (fetch_before cxt n) n
    cases hcount : slot_is_counted cxt n
    · obtain ⟨h1, h2, h3⟩ := hreg.1 hcount
      rw [h1, h2, h3]
      refine ⟨hcont, ?_⟩
      intro p hp hcp
      have hpn : p < n := by
        rcases Nat.lt_succ_iff_lt_or_eq.mp hp with h | h
        · exact h
        · rw [h, hcount] at hcp
          exact absurd hcp (by decide)
      exact hinv p hpn hcp
    · have hov := hno n (by omega) hcount
      by_cases hs : slot_start cxt n = (fetch_before cxt n).start
      · obtain ⟨h1, h2, h3⟩ := hreg.2.2.1 hcount hcont hs
        rw [h1, h2, h3]
        have hsum : ((fetch_before cxt n).start + slot_len cxt n) % 2 ^ 32
            = slot_start cxt n + slot_len cxt n := by
          rw [← hs]
          exact Nat.mod_eq_of_lt hov
        rw [hsum]
        refine ⟨rfl, ?_⟩
        intro p hp hcp
        rcases Nat.lt_succ_iff_lt_or_eq.mp hp with h | h
        · rcases hinv p h hcp with h4 | h4
          · left
            omega
          · right
            exact h4
        · left
          rw [h]
      · have hr := hrun n (by omega) hcount
        have hr2 : (fetch_before cxt n).stop ≤ slot_start cxt n + slot_len cxt n
            ∧ slot_start cxt n ≤ (fetch_before cxt n).stop := by
          rcases hr with h | h
          · exact absurd h hs
          · exact h
        have hge : (slot_start cxt n + slot_len cxt n) % 2 ^ 32 ≥ (fetch_before cxt n).stop := by
          rw [Nat.mod_eq_of_lt hov]
          exact hr2.1
        obtain ⟨h1, h2, h3⟩ := hreg.2.2.2.1 hcount hcont hs hge
        rw [h1, h2, h3]
        refine ⟨rfl, ?_⟩
        intro p hp hcp
        rcases Nat.lt_succ_iff_lt_or_eq.mp hp with h | h
        · rcases hinv p h hcp with h4 | h4
          · left
            exact h4
          · right
            omega
        · right
          rw [h]

/-- Counterexample to C28 as stated: in `context_two_tails` every occupied
extent, in slot order, begins at the running start or ends at or after the
running stop, no end overflows and the region stays contiguous; the returned
region is [0, 600), and its sector 500 lies in the extent [500, 1000) of
slot 0. -/
theorem fetch_region_overlaps :
    (∀ i, i < 8 → slot_is_counted context_two_tails i = true →
      slot_start context_two_tails i = (fetch_before context_two_tails i).start
      ∨ (fetch_before context_two_tails i).stop
          ≤ slot_start context_two_tails i + slot_len context_two_tails i)
    ∧ (∀ i, i < 8 → slot_is_counted context_two_tails i = true →
      slot_start context_two_tails i + slot_len context_two_tails i < 2 ^ 32)
    ∧ (fetch_sun context_two_tails).continuous = true
    ∧ (fetch_sun context_two_tails).start = 0
    ∧ (fetch_sun context_two_tails).stop = 600
    ∧ (fetch_sun context_two_tails).starts 0 = 500
    ∧ (fetch_sun context_two_tails).lens 0 = 500
    ∧ ((fetch_sun context_two_tails).start ≤ 500 ∧ 500 < (fetch_sun context_two_tails).stop
        ∧ (fetch_sun context_two_tails).starts 0 ≤ 500
        ∧ 500 < (fetch_sun context_two_tails).starts 0
            + (fetch_sun context_two_tails).lens 0) := by
  decide

/-- C28, amended: in `fetch_sun`, if every occupied extent, taken in slot
order, either begins at the running start or ends at or after the running
stop while beginning at or before it (so that stop is never raised), and no
start + length overflows 32 bits, then the region stays contiguous and the
returned free region [start, stop) intersects no occupied extent. -/
theorem fetch_region_free (cxt : fdisk_context)
    (hrun : ∀ i, i < 8 → slot_is_counted cxt i = true →
      slot_start cxt i = (fetch_before cxt i).start
      ∨ ((fetch_before cxt i).stop ≤ slot_start cxt i + slot_len cxt i
          ∧ slot_start cxt i ≤ (fetch_before cxt i).stop))
    (hno : ∀ i, i < 8 → slot_is_counted cxt i = true →
      slot_start cxt i + slot_len cxt i < 2 ^ 32) :
    (fetch_sun cxt).continuous = true
    ∧ ∀ p, p < 8 → ∀ x, (fetch_sun cxt).start ≤ x → x < (fetch_sun cxt).stop →
        ¬ ((fetch_sun cxt).starts p ≤ x
            ∧ x < (fetch_sun cxt).starts p + (fetch_sun cxt).lens p) := by
  have h8 : fetch_sun cxt = fetch_before cxt 8 := rfl
  obtain ⟨hcont, hinv⟩ := fetch_region_invariant cxt hrun hno 8 (Nat.le_refl 8)
  rw [← h8] at hcont hinv
  refine ⟨hcont, ?_⟩
  intro p hp x hx1 hx2 hc
  obtain ⟨hs, hl⟩ := fetch_sun_arrays cxt p hp
  cases hcount : slot_is_counted cxt p
  · rw [hcount] at hs hl
    simp only [Bool.false_eq_true, if_false] at hs hl
    rw [hs, hl] at hc
    omega
  · rw [hcount] at hs hl
    simp only [if_true] at hs hl
    rw [hs, hl] at hc
    rcases hinv p hp hcount with h | h
    · omega
    · omega

/-- Witness of C28: in `context_whole_disk` the only occupied non-backup
extent is [0, 1280), which begins at the running start; the free region is
[1280, 25600) and its first sector lies outside that extent. -/
theorem fetch_region_free_witness :
    (fetch_sun context_whole_disk).start = 1280
    ∧ (fetch_sun context_whole_disk).stop = 25600
    ∧ (fetch_sun context_whole_disk).continuous = true
    ∧ ¬ ((fetch_sun context_whole_disk).starts 0 ≤ 1280
          ∧ 1280 < (fetch_sun context_whole_disk).starts 0
              + (fetch_sun context_whole_disk).lens 0) :=
  have h := fetch_region_free context_whole_disk (by decide) (by decide)
  ⟨by decide, by decide, h.1, h.2 0 (by decide) 1280 (by decide) (by decide)⟩

/-! ## Lemmas on the convergence of the merge passes -/

theorem foldl_progress {S A K : Type} (f : S → A → S) (key : S → K) (inv : S → Prop)
    (m : S → Nat) (T : S → A → Prop) (ok : A → Prop)
    (hm : ∀ s t, key s = key t → m s = m t)
    (hT : ∀ s t a, key s = key t → T s a → T t a)
    (hinv : ∀ s a, ok a → inv s → inv (f s a))
    (hquiet : ∀ s a, ok a → inv s → ¬ T s a → key (f s a) = key s)
    (htrig : ∀ s a, ok a → inv s → T s a → m (f s a) < m s) :
    ∀ (L : List A), (∀ a ∈ L, ok a) → ∀ s, inv s →
      inv (L.foldl f s)
      ∧ m (L.foldl f s) ≤ m s
      ∧ ((∀ a ∈ L, ¬ T s a) → key (L.foldl f s) = key s)
      ∧ ((∃ a ∈ L, T s a) → m (L.foldl f s) < m s) := by
  intro L
  induction L with
  | nil =>
    intro _ s hs
    refine ⟨hs, Nat.le_refl _, fun _ => rfl, ?_⟩
    rintro ⟨a, ha, _⟩
    exact absurd ha (List.not_mem_nil a)
  | cons a L ih =>
    intro hok s hs
    have hoka : ok a := hok a (List.mem_cons_self _ _)
    have hokL : ∀ b ∈ L, ok b := fun b hb => hok b (List.mem_cons_of_mem _ hb)
    simp only [List.foldl_cons]
    obtain ⟨i1, i2, i3, i4⟩ := ih hokL (f s a) (hinv s a hoka hs)
    by_cases hTa : T s a
    · have hlt := htrig s a hoka hs hTa
      refine ⟨i1, by omega, ?_, fun _ => by omega⟩
      intro hall
      exact absurd hTa (hall a (List.mem_cons_self _ _))
    · have hk := hquiet s a hoka hs hTa
      have hms := hm _ _ hk
      refine ⟨i1, by omega, ?_, ?_⟩
      · intro hall
        rw [← hk]
        apply i3
        intro b hb hTb
        exact hall b (List.mem_cons_of_mem _ hb) (hT _ _ b hk hTb)
      · rintro ⟨b, hb, hTb⟩
        rcases List.mem_cons.mp hb with h | h
        · rw [h] at hTb
          exact absurd hTb hTa
        · have := i4 ⟨b, h, hT _ _ b hk.symm hTb⟩
          omega

theorem update_same_value (f : Nat → Nat) (a v : Nat) (h : f a = v) :
    Function.update f a v = f := by
  rw [← h]
  exact Function.update_eq_self a f

theorem verify_pair_quiet (k i j : Nat) (st : verify_state) (hb : working_bounded st)
    (hq : ¬ touching st i j) :
    ((verify_pair k i st j).starts, (verify_pair k i st j).lens) = (st.starts, st.lens) := by
  unfold verify_pair
  by_cases hj : st.lens j ≠ 0
  · rw [if_pos hj]
    by_cases h1 : st.starts j = (st.starts i + st.lens i) % 2 ^ 32
    · rw [if_pos h1]
      have hi0 : st.lens i = 0 := by
        by_contra hi
        exact hq ⟨hi, hj, Or.inl h1⟩
      have hs : st.starts j = st.starts i := by
        rw [h1, hi0, Nat.add_zero, Nat.mod_eq_of_lt (hb i).1]
      have hl : (st.lens j + st.lens i) % 2 ^ 32 = st.lens j := by
        rw [hi0, Nat.add_zero, Nat.mod_eq_of_lt (hb j).2]
      show (Function.update st.starts j (st.starts i),
          Function.update (Function.update st.lens j ((st.lens j + st.lens i) % 2 ^ 32)) i 0)
        = (st.starts, st.lens)
      rw [hl, update_same_value st.starts j _ hs, update_same_value st.lens j _ rfl,
        update_same_value st.lens i 0 hi0]
    · rw [if_neg h1]
      by_cases h2 : st.starts i = (st.starts j + st.lens j) % 2 ^ 32
      · rw [if_pos h2]
        have hi0 : st.lens i = 0 := by
          by_contra hi
          exact hq ⟨hi, hj, Or.inr h2⟩
        have hl : (st.lens j + st.lens i) % 2 ^ 32 = st.lens j := by
          rw [hi0, Nat.add_zero, Nat.mod_eq_of_lt (hb j).2]
        show (st.starts,
            Function.update (Function.update st.lens j ((st.lens j + st.lens i) % 2 ^ 32)) i 0)
          = (st.starts, st.lens)
        rw [hl, update_same_value st.lens j _ rfl, update_same_value st.lens i 0 hi0]
      · rw [if_neg h2]
        split
        · split <;> rfl
        · rfl
  · rw [if_neg hj]

theorem verify_pair_bounded (k i j : Nat) (st : verify_state) (hb : working_bounded st) :
    working_bounded (verify_pair k i st j) := by
  have hup : ∀ (f : Nat → Nat) (a v : Nat), (∀ m, f m < 2 ^ 32) → v < 2 ^ 32 →
      ∀ m, Function.update f a v m < 2 ^ 32 := by
    intro f a v hf hv m
    rw [Function.update_apply]
    split
    · exact hv
    · exact hf m
  have hl : ∀ m, Function.update
      (Function.update st.lens j ((st.lens j + st.lens i) % 2 ^ 32)) i 0 m < 2 ^ 32 :=
    hup _ _ _ (hup _ _ _ (fun m => (hb m).2) (Nat.mod_lt _ (by norm_num))) (by norm_num)
  unfold verify_pair
  split
  · split
    · intro m
      exact ⟨hup _ _ _ (fun m => (hb m).1) (hb i).1 m, hl m⟩
    · split
      · intro m
        exact ⟨(hb m).1, hl m⟩
      · split
        · split
          · exact hb
          · exact hb
        · exact hb
  · exact hb

theorem count_drops (st st1 : verify_state) (i j : Nat) (hi : i < 8)
    (hli : st.lens i ≠ 0) (hlj : st.lens j ≠ 0) (h0 : st1.lens i = 0)
    (hsame : ∀ m, m ≠ i → m ≠ j → st1.lens m = st.lens m) :
    occupied_count st1 < occupied_count st := by
  unfold occupied_count
  apply Finset.card_lt_card
  rw [Finset.ssubset_iff_of_subset]
  · refine ⟨i, ?_, ?_⟩
    · simp only [Finset.mem_filter, Finset.mem_range, SUN_NUM_PARTITIONS]
      exact ⟨hi, hli⟩
    · simp only [Finset.mem_filter, Finset.mem_range, not_and, not_not]
      intro _
      exact h0
  · intro m hm
    simp only [Finset.mem_filter, Finset.mem_range] at hm ⊢
    refine ⟨hm.1, ?_⟩
    by_cases hmi : m = i
    · rw [hmi] at hm
      exact absurd h0 hm.2
    · by_cases hmj : m = j
      · rw [hmj]
        exact hlj
      · rw [← hsame m hmi hmj]
        exact hm.2

theorem verify_pair_merge (k i j : Nat) (st : verify_state) (hi : i < 8)
    (ht : touching st i j) :
    occupied_count (verify_pair k i st j) < occupied_count st := by
  obtain ⟨hli, hlj, hadj⟩ := ht
  have hl : ∀ (starts : Nat → Nat) (out : List sun_message),
      occupied_count (verify_state.mk starts
        (Function.update (Function.update st.lens j ((st.lens j + st.lens i) % 2 ^ 32)) i 0)
        out) < occupied_count st := by
    intro starts out
    apply count_drops st _ i j hi hli hlj
    · show Function.update _ i 0 i = 0
      exact Function.update_same _ _ _
    · intro m hmi hmj
      show Function.update (Function.update st.lens j _) i 0 m = st.lens m
      rw [Function.update_noteq hmi, Function.update_noteq hmj]
  unfold verify_pair
  rw [if_pos hlj]
  by_cases h1 : st.starts j = (st.starts i + st.lens i) % 2 ^ 32
  · rw [if_pos h1]
    exact hl _ _
  · rw [if_neg h1]
    have h2 : st.starts i = (st.starts j + st.lens j) % 2 ^ 32 := by
      rcases hadj with h | h
      · exact absurd h h1
      · exact h
    rw [if_pos h2]
    exact hl _ _

theorem count_of_key (s t : verify_state) (h : (s.starts, s.lens) = (t.starts, t.lens)) :
    occupied_count s = occupied_count t := by
  unfold occupied_count
  rw [(Prod.mk.inj h).2]

theorem touching_of_key (s t : verify_state) (i j : Nat)
    (h : (s.starts, s.lens) = (t.starts, t.lens)) (ht : touching s i j) : touching t i j := by
  unfold touching at ht ⊢
  rw [← (Prod.mk.inj h).1, ← (Prod.mk.inj h).2]
  exact ht

theorem verify_inner_progress (k i : Nat) (hi : i < 8) (L : List Nat) (st : verify_state)
    (hb : working_bounded st) :
    working_bounded (L.foldl (verify_pair k i) st)
    ∧ occupied_count (L.foldl (verify_pair k i) st) ≤ occupied_count st
    ∧ ((∀ j ∈ L, ¬ touching st i j) →
        ((L.foldl (verify_pair k i) st).starts, (L.foldl (verify_pair k i) st).lens)
          = (st.starts, st.lens))
    ∧ ((∃ j ∈ L, touching st i j) →
        occupied_count (L.foldl (verify_pair k i) st) < occupied_count st) :=
  foldl_progress (verify_pair k i) (fun s => (s.starts, s.lens)) working_bounded
    occupied_count (fun s j => touching s i j) (fun _ => True)
    count_of_key
    (fun s t j h ht => touching_of_key s t i j h ht)
    (fun s j _ hs => verify_pair_bounded k i j s hs)
    (fun s j _ hs hq => verify_pair_quiet k i j s hs hq)
    (fun s j _ _ ht => verify_pair_merge k i j s hi ht)
    L (fun _ _ => trivial) st hb

theorem verify_guarded_progress (k i : Nat) (hi : i < 8) (st st1 : verify_state)
    (hb : working_bounded st) (hk : (st1.starts, st1.lens) = (st.starts, st.lens)) :
    working_bounded
        (if st1.lens i ≠ 0 then (List.range i).foldl (verify_pair k i) st1 else st1)
    ∧ (¬ (∃ j, j < i ∧ touching st i j) →
        ((if st1.lens i ≠ 0 then (List.range i).foldl (verify_pair k i) st1 else st1).starts,
         (if st1.lens i ≠ 0 then (List.range i).foldl (verify_pair k i) st1 else st1).lens)
          = (st.starts, st.lens))
    ∧ ((∃ j, j < i ∧ touching st i j) →
        occupied_count
            (if st1.lens i ≠ 0 then (List.range i).foldl (verify_pair k i) st1 else st1)
          < occupied_count st) := by
  have hb1 : working_bounded st1 := by
    intro m
    rw [(Prod.mk.inj hk).1, (Prod.mk.inj hk).2]
    exact hb m
  have hc := count_of_key st1 st hk
  obtain ⟨p1, _, p3, p4⟩ := verify_inner_progress k i hi (List.range i) st1 hb1
  by_cases hl : st1.lens i ≠ 0
  · rw [if_pos hl]
    refine ⟨p1, ?_, ?_⟩
    · intro hq
      rw [← hk]
      apply p3
      intro j hj ht
      exact hq ⟨j, List.mem_range.mp hj, touching_of_key _ _ i j hk ht⟩
    · rintro ⟨j, hj, ht⟩
      rw [← hc]
      exact p4 ⟨j, List.mem_range.mpr hj, touching_of_key _ _ i j hk.symm ht⟩
  · rw [if_neg hl]
    refine ⟨hb1, fun _ => hk, ?_⟩
    rintro ⟨j, _, ht⟩
    exfalso
    apply hl
    rw [(Prod.mk.inj hk).2]
    exact ht.1

theorem verify_slot_progress (cs k i : Nat) (hi : i < 8) (st : verify_state)
    (hb : working_bounded st) :
    working_bounded (verify_slot cs k st i)
    ∧ (¬ (∃ j, j < i ∧ touching st i j) →
        ((verify_slot cs k st i).starts, (verify_slot cs k st i).lens) = (st.starts, st.lens))
    ∧ ((∃ j, j < i ∧ touching st i j) →
        occupied_count (verify_slot cs k st i) < occupied_count st) := by
  by_cases hw : k ≠ 0 ∧ st.lens i % cs ≠ 0
  · have h := verify_guarded_progress k i hi st
      { st with out := st.out ++ [sun_message.not_on_cylinder_boundary (i + 1)] } hb rfl
    simp only [verify_slot, if_pos hw]
    exact h
  · have h := verify_guarded_progress k i hi st st hb rfl
    simp only [verify_slot, if_neg hw]
    exact h

theorem verify_pass_progress (cs k : Nat) (st : verify_state) (hb : working_bounded st) :
    working_bounded (verify_pass cs st k)
    ∧ occupied_count (verify_pass cs st k) ≤ occupied_count st
    ∧ ((∀ i, i < 8 → ¬ (∃ j, j < i ∧ touching st i j)) →
        ((verify_pass cs st k).starts, (verify_pass cs st k).lens) = (st.starts, st.lens))
    ∧ ((∃ i, i < 8 ∧ ∃ j, j < i ∧ touching st i j) →
        occupied_count (verify_pass cs st k) < occupied_count st) := by
  have h := foldl_progress (verify_slot cs k) (fun s => (s.starts, s.lens)) working_bounded
    occupied_count (fun s i => ∃ j, j < i ∧ touching s i j) (fun i => i < 8)
    count_of_key
    (fun s t i h ht => match ht with
      | ⟨j, hj, htj⟩ => ⟨j, hj, touching_of_key s t i j h htj⟩)
    (fun s i hi hs => (verify_slot_progress cs k i hi s hs).1)
    (fun s i hi hs hq => (verify_slot_progress cs k i hi s hs).2.1 hq)
    (fun s i hi hs ht => (verify_slot_progress cs k i hi s hs).2.2 ht)
    (List.range SUN_NUM_PARTITIONS)
    (fun i hi => List.mem_range.mp hi) st hb
  obtain ⟨h1, h2, h3, h4⟩ := h
  refine ⟨h1, h2, ?_, ?_⟩
  · intro hq
    exact h3 (fun i hi => hq i (List.mem_range.mp hi))
  · rintro ⟨i, hi, ht⟩
    exact h4 ⟨i, List.mem_range.mpr hi, ht⟩

theorem verify_passes_stable (cs : Nat) (ks : List Nat) :
    ∀ st : verify_state, working_bounded st →
      (∀ i, i < 8 → ¬ (∃ j, j < i ∧ touching st i j)) →
      ((ks.foldl (verify_pass cs) st).starts, (ks.foldl (verify_pass cs) st).lens)
        = (st.starts, st.lens) := by
  induction ks with
  | nil => intro st _ _; rfl
  | cons k ks ih =>
    intro st hb hq
    simp only [List.foldl_cons]
    obtain ⟨p1, _, p3, _⟩ := verify_pass_progress cs k st hb
    have hk := p3 hq
    rw [← hk]
    apply ih _ p1
    intro i hi hc
    obtain ⟨j, hj, ht⟩ := hc
    exact hq i hi ⟨j, hj, touching_of_key _ _ i j hk ht⟩

theorem verify_passes_bounded (cs : Nat) (ks : List Nat) :
    ∀ st : verify_state, working_bounded st →
      working_bounded (ks.foldl (verify_pass cs) st) := by
  induction ks with
  | nil => intro st h; exact h
  | cons k ks ih =>
    intro st hb
    simp only [List.foldl_cons]
    exact ih _ (verify_pass_progress cs k st hb).1

theorem verify_passes_progress (cs : Nat) (ks : List Nat) :
    ∀ st : verify_state, working_bounded st →
      (∀ i, i < 8 → ¬ (∃ j, j < i ∧ touching (ks.foldl (verify_pass cs) st) i j))
      ∨ occupied_count (ks.foldl (verify_pass cs) st) + ks.length ≤ occupied_count st := by
  induction ks with
  | nil =>
    intro st _
    right
    exact Nat.le_refl _
  | cons k ks ih =>
    intro st hb
    by_cases hq : ∀ i, i < 8 → ¬ (∃ j, j < i ∧ touching st i j)
    · left
      have hk := verify_passes_stable cs (k :: ks) st hb hq
      intro i hi hc
      obtain ⟨j, hj, ht⟩ := hc
      exact hq i hi ⟨j, hj, touching_of_key _ _ i j hk ht⟩
    · have hex : ∃ i, i < 8 ∧ ∃ j, j < i ∧ touching st i j := by
        by_contra hne
        apply hq
        intro i hi hc
        exact hne ⟨i, hi, hc⟩
      obtain ⟨p1, _, _, p4⟩ := verify_pass_progress cs k st hb
      have hlt := p4 hex
      simp only [List.foldl_cons, List.length_cons]
      rcases ih _ p1 with h | h
      · left
        exact h
      · right
        omega

theorem fetched_bounded (cxt : fdisk_context) :
    working_bounded ⟨(fetch_sun cxt).starts, (fetch_sun cxt).lens, []⟩ := by
  intro i
  show (fetch_sun cxt).starts i < 2 ^ 32 ∧ (fetch_sun cxt).lens i < 2 ^ 32
  by_cases hi : i < 8
  · obtain ⟨h1, h2⟩ := fetch_sun_arrays cxt i hi
    rw [h1, h2]
    constructor
    · split
      · unfold slot_start
        exact Nat.mod_lt _ (by norm_num)
      · norm_num
    · split
      · unfold slot_len
        exact SSWAP32_lt _ _
      · norm_num
  · obtain ⟨h1, h2⟩ := fetch_sun_arrays_out cxt i (by omega)
    rw [h1, h2]
    norm_num

theorem count_two (st : verify_state) (i j : Nat) (hi : i < 8) (hj : j < 8) (hij : i ≠ j)
    (hli : st.lens i ≠ 0) (hlj : st.lens j ≠ 0) : 2 ≤ occupied_count st := by
  unfold occupied_count
  rw [← Finset.card_pair hij]
  apply Finset.card_le_card
  intro m hm
  simp only [Finset.mem_insert, Finset.mem_singleton] at hm
  simp only [Finset.mem_filter, Finset.mem_range, SUN_NUM_PARTITIONS]
  rcases hm with h | h
  · rw [h]
    exact ⟨hi, hli⟩
  · rw [h]
    exact ⟨hj, hlj⟩

theorem count_le_eight (st : verify_state) : occupied_count st ≤ 8 := by
  unfold occupied_count
  have h := Finset.card_filter_le (Finset.range SUN_NUM_PARTITIONS) (fun i => st.lens i ≠ 0)
  rw [Finset.card_range] at h
  exact h

theorem emptied_slot (st st1 : verify_state)
    (h : occupied_count st1 < occupied_count st) :
    ∃ m, m < 8 ∧ st.lens m ≠ 0 ∧ st1.lens m = 0 := by
  by_contra hne
  have hsub : occupied_count st ≤ occupied_count st1 := by
    unfold occupied_count
    apply Finset.card_le_card
    intro m hm
    simp only [Finset.mem_filter, Finset.mem_range, SUN_NUM_PARTITIONS] at hm ⊢
    refine ⟨hm.1, ?_⟩
    intro h0
    exact hne ⟨m, hm.1, hm.2, h0⟩
  omega

theorem merge_quiet (cxt : fdisk_context) :
    ∀ i, i < 8 → ¬ (∃ j, j < i ∧ touching (verify_merge cxt) i j) := by
  have hb := fetched_bounded cxt
  rcases verify_passes_progress (cylinder_size cxt.geom) (List.range 7) _ hb with h | h
  · exact h
  · intro i hi hc
    obtain ⟨j, hj, ht⟩ := hc
    have h2 := count_two (verify_merge cxt) i j hi (by omega) (by omega) ht.1 ht.2.1
    have h8 := count_le_eight ⟨(fetch_sun cxt).starts, (fetch_sun cxt).lens, []⟩
    have hlen : (List.range 7).length = 7 := List.length_range 7
    rw [hlen] at h
    have hm : verify_merge cxt = (List.range 7).foldl (verify_pass (cylinder_size cxt.geom))
        ⟨(fetch_sun cxt).starts, (fetch_sun cxt).lens, []⟩ := rfl
    rw [← hm] at h
    omega

/-! ## C26 -/

/-- C26: for every label and geometry, after the 7 merge passes of
`sun_verify_disklabel` no two distinct working slots with non-zero length are
exactly adjacent: none begins at the sector where another ends, in 32-bit
arithmetic. A pass that starts on 32-bit working arrays with such a pair
lowers the number of non-empty slots, so it empties a non-empty slot; the
arrays `fetch_sun` fills are 32-bit and hold at most 8 non-empty slots. -/
theorem merge_converges (cxt : fdisk_context) :
    (∀ i j, i < 8 → j < 8 → i ≠ j →
      (verify_merge cxt).lens i ≠ 0 → (verify_merge cxt).lens j ≠ 0 →
      (verify_merge cxt).starts j
        ≠ ((verify_merge cxt).starts i + (verify_merge cxt).lens i) % 2 ^ 32)
    ∧ (∀ (st : verify_state) (cs k : Nat), working_bounded st →
        (∃ i j, i < 8 ∧ j < 8 ∧ i ≠ j ∧ st.lens i ≠ 0 ∧ st.lens j ≠ 0
          ∧ st.starts j = (st.starts i + st.lens i) % 2 ^ 32) →
        occupied_count (verify_pass cs st k) < occupied_count st
        ∧ ∃ m, m < 8 ∧ st.lens m ≠ 0 ∧ (verify_pass cs st k).lens m = 0)
    ∧ working_bounded ⟨(fetch_sun cxt).starts, (fetch_sun cxt).lens, []⟩
    ∧ occupied_count ⟨(fetch_sun cxt).starts, (fetch_sun cxt).lens, []⟩ ≤ 8 := by
  refine ⟨?_, ?_, fetched_bounded cxt, count_le_eight _⟩
  · intro i j hi hj hij hli hlj hadj
    rcases Nat.lt_or_gt_of_ne hij with h | h
    · exact merge_quiet cxt j hj ⟨i, h, hlj, hli, Or.inr hadj⟩
    · exact merge_quiet cxt i hi ⟨j, h, hli, hlj, Or.inl hadj⟩
  · intro st cs k hb hex
    obtain ⟨i, j, hi, hj, hij, hli, hlj, hadj⟩ := hex
    have htr : ∃ a, a < 8 ∧ ∃ b, b < a ∧ touching st a b := by
      rcases Nat.lt_or_gt_of_ne hij with h | h
      · exact ⟨j, hj, i, h, hlj, hli, Or.inr hadj⟩
      · exact ⟨i, hi, j, h, hli, hlj, Or.inl hadj⟩
    have hlt := (verify_pass_progress cs k st hb).2.2.2 htr
    exact ⟨hlt, emptied_slot st _ hlt⟩

/-- Witness of C26: on `context_three_slots` the passes leave slots 0 and 1
non-empty, [0, 200) and [150, 250), and slot 1 does not begin where slot 0
ends. -/
theorem merge_converges_witness :
    (verify_merge context_three_slots).lens 0 ≠ 0
    ∧ (verify_merge context_three_slots).lens 1 ≠ 0
    ∧ (verify_merge context_three_slots).starts 1
        ≠ ((verify_merge context_three_slots).starts 0
            + (verify_merge context_three_slots).lens 0) % 2 ^ 32 :=
  ⟨by decide, by decide,
    (merge_converges context_three_slots).1 0 1 (by decide) (by decide) (by decide)
      (by decide) (by decide)⟩

/-! ## Lemmas on merging non-overlapping extents -/

theorem merge_into_lens (st : verify_state) (i j a : Nat) :
    (merge_into st i j).lens a
      = if a = i then 0 else if a = j then st.lens j + st.lens i else st.lens a := by
  unfold merge_into
  simp only [Function.update_apply]

theorem merge_into_starts (st : verify_state) (i j a : Nat) :
    (merge_into st i j).starts a
      = if a = j then min (st.starts i) (st.starts j) else st.starts a := by
  unfold merge_into
  simp only [Function.update_apply]

theorem merge_into_empty (st : verify_state) (i j : Nat) (hli : st.lens i = 0)
    (hadj : st.starts j = st.starts i + st.lens i ∨ st.starts i = st.starts j + st.lens j) :
    merge_into st i j = st := by
  have hmin : min (st.starts i) (st.starts j) = st.starts j := by
    rw [Nat.min_def]
    split <;> omega
  unfold merge_into
  rw [hmin, hli, Nat.add_zero, update_same_value st.starts j _ rfl,
    update_same_value st.lens j _ rfl, update_same_value st.lens i 0 hli]

theorem merge_keeps_apart (total : Nat) (st : verify_state) (i j : Nat)
    (hi : i < 8) (hj : j < 8) (hij : i ≠ j) (hw : extents_apart total st)
    (hli : st.lens i ≠ 0) (hlj : st.lens j ≠ 0)
    (hadj : st.starts j = st.starts i + st.lens i ∨ st.starts i = st.starts j + st.lens j) :
    extents_apart total (merge_into st i j)
    ∧ (∀ x, (∃ a, a < 8 ∧ in_extent (merge_into st i j) a x)
        ↔ (∃ a, a < 8 ∧ in_extent st a x))
    ∧ (merge_into st i j).lens i = 0
    ∧ in_extent (merge_into st i j) j (st.starts i) := by
  have wi := hw.1 i hi hli
  have wj := hw.1 j hj hlj
  have hji : j ≠ i := Ne.symm hij
  have Lj : (merge_into st i j).lens j = st.lens j + st.lens i := by
    rw [merge_into_lens, if_neg hji, if_pos rfl]
  have Li : (merge_into st i j).lens i = 0 := by
    rw [merge_into_lens, if_pos rfl]
  have Sj : (merge_into st i j).starts j = min (st.starts i) (st.starts j) := by
    rw [merge_into_starts, if_pos rfl]
  have Lo : ∀ a, a ≠ i → a ≠ j → (merge_into st i j).lens a = st.lens a := by
    intro a h1 h2
    rw [merge_into_lens, if_neg h1, if_neg h2]
  have So : ∀ a, a ≠ j → (merge_into st i j).starts a = st.starts a := by
    intro a h2
    rw [merge_into_starts, if_neg h2]
  have hmin : min (st.starts i) (st.starts j) ≤ st.starts i
      ∧ min (st.starts i) (st.starts j) ≤ st.starts j
      ∧ (min (st.starts i) (st.starts j) = st.starts i
          ∨ min (st.starts i) (st.starts j) = st.starts j) := by
    rw [Nat.min_def]
    split <;> omega
  refine ⟨⟨?_, ?_⟩, ?_, Li, ?_⟩
  · intro a ha hla
    by_cases hai : a = i
    · rw [hai, Li] at hla
      exact absurd rfl hla
    · by_cases haj : a = j
      · rw [haj, Sj, Lj]
        omega
      · rw [So a haj, Lo a hai haj]
        rw [Lo a hai haj] at hla
        exact hw.1 a ha hla
  · intro a b ha hb hab hla hlb
    by_cases hai : a = i
    · rw [hai, Li] at hla
      exact absurd rfl hla
    · by_cases hbi : b = i
      · rw [hbi, Li] at hlb
        exact absurd rfl hlb
      · by_cases haj : a = j
        · have hbj : b ≠ j := fun h => hab (haj.trans h.symm)
          rw [Lo b hbi hbj] at hlb
          have d1 := hw.2 i b hi hb (Ne.symm hbi) hli hlb
          have d2 := hw.2 j b hj hb (Ne.symm hbj) hlj hlb
          rw [haj, Sj, Lj, So b hbj, Lo b hbi hbj]
          omega
        · rw [Lo a hai haj] at hla
          by_cases hbj : b = j
          · have d1 := hw.2 i a hi ha (Ne.symm hai) hli hla
            have d2 := hw.2 j a hj ha (Ne.symm haj) hlj hla
            rw [hbj, Sj, Lj, So a haj, Lo a hai haj]
            omega
          · rw [Lo b hbi hbj] at hlb
            rw [So a haj, Lo a hai haj, So b hbj, Lo b hbi hbj]
            exact hw.2 a b ha hb hab hla hlb
  · intro x
    constructor
    · rintro ⟨a, ha, hla, h1, h2⟩
      by_cases hai : a = i
      · rw [hai, Li] at hla
        exact absurd rfl hla
      · by_cases haj : a = j
        · rw [haj, Sj] at h1
          rw [haj, Sj, Lj] at h2
          by_cases hx : st.starts i ≤ x ∧ x < st.starts i + st.lens i
          · exact ⟨i, hi, hli, hx.1, hx.2⟩
          · exact ⟨j, hj, hlj, by omega, by omega⟩
        · rw [So a haj] at h1
          rw [So a haj, Lo a hai haj] at h2
          rw [Lo a hai haj] at hla
          exact ⟨a, ha, hla, h1, h2⟩
    · rintro ⟨a, ha, hla, h1, h2⟩
      by_cases hai : a = i
      · rw [hai] at h1 h2
        refine ⟨j, hj, ?_, ?_, ?_⟩
        · rw [Lj]; omega
        · rw [Sj]; omega
        · rw [Sj, Lj]; omega
      · by_cases haj : a = j
        · rw [haj] at h1 h2
          refine ⟨j, hj, ?_, ?_, ?_⟩
          · rw [Lj]; omega
          · rw [Sj]; omega
          · rw [Sj, Lj]; omega
        · refine ⟨a, ha, ?_, ?_, ?_⟩
          · rw [Lo a hai haj]; exact hla
          · rw [So a haj]; exact h1
          · rw [So a haj, Lo a hai haj]; exact h2
  · refine ⟨?_, ?_, ?_⟩
    · rw [Lj]; omega
    · rw [Sj]; omega
    · rw [Sj, Lj]; omega

/-! ## Lemmas on the gap report -/

theorem verify_pair_inv (total : Nat) (c0 : Nat → Prop) (k i j : Nat) (st : verify_state)
    (htot : total < 2 ^ 32) (hji : j < i) (hi : i < 8) (hJ : merge_inv total c0 st)
    (hside : st.lens i ≠ 0 ∨ ∃ p, p < j ∧ in_extent st p (st.starts i)) :
    merge_inv total c0 (verify_pair k i st j)
    ∧ ((verify_pair k i st j).lens i ≠ 0
        ∨ ∃ p, p < j + 1
            ∧ in_extent (verify_pair k i st j) p ((verify_pair k i st j).starts i)) := by
  have hJ0 := hJ
  obtain ⟨hb, hw, hc, ho⟩ := hJ
  have hside1 : st.lens i ≠ 0 ∨ ∃ p, p < j + 1 ∧ in_extent st p (st.starts i) := by
    rcases hside with h | ⟨p, hp, h⟩
    · exact Or.inl h
    · exact Or.inr ⟨p, by omega, h⟩
  by_cases hlj : st.lens j = 0
  · rw [verify_pair_skip k i j st hlj]
    exact ⟨hJ0, hside1⟩
  · have hej : st.starts j + st.lens j < 2 ^ 32 := by
      have := hw.1 j (by omega) hlj
      omega
    have hei : st.starts i + st.lens i < 2 ^ 32 := by
      by_cases hli : st.lens i = 0
      · rw [hli]
        have := (hb i).1
        omega
      · have := hw.1 i hi hli
        omega
    have hb1 := verify_pair_bounded k i j st hb
    by_cases hadj : st.starts j = st.starts i + st.lens i
        ∨ st.starts i = st.starts j + st.lens j
    · rw [verify_pair_adjacent k i j st hlj hei hej hadj] at hb1 ⊢
      by_cases hli : st.lens i = 0
      · rw [merge_into_empty st i j hli hadj]
        exact ⟨hJ0, hside1⟩
      · obtain ⟨m1, m2, _, m4⟩ := merge_keeps_apart total st i j hi (by omega) (by omega)
          hw hli hlj hadj
        refine ⟨⟨hb1, m1, fun x => (m2 x).trans (hc x), ho⟩, Or.inr ⟨j, by omega, ?_⟩⟩
        rw [merge_into_starts, if_neg (by omega)]
        exact m4
    · have hn1 : st.starts j ≠ (st.starts i + st.lens i) % 2 ^ 32 := by
        rw [Nat.mod_eq_of_lt hei]
        exact fun h => hadj (Or.inl h)
      have hn2 : st.starts i ≠ (st.starts j + st.lens j) % 2 ^ 32 := by
        rw [Nat.mod_eq_of_lt hej]
        exact fun h => hadj (Or.inr h)
      have hrep : overlap_report st.starts st.lens i j k = [] := by
        unfold overlap_report
        rw [if_neg]
        rintro ⟨_, h1, h2⟩
        rw [Nat.mod_eq_of_lt hej] at h1
        rw [Nat.mod_eq_of_lt hei] at h2
        by_cases hli : st.lens i = 0
        · rcases hside with h | ⟨p, hp, hlp, h3, h4⟩
          · exact h hli
          · have := hw.2 j p (by omega) (by omega) (by omega) hlj hlp
            omega
        · have := hw.2 i j hi (by omega) (by omega) hli hlj
          omega
      rw [verify_pair_apart k i j st hlj hn1 hn2, hrep, add_out_nil]
      exact ⟨hJ0, hside1⟩

theorem verify_inner_inv (total : Nat) (c0 : Nat → Prop) (k i : Nat) (st : verify_state)
    (htot : total < 2 ^ 32) (hi : i < 8) (hJ : merge_inv total c0 st)
    (hli : st.lens i ≠ 0) :
    ∀ n, n ≤ i →
      merge_inv total c0 ((List.range n).foldl (verify_pair k i) st)
      ∧ (((List.range n).foldl (verify_pair k i) st).lens i ≠ 0
          ∨ ∃ p, p < n
              ∧ in_extent ((List.range n).foldl (verify_pair k i) st) p
                  (((List.range n).foldl (verify_pair k i) st).starts i)) := by
  intro n
  induction n with
  | zero => intro _; exact ⟨hJ, Or.inl hli⟩
  | succ n ih =>
    intro hn
    obtain ⟨h1, h2⟩ := ih (by omega)
    rw [List.range_succ, List.foldl_append]
    exact verify_pair_inv total c0 k i n _ htot (by omega) hi h1 h2

theorem verify_slot_inv (total : Nat) (c0 : Nat → Prop) (cs k i : Nat) (st : verify_state)
    (htot : total < 2 ^ 32) (hi : i < 8) (hJ : merge_inv total c0 st) :
    merge_inv total c0 (verify_slot cs k st i) := by
  have hgen : ∀ st1 : verify_state, merge_inv total c0 st1 →
      merge_inv total c0
        (if st1.lens i ≠ 0 then (List.range i).foldl (verify_pair k i) st1 else st1) := by
    intro st1 h1
    by_cases hl : st1.lens i ≠ 0
    · rw [if_pos hl]
      exact (verify_inner_inv total c0 k i st1 htot hi h1 hl i (Nat.le_refl i)).1
    · rw [if_neg hl]
      exact h1
  by_cases hw : k ≠ 0 ∧ st.lens i % cs ≠ 0
  · obtain ⟨hb, hap, hc, ho⟩ := hJ
    have h := hgen { st with out := st.out ++ [sun_message.not_on_cylinder_boundary (i + 1)] }
      ⟨hb, hap, hc, by
        intro m hm
        rcases List.mem_append.mp hm with h | h
        · exact ho m h
        · rw [List.mem_singleton.mp h]
          exact ⟨rfl, rfl⟩⟩
    simp only [verify_slot, if_pos hw]
    exact h
  · simp only [verify_slot, if_neg hw]
    exact hgen st hJ

theorem foldl_keeps {S A : Type} (P : S → Prop) (f : S → A → S) :
    ∀ (L : List A), (∀ a ∈ L, ∀ s, P s → P (f s a)) → ∀ s, P s → P (L.foldl f s) := by
  intro L
  induction L with
  | nil => intro _ s h; exact h
  | cons a L ih =>
    intro hstep s h
    simp only [List.foldl_cons]
    exact ih (fun b hb => hstep b (List.mem_cons_of_mem _ hb)) _
      (hstep a (List.mem_cons_self _ _) s h)

theorem verify_pass_inv (total : Nat) (c0 : Nat → Prop) (cs k : Nat) (st : verify_state)
    (htot : total < 2 ^ 32) (hJ : merge_inv total c0 st) :
    merge_inv total c0 (verify_pass cs st k) :=
  foldl_keeps (merge_inv total c0) (verify_slot cs k) (List.range SUN_NUM_PARTITIONS)
    (fun i hi s hs => verify_slot_inv total c0 cs k i s htot (List.mem_range.mp hi) hs) st hJ

theorem verify_merge_inv (total : Nat) (cxt : fdisk_context) (htot : total < 2 ^ 32)
    (hap : extents_apart total ⟨(fetch_sun cxt).starts, (fetch_sun cxt).lens, []⟩) :
    merge_inv total
      (fun x => ∃ a, a < 8
        ∧ in_extent ⟨(fetch_sun cxt).starts, (fetch_sun cxt).lens, []⟩ a x)
      (verify_merge cxt) :=
  foldl_keeps _ (verify_pass (cylinder_size cxt.geom)) (List.range 7)
    (fun k _ s hs => verify_pass_inv total _ (cylinder_size cxt.geom) k s htot hs) _
    ⟨fetched_bounded cxt, hap, fun _ => Iff.rfl,
      fun m hm => absurd hm (List.not_mem_nil m)⟩

theorem cmp_minus_one (starts : Nat → Nat) (b : Int) :
    ¬ verify_sun_cmp starts (-1) b < 0 := by
  unfold verify_sun_cmp
  rw [if_pos rfl]
  decide

theorem cmp_index_minus_one (starts : Nat → Nat) (a : Nat) :
    verify_sun_cmp starts (a : Int) (-1) < 0 := by
  unfold verify_sun_cmp
  rw [if_neg (by omega), if_pos rfl]
  decide

theorem cmp_index_index (starts : Nat → Nat) (a b : Nat) :
    verify_sun_cmp starts (a : Int) (b : Int) < 0 ↔ starts a ≤ starts b := by
  unfold verify_sun_cmp
  rw [if_neg (by omega), if_neg (by omega), Int.toNat_ofNat, Int.toNat_ofNat]
  by_cases h : starts a > starts b
  · rw [if_pos h]
    constructor
    · intro hc
      exact absurd hc (by decide)
    · intro hc
      omega
  · rw [if_neg h]
    constructor
    · intro _
      omega
    · intro _
      decide

theorem cmp_ofNat_minus_one (starts : Nat → Nat) (a : Nat) :
    verify_sun_cmp starts (Int.ofNat a) (-1) < 0 :=
  cmp_index_minus_one starts a

theorem cmp_ofNat_ofNat (starts : Nat → Nat) (a b : Nat) :
    verify_sun_cmp starts (Int.ofNat a) (Int.ofNat b) < 0 ↔ starts a ≤ starts b :=
  cmp_index_index starts a b

theorem orderedInsert_minus_one (starts : Nat → Nat) (l : List Int) :
    List.orderedInsert (fun a b => verify_sun_cmp starts a b < 0) (-1) l = l ++ [-1] := by
  induction l with
  | nil => rfl
  | cons b l ih =>
    unfold List.orderedInsert
    rw [if_neg (cmp_minus_one starts b), ih]
    rfl

theorem orderedInsert_index (starts : Nat → Nat) (a : Nat) (k : Nat) (idx : List Nat) :
    List.orderedInsert (fun a b => verify_sun_cmp starts a b < 0) (Int.ofNat a)
        (idx.map Int.ofNat ++ List.replicate k (-1))
      = (List.orderedInsert (fun x y => starts x ≤ starts y) a idx).map Int.ofNat
          ++ List.replicate k (-1) := by
  induction idx with
  | nil =>
    cases k with
    | zero => rfl
    | succ k =>
      show List.orderedInsert _ (Int.ofNat a) ((-1) :: List.replicate k (-1)) = _
      unfold List.orderedInsert
      rw [if_pos (cmp_ofNat_minus_one starts a)]
      rfl
  | cons b idx ih =>
    show List.orderedInsert _ (Int.ofNat a)
        (Int.ofNat b :: (idx.map Int.ofNat ++ List.replicate k (-1))) = _
    unfold List.orderedInsert
    by_cases h : starts a ≤ starts b
    · rw [if_pos ((cmp_ofNat_ofNat starts a b).mpr h), if_pos h]
      rfl
    · rw [if_neg (fun hc => h ((cmp_ofNat_ofNat starts a b).mp hc)), if_neg h, ih]
      rfl

theorem sort_shape (starts lens : Nat → Nat) (l : List Nat) :
    (l.map (fun i => if lens i ≠ 0 then Int.ofNat i else -1)).insertionSort
        (fun a b => verify_sun_cmp starts a b < 0)
      = ((l.filter (fun i => decide (lens i ≠ 0))).insertionSort
            (fun x y => starts x ≤ starts y)).map Int.ofNat
          ++ List.replicate (l.filter (fun i => decide (lens i = 0))).length (-1) := by
  induction l with
  | nil => rfl
  | cons a l ih =>
    simp only [List.map_cons, List.insertionSort]
    rw [ih]
    by_cases h : lens a ≠ 0
    · have e1 : (a :: l).filter (fun i => decide (lens i ≠ 0))
          = a :: l.filter (fun i => decide (lens i ≠ 0)) := by
        simp [List.filter_cons, h]
      have e2 : (a :: l).filter (fun i => decide (lens i = 0))
          = l.filter (fun i => decide (lens i = 0)) := by
        simp [List.filter_cons, h]
      rw [if_pos h, e1, e2, orderedInsert_index]
      rfl
    · have h0 : lens a = 0 := by
        by_contra hc
        exact h hc
      have e1 : (a :: l).filter (fun i => decide (lens i ≠ 0))
          = l.filter (fun i => decide (lens i ≠ 0)) := by
        simp [List.filter_cons, h0]
      have e2 : (a :: l).filter (fun i => decide (lens i = 0))
          = a :: l.filter (fun i => decide (lens i = 0)) := by
        simp [List.filter_cons, h0]
      rw [if_neg h, e1, e2, orderedInsert_minus_one, List.length_cons, List.append_assoc]
      congr 1
      exact (List.replicate_succ' _ _).symm

theorem getD_at (pre : List Int) (x : Int) (rest : List Int) :
    (pre ++ x :: rest).getD pre.length 0 = x := by
  rw [List.getD_append_right _ _ _ _ (Nat.le_refl _), Nat.sub_self]
  rfl

theorem getD_next (pre : List Int) (x y : Int) (rest : List Int) :
    (pre ++ x :: y :: rest).getD (pre.length + 1) 0 = y := by
  rw [List.getD_append_right _ _ _ _ (by omega)]
  have h : pre.length + 1 - pre.length = 1 := by omega
  rw [h]
  rfl

theorem gap_loop_chain (starts lens : Nat → Nat) (k : Nat) :
    ∀ (sfx : List Nat) (pre : List Int) (a : Nat) (fuel : Nat) (out : List sun_message),
      (pre ++ Int.ofNat a :: (sfx.map Int.ofNat ++ List.replicate k (-1))).length = 8 →
      7 ≤ fuel + pre.length →
      verify_gap_loop starts lens
          (pre ++ Int.ofNat a :: (sfx.map Int.ofNat ++ List.replicate k (-1)))
          fuel pre.length out
        = (pre.length + sfx.length, out ++ gap_chain starts lens (a :: sfx)) := by
  intro sfx
  induction sfx with
  | nil =>
    intro pre a fuel out hlen _
    simp only [List.map_nil, List.nil_append, List.length_append, List.length_cons,
      List.length_replicate] at hlen
    cases fuel with
    | zero =>
      unfold verify_gap_loop
      simp [gap_chain]
    | succ fuel =>
      unfold verify_gap_loop
      rw [if_neg]
      · simp [gap_chain]
      · rintro ⟨h7, hne⟩
        cases k with
        | zero => omega
        | succ k =>
          apply hne
          simp only [List.map_nil, List.nil_append]
          exact getD_next pre _ _ _
  | cons b sfx ih =>
    intro pre a fuel out hlen hfuel
    have hlen2 := hlen
    simp only [List.map_cons, List.cons_append, List.length_append, List.length_cons,
      List.length_map, List.length_replicate] at hlen2
    cases fuel with
    | zero => omega
    | succ fuel =>
      unfold verify_gap_loop
      have hb : (pre ++ Int.ofNat a :: (List.map Int.ofNat (b :: sfx) ++ List.replicate k (-1))).getD
          (pre.length + 1) 0 = Int.ofNat b := getD_next pre _ _ _
      have ha : (pre ++ Int.ofNat a :: (List.map Int.ofNat (b :: sfx) ++ List.replicate k (-1))).getD
          pre.length 0 = Int.ofNat a := getD_at pre _ _
      have hne : Int.ofNat b ≠ -1 := by
        intro h
        have : (0 : Int) ≤ Int.ofNat b := Int.ofNat_nonneg b
        omega
      rw [if_pos ⟨by omega, by rw [hb]; exact hne⟩, ha, hb]
      have harr : pre ++ Int.ofNat a :: (List.map Int.ofNat (b :: sfx) ++ List.replicate k (-1))
          = (pre ++ [Int.ofNat a]) ++ Int.ofNat b
              :: (sfx.map Int.ofNat ++ List.replicate k (-1)) := by
        simp
      have hpl : pre.length + 1 = (pre ++ [Int.ofNat a]).length := by simp
      rw [harr, hpl, ih (pre ++ [Int.ofNat a]) b fuel _ (by rw [← harr]; exact hlen)
        (by simp; omega)]
      simp only [List.length_append, List.length_singleton, List.length_cons, Int.toNat_ofNat,
        gap_chain, List.append_assoc, List.singleton_append]
      have ta : (Int.ofNat a).toNat = a := rfl
      have tb : (Int.ofNat b).toNat = b := rfl
      rw [ta, tb]
      refine Prod.ext ?_ rfl
      simp only [List.length_nil]
      omega

theorem gaps_from_are_gaps (starts lens : Nat → Nat) (total : Nat) :
    ∀ (idx : List Nat) (p : Nat), ∀ m ∈ gaps_from starts lens total p idx,
      ∃ u v, m = sun_message.unused_gap u v := by
  intro idx
  induction idx with
  | nil =>
    intro p m hm
    unfold gaps_from at hm
    split at hm
    · exact ⟨p, total, List.mem_singleton.mp hm⟩
    · exact absurd hm (List.not_mem_nil m)
  | cons a rest ih =>
    intro p m hm
    unfold gaps_from at hm
    rcases List.mem_append.mp hm with h | h
    · split at h
      · exact ⟨p, starts a, List.mem_singleton.mp h⟩
      · exact absurd h (List.not_mem_nil m)
    · exact ih _ m h

theorem gaps_from_spec (starts lens : Nat → Nat) (total : Nat) :
    ∀ (idx : List Nat) (p : Nat),
      idx.Pairwise (fun a b => starts a + lens a < starts b) →
      (∀ a ∈ idx, p ≤ starts a ∧ lens a ≠ 0 ∧ starts a + lens a ≤ total) →
      p ≤ total →
      (∀ u v, sun_message.unused_gap u v ∈ gaps_from starts lens total p idx →
          p ≤ u ∧ u < v ∧ v ≤ total
          ∧ ∀ c ∈ idx, ∀ x, u ≤ x → x < v → ¬ (starts c ≤ x ∧ x < starts c + lens c))
      ∧ (∀ x, p ≤ x → x < total →
          (∀ c ∈ idx, ¬ (starts c ≤ x ∧ x < starts c + lens c)) →
          ((gaps_from starts lens total p idx).filter (gap_contains x)).length = 1)
      ∧ (∀ x, x < p →
          ((gaps_from starts lens total p idx).filter (gap_contains x)).length = 0) := by
  intro idx
  induction idx with
  | nil =>
    intro p _ _ hp
    refine ⟨?_, ?_, ?_⟩
    · intro u v hm
      unfold gaps_from at hm
      split at hm
      · have := List.mem_singleton.mp hm
        injection this with h1 h2
        subst h1
        subst h2
        exact ⟨Nat.le_refl _, by assumption, Nat.le_refl _,
          fun c hc => absurd hc (List.not_mem_nil c)⟩
      · exact absurd hm (List.not_mem_nil _)
    · intro x hx1 hx2 _
      unfold gaps_from
      rw [if_pos (by omega)]
      simp [gap_contains, hx1, hx2]
    · intro x hx
      unfold gaps_from
      split
      · have : ¬ (p ≤ x ∧ x < total) := by omega
        simp [gap_contains, this]
      · rfl
  | cons a rest ih =>
    intro p hpw hall hp
    obtain ⟨hab, hpw2⟩ := List.pairwise_cons.mp hpw
    obtain ⟨ha1, ha2, ha3⟩ := hall a (List.mem_cons_self _ _)
    have hall2 : ∀ b ∈ rest, starts a + lens a ≤ starts b ∧ lens b ≠ 0
        ∧ starts b + lens b ≤ total := by
      intro b hb
      obtain ⟨_, h2, h3⟩ := hall b (List.mem_cons_of_mem _ hb)
      have := hab b hb
      exact ⟨by omega, h2, h3⟩
    obtain ⟨i1, i2, i3⟩ := ih (starts a + lens a) hpw2 hall2 ha3
    have hla : 0 < lens a := Nat.pos_of_ne_zero ha2
    refine ⟨?_, ?_, ?_⟩
    · intro u v hm
      unfold gaps_from at hm
      rcases List.mem_append.mp hm with h | h
      · split at h
        · rename_i hlt
          have := List.mem_singleton.mp h
          injection this with h1 h2
          subst h1
          subst h2
          refine ⟨Nat.le_refl _, hlt, by omega, ?_⟩
          intro c hc x hx1 hx2
          rcases List.mem_cons.mp hc with h4 | h4
          · rw [h4]
            omega
          · have := hab c h4
            omega
        · exact absurd h (List.not_mem_nil _)
      · obtain ⟨j1, j2, j3, j4⟩ := i1 u v h
        refine ⟨by omega, j2, j3, ?_⟩
        intro c hc x hx1 hx2
        rcases List.mem_cons.mp hc with h4 | h4
        · rw [h4]
          omega
        · exact j4 c h4 x hx1 hx2
    · intro x hx1 hx2 hunc
      have hna := hunc a (List.mem_cons_self _ _)
      unfold gaps_from
      rw [List.filter_append, List.length_append]
      by_cases hxa : x < starts a
      · rw [if_pos (by omega), i3 x (by omega)]
        simp [gap_contains, hx1, hxa]
      · have hxe : starts a + lens a ≤ x := by omega
        rw [i2 x hxe hx2 (fun c hc => hunc c (List.mem_cons_of_mem _ hc))]
        split
        · have : ¬ (p ≤ x ∧ x < starts a) := by omega
          simp [gap_contains, this]
        · rfl
    · intro x hx
      unfold gaps_from
      rw [List.filter_append, List.length_append, i3 x (by omega)]
      split
      · have : ¬ (p ≤ x ∧ x < starts a) := by omega
        simp [gap_contains, this]
      · rfl

theorem getD_last (rest : List Int) :
    ∀ (sfx : List Nat) (a : Nat),
      (Int.ofNat a :: (sfx.map Int.ofNat ++ rest)).getD sfx.length 0
        = Int.ofNat (sfx.getLastD a) := by
  intro sfx
  induction sfx with
  | nil => intro a; rfl
  | cons b sfx ih =>
    intro a
    rw [List.getLastD_cons]
    show (Int.ofNat b :: (sfx.map Int.ofNat ++ rest)).getD sfx.length 0 = _
    exact ih b

theorem chain_eq (starts lens : Nat → Nat) (total : Nat) (htot : total < 2 ^ 32) :
    ∀ (sfx : List Nat) (a : Nat),
      (a :: sfx).Pairwise (fun a b => starts a + lens a < starts b) →
      (∀ c ∈ a :: sfx, starts c + lens c ≤ total) →
      gap_chain starts lens (a :: sfx)
          ++ (if (starts (sfx.getLastD a) + lens (sfx.getLastD a)) % 2 ^ 32 < total
              then [sun_message.unused_gap
                ((starts (sfx.getLastD a) + lens (sfx.getLastD a)) % 2 ^ 32) total]
              else [])
        = gaps_from starts lens total (starts a + lens a) sfx := by
  intro sfx
  induction sfx with
  | nil =>
    intro a _ hall
    have := hall a (List.mem_cons_self _ _)
    show [] ++ (if (starts a + lens a) % 2 ^ 32 < total
        then [sun_message.unused_gap ((starts a + lens a) % 2 ^ 32) total] else [])
      = (if starts a + lens a < total
        then [sun_message.unused_gap (starts a + lens a) total] else [])
    rw [Nat.mod_eq_of_lt (by omega)]
    rfl
  | cons b sfx ih =>
    intro a hpw hall
    obtain ⟨hab, hpw2⟩ := List.pairwise_cons.mp hpw
    have h1 := hab b (List.mem_cons_self _ _)
    have h2 := hall a (List.mem_cons_self _ _)
    have e := ih b hpw2 (fun c hc => hall c (List.mem_cons_of_mem _ hc))
    rw [List.getLastD_cons]
    show (sun_message.unused_gap ((starts a + lens a) % 2 ^ 32) (starts b)
          :: gap_chain starts lens (b :: sfx))
        ++ (if (starts (sfx.getLastD b) + lens (sfx.getLastD b)) % 2 ^ 32 < total
            then [sun_message.unused_gap
              ((starts (sfx.getLastD b) + lens (sfx.getLastD b)) % 2 ^ 32) total]
            else [])
      = (if starts a + lens a < starts b
          then [sun_message.unused_gap (starts a + lens a) (starts b)] else [])
        ++ gaps_from starts lens total (starts b + lens b) sfx
    rw [if_pos h1, Nat.mod_eq_of_lt (by omega), ← e]
    rfl

theorem sorted_slots_mem (st : verify_state) (a : Nat) :
    a ∈ sorted_slots st ↔ a < 8 ∧ st.lens a ≠ 0 := by
  unfold sorted_slots
  rw [(List.perm_insertionSort _ _).mem_iff, List.mem_filter, List.mem_range]
  simp

theorem sorted_slots_pairwise (total : Nat) (st : verify_state) (htot : total < 2 ^ 32)
    (hap : extents_apart total st)
    (hq : ∀ i, i < 8 → ¬ (∃ j, j < i ∧ touching st i j)) :
    (sorted_slots st).Pairwise (fun a b => st.starts a + st.lens a < st.starts b) := by
  haveI : IsTotal Nat (fun x y => st.starts x ≤ st.starts y) :=
    ⟨fun a b => Nat.le_total _ _⟩
  haveI : IsTrans Nat (fun x y => st.starts x ≤ st.starts y) :=
    ⟨fun a b c h1 h2 => Nat.le_trans h1 h2⟩
  have hs : (sorted_slots st).Pairwise (fun x y => st.starts x ≤ st.starts y) :=
    List.sorted_insertionSort _ _
  have hn : (sorted_slots st).Pairwise (fun x y => x ≠ y) := by
    have : (sorted_slots st).Nodup := by
      unfold sorted_slots
      exact (List.perm_insertionSort _ _).nodup_iff.mpr ((List.nodup_range 8).filter _)
    exact this
  refine (hs.and hn).imp_of_mem ?_
  intro a b ha hb hab
  obtain ⟨hle, hne⟩ := hab
  obtain ⟨ha8, hla⟩ := (sorted_slots_mem st a).mp ha
  obtain ⟨hb8, hlb⟩ := (sorted_slots_mem st b).mp hb
  have hla0 : 0 < st.lens a := Nat.pos_of_ne_zero hla
  have hlb0 : 0 < st.lens b := Nat.pos_of_ne_zero hlb
  have hea := hap.1 a ha8 hla
  have hd := hap.2 a b ha8 hb8 hne hla hlb
  have hle2 : st.starts a + st.lens a ≤ st.starts b := by
    rcases hd with h | h
    · exact h
    · omega
  have hnadj : st.starts b ≠ st.starts a + st.lens a := by
    intro he
    have hm : st.starts b = (st.starts a + st.lens a) % 2 ^ 32 := by
      rw [Nat.mod_eq_of_lt (by omega)]
      exact he
    rcases Nat.lt_or_gt_of_ne hne with h | h
    · exact hq b hb8 ⟨a, h, hlb, hla, Or.inr hm⟩
    · exact hq a ha8 ⟨b, h, hla, hlb, Or.inl hm⟩
  omega

theorem sorted_array (st : verify_state) :
    ∃ k, verify_qsort st.starts (verify_array st.lens)
        = (sorted_slots st).map Int.ofNat ++ List.replicate k (-1)
      ∧ ((sorted_slots st).map Int.ofNat ++ List.replicate k (-1)).length = 8 := by
  have h := sort_shape st.starts st.lens (List.range 8)
  have e : verify_qsort st.starts (verify_array st.lens)
      = ((List.range 8).map (fun i => if st.lens i ≠ 0 then Int.ofNat i else -1)).insertionSort
        (fun a b => verify_sun_cmp st.starts a b < 0) := rfl
  refine ⟨_, e.trans h, ?_⟩
  have hl : (((List.range 8).map
      (fun i => if st.lens i ≠ 0 then Int.ofNat i else -1)).insertionSort
        (fun a b => verify_sun_cmp st.starts a b < 0)).length = 8 := by
    rw [List.length_insertionSort, List.length_map, List.length_range]
  rw [h] at hl
  exact hl

theorem verify_gaps_eq (cxt : fdisk_context) (st : verify_state) (a : Nat) (sfx : List Nat)
    (htot : total_sectors cxt.geom < 2 ^ 32)
    (hs : sorted_slots st = a :: sfx)
    (hpw : (a :: sfx).Pairwise (fun a b => st.starts a + st.lens a < st.starts b))
    (hall : ∀ c ∈ a :: sfx, st.starts c + st.lens c ≤ total_sectors cxt.geom) :
    verify_gaps cxt st
      = st.out ++ gaps_from st.starts st.lens (total_sectors cxt.geom) 0 (a :: sfx) := by
  obtain ⟨k, harr, hlen⟩ := sorted_array st
  rw [hs] at harr hlen
  have harr2 : verify_qsort st.starts (verify_array st.lens)
      = Int.ofNat a :: (sfx.map Int.ofNat ++ List.replicate k (-1)) := harr
  have hloop := gap_loop_chain st.starts st.lens k sfx [] a 7
    (if st.starts a ≠ 0 then st.out ++ [sun_message.unused_gap 0 (st.starts a)] else st.out)
    hlen (by simp)
  simp only [List.nil_append, List.length_nil, Nat.zero_add] at hloop
  have hlast := getD_last (List.replicate k (-1)) sfx a
  have hchain := chain_eq st.starts st.lens (total_sectors cxt.geom) htot sfx a hpw hall
  have ta : (Int.ofNat a).toNat = a := rfl
  have tl : (Int.ofNat (sfx.getLastD a)).toNat = sfx.getLastD a := rfl
  have hne : ¬ (Int.ofNat a = -1) := by
    intro h
    have : (0 : Int) ≤ Int.ofNat a := Int.ofNat_nonneg a
    omega
  unfold verify_gaps
  simp only []
  rw [harr2, List.getD_cons_zero, if_neg hne, ta, hloop]
  simp only []
  rw [hlast, tl]
  unfold gaps_from
  rw [← hchain]
  by_cases h0 : st.starts a = 0
  · rw [if_neg (show ¬ st.starts a ≠ 0 from fun h => h h0),
      if_neg (show ¬ 0 < st.starts a by omega)]
    split <;> simp
  · rw [if_pos h0, if_pos (show 0 < st.starts a by omega)]
    split <;> simp

theorem gap_contains_of_not_gap (x : Nat) (m : sun_message) (h : is_gap m = false) :
    gap_contains x m = false := by
  cases m with
  | unused_gap a b => exact absurd h (by simp [is_gap])
  | _ => rfl

theorem apart_of_bounded (total : Nat) (st : verify_state)
    (h : ∀ i, i < 8 → (st.lens i ≠ 0 → st.starts i + st.lens i ≤ total)
      ∧ ∀ j, j < 8 → i ≠ j → st.lens i ≠ 0 → st.lens j ≠ 0 →
          st.starts i + st.lens i ≤ st.starts j ∨ st.starts j + st.lens j ≤ st.starts i) :
    extents_apart total st :=
  ⟨fun i hi => (h i hi).1, fun i j hi hj => (h i hi).2 j hj⟩

theorem verify_gaps_spec (cxt : fdisk_context)
    (htot : cxt.geom.cylinders * cxt.geom.heads * cxt.geom.sectors < 2 ^ 32)
    (hap : extents_apart (cxt.geom.cylinders * cxt.geom.heads * cxt.geom.sectors)
      ⟨(fetch_sun cxt).starts, (fetch_sun cxt).lens, []⟩)
    (hne : ∃ i, i < 8 ∧ (fetch_sun cxt).lens i ≠ 0) :
    cylinder_size cxt.geom ≠ 0
    ∧ ∃ (pre : List sun_message) (idx : List Nat),
      verify_gaps cxt (verify_merge cxt)
        = pre ++ gaps_from (verify_merge cxt).starts (verify_merge cxt).lens
            (cxt.geom.cylinders * cxt.geom.heads * cxt.geom.sectors) 0 idx
      ∧ (∀ m ∈ pre, is_overlap m = false ∧ is_gap m = false)
      ∧ idx.Pairwise (fun a b => (verify_merge cxt).starts a + (verify_merge cxt).lens a
          < (verify_merge cxt).starts b)
      ∧ (∀ c ∈ idx, 0 ≤ (verify_merge cxt).starts c ∧ (verify_merge cxt).lens c ≠ 0
          ∧ (verify_merge cxt).starts c + (verify_merge cxt).lens c
              ≤ cxt.geom.cylinders * cxt.geom.heads * cxt.geom.sectors)
      ∧ (∀ x, (∃ c ∈ idx, (verify_merge cxt).starts c ≤ x
            ∧ x < (verify_merge cxt).starts c + (verify_merge cxt).lens c)
          ↔ ∃ i, i < 8 ∧ in_extent ⟨(fetch_sun cxt).starts, (fetch_sun cxt).lens, []⟩ i x) := by
  have htS := total_sectors_eq cxt.geom htot
  have J := verify_merge_inv _ cxt htot hap
  obtain ⟨_, hap2, hcov, hout⟩ := J
  have hq := merge_quiet cxt
  have hpw := sorted_slots_pairwise _ (verify_merge cxt) htot hap2 hq
  have hmem := sorted_slots_mem (verify_merge cxt)
  have hall : ∀ c ∈ sorted_slots (verify_merge cxt),
      0 ≤ (verify_merge cxt).starts c ∧ (verify_merge cxt).lens c ≠ 0
      ∧ (verify_merge cxt).starts c + (verify_merge cxt).lens c
          ≤ cxt.geom.cylinders * cxt.geom.heads * cxt.geom.sectors := by
    intro c hc
    obtain ⟨h8, hl⟩ := (hmem c).mp hc
    exact ⟨Nat.zero_le _, hl, hap2.1 c h8 hl⟩
  have hcover : ∀ x, (∃ c ∈ sorted_slots (verify_merge cxt), (verify_merge cxt).starts c ≤ x
        ∧ x < (verify_merge cxt).starts c + (verify_merge cxt).lens c)
      ↔ ∃ i, i < 8 ∧ in_extent ⟨(fetch_sun cxt).starts, (fetch_sun cxt).lens, []⟩ i x := by
    intro x
    refine Iff.trans ?_ (hcov x)
    constructor
    · rintro ⟨c, hc, h1, h2⟩
      obtain ⟨h8, hl⟩ := (hmem c).mp hc
      exact ⟨c, h8, hl, h1, h2⟩
    · rintro ⟨c, h8, hl, h1, h2⟩
      exact ⟨c, (hmem c).mpr ⟨h8, hl⟩, h1, h2⟩
  obtain ⟨i, hi, hli⟩ := hne
  have hex : ∃ c ∈ sorted_slots (verify_merge cxt), (verify_merge cxt).starts c
        ≤ (fetch_sun cxt).starts i
      ∧ (fetch_sun cxt).starts i
          < (verify_merge cxt).starts c + (verify_merge cxt).lens c :=
    (hcover _).mpr ⟨i, hi, hli, Nat.le_refl _, by
      have : 0 < (fetch_sun cxt).lens i := Nat.pos_of_ne_zero hli
      show (fetch_sun cxt).starts i < (fetch_sun cxt).starts i + (fetch_sun cxt).lens i
      omega⟩
  obtain ⟨c, hc, hc1, hc2⟩ := hex
  have hcall := hall c hc
  have hpos : total_sectors cxt.geom ≠ 0 := by
    rw [htS]
    omega
  refine ⟨cylinder_size_ne_zero cxt.geom hpos, (verify_merge cxt).out,
    sorted_slots (verify_merge cxt), ?_, hout, hpw, hall, hcover⟩
  cases hs : sorted_slots (verify_merge cxt) with
  | nil =>
    rw [hs] at hc
    exact absurd hc (List.not_mem_nil c)
  | cons a sfx =>
    rw [hs] at hpw hall
    have h := verify_gaps_eq cxt (verify_merge cxt) a sfx (by rw [htS]; exact htot) hs hpw
      (fun c hc => by rw [htS]; exact (hall c hc).2.2)
    rw [htS] at h
    exact h

/-! ## C29 -/

/-- Counterexample to C29 as stated: `context_zero` has 100 sectors and no
occupied extent, so the extents are pairwise non-overlapping and within the
disk; `sun_verify_disklabel` prints the single line "No partitions defined"
(lines 348-351) and returns, so sector 0, which no extent covers, lies in no
reported gap. -/
theorem verify_empty_label_reports_no_gap :
    context_zero.geom.cylinders * context_zero.geom.heads * context_zero.geom.sectors = 100
    ∧ extents_apart 100
        ⟨(fetch_sun context_zero).starts, (fetch_sun context_zero).lens, []⟩
    ∧ sun_verify_disklabel context_zero = some (0, [sun_message.no_partitions_defined])
    ∧ (∀ i, i < 8 → ¬ in_extent
        ⟨(fetch_sun context_zero).starts, (fetch_sun context_zero).lens, []⟩ i 0)
    ∧ ([sun_message.no_partitions_defined].filter (gap_contains 0)).length = 0 := by
  have hz : ∀ i, i < 8 → (fetch_sun context_zero).lens i = 0 := by decide
  refine ⟨by decide, ⟨?_, ?_⟩, by decide, ?_, by decide⟩
  · intro i hi hl
    exact absurd (hz i hi) hl
  · intro i j hi _ _ hl
    exact absurd (hz i hi) hl
  · intro i hi h
    exact h.1 (hz i hi)

/-- C29 (amended): if the extents `fetch_sun` records (the occupied slots
whose tag is neither unassigned nor whole disk) are pairwise non-overlapping
and lie within [0, total) with total = cylinders * heads * sectors < 2^32, and
at least one such extent exists, then `sun_verify_disklabel` returns 0,
reports no overlap, every gap [a, b) it reports satisfies a < b ≤ total and
contains no sector of any recorded extent, and every sector of [0, total) that
no recorded extent covers lies in exactly one reported gap. -/
theorem verify_reports_gaps (cxt : fdisk_context)
    (htot : cxt.geom.cylinders * cxt.geom.heads * cxt.geom.sectors < 2 ^ 32)
    (hap : extents_apart (cxt.geom.cylinders * cxt.geom.heads * cxt.geom.sectors)
      ⟨(fetch_sun cxt).starts, (fetch_sun cxt).lens, []⟩)
    (hne : ∃ i, i < 8 ∧ (fetch_sun cxt).lens i ≠ 0) :
    ∃ out, sun_verify_disklabel cxt = some (0, out)
      ∧ (∀ m ∈ out, is_overlap m = false)
      ∧ (∀ a b, sun_message.unused_gap a b ∈ out →
          a < b ∧ b ≤ cxt.geom.cylinders * cxt.geom.heads * cxt.geom.sectors
          ∧ ∀ i, i < 8 → ∀ x, a ≤ x → x < b →
              ¬ in_extent ⟨(fetch_sun cxt).starts, (fetch_sun cxt).lens, []⟩ i x)
      ∧ (∀ x, x < cxt.geom.cylinders * cxt.geom.heads * cxt.geom.sectors →
          (∀ i, i < 8 →
            ¬ in_extent ⟨(fetch_sun cxt).starts, (fetch_sun cxt).lens, []⟩ i x) →
          (out.filter (gap_contains x)).length = 1) := by
  obtain ⟨hcs, pre, idx, hg, hpre, hpw, hall, hcover⟩ := verify_gaps_spec cxt htot hap hne
  obtain ⟨s1, s2, _⟩ := gaps_from_spec (verify_merge cxt).starts (verify_merge cxt).lens
    (cxt.geom.cylinders * cxt.geom.heads * cxt.geom.sectors) idx 0 hpw hall (Nat.zero_le _)
  refine ⟨verify_gaps cxt (verify_merge cxt), ?_, ?_, ?_, ?_⟩
  · unfold sun_verify_disklabel
    rw [if_neg hcs]
  · intro m hm
    rw [hg] at hm
    rcases List.mem_append.mp hm with h | h
    · exact (hpre m h).1
    · obtain ⟨u, v, e⟩ := gaps_from_are_gaps _ _ _ idx 0 m h
      rw [e]
      rfl
  · intro a b hm
    rw [hg] at hm
    rcases List.mem_append.mp hm with h | h
    · exact absurd (hpre _ h).2 (by simp [is_gap])
    · obtain ⟨_, h2, h3, h4⟩ := s1 a b h
      refine ⟨h2, h3, ?_⟩
      intro i hi x hx1 hx2 hin
      obtain ⟨c, hc, hc1, hc2⟩ := (hcover x).mpr ⟨i, hi, hin⟩
      exact h4 c hc x hx1 hx2 ⟨hc1, hc2⟩
  · intro x hx hun
    rw [hg, List.filter_append, List.length_append]
    have h0 : pre.filter (gap_contains x) = [] := by
      rw [List.filter_eq_nil_iff]
      intro m hm
      rw [gap_contains_of_not_gap x m (hpre m hm).2]
      decide
    rw [h0, List.length_nil, Nat.zero_add]
    apply s2 x (Nat.zero_le _) hx
    intro c hc hin
    obtain ⟨i, hi, h⟩ := (hcover x).mp ⟨c, hc, hin.1, hin.2⟩
    exact hun i hi h

/-- Witness of C29 (amended): `context_misaligned` has 1000 sectors and the
single extent [100, 250) in slot 0; the verification reports no overlap,
sector 50 lies in exactly one reported gap and so does sector 600. -/
theorem verify_reports_gaps_witness :
    ∃ out, sun_verify_disklabel context_misaligned = some (0, out)
      ∧ (∀ m ∈ out, is_overlap m = false)
      ∧ (out.filter (gap_contains 50)).length = 1
      ∧ (out.filter (gap_contains 600)).length = 1 := by
  have hz : ∀ i, i < 8 → (fetch_sun context_misaligned).lens i
      = if i = 0 then 150 else 0 := by decide
  have hs : (fetch_sun context_misaligned).starts 0 = 100 := by decide
  have hun : ∀ x, (x < 100 ∨ 250 ≤ x) → ∀ i, i < 8 → ¬ in_extent
      ⟨(fetch_sun context_misaligned).starts, (fetch_sun context_misaligned).lens, []⟩
      i x := by
    intro x hx i hi h
    obtain ⟨h1, h2, h3⟩ := h
    have hl := hz i hi
    by_cases h0 : i = 0
    · subst h0
      rw [if_pos rfl] at hl
      have e1 : (fetch_sun context_misaligned).starts 0 ≤ x := h2
      have e2 : x < (fetch_sun context_misaligned).starts 0
          + (fetch_sun context_misaligned).lens 0 := h3
      rw [hs] at e1
      rw [hs, hl] at e2
      omega
    · rw [if_neg h0] at hl
      exact h1 hl
  obtain ⟨out, h1, h2, _, h4⟩ := verify_reports_gaps context_misaligned (by decide)
    (apart_of_bounded _ _ (by
      intro i hi
      have hl := hz i hi
      refine ⟨?_, ?_⟩
      · intro hne
        by_cases h0 : i = 0
        · subst h0
          show (fetch_sun context_misaligned).starts 0
            + (fetch_sun context_misaligned).lens 0 ≤ _
          rw [hs, hl]
          decide
        · rw [if_neg h0] at hl
          exact absurd hl hne
      · intro j hj hij hli hlj
        have hl2 := hz j hj
        by_cases h0 : i = 0
        · have hj0 : j ≠ 0 := by omega
          rw [if_neg hj0] at hl2
          exact absurd hl2 hlj
        · rw [if_neg h0] at hl
          exact absurd hl hli))
    ⟨0, by decide, by decide⟩
  exact ⟨out, h1, h2, h4 50 (by decide) (hun 50 (by omega)),
    h4 600 (by decide) (hun 600 (by omega))⟩

end SunLabel
